import Mathlib

/-!
Verification of the schema documentation engine of `schema_doc_bot`.

The development shallowly embeds the Python sources:
  * `avro_analyzer.py`     (record-tree analyzer),
  * `json_schema_analyzer.py` (object-tree analyzer),
  * `protobuf_analyzer.py` (text-message analyzer),
  * `schema_updater.py`    (record-tree patcher),
  * `json_schema_updater.py` (object-tree patcher).

Python JSON-like documents (nested dicts / lists / strings / numbers /
booleans / None) are embedded as the inductive type `PyVal`.  Dicts are
insertion-ordered association lists, mirroring Python dict semantics
(`.get`, `in`, item assignment, `.items()` iteration order).  `copy.deepcopy`
returns an equal value in this value-level view; object identity and the
aliasing discipline of the deep copy are modelled separately by the
address-carrying type `PyValA` below.

Translation conventions, stated once here:
  * `d.get(k)` (default `None`) is `PyVal.pyGet`; `d.get(k, x)` with another
    default is `PyVal.getD`; Python truthiness (`if d.get("doc"):`) is
    `PyVal.truthy`.
  * the sources iterate `record.get("fields", [])` and
    `obj.get("properties", {}).items()` directly; a present value of the
    wrong shape (a non-list `fields`, a non-dict `properties`) would raise
    in Python and is modelled, following the spec's structural-tolerance
    policy, as the empty iteration (`getList` / `getEntries`).
  * values used as names in f-strings are read with `getStrD`; a present
    non-string value (which Python would stringify) is modelled by the
    default placeholder.
-/

inductive PyVal where
  | str (s : String)
  | int (n : Int)
  | bool (b : Bool)
  | none
  | arr (items : List PyVal)
  | obj (entries : List (String × PyVal))

/-- Dictionary lookup, first matching key (Python dicts have unique keys). -/
def PyVal.get? : PyVal → String → Option PyVal
  | .obj kvs, k => kvs.lookup k
  | _, _ => Option.none

/-- Python `d.get(k, dflt)`. -/
def PyVal.getD (j : PyVal) (k : String) (dflt : PyVal) : PyVal :=
  (j.get? k).getD dflt

/-- Python `d.get(k)` (default `None`). -/
def PyVal.pyGet (j : PyVal) (k : String) : PyVal :=
  j.getD k PyVal.none

/-- Python truthiness of a value. -/
def PyVal.truthy : PyVal → Bool
  | .str s => !s.isEmpty
  | .int n => n != 0
  | .bool b => b
  | .none => false
  | .arr xs => !xs.isEmpty
  | .obj kvs => !kvs.isEmpty

/-- Python `v == "s"` for a dynamically typed value against a string literal. -/
def PyVal.isStr : PyVal → String → Bool
  | .str s', s => s' == s
  | _, _ => false

/-- Python `d.get(k, "dflt")` read as a string for use in an f-string;
a present non-string value is modelled by the default placeholder. -/
def PyVal.getStrD (j : PyVal) (k : String) (dflt : String) : String :=
  match j.get? k with
  | some (.str s) => s
  | _ => dflt

/-- Iterating `d.get(k, [])`: the list when the key holds one, else empty. -/
def PyVal.getList (j : PyVal) (k : String) : List PyVal :=
  match j.get? k with
  | some (.arr xs) => xs
  | _ => []

/-- Iterating `d.get(k, {}).items()`: the entries when the key holds a dict. -/
def PyVal.getEntries (j : PyVal) (k : String) : List (String × PyVal) :=
  match j.get? k with
  | some (.obj kvs) => kvs
  | _ => []

/-- Python dict item assignment `d[k] = v`: replace in place if the key
exists (position kept), else append at the end. -/
def setEntries : List (String × PyVal) → String → PyVal → List (String × PyVal)
  | [], k, v => [(k, v)]
  | (k', v') :: rest, k, v =>
    if k' = k then (k', v) :: rest else (k', v') :: setEntries rest k v

/-- `d[k] = v` on a value; a no-op on non-dicts (the sources only assign
into dicts). -/
def PyVal.set : PyVal → String → PyVal → PyVal
  | .obj kvs, k, v => .obj (setEntries kvs k v)
  | j, _, _ => j

/-- An `Option` together with its defining equation, used so that the
recursive definitions below both compute by evaluation and expose, at each
recursive call sitting under a `.get` match, the equation needed by the
termination measure. -/
def optAttach : (o : Option α) → Option {x // o = some x}
  | some x => some ⟨x, rfl⟩
  | Option.none => Option.none

/-- A value together with its defining equation, in the same role. -/
def eqAttach (a : α) : {x // x = a} := ⟨a, rfl⟩

/-- `copy.deepcopy` seen at value level: it returns an equal value.
Freshness of the copy's mutable nodes is modelled by `deepcopyA` on the
address-carrying embedding `PyValA`. -/
def deepcopy (v : PyVal) : PyVal := v

mutual

/-- Structural weight of a value, the termination measure of the recursive
analyzers and patchers.  Leaves weigh 0 and each container child adds 1
plus its own weight, so writing a doc string into a dict raises the weight
by at most 1, which the recursion measures absorb. -/
def PyVal.weight : PyVal → Nat
  | .obj kvs => 1 + PyVal.weightEntries kvs
  | .arr xs => 1 + PyVal.weightList xs
  | _ => 0

def PyVal.weightList : List PyVal → Nat
  | [] => 0
  | x :: xs => 1 + PyVal.weight x + PyVal.weightList xs

def PyVal.weightEntries : List (String × PyVal) → Nat
  | [] => 0
  | (_, v) :: rest => 1 + PyVal.weight v + PyVal.weightEntries rest

end

@[simp] theorem PyVal.weightList_nil : PyVal.weightList [] = 0 := rfl

@[simp] theorem PyVal.weightList_cons (x : PyVal) (xs : List PyVal) :
    PyVal.weightList (x :: xs) = 1 + PyVal.weight x + PyVal.weightList xs := rfl

@[simp] theorem PyVal.weightEntries_nil : PyVal.weightEntries [] = 0 := rfl

@[simp] theorem PyVal.weightEntries_cons (k : String) (v : PyVal)
    (rest : List (String × PyVal)) :
    PyVal.weightEntries ((k, v) :: rest) = 1 + PyVal.weight v + PyVal.weightEntries rest := rfl

theorem PyVal.weight_lookup {kvs : List (String × PyVal)} {k : String} {v : PyVal}
    (h : kvs.lookup k = some v) : 1 + PyVal.weight v ≤ PyVal.weightEntries kvs := by
  induction kvs with
  | nil => simp [List.lookup] at h
  | cons hd tl ih =>
    obtain ⟨k', v'⟩ := hd
    simp only [List.lookup] at h
    by_cases hk : k == k'
    · simp [hk] at h
      subst h
      simp
    · simp [hk] at h
      have := ih h
      simp
      omega

theorem PyVal.weight_get? {j : PyVal} {k : String} {v : PyVal}
    (h : j.get? k = some v) : 2 + PyVal.weight v ≤ PyVal.weight j := by
  cases j <;> simp [PyVal.get?] at h
  case obj kvs =>
    have := PyVal.weight_lookup h
    simp [PyVal.weight]
    omega

theorem PyVal.weight_pyGet (j : PyVal) (k : String) :
    PyVal.weight (j.pyGet k) ≤ PyVal.weight j := by
  unfold PyVal.pyGet PyVal.getD
  cases h : j.get? k with
  | none => simp [PyVal.weight]
  | some v =>
    have := PyVal.weight_get? h
    simp
    omega

theorem PyVal.weight_getList (j : PyVal) (k : String) :
    PyVal.weightList (j.getList k) ≤ PyVal.weight j := by
  unfold PyVal.getList
  cases h : j.get? k with
  | none => simp
  | some v =>
    have h1 := PyVal.weight_get? h
    cases v <;> simp
    case arr xs =>
      simp [PyVal.weight] at h1
      omega

theorem PyVal.weight_getEntries (j : PyVal) (k : String) :
    PyVal.weightEntries (j.getEntries k) ≤ PyVal.weight j := by
  unfold PyVal.getEntries
  cases h : j.get? k with
  | none => simp
  | some v =>
    have h1 := PyVal.weight_get? h
    cases v <;> simp
    case obj kvs =>
      simp [PyVal.weight] at h1
      omega

theorem PyVal.weight_setEntries_str (kvs : List (String × PyVal)) (k : String)
    (s : String) :
    PyVal.weightEntries (setEntries kvs k (.str s)) ≤ PyVal.weightEntries kvs + 1 := by
  induction kvs with
  | nil => simp [setEntries, PyVal.weight]
  | cons hd tl ih =>
    obtain ⟨k', v'⟩ := hd
    simp only [setEntries]
    by_cases hk : k' = k
    · simp [hk, PyVal.weight]
      omega
    · simp [hk]
      omega

theorem PyVal.weight_set_str (j : PyVal) (k : String) (s : String) :
    PyVal.weight (j.set k (.str s)) ≤ PyVal.weight j + 1 := by
  cases j <;> simp [PyVal.set, PyVal.weight]
  case obj kvs =>
    have := PyVal.weight_setEntries_str kvs k s
    omega

/-! ### Data model (`avro_analyzer.py`, `llm_client.py`, spec §3) -/

/-- `avro_analyzer.MissingDoc`: one undocumented schema element.  The
`avro_type` attribute is the simplified human-readable type string the
analyzers construct. -/
structure MissingDoc where
  path : String
  element_type : String
  name : String
  avro_type : String
  parent_doc : PyVal
  context : List (String × PyVal)

/-- `avro_analyzer.AnalysisResult`. -/
structure AnalysisResult where
  subject : String
  schema : PyVal
  missing_docs : List MissingDoc
  total_elements : Nat
  documented_elements : Nat

/-- `AnalysisResult.coverage_percent`.  The source computes a Python float;
the values involved here are embedded exactly as rationals. -/
def AnalysisResult.coverage_percent (r : AnalysisResult) : ℚ :=
  if r.total_elements = 0 then 100
  else (r.documented_elements : ℚ) / (r.total_elements : ℚ) * 100

/-- `llm_client.GeneratedDoc`: externally generated documentation for one
path.  `confidence` is annotated `Literal["high","medium","low"]` in the
source but is an arbitrary runtime string, which the updaters treat
defensively. -/
structure GeneratedDoc where
  path : String
  element_type : String
  documentation : String
  confidence : String

/-- Modelled from the spec: `github_client.SchemaUpdate` (the module
`github_client.py` is not part of the sources at hand; spec §3 "Schema
Update" describes the record: target location, unmodified original schema,
new schema with documentation merged in, ordered change descriptions). -/
structure SchemaUpdate where
  file_path : String
  original_schema : PyVal
  updated_schema : PyVal
  changes_summary : List String

/-! ### Record-tree analyzer (`avro_analyzer.AvroAnalyzer`) -/

mutual

/-- `AvroAnalyzer._simplify_type`.  In the array/map branches the source
reads `avro_type.get("items", "unknown")` and recurses; an absent key gives
the default string `"unknown"`, whose recursive simplification is the
string itself, inlined here in the `none` branches. -/
def simplify_type : PyVal → String
  | .str s => s
  | .arr xs => "union<" ++ String.intercalate ", " (simplify_type_list xs) ++ ">"
  | .obj kvs =>
    let tn := (PyVal.obj kvs).getStrD "type" "unknown"
    if tn = "array" then
      match optAttach ((PyVal.obj kvs).get? "items") with
      | some ⟨it, hi⟩ => "array<" ++ simplify_type it ++ ">"
      | Option.none => "array<unknown>"
    else if tn = "map" then
      match optAttach ((PyVal.obj kvs).get? "values") with
      | some ⟨vv, hv⟩ => "map<" ++ simplify_type vv ++ ">"
      | Option.none => "map<unknown>"
    else if tn = "enum" then "enum(" ++ (PyVal.obj kvs).getStrD "name" "unknown" ++ ")"
    else if tn = "record" then "record(" ++ (PyVal.obj kvs).getStrD "name" "unknown" ++ ")"
    else tn
  | .int n => toString n
  | .bool b => if b then "True" else "False"
  | .none => "None"
termination_by v => 2 * PyVal.weight v
decreasing_by
  · simp [PyVal.weight]
    omega
  · have := PyVal.weight_get? hi
    omega
  · have := PyVal.weight_get? hv
    omega

def simplify_type_list : List PyVal → List String
  | [] => []
  | x :: xs => simplify_type x :: simplify_type_list xs
termination_by xs => 2 * PyVal.weightList xs + 1
decreasing_by
  · simp
    try omega
  · simp
    try omega

end

namespace AvroAnalyzer

mutual

/-- `AvroAnalyzer._analyze_record`: returns, functionally, the missing-doc
descriptors the call appends together with the `(total, documented)` pair
it returns. -/
def analyze_record (record : PyVal) (pathPre : String) :
    List MissingDoc × Nat × Nat :=
  let recordName := record.getStrD "name" "unknown"
  let recordPath := if pathPre = "" then recordName else pathPre ++ "." ++ recordName
  let recordDoc := record.pyGet "doc"
  let self : List MissingDoc × Nat :=
    if recordDoc.truthy then ([], 1)
    else ([⟨recordPath, "record", recordName, "record", PyVal.none,
            [("namespace", record.pyGet "namespace"),
             ("fields", PyVal.arr ((record.getList "fields").map (fun f => f.pyGet "name")))]⟩],
          0)
  let rest := analyze_fields (record.getList "fields") recordPath recordDoc recordName
  (self.1 ++ rest.1, 1 + rest.2.1, self.2 + rest.2.2)
termination_by 8 * PyVal.weight record + 2
decreasing_by
  · have := PyVal.weight_getList record "fields"
    omega

/-- The `for fld in record.get("fields", [])` loop of
`AvroAnalyzer._analyze_record`, as a recursion over the field list. -/
def analyze_fields (flds : List PyVal) (recordPath : String) (recordDoc : PyVal)
    (recordName : String) : List MissingDoc × Nat × Nat :=
  match flds with
  | [] => ([], 0, 0)
  | fld :: rest =>
    let fieldName := fld.getStrD "name" "unknown"
    let fieldPath := recordPath ++ "." ++ fieldName
    let fieldDoc := fld.pyGet "doc"
    let fieldType := fld.pyGet "type"
    let self : List MissingDoc × Nat :=
      if fieldDoc.truthy then ([], 1)
      else ([⟨fieldPath, "field", fieldName, simplify_type fieldType, recordDoc,
              [("record_name", PyVal.str recordName),
               ("default", fld.pyGet "default"),
               ("full_type", fieldType)]⟩], 0)
    let nested := analyze_nested_types fieldType fieldPath
    let tail := analyze_fields rest recordPath recordDoc recordName
    (self.1 ++ nested.1 ++ tail.1, 1 + nested.2.1 + tail.2.1,
     self.2 + nested.2.2 + tail.2.2)
termination_by 8 * PyVal.weightList flds + 1
decreasing_by
  · have h1 := PyVal.weight_pyGet x "type"
    simp
    omega
  · simp
    try omega

/-- `AvroAnalyzer._analyze_nested_types`.  In the array/map branches the
source recurses on `avro_type.get("items")` / `.get("values")`; an absent
key gives `None`, on which the recursion immediately yields `(0, 0)` and
no descriptors, inlined here in the `none` branches. -/
def analyze_nested_types (avroType : PyVal) (pathPre : String) :
    List MissingDoc × Nat × Nat :=
  match avroType with
  | .obj kvs =>
    let tn := (PyVal.obj kvs).pyGet "type"
    if tn.isStr "record" then analyze_record (.obj kvs) pathPre
    else if tn.isStr "array" then
      match optAttach ((PyVal.obj kvs).get? "items") with
      | some ⟨it, hi⟩ => analyze_nested_types it pathPre
      | Option.none => ([], 0, 0)
    else if tn.isStr "map" then
      match optAttach ((PyVal.obj kvs).get? "values") with
      | some ⟨vv, hv⟩ => analyze_nested_types vv pathPre
      | Option.none => ([], 0, 0)
    else if tn.isStr "enum" then
      if ((PyVal.obj kvs).pyGet "doc").truthy then ([], 1, 1)
      else
        let enumName := (PyVal.obj kvs).getStrD "name" "unknown"
        ([⟨pathPre ++ "." ++ enumName, "enum", enumName, "enum", PyVal.none,
           [("symbols", (PyVal.obj kvs).getD "symbols" (PyVal.arr []))]⟩], 1, 0)
    else ([], 0, 0)
  | .arr xs => analyze_union_variants xs pathPre
  | _ => ([], 0, 0)
termination_by 8 * PyVal.weight avroType + 3
decreasing_by
  · omega
  · have := PyVal.weight_get? hi
    omega
  · have := PyVal.weight_get? hv
    omega
  · simp [PyVal.weight]
    omega

/-- The union loop of `AvroAnalyzer._analyze_nested_types` (`for variant
in avro_type:`), as a recursion over the variant list. -/
def analyze_union_variants (variants : List PyVal) (pathPre : String) :
    List MissingDoc × Nat × Nat :=
  match variants with
  | [] => ([], 0, 0)
  | v :: vs =>
    let hd := analyze_nested_types v pathPre
    let tl := analyze_union_variants vs pathPre
    (hd.1 ++ tl.1, hd.2.1 + tl.2.1, hd.2.2 + tl.2.2)
termination_by 8 * PyVal.weightList variants + 1
decreasing_by
  · simp
    try omega
  · simp
    try omega

end

/-- `AvroAnalyzer.analyze_schema`. -/
def analyze_schema (subject : String) (schema : PyVal) : AnalysisResult :=
  let st := schema.pyGet "type"
  let body : List MissingDoc × Nat × Nat :=
    if st.isStr "record" then analyze_record schema ""
    else if st.isStr "enum" then
      if (schema.pyGet "doc").truthy then ([], 1, 1)
      else
        ([⟨schema.getStrD "name" "unknown", "enum", schema.getStrD "name" "unknown",
           "enum", PyVal.none, [("symbols", schema.getD "symbols" (PyVal.arr []))]⟩], 1, 0)
    else ([], 0, 0)
  ⟨subject, schema, body.1, body.2.1, body.2.2⟩

end AvroAnalyzer

/-! ### Record-tree patcher (`schema_updater.SchemaUpdater`) -/

/-- The doc map `{doc.path: doc for doc in docs_to_apply}` combined with
lookup: Python dict comprehension keeps the last entry per path. -/
def docMapGet (docs : List GeneratedDoc) (p : String) : Option GeneratedDoc :=
  docs.foldl (fun acc d => if d.path = p then some d else acc) Option.none

/-- `confidence_levels.get(s, dflt)` for `{"high": 3, "medium": 2, "low": 1}`
(both updaters use default 0 for an entry's tier and default 1 for the
minimum confidence). -/
def confidence_level (s : String) (dflt : Nat) : Nat :=
  if s = "high" then 3 else if s = "medium" then 2 else if s = "low" then 1 else dflt

/-- The confidence filter `[doc for doc in generated_docs if
confidence_levels.get(doc.confidence, 0) >= min_level]`, identical in
`SchemaUpdater.apply_documentation` and `JsonSchemaUpdater.apply_documentation`. -/
def filter_by_confidence (docs : List GeneratedDoc) (minConfidence : String) :
    List GeneratedDoc :=
  docs.filter (fun d => confidence_level minConfidence 1 ≤ confidence_level d.confidence 0)

/-- One documentation write: `node[key] = doc_text` followed by appending
`line` to the change summary.  On a non-dict node the assignment would
raise in Python (`TypeError`); following the structural-tolerance
convention the model leaves such a node unchanged and logs nothing. -/
def patchNode (node : PyVal) (key : String) (docText : String) (line : String) :
    PyVal × List String :=
  match node with
  | .obj kvs => ((PyVal.obj kvs).set key (.str docText), [line])
  | other => (other, [])

theorem weight_patchNode (node : PyVal) (key docText line : String) :
    PyVal.weight (patchNode node key docText line).1 ≤ PyVal.weight node + 1 := by
  cases node <;> simp [patchNode]
  case obj kvs =>
    have := PyVal.weight_set_str (PyVal.obj kvs) key docText
    omega

namespace SchemaUpdater

mutual

/-- `SchemaUpdater._apply_to_record`, functionally: the mutated record and
the change-summary lines the call appends.  The in-place mutation of the
`fields` list elements is rendered by rebuilding the `fields` entry (same
key, same position) from the mutated fields; setting `record["doc"]` does
not change the `fields` value, so the field list is read off the incoming
record. -/
def apply_to_record (record : PyVal) (pathPre : String)
    (docMap : List GeneratedDoc) : PyVal × List String :=
  let recordName := record.getStrD "name" "unknown"
  let recordPath := pathPre
  let step1 : PyVal × List String :=
    if !(record.pyGet "doc").truthy then
      match docMapGet docMap recordPath with
      | some gd =>
        patchNode record "doc" gd.documentation
          ("Added doc to record `" ++ recordName ++ "` [" ++ gd.confidence ++ "]")
      | Option.none => (record, [])
    else (record, [])
  match optAttach (record.get? "fields") with
  | some ⟨.arr flds, hf⟩ =>
    let res := apply_fields flds recordPath recordName docMap
    (step1.1.set "fields" (.arr res.1), step1.2 ++ res.2)
  | _ => (step1.1, step1.2)
termination_by 8 * PyVal.weight record + 2
decreasing_by
  · have h1 := PyVal.weight_get? hf
    simp [PyVal.weight] at h1
    omega

/-- The `for field in record.get("fields", [])` loop of
`SchemaUpdater._apply_to_record`. -/
def apply_fields (flds : List PyVal) (recordPath : String) (recordName : String)
    (docMap : List GeneratedDoc) : List PyVal × List String :=
  match flds with
  | [] => ([], [])
  | fld :: rest =>
    let fieldName := fld.getStrD "name" "unknown"
    let fieldPath := recordPath ++ "." ++ fieldName
    let step1 : PyVal × List String :=
      if !(fld.pyGet "doc").truthy then
        match docMapGet docMap fieldPath with
        | some gd =>
          patchNode fld "doc" gd.documentation
            ("Added doc to field `" ++ recordName ++ "." ++ fieldName ++ "` [" ++
              gd.confidence ++ "]")
        | Option.none => (fld, [])
      else (fld, [])
    let step2 : PyVal × List String :=
      match optAttach (fld.get? "type") with
      | some ⟨ty, ht⟩ =>
        let res := apply_to_nested ty fieldPath docMap
        (step1.1.set "type" res.1, res.2)
      | Option.none => (step1.1, [])
    let tail := apply_fields rest recordPath recordName docMap
    (step2.1 :: tail.1, step1.2 ++ step2.2 ++ tail.2)
termination_by 8 * PyVal.weightList flds + 1
decreasing_by
  · have h1 := PyVal.weight_get? ht
    simp
    omega
  · simp
    try omega

/-- `SchemaUpdater._apply_to_nested`.  The source mutates
`avro_type.get("items")` / `.get("values")` in place; an absent key passes
`None` to the recursion, which neither mutates nor logs, rendered by the
`none` branches. -/
def apply_to_nested (avroType : PyVal) (pathPre : String)
    (docMap : List GeneratedDoc) : PyVal × List String :=
  match avroType with
  | .obj kvs =>
    let tn := (PyVal.obj kvs).pyGet "type"
    if tn.isStr "record" then
      let nestedName := (PyVal.obj kvs).getStrD "name" "unknown"
      apply_to_record (.obj kvs) (pathPre ++ "." ++ nestedName) docMap
    else if tn.isStr "enum" then
      let enumName := (PyVal.obj kvs).getStrD "name" "unknown"
      let enumPath := pathPre ++ "." ++ enumName
      if !((PyVal.obj kvs).pyGet "doc").truthy then
        match docMapGet docMap enumPath with
        | some gd =>
          ((PyVal.obj kvs).set "doc" (.str gd.documentation),
           ["Added doc to enum `" ++ enumName ++ "` [" ++ gd.confidence ++ "]"])
        | Option.none => (.obj kvs, [])
      else (.obj kvs, [])
    else if tn.isStr "array" then
      match optAttach ((PyVal.obj kvs).get? "items") with
      | some ⟨it, hi⟩ =>
        let res := apply_to_nested it pathPre docMap
        ((PyVal.obj kvs).set "items" res.1, res.2)
      | Option.none => (.obj kvs, [])
    else if tn.isStr "map" then
      match optAttach ((PyVal.obj kvs).get? "values") with
      | some ⟨vv, hv⟩ =>
        let res := apply_to_nested vv pathPre docMap
        ((PyVal.obj kvs).set "values" res.1, res.2)
      | Option.none => (.obj kvs, [])
    else (.obj kvs, [])
  | .arr xs =>
    let res := apply_union_variants xs pathPre docMap
    (.arr res.1, res.2)
  | other => (other, [])
termination_by 8 * PyVal.weight avroType + 3
decreasing_by
  · omega
  · have := PyVal.weight_get? hi
    omega
  · have := PyVal.weight_get? hv
    omega
  · simp [PyVal.weight]
    omega

/-- The union loop of `SchemaUpdater._apply_to_nested`. -/
def apply_union_variants (variants : List PyVal) (pathPre : String)
    (docMap : List GeneratedDoc) : List PyVal × List String :=
  match variants with
  | [] => ([], [])
  | v :: vs =>
    let hd := apply_to_nested v pathPre docMap
    let tl := apply_union_variants vs pathPre docMap
    (hd.1 :: tl.1, hd.2 ++ tl.2)
termination_by 8 * PyVal.weightList variants + 1
decreasing_by
  · simp
    try omega
  · simp
    try omega

end

/-- `SchemaUpdater.apply_documentation`. -/
def apply_documentation (schema : PyVal) (generatedDocs : List GeneratedDoc)
    (filePath : String) (minConfidence : String) : Option SchemaUpdate :=
  let docsToApply := filter_by_confidence generatedDocs minConfidence
  if docsToApply.isEmpty then Option.none
  else
    let updatedSchema := deepcopy schema
    let schemaName := schema.getStrD "name" "unknown"
    let res := apply_to_record updatedSchema schemaName docsToApply
    if res.2.isEmpty then Option.none
    else some ⟨filePath, schema, res.1, res.2⟩

end SchemaUpdater

/-! ### Object-tree analyzer (`json_schema_analyzer.JsonSchemaAnalyzer`) -/

/-- `json_schema_analyzer.MissingDoc` (the JSON-dialect dataclass; converted
to the shared `MissingDoc` by `analyze_schema`). -/
structure JsonMissingDoc where
  path : String
  element_type : String
  name : String
  json_type : String
  context : List (String × PyVal)

namespace JsonSchemaAnalyzer

/-- `JsonSchemaAnalyzer._get_connect_type`: the first `connect.type` found
in a `oneOf` option, else the schema's own `connect.type` (a non-dict
`oneOf` value, which would raise in Python, is modelled as no options). -/
def get_connect_type (schema : PyVal) : PyVal :=
  let fromOneOf : Option PyVal :=
    match schema.get? "oneOf" with
    | some (.arr opts) =>
      (opts.find? (fun o => (o.get? "connect.type").isSome)).bind
        (fun o => o.get? "connect.type")
    | _ => Option.none
  match fromOneOf with
  | some v => v
  | Option.none => schema.pyGet "connect.type"

/-- `JsonSchemaAnalyzer._get_type_string`.  Values that Python would carry
into the f-string / return non-stringly (a non-string `connect.type` or
`type`) are modelled by the `"unknown"` placeholder, per the conventions
above. -/
def get_type_string (schema : PyVal) : String :=
  match schema.get? "oneOf" with
  | some oneOf =>
    let opts := match oneOf with | .arr xs => xs | _ => []
    let types := (opts.filter (fun o => !(o.pyGet "type").isStr "null")).map
      (fun o =>
        match o.get? "connect.type" with
        | some (.str ct) => ct
        | some _ => "unknown"
        | Option.none => o.getStrD "type" "unknown")
    match types with
    | t :: _ => "nullable<" ++ t ++ ">"
    | [] => "null"
  | Option.none =>
    match schema.get? "connect.type" with
    | some (.str ct) => ct
    | some _ => "unknown"
    | Option.none => schema.getStrD "type" "unknown"

mutual

/-- `JsonSchemaAnalyzer._analyze_object`. -/
def analyze_object (obj : PyVal) (path : String) :
    List JsonMissingDoc × Nat × Nat :=
  let self : List JsonMissingDoc × Nat :=
    if (obj.pyGet "description").truthy then ([], 1)
    else ([⟨path, "object", (path.splitOn ".").getLastD path, "object",
            [("title", obj.pyGet "title")]⟩], 0)
  let rest := analyze_props (obj.getEntries "properties") path
  (self.1 ++ rest.1, 1 + rest.2.1, self.2 + rest.2.2)
termination_by 8 * PyVal.weight obj + 2
decreasing_by
  · have := PyVal.weight_getEntries obj "properties"
    omega

/-- The `for prop_name, prop_schema in properties.items()` loop of
`JsonSchemaAnalyzer._analyze_object`.  In the array branch the source reads
`prop_schema.get("items", {})`; the default `{}` has no `"type"` key, so no
recursion happens, rendered by the `none` branch. -/
def analyze_props (props : List (String × PyVal)) (path : String) :
    List JsonMissingDoc × Nat × Nat :=
  match props with
  | [] => ([], 0, 0)
  | (propName, propSchema) :: rest =>
    let propPath := path ++ "." ++ propName
    let self : List JsonMissingDoc × Nat :=
      if (propSchema.pyGet "description").truthy then ([], 1)
      else ([⟨propPath, "property", propName, get_type_string propSchema,
              [("connect_index", propSchema.pyGet "connect.index"),
               ("connect_type", get_connect_type propSchema)]⟩], 0)
    let nested : List JsonMissingDoc × Nat × Nat :=
      if (propSchema.pyGet "type").isStr "object" then
        analyze_object propSchema propPath
      else if (propSchema.pyGet "type").isStr "array" then
        match optAttach (propSchema.get? "items") with
        | some ⟨items, hitm⟩ =>
          if (items.pyGet "type").isStr "object" then
            analyze_object items (propPath ++ "[]")
          else ([], 0, 0)
        | Option.none => ([], 0, 0)
      else ([], 0, 0)
    let tail := analyze_props rest path
    (self.1 ++ nested.1 ++ tail.1, 1 + nested.2.1 + tail.2.1,
     self.2 + nested.2.2 + tail.2.2)
termination_by 8 * PyVal.weightEntries props + 1
decreasing_by
  · simp
    try omega
  · have := PyVal.weight_get? hitm
    simp
    try omega
  · simp
    try omega

end

/-- `JsonSchemaAnalyzer.analyze_schema` (including the conversion of the
JSON-dialect descriptors into the shared `MissingDoc` shape with
`avro_type = str(doc.json_type)`). -/
def analyze_schema (subject : String) (schema : PyVal) : AnalysisResult :=
  let body : List JsonMissingDoc × Nat × Nat :=
    if (schema.pyGet "type").isStr "object" then analyze_object schema subject
    else ([], 0, 0)
  let converted := body.1.map (fun d =>
    (⟨d.path, d.element_type, d.name, d.json_type, PyVal.none, d.context⟩ : MissingDoc))
  ⟨subject, schema, converted, body.2.1, body.2.2⟩

end JsonSchemaAnalyzer

/-! ### Object-tree patcher (`json_schema_updater.JsonSchemaUpdater`) -/

namespace JsonSchemaUpdater

mutual

/-- `JsonSchemaUpdater._apply_to_object`, functionally.  Setting the
`description` does not change the `properties` value, so the property list
is read off the incoming object; the in-place mutation of each property
schema is rendered by rebuilding the `properties` entry. -/
def apply_to_object (obj : PyVal) (path : String)
    (docMap : List GeneratedDoc) : PyVal × List String :=
  let step1 : PyVal × List String :=
    if !(obj.pyGet "description").truthy then
      match docMapGet docMap path with
      | some gd =>
        patchNode obj "description" gd.documentation
          ("Added description to object `" ++ path ++ "` [" ++ gd.confidence ++ "]")
      | Option.none => (obj, [])
    else (obj, [])
  match optAttach (obj.get? "properties") with
  | some ⟨.obj props, hp⟩ =>
    let res := apply_props props path docMap
    (step1.1.set "properties" (.obj res.1), step1.2 ++ res.2)
  | _ => (step1.1, step1.2)
termination_by 8 * PyVal.weight obj + 2
decreasing_by
  · have h1 := PyVal.weight_get? hp
    simp [PyVal.weight] at h1
    omega

/-- The property loop of `JsonSchemaUpdater._apply_to_object`.  The source
mutates `prop_schema` in place before recursing into it, so the object
branch recurses on the description-patched property schema; in the array
branch the default `{}` for a missing `items` key has no `"type"` and
leads to no recursion and no mutation, rendered by the `none` branch. -/
def apply_props (props : List (String × PyVal)) (path : String)
    (docMap : List GeneratedDoc) : List (String × PyVal) × List String :=
  match props with
  | [] => ([], [])
  | (propName, propSchema) :: rest =>
    let propPath := path ++ "." ++ propName
    let step1 : PyVal × List String :=
      if !(propSchema.pyGet "description").truthy then
        match docMapGet docMap propPath with
        | some gd =>
          patchNode propSchema "description" gd.documentation
            ("Added description to property `" ++ propName ++ "` [" ++
              gd.confidence ++ "]")
        | Option.none => (propSchema, [])
      else (propSchema, [])
    let step2 : PyVal × List String :=
      if (propSchema.pyGet "type").isStr "object" then
        apply_to_object step1.1 propPath docMap
      else if (propSchema.pyGet "type").isStr "array" then
        match optAttach (propSchema.get? "items") with
        | some ⟨items, hitm⟩ =>
          if (items.pyGet "type").isStr "object" then
            let res := apply_to_object items (propPath ++ "[]") docMap
            (step1.1.set "items" res.1, res.2)
          else (step1.1, [])
        | Option.none => (step1.1, [])
      else (step1.1, [])
    let tail := apply_props rest path docMap
    ((propName, step2.1) :: tail.1, step1.2 ++ step2.2 ++ tail.2)
termination_by 8 * PyVal.weightEntries props + 3
decreasing_by
  · rename_i pn hobj
    simp only [PyVal.weightEntries_cons]
    split
    · split
      · rename_i gd heq
        have := weight_patchNode v "description" gd.documentation
          ("Added description to property `" ++ pn ++ "` [" ++ gd.confidence ++ "]")
        simp
        omega
      · simp
        omega
    · simp
      omega
  · have := PyVal.weight_get? hitm
    simp
    try omega
  · simp
    try omega

end

/-- `JsonSchemaUpdater.apply_documentation`.  `base_path = subject or
file_path.split("/")[-1].replace(".json", "")`: a `None` or empty subject
falls back to the file-derived name (Python `or` tests truthiness). -/
def apply_documentation (schema : PyVal) (generatedDocs : List GeneratedDoc)
    (filePath : String) (minConfidence : String) (subject : Option String) :
    Option SchemaUpdate :=
  let docsToApply := filter_by_confidence generatedDocs minConfidence
  if docsToApply.isEmpty then Option.none
  else
    let updatedSchema := deepcopy schema
    let basePath :=
      match subject with
      | some s => if s = "" then ((filePath.splitOn "/").getLastD "").replace ".json" "" else s
      | Option.none => ((filePath.splitOn "/").getLastD "").replace ".json" ""
    let res := apply_to_object updatedSchema basePath docsToApply
    if res.2.isEmpty then Option.none
    else some ⟨filePath, schema, res.1, res.2⟩

end JsonSchemaUpdater

/-! ### Text-message analyzer (`protobuf_analyzer.ProtobufAnalyzer`)

The source drives a handful of fixed regular expressions with `re.finditer`
/ `re.search` / `re.findall`.  Each concrete pattern is compiled here into
a character-level matcher with the exact Python `re` semantics (leftmost
match, greedy with backtracking; `finditer` advances one character on a
failed position and resumes after the end of a match).  One derivation is
used throughout: in `message\s+(\w+)\s*\{([^}]*(?:\{[^}]*\}[^}]*)*)\}` the
leading greedy `[^}]*` runs to the first `}`, at which point the starred
group cannot start (the next character is `}`) and the final `\}` matches,
so the first successful—and hence reported—match always captures the body
up to the first closing brace; the enum pattern `enum\s+(\w+)\s*\{([^}]*)\}`
has that same behaviour, so both use the shared `matchBlockAt`. -/

/-- Python `\w` on the ASCII text these schemas use:
`[A-Za-z0-9_]`. -/
def isWordChar (c : Char) : Bool :=
  ('A' ≤ c && c ≤ 'Z') || ('a' ≤ c && c ≤ 'z') || ('0' ≤ c && c ≤ '9') || c == '_'

/-- Python `\d` on ASCII text: `[0-9]`. -/
def isPyDigit (c : Char) : Bool := '0' ≤ c && c ≤ '9'

/-- Python `\s`: space, tab, newline, carriage return, vertical tab, form feed. -/
def isPySpace (c : Char) : Bool :=
  c == ' ' || c == '\t' || c == '\n' || c == '\r' || c == '\x0b' || c == '\x0c'

/-- Match a literal at the head of the text, returning the rest. -/
def dropLit : List Char → List Char → Option (List Char)
  | [], cs => some cs
  | _ :: _, [] => Option.none
  | l :: ls, c :: cs => if c = l then dropLit ls cs else Option.none

theorem dropLit_length {lit cs r : List Char} (h : dropLit lit cs = some r) :
    r.length + lit.length = cs.length := by
  induction lit generalizing cs with
  | nil =>
    simp [dropLit] at h
    simp [h]
  | cons l ls ih =>
    cases cs with
    | nil => simp [dropLit] at h
    | cons c cs' =>
      simp only [dropLit] at h
      by_cases hc : c = l
      · simp [hc] at h
        have := ih h
        simp
        omega
      · simp [hc] at h

theorem dropWhile_length_le (p : Char → Bool) (l : List Char) :
    (l.dropWhile p).length ≤ l.length := by
  induction l with
  | nil => simp
  | cons c cs ih =>
    by_cases hc : p c
    · simp [List.dropWhile, hc]
      omega
    · simp [List.dropWhile, hc]

/-- One attempt, at the current position, of the block patterns
`KW\s+(\w+)\s*\{…\}` of `ProtobufAnalyzer._parse_messages` (with the dead
nested-brace group, see above) and `ProtobufAnalyzer._parse_enums`:
keyword, at least one space, a name, optional spaces, `{`, then the body up
to the first `}`.  Returns name, body and the text after the match. -/
def matchBlockAt (kw : List Char) (cs : List Char) : Option (String × String × List Char) :=
  match dropLit kw cs with
  | Option.none => Option.none
  | some [] => Option.none
  | some (c :: cr) =>
    if isPySpace c then
      match ((c :: cr).dropWhile isPySpace).takeWhile isWordChar with
      | [] => Option.none
      | w0 :: wrest =>
        match (((c :: cr).dropWhile isPySpace).dropWhile isWordChar).dropWhile isPySpace with
        | '{' :: cs5 =>
          match cs5.dropWhile (fun ch => ch ≠ '}') with
          | '}' :: cs7 =>
            some (String.mk (w0 :: wrest),
                  String.mk (cs5.takeWhile (fun ch => ch ≠ '}')), cs7)
          | _ => Option.none
        | _ => Option.none
      else Option.none

theorem matchBlockAt_length {kw cs : List Char} {nm body : String} {r : List Char}
    (h : matchBlockAt kw cs = some (nm, body, r)) :
    r.length < cs.length := by
  unfold matchBlockAt at h
  split at h
  · exact absurd h (by simp)
  · exact absurd h (by simp)
  · rename_i c cr hd
    split at h
    · split at h
      · exact absurd h (by simp)
      · rename_i w0 wrest hw
        split at h
        · rename_i cs5 h5
          split at h
          · rename_i cs7 h7
            simp only [Option.some.injEq, Prod.mk.injEq] at h
            obtain ⟨-, -, hr⟩ := h
            subst hr
            have hlen1 := dropLit_length hd
            have l2 := dropWhile_length_le isPySpace (c :: cr)
            have l3 := dropWhile_length_le isWordChar ((c :: cr).dropWhile isPySpace)
            have l4 := dropWhile_length_le isPySpace
              (((c :: cr).dropWhile isPySpace).dropWhile isWordChar)
            rw [h5] at l4
            have l5 := dropWhile_length_le (fun ch => ch ≠ '}') cs5
            rw [h7] at l5
            simp at l2 l4 l5
            simp at hlen1
            omega
          · exact absurd h (by simp)
        · exact absurd h (by simp)
    · exact absurd h (by simp)

/-- `re.finditer` over the block pattern: try each position, resume after a
match end, advance one character after a failed position. -/
def scanBlocks (kw : List Char) : List Char → List (String × String)
  | [] => []
  | c :: rest =>
    match optAttach (matchBlockAt kw (c :: rest)) with
    | some ⟨nmBody, hm⟩ =>
      (nmBody.1, nmBody.2.1) :: scanBlocks kw nmBody.2.2
    | Option.none => scanBlocks kw rest
termination_by cs => cs.length
decreasing_by
  · obtain ⟨nm, body, r⟩ := nmBody
    have := matchBlockAt_length hm
    simpa using this
  · simp

/-- The message-level / enum-level documentation option search
`option\s+\(\s*(?:description|doc)\s*\)\s*=\s*"[^"]*"` tried at one
position (the alternation tries `description` first, then `doc`; on either
success the remainder of the pattern is deterministic). -/
def matchLevelOptionTail (cs : List Char) : Bool :=
  match cs.dropWhile isPySpace with
  | ')' :: cs7 =>
    match cs7.dropWhile isPySpace with
    | '=' :: cs9 =>
      match cs9.dropWhile isPySpace with
      | '"' :: cs11 =>
        match cs11.dropWhile (fun ch => ch ≠ '"') with
        | '"' :: _ => true
        | _ => false
      | _ => false
    | _ => false
  | _ => false

def matchLevelOptionAt (cs : List Char) : Bool :=
  match dropLit ("option".data) cs with
  | Option.none => false
  | some [] => false
  | some (c :: cr) =>
    if isPySpace c then
      match (c :: cr).dropWhile isPySpace with
      | '(' :: cs3 =>
        (match dropLit ("description".data) (cs3.dropWhile isPySpace) with
         | some cs5 => matchLevelOptionTail cs5
         | Option.none => false) ||
        (match dropLit ("doc".data) (cs3.dropWhile isPySpace) with
         | some cs5 => matchLevelOptionTail cs5
         | Option.none => false)
      | _ => false
    else false

/-- `re.search` of the level-option pattern over a message or enum body. -/
def searchLevelOption : List Char → Bool
  | [] => false
  | c :: rest => matchLevelOptionAt (c :: rest) || searchLevelOption rest

/-- One bracketed field documentation option
`\[\s*\(\s*KW\s*\)\s*=\s*"[^"]*"\s*\]` tried at one position
(`ProtobufAnalyzer.DOC_OPTION_PATTERNS`, first four patterns). -/
def matchBracketOptionAt (kw : List Char) (cs : List Char) : Bool :=
  match cs with
  | '[' :: cs1 =>
    match cs1.dropWhile isPySpace with
    | '(' :: cs3 =>
      match dropLit kw (cs3.dropWhile isPySpace) with
      | some cs5 =>
        match cs5.dropWhile isPySpace with
        | ')' :: cs7 =>
          match cs7.dropWhile isPySpace with
          | '=' :: cs9 =>
            match cs9.dropWhile isPySpace with
            | '"' :: cs11 =>
              match cs11.dropWhile (fun ch => ch ≠ '"') with
              | '"' :: cs13 =>
                match cs13.dropWhile isPySpace with
                | ']' :: _ => true
                | _ => false
              | _ => false
            | _ => false
          | _ => false
        | _ => false
      | Option.none => false
    | _ => false
  | _ => false

/-- The Confluent meta pattern
`\[\s*confluent\.field_meta\s*=\s*\{\s*doc\s*:\s*"[^"]*"\s*\}\s*\]`
(`DOC_OPTION_PATTERNS`, last pattern) tried at one position. -/
def matchConfluentAt (cs : List Char) : Bool :=
  match cs with
  | '[' :: cs1 =>
    match dropLit ("confluent.field_meta".data) (cs1.dropWhile isPySpace) with
    | some cs3 =>
      match cs3.dropWhile isPySpace with
      | '=' :: cs5 =>
        match cs5.dropWhile isPySpace with
        | '{' :: cs7 =>
          match dropLit ("doc".data) (cs7.dropWhile isPySpace) with
          | some cs9 =>
            match cs9.dropWhile isPySpace with
            | ':' :: cs11 =>
              match cs11.dropWhile isPySpace with
              | '"' :: cs13 =>
                match cs13.dropWhile (fun ch => ch ≠ '"') with
                | '"' :: cs15 =>
                  match cs15.dropWhile isPySpace with
                  | '}' :: cs17 =>
                    match cs17.dropWhile isPySpace with
                    | ']' :: _ => true
                    | _ => false
                  | _ => false
                | _ => false
              | _ => false
            | _ => false
          | Option.none => false
        | _ => false
      | _ => false
    | Option.none => false
  | _ => false

/-- `ProtobufAnalyzer._has_doc_option`: `re.search` of any of the five
documentation option patterns. -/
def searchDocOption : List Char → Bool
  | [] => false
  | c :: rest =>
    matchBracketOptionAt ("description".data) (c :: rest) ||
    matchBracketOptionAt ("doc".data) (c :: rest) ||
    matchBracketOptionAt ("comment".data) (c :: rest) ||
    matchBracketOptionAt ("field_doc".data) (c :: rest) ||
    matchConfluentAt (c :: rest) ||
    searchDocOption rest

/-- The deterministic part `\s*(\w+)\s+(\w+)\s*=\s*\d+\s*([^;]*);` of the
field pattern of `ProtobufAnalyzer._parse_fields`, tried after an optional
modifier keyword: spaces, a type word, at least one space, a name word,
spaces, `=`, spaces, digits, spaces, everything up to the first `;`, `;`.
Returns type, name, option region and the text after the match. -/
def matchFieldCore (cs : List Char) : Option (String × String × String × List Char) :=
  match (cs.dropWhile isPySpace).takeWhile isWordChar with
  | [] => Option.none
  | t0 :: trest =>
    match (cs.dropWhile isPySpace).dropWhile isWordChar with
    | [] => Option.none
    | c2 :: cr2 =>
      if isPySpace c2 then
        match ((c2 :: cr2).dropWhile isPySpace).takeWhile isWordChar with
        | [] => Option.none
        | n0 :: nrest =>
          match (((c2 :: cr2).dropWhile isPySpace).dropWhile isWordChar).dropWhile isPySpace with
          | '=' :: cs6 =>
            match (cs6.dropWhile isPySpace).takeWhile isPyDigit with
            | [] => Option.none
            | _ :: _ =>
              match (((cs6.dropWhile isPySpace).dropWhile isPyDigit).dropWhile
                  isPySpace).dropWhile (fun ch => ch ≠ ';') with
              | ';' :: cs10 =>
                some (String.mk (t0 :: trest), String.mk (n0 :: nrest),
                      String.mk ((((cs6.dropWhile isPySpace).dropWhile
                        isPyDigit).dropWhile isPySpace).takeWhile
                          (fun ch => ch ≠ ';')), cs10)
              | _ => Option.none
          | _ => Option.none
      else Option.none

/-- One attempt of the full field pattern
`(optional|required|repeated)?\s*(\w+)\s+(\w+)\s*=\s*\d+\s*([^;]*);`: the
optional modifier group is tried alternative by alternative and then empty,
as the backtracking engine does.  Returns the modifier (if the group
participated), type, name, option region and the rest. -/
def matchFieldAt (cs : List Char) :
    Option (Option String × String × String × String × List Char) :=
  match dropLit ("optional".data) cs with
  | some r =>
    match matchFieldCore r with
    | some (t, n, o, rest) => some (some "optional", t, n, o, rest)
    | Option.none => matchFieldNoMod cs
  | Option.none =>
    match dropLit ("required".data) cs with
    | some r =>
      match matchFieldCore r with
      | some (t, n, o, rest) => some (some "required", t, n, o, rest)
      | Option.none => matchFieldNoMod cs
    | Option.none =>
      match dropLit ("repeated".data) cs with
      | some r =>
        match matchFieldCore r with
        | some (t, n, o, rest) => some (some "repeated", t, n, o, rest)
        | Option.none => matchFieldNoMod cs
      | Option.none => matchFieldNoMod cs
where
  matchFieldNoMod (cs : List Char) :
      Option (Option String × String × String × String × List Char) :=
    match matchFieldCore cs with
    | some (t, n, o, rest) => some (Option.none, t, n, o, rest)
    | Option.none => Option.none

theorem matchFieldCore_length {cs : List Char} {t n o : String} {r : List Char}
    (h : matchFieldCore cs = some (t, n, o, r)) : r.length < cs.length := by
  unfold matchFieldCore at h
  split at h
  · exact absurd h (by simp)
  · rename_i t0 trest ht
    split at h
    · exact absurd h (by simp)
    · rename_i c2 cr2 h2
      split at h
      · split at h
        · exact absurd h (by simp)
        · rename_i n0 nrest hn
          split at h
          · rename_i cs6 h6
            split at h
            · exact absurd h (by simp)
            · split at h
              · rename_i cs10 h10
                simp only [Option.some.injEq, Prod.mk.injEq] at h
                obtain ⟨-, -, -, hr⟩ := h
                subst hr
                have l1 := dropWhile_length_le isPySpace cs
                have l2 := dropWhile_length_le isWordChar (cs.dropWhile isPySpace)
                rw [h2] at l2
                have l3 := dropWhile_length_le isPySpace (c2 :: cr2)
                have l4 := dropWhile_length_le isWordChar ((c2 :: cr2).dropWhile isPySpace)
                have l5 := dropWhile_length_le isPySpace
                  (((c2 :: cr2).dropWhile isPySpace).dropWhile isWordChar)
                rw [h6] at l5
                have l6 := dropWhile_length_le isPySpace cs6
                have l7 := dropWhile_length_le isPyDigit (cs6.dropWhile isPySpace)
                have l8 := dropWhile_length_le isPySpace
                  ((cs6.dropWhile isPySpace).dropWhile isPyDigit)
                have l9 := dropWhile_length_le (fun ch => ch ≠ ';')
                  (((cs6.dropWhile isPySpace).dropWhile isPyDigit).dropWhile isPySpace)
                rw [h10] at l9
                simp at l2 l3 l5 l9
                omega
              · exact absurd h (by simp)
          · exact absurd h (by simp)
      · exact absurd h (by simp)

theorem matchFieldAt_length {cs : List Char} {m : Option String} {t n o : String}
    {r : List Char} (h : matchFieldAt cs = some (m, t, n, o, r)) :
    r.length < cs.length := by
  have core : ∀ {cs2 : List Char}, matchFieldAt.matchFieldNoMod cs2 = some (m, t, n, o, r) →
      r.length < cs2.length := by
    intro cs2 h2
    unfold matchFieldAt.matchFieldNoMod at h2
    split at h2
    · rename_i t' n' o' r' hc
      simp only [Option.some.injEq, Prod.mk.injEq] at h2
      obtain ⟨-, -, -, -, hr⟩ := h2
      subst hr
      exact matchFieldCore_length hc
    · exact absurd h2 (by simp)
  unfold matchFieldAt at h
  split at h
  · rename_i r1 hd1
    split at h
    · rename_i t' n' o' r' hc
      simp only [Option.some.injEq, Prod.mk.injEq] at h
      obtain ⟨-, -, -, -, hr⟩ := h
      subst hr
      have := matchFieldCore_length hc
      have := dropLit_length hd1
      simp at this
      omega
    · exact core h
  · split at h
    · rename_i r1 hd1
      split at h
      · rename_i t' n' o' r' hc
        simp only [Option.some.injEq, Prod.mk.injEq] at h
        obtain ⟨-, -, -, -, hr⟩ := h
        subst hr
        have := matchFieldCore_length hc
        have := dropLit_length hd1
        simp at this
        omega
      · exact core h
    · split at h
      · rename_i r1 hd1
        split at h
        · rename_i t' n' o' r' hc
          simp only [Option.some.injEq, Prod.mk.injEq] at h
          obtain ⟨-, -, -, -, hr⟩ := h
          subst hr
          have := matchFieldCore_length hc
          have := dropLit_length hd1
          simp at this
          omega
        · exact core h
      · exact core h

/-- `re.finditer` over the field pattern. -/
def scanFields : List Char → List (Option String × String × String × String)
  | [] => []
  | c :: rest =>
    match optAttach (matchFieldAt (c :: rest)) with
    | some ⟨res, hm⟩ =>
      (res.1, res.2.1, res.2.2.1, res.2.2.2.1) :: scanFields res.2.2.2.2
    | Option.none => scanFields rest
termination_by cs => cs.length
decreasing_by
  · obtain ⟨m, t, n, o, r⟩ := res
    have := matchFieldAt_length hm
    simpa using this
  · simp

/-- `re.findall(r'(\w+)\s*=', enum_content)`: word, spaces, `=`; on a
failed position the scan advances one character, after a match it resumes
past the `=`. -/
def findEnumValues : List Char → List String
  | [] => []
  | c :: rest =>
    if isWordChar c then
      match eqAttach (((c :: rest).dropWhile isWordChar).dropWhile isPySpace) with
      | ⟨'=' :: cs4, h4⟩ =>
        String.mk ((c :: rest).takeWhile isWordChar) :: findEnumValues cs4
      | _ => findEnumValues rest
    else findEnumValues rest
termination_by cs => cs.length
decreasing_by
  · have l1 := dropWhile_length_le isWordChar (w0 :: wrest)
    have l2 := dropWhile_length_le isPySpace ((w0 :: wrest).dropWhile isWordChar)
    rw [← h4] at l2
    simp at l1 l2
    simp
    omega
  · simp
  · simp

namespace ProtobufAnalyzer

/-- `ProtobufAnalyzer._parse_messages`: every message block with its body
and whether the body carries a message-level documentation option. -/
def parse_messages (schema : String) : List (String × String × Bool) :=
  (scanBlocks ("message".data) schema.data).map
    (fun nb => (nb.1, nb.2, searchLevelOption nb.2.data))

/-- `ProtobufAnalyzer._parse_fields`: fields of a message body with the
human-readable type (modifier-prefixed when a modifier participated) and
whether the option region carries a documentation option (an empty option
region is falsy and checked against no pattern). -/
def parse_fields (content : String) : List (String × String × Bool) :=
  (scanFields content.data).map (fun f =>
    let fullType := match f.1 with
      | some m => m ++ " " ++ f.2.1
      | Option.none => f.2.1
    let hasDoc := if f.2.2.2 = "" then false else searchDocOption f.2.2.2.data
    (f.2.2.1, fullType, hasDoc))

/-- `ProtobufAnalyzer._parse_enums`. -/
def parse_enums (schema : String) : List (String × List String × Bool) :=
  (scanBlocks ("enum".data) schema.data).map
    (fun nb => (nb.1, findEnumValues nb.2.data, searchLevelOption nb.2.data))

/-- The field loop of `ProtobufAnalyzer.analyze_schema`. -/
def count_fields (flds : List (String × String × Bool)) (msgPath : String) :
    List MissingDoc × Nat × Nat :=
  match flds with
  | [] => ([], 0, 0)
  | (fieldName, fieldType, hasFieldDoc) :: rest =>
    let tail := count_fields rest msgPath
    if hasFieldDoc then (tail.1, 1 + tail.2.1, 1 + tail.2.2)
    else (⟨msgPath ++ "." ++ fieldName, "field", fieldName, fieldType, PyVal.none,
            [("proto_type", PyVal.str fieldType)]⟩ :: tail.1,
          1 + tail.2.1, tail.2.2)

/-- The message loop of `ProtobufAnalyzer.analyze_schema`. -/
def count_messages (msgs : List (String × String × Bool)) (subject : String) :
    List MissingDoc × Nat × Nat :=
  match msgs with
  | [] => ([], 0, 0)
  | (msgName, msgContent, hasDoc) :: rest =>
    let msgPath := if msgName = subject then subject else subject ++ "." ++ msgName
    let self : List MissingDoc × Nat :=
      if hasDoc then ([], 1)
      else ([⟨msgPath, "message", msgName, "message", PyVal.none,
              [("proto_type", PyVal.str "message")]⟩], 0)
    let flds := count_fields (parse_fields msgContent) msgPath
    let tail := count_messages rest subject
    (self.1 ++ flds.1 ++ tail.1, 1 + flds.2.1 + tail.2.1,
     self.2 + flds.2.2 + tail.2.2)

/-- The enum loop of `ProtobufAnalyzer.analyze_schema`. -/
def count_enums (enums : List (String × List String × Bool)) (subject : String) :
    List MissingDoc × Nat × Nat :=
  match enums with
  | [] => ([], 0, 0)
  | (enumName, enumValues, hasDoc) :: rest =>
    let tail := count_enums rest subject
    if hasDoc then (tail.1, 1 + tail.2.1, 1 + tail.2.2)
    else (⟨subject ++ "." ++ enumName, "enum", enumName, "enum", PyVal.none,
            [("values", PyVal.arr (enumValues.map PyVal.str))]⟩ :: tail.1,
          1 + tail.2.1, tail.2.2)

/-- `ProtobufAnalyzer.analyze_schema` on schema text (the source also
accepts a wrapper dict whose `"schema"` key holds the text and echoes the
text back wrapped as `{"raw": schema_str}`). -/
def analyze_schema (subject : String) (schemaStr : String) : AnalysisResult :=
  let m := count_messages (parse_messages schemaStr) subject
  let e := count_enums (parse_enums schemaStr) subject
  ⟨subject, .obj [("raw", .str schemaStr)], m.1 ++ e.1,
   m.2.1 + e.2.1, m.2.2 + e.2.2⟩

end ProtobufAnalyzer

/-! ### Concrete example values used by the claims -/

/-- Spec §8.7's example record: `User` with undocumented string fields
`id` and `email`. -/
def userSchema : PyVal :=
  .obj [("type", .str "record"), ("name", .str "User"),
        ("fields", .arr [
          .obj [("name", .str "id"), ("type", .str "string")],
          .obj [("name", .str "email"), ("type", .str "string")]])]

/-- A record whose field `f` has a union type containing two distinct
record definitions that share the name `N`: the analyzer assigns both the
path `R.f.N`. -/
def dupPathSchema : PyVal :=
  .obj [("type", .str "record"), ("name", .str "R"),
        ("fields", .arr [
          .obj [("name", .str "f"),
                ("type", .arr [
                  .obj [("type", .str "record"), ("name", .str "N"),
                        ("fields", .arr [])],
                  .obj [("type", .str "record"), ("name", .str "N"),
                        ("fields", .arr [
                          .obj [("name", .str "g"), ("type", .str "string")]])]])]])]

/-- A record whose field `f` is an array of records named `N`. -/
def arrayFieldSchema : PyVal :=
  .obj [("type", .str "record"), ("name", .str "R"),
        ("fields", .arr [
          .obj [("name", .str "f"),
                ("type", .obj [("type", .str "array"),
                  ("items", .obj [("type", .str "record"), ("name", .str "N"),
                    ("fields", .arr [])])])]])]

/-- An object schema whose property `tags` is an array of objects. -/
def arrayPropSchema : PyVal :=
  .obj [("type", .str "object"),
        ("properties", .obj [
          ("tags", .obj [("type", .str "array"),
            ("items", .obj [("type", .str "object"),
              ("properties", .obj [
                ("label", .obj [("type", .str "string")])])])])])]

/-- A record with three undocumented fields, for the confidence-tier
counting scenario. -/
def tierSchema : PyVal :=
  .obj [("type", .str "record"), ("name", .str "T"),
        ("fields", .arr [
          .obj [("name", .str "a"), ("type", .str "string")],
          .obj [("name", .str "b"), ("type", .str "string")],
          .obj [("name", .str "c"), ("type", .str "string")]])]

/-- Documentation entries at the three tiers for the three fields of
`tierSchema`. -/
def tierDocs : List GeneratedDoc :=
  [⟨"T.a", "field", "Field a", "high"⟩,
   ⟨"T.b", "field", "Field b", "medium"⟩,
   ⟨"T.c", "field", "Field c", "low"⟩]

/-- An object schema with three undocumented string properties. -/
def tierObjSchema : PyVal :=
  .obj [("type", .str "object"),
        ("properties", .obj [
          ("a", .obj [("type", .str "string")]),
          ("b", .obj [("type", .str "string")]),
          ("c", .obj [("type", .str "string")])])]

/-- Documentation entries at the three tiers for the three properties of
`tierObjSchema` under subject `O`. -/
def tierObjDocs : List GeneratedDoc :=
  [⟨"O.a", "property", "Prop a", "high"⟩,
   ⟨"O.b", "property", "Prop b", "medium"⟩,
   ⟨"O.c", "property", "Prop c", "low"⟩]

/-- Spec §8.9's text: one message with one field and no comments or
options. -/
def protoText : String := "message User { string id = 1; }"

/-- The same text prefixed with a single-line comment. -/
def protoTextCommented : String := "// A user\nmessage User { string id = 1; }"

/-- The same text with a message-level documentation option inserted. -/
def protoTextOption : String :=
  "message User \x7b option (doc) = \"A user\"; string id = 1; \x7d"

/-! ### Coverage totality -/

theorem avro_totality_aux : ∀ N : Nat,
    (∀ j p, 8 * PyVal.weight j + 2 ≤ N →
      (AvroAnalyzer.analyze_record j p).1.length + (AvroAnalyzer.analyze_record j p).2.2 =
        (AvroAnalyzer.analyze_record j p).2.1) ∧
    (∀ t p, 8 * PyVal.weight t + 3 ≤ N →
      (AvroAnalyzer.analyze_nested_types t p).1.length +
        (AvroAnalyzer.analyze_nested_types t p).2.2 =
        (AvroAnalyzer.analyze_nested_types t p).2.1) ∧
    (∀ flds rp rd rn, 8 * PyVal.weightList flds + 1 ≤ N →
      (AvroAnalyzer.analyze_fields flds rp rd rn).1.length +
        (AvroAnalyzer.analyze_fields flds rp rd rn).2.2 =
        (AvroAnalyzer.analyze_fields flds rp rd rn).2.1) ∧
    (∀ l p, 8 * PyVal.weightList l + 1 ≤ N →
      (AvroAnalyzer.analyze_union_variants l p).1.length +
        (AvroAnalyzer.analyze_union_variants l p).2.2 =
        (AvroAnalyzer.analyze_union_variants l p).2.1) := by
  intro N
  induction N with
  | zero =>
    refine ⟨fun j p h => absurd h (by omega), fun t p h => absurd h (by omega),
      fun flds rp rd rn h => absurd h (by omega), fun l p h => absurd h (by omega)⟩
  | succ n ih =>
    obtain ⟨ihr, ihn, ihf, ihu⟩ := ih
    refine ⟨?_, ?_, ?_, ?_⟩
    · intro j p hN
      have hb := PyVal.weight_getList j "fields"
      rw [AvroAnalyzer.analyze_record]
      have hf := ihf (j.getList "fields")
        (if p = "" then j.getStrD "name" "unknown" else p ++ "." ++ j.getStrD "name" "unknown")
        (j.pyGet "doc") (j.getStrD "name" "unknown") (by omega)
      split <;> simp <;> omega
    · intro t p hN
      cases t with
      | obj kvs =>
        simp only [AvroAnalyzer.analyze_nested_types]
        split
        · exact ihr (.obj kvs) p (by omega)
        · split
          · split
            · rename_i it hit heq
              have := PyVal.weight_get? hit
              exact ihn it p (by omega)
            · simp
          · split
            · split
              · rename_i vv hvv heq
                have := PyVal.weight_get? hvv
                exact ihn vv p (by omega)
              · simp
            · split
              · split <;> simp
              · simp
      | arr xs =>
        simp only [AvroAnalyzer.analyze_nested_types]
        refine ihu xs p ?_
        have hw : PyVal.weight (PyVal.arr xs) = 1 + PyVal.weightList xs := rfl
        omega
      | str s => simp [AvroAnalyzer.analyze_nested_types]
      | int i => simp [AvroAnalyzer.analyze_nested_types]
      | bool b => simp [AvroAnalyzer.analyze_nested_types]
      | none => simp [AvroAnalyzer.analyze_nested_types]
    · intro flds rp rd rn hN
      match flds with
      | [] => simp [AvroAnalyzer.analyze_fields]
      | fld :: rest =>
        rw [AvroAnalyzer.analyze_fields]
        have hw := PyVal.weight_pyGet fld "type"
        have hcons : PyVal.weightList (fld :: rest) =
            1 + PyVal.weight fld + PyVal.weightList rest := rfl
        have hn := ihn (fld.pyGet "type") (rp ++ "." ++ fld.getStrD "name" "unknown")
          (by omega)
        have hf := ihf rest rp rd rn (by omega)
        split <;> simp <;> omega
    · intro l p hN
      match l with
      | [] => simp [AvroAnalyzer.analyze_union_variants]
      | v :: vs =>
        rw [AvroAnalyzer.analyze_union_variants]
        have hcons : PyVal.weightList (v :: vs) =
            1 + PyVal.weight v + PyVal.weightList vs := rfl
        have hn := ihn v p (by omega)
        have hu := ihu vs p (by omega)
        simp
        omega

theorem json_totality_aux : ∀ N : Nat,
    (∀ j p, 8 * PyVal.weight j + 2 ≤ N →
      (JsonSchemaAnalyzer.analyze_object j p).1.length +
        (JsonSchemaAnalyzer.analyze_object j p).2.2 =
        (JsonSchemaAnalyzer.analyze_object j p).2.1) ∧
    (∀ props p, 8 * PyVal.weightEntries props + 1 ≤ N →
      (JsonSchemaAnalyzer.analyze_props props p).1.length +
        (JsonSchemaAnalyzer.analyze_props props p).2.2 =
        (JsonSchemaAnalyzer.analyze_props props p).2.1) := by
  intro N
  induction N with
  | zero =>
    exact ⟨fun j p h => absurd h (by omega), fun props p h => absurd h (by omega)⟩
  | succ n ih =>
    obtain ⟨iho, ihp⟩ := ih
    refine ⟨?_, ?_⟩
    · intro j p hN
      have hb := PyVal.weight_getEntries j "properties"
      rw [JsonSchemaAnalyzer.analyze_object]
      have hp := ihp (j.getEntries "properties") p (by omega)
      split <;> simp <;> omega
    · intro props p hN
      match props with
      | [] => simp [JsonSchemaAnalyzer.analyze_props]
      | (propName, propSchema) :: rest =>
        have hcons : PyVal.weightEntries ((propName, propSchema) :: rest) =
            1 + PyVal.weight propSchema + PyVal.weightEntries rest := rfl
        have htail := ihp rest p (by omega)
        have hobjIH := iho propSchema (p ++ "." ++ propName) (by omega)
        rw [JsonSchemaAnalyzer.analyze_props]
        simp only
        split
        · split
          · simp
            omega
          · split
            · split
              · split
                · rename_i hdoc hnobj harr items hitm2 heq hio
                  have hwi := PyVal.weight_get? hitm2
                  have hitemIH := iho items (p ++ "." ++ propName ++ "[]") (by omega)
                  simp
                  omega
                · simp
                  omega
              · simp
                omega
            · simp
              omega
        · split
          · simp
            omega
          · split
            · split
              · split
                · rename_i hdoc hnobj harr items hitm2 heq hio
                  have hwi := PyVal.weight_get? hitm2
                  have hitemIH := iho items (p ++ "." ++ propName ++ "[]") (by omega)
                  simp
                  omega
                · simp
                  omega
              · simp
                omega
            · simp
              omega

theorem count_fields_totality (flds : List (String × String × Bool)) (mp : String) :
    (ProtobufAnalyzer.count_fields flds mp).1.length +
      (ProtobufAnalyzer.count_fields flds mp).2.2 =
      (ProtobufAnalyzer.count_fields flds mp).2.1 := by
  induction flds with
  | nil => simp [ProtobufAnalyzer.count_fields]
  | cons hd tl ih =>
    obtain ⟨fn, ft, fh⟩ := hd
    rw [ProtobufAnalyzer.count_fields]
    split <;> simp <;> omega

theorem count_messages_totality (msgs : List (String × String × Bool)) (subject : String) :
    (ProtobufAnalyzer.count_messages msgs subject).1.length +
      (ProtobufAnalyzer.count_messages msgs subject).2.2 =
      (ProtobufAnalyzer.count_messages msgs subject).2.1 := by
  induction msgs with
  | nil => simp [ProtobufAnalyzer.count_messages]
  | cons hd tl ih =>
    obtain ⟨mn, mc, mh⟩ := hd
    rw [ProtobufAnalyzer.count_messages]
    have hf := count_fields_totality (ProtobufAnalyzer.parse_fields mc)
      (if mn = subject then subject else subject ++ "." ++ mn)
    split <;> simp <;> omega

theorem count_enums_totality (enums : List (String × List String × Bool)) (subject : String) :
    (ProtobufAnalyzer.count_enums enums subject).1.length +
      (ProtobufAnalyzer.count_enums enums subject).2.2 =
      (ProtobufAnalyzer.count_enums enums subject).2.1 := by
  induction enums with
  | nil => simp [ProtobufAnalyzer.count_enums]
  | cons hd tl ih =>
    obtain ⟨en, ev, eh⟩ := hd
    rw [ProtobufAnalyzer.count_enums]
    split <;> simp <;> omega

/-- C8.  Coverage totality: for every input schema and each of the three
analyzers (record-tree on any schema value, object-tree on any schema
value, text-message on any schema text), the analysis result satisfies
`documented_elements + missing_docs.length = total_elements`. -/
theorem C8_coverage_totality (subject : String) (schema : PyVal) (text : String) :
    ((AvroAnalyzer.analyze_schema subject schema).documented_elements +
      (AvroAnalyzer.analyze_schema subject schema).missing_docs.length =
      (AvroAnalyzer.analyze_schema subject schema).total_elements) ∧
    ((JsonSchemaAnalyzer.analyze_schema subject schema).documented_elements +
      (JsonSchemaAnalyzer.analyze_schema subject schema).missing_docs.length =
      (JsonSchemaAnalyzer.analyze_schema subject schema).total_elements) ∧
    ((ProtobufAnalyzer.analyze_schema subject text).documented_elements +
      (ProtobufAnalyzer.analyze_schema subject text).missing_docs.length =
      (ProtobufAnalyzer.analyze_schema subject text).total_elements) := by
  refine ⟨?_, ?_, ?_⟩
  · have h := (avro_totality_aux (8 * PyVal.weight schema + 2)).1 schema "" (by omega)
    rw [AvroAnalyzer.analyze_schema]
    split
    · show (AvroAnalyzer.analyze_record schema "").2.2 +
        (AvroAnalyzer.analyze_record schema "").1.length =
        (AvroAnalyzer.analyze_record schema "").2.1
      omega
    · split
      · split
        · show 1 + ([] : List MissingDoc).length = 1
          rfl
        · show 0 + 1 = 1
          rfl
      · show 0 + ([] : List MissingDoc).length = 0
        rfl
  · have h := (json_totality_aux (8 * PyVal.weight schema + 2)).1 schema subject (by omega)
    rw [JsonSchemaAnalyzer.analyze_schema]
    split
    · show (JsonSchemaAnalyzer.analyze_object schema subject).2.2 +
        ((JsonSchemaAnalyzer.analyze_object schema subject).1.map (fun d =>
          (⟨d.path, d.element_type, d.name, d.json_type, PyVal.none, d.context⟩ :
            MissingDoc))).length =
        (JsonSchemaAnalyzer.analyze_object schema subject).2.1
      simp only [List.length_map]
      omega
    · show 0 + ([] : List JsonMissingDoc).length = 0
      rfl
  · have hm := count_messages_totality (ProtobufAnalyzer.parse_messages text) subject
    have he := count_enums_totality (ProtobufAnalyzer.parse_enums text) subject
    rw [ProtobufAnalyzer.analyze_schema]
    show (ProtobufAnalyzer.count_messages (ProtobufAnalyzer.parse_messages text) subject).2.2 +
        (ProtobufAnalyzer.count_enums (ProtobufAnalyzer.parse_enums text) subject).2.2 +
        ((ProtobufAnalyzer.count_messages (ProtobufAnalyzer.parse_messages text) subject).1 ++
         (ProtobufAnalyzer.count_enums (ProtobufAnalyzer.parse_enums text) subject).1).length =
        (ProtobufAnalyzer.count_messages (ProtobufAnalyzer.parse_messages text) subject).2.1 +
        (ProtobufAnalyzer.count_enums (ProtobufAnalyzer.parse_enums text) subject).2.1
    simp only [List.length_append]
    omega

/-! ### Zero-element results, thresholds, confidence filtering -/

/-- C9.  Zero-element no-op: a record-tree schema whose top-level type tag
is neither `record` nor `enum` yields a zero-element, zero-missing result
with coverage 100 (which covers `{}`), and so do the object-tree analyzer
on `{}` and the text-message analyzer on the empty text. -/
theorem C9_zero_element (s : String) (j : PyVal)
    (hr : (j.pyGet "type").isStr "record" = false)
    (he : (j.pyGet "type").isStr "enum" = false) :
    ((AvroAnalyzer.analyze_schema s j).total_elements = 0 ∧
     (AvroAnalyzer.analyze_schema s j).missing_docs = [] ∧
     (AvroAnalyzer.analyze_schema s j).coverage_percent = 100) ∧
    ((JsonSchemaAnalyzer.analyze_schema s (.obj [])).total_elements = 0 ∧
     (JsonSchemaAnalyzer.analyze_schema s (.obj [])).missing_docs = [] ∧
     (JsonSchemaAnalyzer.analyze_schema s (.obj [])).coverage_percent = 100) ∧
    ((ProtobufAnalyzer.analyze_schema s "").total_elements = 0 ∧
     (ProtobufAnalyzer.analyze_schema s "").missing_docs = [] ∧
     (ProtobufAnalyzer.analyze_schema s "").coverage_percent = 100) := by
  have hproto : ∀ kw, scanBlocks kw ("".data) = [] := by
    intro kw
    rw [show ("".data : List Char) = [] from rfl, scanBlocks]
  refine ⟨⟨?_, ?_, ?_⟩, ⟨rfl, rfl, rfl⟩, ⟨?_, ?_, ?_⟩⟩
  · rw [AvroAnalyzer.analyze_schema]
    simp [hr, he]
  · rw [AvroAnalyzer.analyze_schema]
    simp [hr, he]
  · rw [AnalysisResult.coverage_percent, AvroAnalyzer.analyze_schema]
    simp [hr, he]
  · simp [ProtobufAnalyzer.analyze_schema, ProtobufAnalyzer.parse_messages,
      ProtobufAnalyzer.parse_enums, ProtobufAnalyzer.count_messages,
      ProtobufAnalyzer.count_enums, hproto]
  · simp [ProtobufAnalyzer.analyze_schema, ProtobufAnalyzer.parse_messages,
      ProtobufAnalyzer.parse_enums, ProtobufAnalyzer.count_messages,
      ProtobufAnalyzer.count_enums, hproto]
  · simp [ProtobufAnalyzer.analyze_schema, ProtobufAnalyzer.parse_messages,
      ProtobufAnalyzer.parse_enums, ProtobufAnalyzer.count_messages,
      ProtobufAnalyzer.count_enums, hproto, AnalysisResult.coverage_percent]

/-- Witness for C9 at the empty schema `{}`. -/
theorem C9_zero_element_witness :
    ((AvroAnalyzer.analyze_schema "orders" (.obj [])).total_elements = 0 ∧
     (AvroAnalyzer.analyze_schema "orders" (.obj [])).missing_docs = [] ∧
     (AvroAnalyzer.analyze_schema "orders" (.obj [])).coverage_percent = 100) ∧
    ((JsonSchemaAnalyzer.analyze_schema "orders" (.obj [])).total_elements = 0 ∧
     (JsonSchemaAnalyzer.analyze_schema "orders" (.obj [])).missing_docs = [] ∧
     (JsonSchemaAnalyzer.analyze_schema "orders" (.obj [])).coverage_percent = 100) ∧
    ((ProtobufAnalyzer.analyze_schema "orders" "").total_elements = 0 ∧
     (ProtobufAnalyzer.analyze_schema "orders" "").missing_docs = [] ∧
     (ProtobufAnalyzer.analyze_schema "orders" "").coverage_percent = 100) :=
  C9_zero_element "orders" (.obj []) rfl rfl

/-- C10.  An unrecognized minimum-confidence string maps to level 1, the
level of `low`, so both patchers behave exactly as with threshold `low`. -/
theorem C10_unknown_threshold (schema : PyVal) (docs : List GeneratedDoc)
    (fp : String) (mc : String) (subj : Option String)
    (h1 : mc ≠ "high") (h2 : mc ≠ "medium") (h3 : mc ≠ "low") :
    SchemaUpdater.apply_documentation schema docs fp mc =
      SchemaUpdater.apply_documentation schema docs fp "low" ∧
    JsonSchemaUpdater.apply_documentation schema docs fp mc subj =
      JsonSchemaUpdater.apply_documentation schema docs fp "low" subj := by
  have hf : filter_by_confidence docs mc = filter_by_confidence docs "low" := by
    unfold filter_by_confidence confidence_level
    simp [h1, h2, h3]
  constructor
  · unfold SchemaUpdater.apply_documentation
    rw [hf]
  · unfold JsonSchemaUpdater.apply_documentation
    rw [hf]

/-- Witness for C10 at the threshold string `"banana"`. -/
theorem C10_unknown_threshold_witness :
    SchemaUpdater.apply_documentation tierSchema tierDocs "t.avsc" "banana" =
      SchemaUpdater.apply_documentation tierSchema tierDocs "t.avsc" "low" ∧
    JsonSchemaUpdater.apply_documentation tierSchema tierDocs "t.avsc" "banana" (some "T") =
      JsonSchemaUpdater.apply_documentation tierSchema tierDocs "t.avsc" "low" (some "T") :=
  C10_unknown_threshold tierSchema tierDocs "t.avsc" "banana" (some "T")
    (by decide) (by decide) (by decide)

theorem confidence_level_pos {s : String} (h : 1 ≤ confidence_level s 0) :
    s = "high" ∨ s = "medium" ∨ s = "low" := by
  unfold confidence_level at h
  split_ifs at h <;> simp_all

/-- C5.  Confidence filtering: under a recognized threshold an entry passes
the shared filter iff its tier is recognized and its level is at or above
the threshold's; an entry with an unrecognized tier never passes, under any
threshold string; and on three distinct undocumented paths documented at
`high`/`medium`/`low`, the patchers apply exactly 1, 2 and 3 changes at
thresholds `high`, `medium` and `low` respectively (shown for both
dialects). -/
theorem C5_confidence_filtering :
    (∀ (docs : List GeneratedDoc) (d : GeneratedDoc) (mc : String),
      (mc = "high" ∨ mc = "medium" ∨ mc = "low") → d ∈ docs →
      (d ∈ filter_by_confidence docs mc ↔
        ((d.confidence = "high" ∨ d.confidence = "medium" ∨ d.confidence = "low") ∧
         confidence_level mc 0 ≤ confidence_level d.confidence 0))) ∧
    (∀ (docs : List GeneratedDoc) (d : GeneratedDoc) (mc : String),
      d.confidence ≠ "high" → d.confidence ≠ "medium" → d.confidence ≠ "low" →
      d ∉ filter_by_confidence docs mc) ∧
    ((SchemaUpdater.apply_documentation tierSchema tierDocs "t.avsc" "high").map
        (fun u => u.changes_summary.length) = some 1 ∧
     (SchemaUpdater.apply_documentation tierSchema tierDocs "t.avsc" "medium").map
        (fun u => u.changes_summary.length) = some 2 ∧
     (SchemaUpdater.apply_documentation tierSchema tierDocs "t.avsc" "low").map
        (fun u => u.changes_summary.length) = some 3) ∧
    ((JsonSchemaUpdater.apply_documentation tierObjSchema tierObjDocs "t.json" "high"
        (some "O")).map (fun u => u.changes_summary.length) = some 1 ∧
     (JsonSchemaUpdater.apply_documentation tierObjSchema tierObjDocs "t.json" "medium"
        (some "O")).map (fun u => u.changes_summary.length) = some 2 ∧
     (JsonSchemaUpdater.apply_documentation tierObjSchema tierObjDocs "t.json" "low"
        (some "O")).map (fun u => u.changes_summary.length) = some 3) := by
  refine ⟨?_, ?_,
    ⟨by simp [SchemaUpdater.apply_documentation, SchemaUpdater.apply_to_record,
      SchemaUpdater.apply_fields, SchemaUpdater.apply_to_nested,
      SchemaUpdater.apply_union_variants, filter_by_confidence, confidence_level,
      docMapGet, patchNode, deepcopy, optAttach, PyVal.set, setEntries, PyVal.pyGet,
      PyVal.getD, PyVal.get?, PyVal.getStrD, PyVal.getList, PyVal.truthy,
      PyVal.isStr, List.lookup, tierSchema, tierDocs],
     by simp [SchemaUpdater.apply_documentation, SchemaUpdater.apply_to_record,
      SchemaUpdater.apply_fields, SchemaUpdater.apply_to_nested,
      SchemaUpdater.apply_union_variants, filter_by_confidence, confidence_level,
      docMapGet, patchNode, deepcopy, optAttach, PyVal.set, setEntries, PyVal.pyGet,
      PyVal.getD, PyVal.get?, PyVal.getStrD, PyVal.getList, PyVal.truthy,
      PyVal.isStr, List.lookup, tierSchema, tierDocs],
     by simp [SchemaUpdater.apply_documentation, SchemaUpdater.apply_to_record,
      SchemaUpdater.apply_fields, SchemaUpdater.apply_to_nested,
      SchemaUpdater.apply_union_variants, filter_by_confidence, confidence_level,
      docMapGet, patchNode, deepcopy, optAttach, PyVal.set, setEntries, PyVal.pyGet,
      PyVal.getD, PyVal.get?, PyVal.getStrD, PyVal.getList, PyVal.truthy,
      PyVal.isStr, List.lookup, tierSchema, tierDocs]⟩,
    ⟨by simp [JsonSchemaUpdater.apply_documentation, JsonSchemaUpdater.apply_to_object,
      JsonSchemaUpdater.apply_props, filter_by_confidence, confidence_level,
      docMapGet, patchNode, deepcopy, optAttach, PyVal.set, setEntries, PyVal.pyGet,
      PyVal.getD, PyVal.get?, PyVal.getStrD, PyVal.getEntries, PyVal.truthy,
      PyVal.isStr, List.lookup, tierObjSchema, tierObjDocs],
     by simp [JsonSchemaUpdater.apply_documentation, JsonSchemaUpdater.apply_to_object,
      JsonSchemaUpdater.apply_props, filter_by_confidence, confidence_level,
      docMapGet, patchNode, deepcopy, optAttach, PyVal.set, setEntries, PyVal.pyGet,
      PyVal.getD, PyVal.get?, PyVal.getStrD, PyVal.getEntries, PyVal.truthy,
      PyVal.isStr, List.lookup, tierObjSchema, tierObjDocs],
     by simp [JsonSchemaUpdater.apply_documentation, JsonSchemaUpdater.apply_to_object,
      JsonSchemaUpdater.apply_props, filter_by_confidence, confidence_level,
      docMapGet, patchNode, deepcopy, optAttach, PyVal.set, setEntries, PyVal.pyGet,
      PyVal.getD, PyVal.get?, PyVal.getStrD, PyVal.getEntries, PyVal.truthy,
      PyVal.isStr, List.lookup, tierObjSchema, tierObjDocs]⟩⟩
  · intro docs d mc hmc hd
    unfold filter_by_confidence
    rw [List.mem_filter]
    simp only [hd, true_and, decide_eq_true_eq]
    constructor
    · intro hpass
      have hrank : 1 ≤ confidence_level d.confidence 0 := by
        rcases hmc with h | h | h <;> subst h <;>
          simp [confidence_level] at hpass ⊢ <;> omega
      refine ⟨confidence_level_pos hrank, ?_⟩
      rcases hmc with h | h | h <;> subst h <;> simp [confidence_level] at hpass ⊢ <;> omega
    · intro ⟨hc, hle⟩
      rcases hmc with h | h | h <;> subst h <;> simp [confidence_level] at hle ⊢ <;> omega
  · intro docs d mc h1 h2 h3 hmem
    unfold filter_by_confidence at hmem
    rw [List.mem_filter] at hmem
    obtain ⟨-, hpass⟩ := hmem
    simp only [decide_eq_true_eq] at hpass
    have hz : confidence_level d.confidence 0 = 0 := by
      unfold confidence_level
      simp [h1, h2, h3]
    have ho : 1 ≤ confidence_level mc 1 := by
      unfold confidence_level
      split_ifs <;> omega
    omega

/-- Witness for C5's quantified parts at concrete entries. -/
theorem C5_confidence_filtering_witness :
    ((⟨"T.a", "field", "Field a", "high"⟩ : GeneratedDoc) ∈
        filter_by_confidence tierDocs "medium" ↔
      (((⟨"T.a", "field", "Field a", "high"⟩ : GeneratedDoc).confidence = "high" ∨
        (⟨"T.a", "field", "Field a", "high"⟩ : GeneratedDoc).confidence = "medium" ∨
        (⟨"T.a", "field", "Field a", "high"⟩ : GeneratedDoc).confidence = "low") ∧
       confidence_level "medium" 0 ≤
         confidence_level (⟨"T.a", "field", "Field a", "high"⟩ : GeneratedDoc).confidence 0)) ∧
    (⟨"T.a", "field", "Field a", "certain"⟩ : GeneratedDoc) ∉
      filter_by_confidence [⟨"T.a", "field", "Field a", "certain"⟩] "low" :=
  ⟨(C5_confidence_filtering.1 tierDocs ⟨"T.a", "field", "Field a", "high"⟩ "medium"
      (Or.inr (Or.inl rfl)) (by simp [tierDocs])),
   (C5_confidence_filtering.2.1 [⟨"T.a", "field", "Field a", "certain"⟩]
      ⟨"T.a", "field", "Field a", "certain"⟩ "low"
      (by decide) (by decide) (by decide))⟩
/-! Character-level forms of the concrete texts and keywords, for
evaluating the text-message scanner with `simp`. -/

theorem data_mk (l : List Char) : (String.mk l).data = l := rfl

theorem kwd_message : ("message".data) = ['m', 'e', 's', 's', 'a', 'g', 'e'] := rfl

theorem kwd_enum : ("enum".data) = ['e', 'n', 'u', 'm'] := rfl

theorem kwd_option : ("option".data) = ['o', 'p', 't', 'i', 'o', 'n'] := rfl

theorem kwd_description : ("description".data) = ['d', 'e', 's', 'c', 'r', 'i', 'p', 't', 'i', 'o', 'n'] := rfl

theorem kwd_doc : ("doc".data) = ['d', 'o', 'c'] := rfl

theorem kwd_comment : ("comment".data) = ['c', 'o', 'm', 'm', 'e', 'n', 't'] := rfl

theorem kwd_field_doc : ("field_doc".data) = ['f', 'i', 'e', 'l', 'd', '_', 'd', 'o', 'c'] := rfl

theorem kwd_confluent : ("confluent.field_meta".data) = ['c', 'o', 'n', 'f', 'l', 'u', 'e', 'n', 't', '.', 'f', 'i', 'e', 'l', 'd', '_', 'm', 'e', 't', 'a'] := rfl

theorem kwd_optional : ("optional".data) = ['o', 'p', 't', 'i', 'o', 'n', 'a', 'l'] := rfl

theorem kwd_required : ("required".data) = ['r', 'e', 'q', 'u', 'i', 'r', 'e', 'd'] := rfl

theorem kwd_repeated : ("repeated".data) = ['r', 'e', 'p', 'e', 'a', 't', 'e', 'd'] := rfl

theorem mk_nil : String.mk [] = ("" : String) := rfl

theorem mk_User : String.mk ['U', 's', 'e', 'r'] = ("User" : String) := rfl

theorem mk_id : String.mk ['i', 'd'] = ("id" : String) := rfl

theorem mk_string : String.mk ['s', 't', 'r', 'i', 'n', 'g'] = ("string" : String) := rfl

theorem mk_body1 : String.mk [' ', 's', 't', 'r', 'i', 'n', 'g', ' ', 'i', 'd', ' ', '=', ' ', '1', ';', ' '] = (" string id = 1; " : String) := rfl

theorem mk_body3 : String.mk [' ', 'o', 'p', 't', 'i', 'o', 'n', ' ', '(', 'd', 'o', 'c', ')', ' ', '=', ' ', '\"', 'A', ' ', 'u', 's', 'e', 'r', '\"', ';', ' ', 's', 't', 'r', 'i', 'n', 'g', ' ', 'i', 'd', ' ', '=', ' ', '1', ';', ' '] = (" option (doc) = \"A user\"; string id = 1; " : String) := rfl

theorem protoText_data : protoText.data =
    ['m', 'e', 's', 's', 'a', 'g', 'e', ' ', 'U', 's', 'e', 'r', ' ', '{', ' ', 's', 't', 'r', 'i', 'n', 'g', ' ', 'i', 'd', ' ', '=', ' ', '1', ';', ' ', '}'] := rfl

theorem protoTextCommented_data : protoTextCommented.data =
    ['/', '/', ' ', 'A', ' ', 'u', 's', 'e', 'r', '\n', 'm', 'e', 's', 's', 'a', 'g', 'e', ' ', 'U', 's', 'e', 'r', ' ', '{', ' ', 's', 't', 'r', 'i', 'n', 'g', ' ', 'i', 'd', ' ', '=', ' ', '1', ';', ' ', '}'] := rfl

theorem protoTextOption_data : protoTextOption.data =
    ['m', 'e', 's', 's', 'a', 'g', 'e', ' ', 'U', 's', 'e', 'r', ' ', '{', ' ', 'o', 'p', 't', 'i', 'o', 'n', ' ', '(', 'd', 'o', 'c', ')', ' ', '=', ' ', '\"', 'A', ' ', 'u', 's', 'e', 'r', '\"', ';', ' ', 's', 't', 'r', 'i', 'n', 'g', ' ', 'i', 'd', ' ', '=', ' ', '1', ';', ' ', '}'] := rfl



/-! ### Evaluation interface for the two well-founded scanners -/

theorem optAttach_eq_none {α : Type _} {o : Option α} (h : optAttach o = Option.none) :
    o = Option.none := by
  cases o with
  | none => rfl
  | some a => simp [optAttach] at h

theorem matchBlockAt_nil (kw : List Char) : matchBlockAt kw [] = Option.none := by
  cases kw <;> rfl

theorem scanBlocks_nil (kw : List Char) : scanBlocks kw [] = [] := by
  rw [scanBlocks]

theorem scanBlocks_cons_eq (kw : List Char) (c : Char) (rest : List Char) :
    scanBlocks kw (c :: rest) =
      match matchBlockAt kw (c :: rest) with
      | some (nm, body, r) => (nm, body) :: scanBlocks kw r
      | Option.none => scanBlocks kw rest := by
  rw [scanBlocks]
  rcases ho : optAttach (matchBlockAt kw (c :: rest)) with _ | ⟨⟨nm, body, r⟩, hv⟩
  · conv_rhs => rw [optAttach_eq_none ho]
  · conv_rhs => rw [hv]

theorem scanBlocks_eq_cons {kw cs : List Char} {nm body : String} {r : List Char}
    (h : matchBlockAt kw cs = some (nm, body, r)) :
    scanBlocks kw cs = (nm, body) :: scanBlocks kw r := by
  cases cs with
  | nil => rw [matchBlockAt_nil] at h; exact absurd h (by simp)
  | cons c rest => rw [scanBlocks_cons_eq, h]

theorem scanBlocks_cons_none {kw : List Char} {c : Char} {rest : List Char}
    (h : matchBlockAt kw (c :: rest) = Option.none) :
    scanBlocks kw (c :: rest) = scanBlocks kw rest := by
  rw [scanBlocks_cons_eq, h]

theorem scanBlocks_append_none {kw : List Char} (pre cs : List Char)
    (h : ∀ t ∈ pre.tails, t ≠ [] → matchBlockAt kw (t ++ cs) = Option.none) :
    scanBlocks kw (pre ++ cs) = scanBlocks kw cs := by
  induction pre with
  | nil => rfl
  | cons c p ih =>
    have h1 : matchBlockAt kw (c :: (p ++ cs)) = Option.none := by
      have := h (c :: p) (by rw [List.tails_cons]; exact List.mem_cons_self _ _) (by simp)
      simpa using this
    rw [List.cons_append, scanBlocks_cons_none h1]
    exact ih fun t ht hne => h t (by rw [List.tails_cons]; exact List.mem_cons_of_mem _ ht) hne

theorem scanBlocks_eq_nil {kw : List Char} (cs : List Char)
    (h : ∀ t ∈ cs.tails, matchBlockAt kw t = Option.none) :
    scanBlocks kw cs = [] := by
  have h2 := scanBlocks_append_none cs [] (fun t ht _ => by
    rw [List.append_nil]
    exact h t ht)
  rw [List.append_nil] at h2
  rw [h2, scanBlocks_nil]

theorem matchFieldAt_nil : matchFieldAt [] = Option.none := rfl

theorem scanFields_nil : scanFields [] = [] := by
  rw [scanFields]

theorem scanFields_cons_eq (c : Char) (rest : List Char) :
    scanFields (c :: rest) =
      match matchFieldAt (c :: rest) with
      | some (m, t, n, o, r) => (m, t, n, o) :: scanFields r
      | Option.none => scanFields rest := by
  rw [scanFields]
  rcases ho : optAttach (matchFieldAt (c :: rest)) with _ | ⟨⟨m, t, n, o, r⟩, hv⟩
  · conv_rhs => rw [optAttach_eq_none ho]
  · conv_rhs => rw [hv]

theorem scanFields_eq_cons {cs : List Char} {m : Option String} {t n o : String}
    {r : List Char} (h : matchFieldAt cs = some (m, t, n, o, r)) :
    scanFields cs = (m, t, n, o) :: scanFields r := by
  cases cs with
  | nil => rw [matchFieldAt_nil] at h; exact absurd h (by simp)
  | cons c rest => rw [scanFields_cons_eq, h]

theorem scanFields_cons_none {c : Char} {rest : List Char}
    (h : matchFieldAt (c :: rest) = Option.none) :
    scanFields (c :: rest) = scanFields rest := by
  rw [scanFields_cons_eq, h]

theorem scanFields_append_none (pre cs : List Char)
    (h : ∀ t ∈ pre.tails, t ≠ [] → (matchFieldAt (t ++ cs)).isNone = true) :
    scanFields (pre ++ cs) = scanFields cs := by
  induction pre with
  | nil => rfl
  | cons c p ih =>
    have h1 : matchFieldAt (c :: (p ++ cs)) = Option.none := by
      have := h (c :: p) (by rw [List.tails_cons]; exact List.mem_cons_self _ _) (by simp)
      rw [Option.isNone_iff_eq_none] at this
      simpa using this
    rw [List.cons_append, scanFields_cons_none h1]
    exact ih fun t ht hne => h t (by rw [List.tails_cons]; exact List.mem_cons_of_mem _ ht) hne

/-! ### Evaluation of the scanners on the three example texts -/

theorem matchBlock_msg_eval1 : matchBlockAt ("message".data) protoText.data =
    some ("User", " string id = 1; ", []) := rfl

theorem matchBlock_msg_eval3 : matchBlockAt ("message".data) protoTextOption.data =
    some ("User", " option (doc) = \"A user\"; string id = 1; ", []) := rfl

theorem matchField_eval_sid : matchFieldAt (" string id = 1; ".data) =
    some (Option.none, "string", "id", "", [' ']) := rfl

theorem matchField_eval_sp : matchFieldAt ([' '] : List Char) = Option.none := rfl

theorem parse_messages_eval1 :
    ProtobufAnalyzer.parse_messages protoText = [("User", " string id = 1; ", false)] := by
  simp only [ProtobufAnalyzer.parse_messages]
  rw [scanBlocks_eq_cons matchBlock_msg_eval1, scanBlocks_nil]
  rfl

theorem parse_messages_eval2 :
    ProtobufAnalyzer.parse_messages protoTextCommented =
      [("User", " string id = 1; ", false)] := by
  simp only [ProtobufAnalyzer.parse_messages]
  rw [show protoTextCommented.data = ("// A user\n".data) ++ protoText.data from rfl,
    scanBlocks_append_none _ _ (by decide), scanBlocks_eq_cons matchBlock_msg_eval1,
    scanBlocks_nil]
  rfl

theorem parse_messages_eval3 :
    ProtobufAnalyzer.parse_messages protoTextOption =
      [("User", " option (doc) = \"A user\"; string id = 1; ", true)] := by
  simp only [ProtobufAnalyzer.parse_messages]
  rw [scanBlocks_eq_cons matchBlock_msg_eval3, scanBlocks_nil]
  rfl

theorem parse_enums_eval1 : ProtobufAnalyzer.parse_enums protoText = [] := by
  simp only [ProtobufAnalyzer.parse_enums]
  rw [scanBlocks_eq_nil _ (by decide)]
  rfl

theorem parse_enums_eval2 : ProtobufAnalyzer.parse_enums protoTextCommented = [] := by
  simp only [ProtobufAnalyzer.parse_enums]
  rw [scanBlocks_eq_nil _ (by decide)]
  rfl

theorem parse_enums_eval3 : ProtobufAnalyzer.parse_enums protoTextOption = [] := by
  simp only [ProtobufAnalyzer.parse_enums]
  rw [scanBlocks_eq_nil _ (by decide)]
  rfl

theorem parse_fields_eval_body1 :
    ProtobufAnalyzer.parse_fields " string id = 1; " = [("id", "string", false)] := by
  simp only [ProtobufAnalyzer.parse_fields]
  rw [scanFields_eq_cons matchField_eval_sid, scanFields_cons_none matchField_eval_sp,
    scanFields_nil]
  rfl

theorem parse_fields_eval_body3 :
    ProtobufAnalyzer.parse_fields " option (doc) = \"A user\"; string id = 1; " =
      [("id", "string", false)] := by
  simp only [ProtobufAnalyzer.parse_fields]
  rw [show ([' ', 'o', 'p', 't', 'i', 'o', 'n', ' ', '(', 'd', 'o', 'c', ')', ' ', '=', ' ', '\"', 'A', ' ', 'u', 's', 'e', 'r', '\"', ';', ' ', 's', 't', 'r', 'i', 'n', 'g', ' ', 'i', 'd', ' ', '=', ' ', '1', ';', ' '] : List Char) =
        ((" option (doc) = \"A user\";").data) ++ (" string id = 1; ".data) from rfl,
    scanFields_append_none ((" option (doc) = \"A user\";").data)
      (" string id = 1; ".data) (by decide),
    scanFields_eq_cons matchField_eval_sid, scanFields_cons_none matchField_eval_sp,
    scanFields_nil]
  rfl

theorem protoText_analysis :
    ProtobufAnalyzer.analyze_schema "User" protoText =
      ⟨"User", .obj [("raw", .str protoText)],
       [⟨"User", "message", "User", "message", PyVal.none,
          [("proto_type", PyVal.str "message")]⟩,
        ⟨"User.id", "field", "id", "string", PyVal.none,
          [("proto_type", PyVal.str "string")]⟩],
       2, 0⟩ := by
  simp only [ProtobufAnalyzer.analyze_schema, parse_messages_eval1, parse_enums_eval1,
    ProtobufAnalyzer.count_messages, ProtobufAnalyzer.count_enums, parse_fields_eval_body1,
    ProtobufAnalyzer.count_fields]
  rfl

theorem protoTextCommented_analysis :
    ProtobufAnalyzer.analyze_schema "User" protoTextCommented =
      ⟨"User", .obj [("raw", .str protoTextCommented)],
       [⟨"User", "message", "User", "message", PyVal.none,
          [("proto_type", PyVal.str "message")]⟩,
        ⟨"User.id", "field", "id", "string", PyVal.none,
          [("proto_type", PyVal.str "string")]⟩],
       2, 0⟩ := by
  simp only [ProtobufAnalyzer.analyze_schema, parse_messages_eval2, parse_enums_eval2,
    ProtobufAnalyzer.count_messages, ProtobufAnalyzer.count_enums, parse_fields_eval_body1,
    ProtobufAnalyzer.count_fields]
  rfl

theorem protoTextOption_analysis :
    ProtobufAnalyzer.analyze_schema "User" protoTextOption =
      ⟨"User", .obj [("raw", .str protoTextOption)],
       [⟨"User.id", "field", "id", "string", PyVal.none,
          [("proto_type", PyVal.str "string")]⟩],
       2, 1⟩ := by
  simp only [ProtobufAnalyzer.analyze_schema, parse_messages_eval3, parse_enums_eval3,
    ProtobufAnalyzer.count_messages, ProtobufAnalyzer.count_enums, parse_fields_eval_body3,
    ProtobufAnalyzer.count_fields]
  rfl

/-- **C4** (counterexample).  The claim says that prefixing
`message User { string id = 1; }` with the single-line comment `// A user`
and re-analyzing increases `documented_elements` by exactly 1.  In the code
`_has_doc_option` checks only the five option-annotation patterns and
`_parse_messages` never inspects comments, so the comment leaves
`documented_elements` unchanged at 0. -/
theorem C4_counterexample :
    ¬ ((ProtobufAnalyzer.analyze_schema "User" protoTextCommented).documented_elements =
        (ProtobufAnalyzer.analyze_schema "User" protoText).documented_elements + 1) := by
  rw [protoTextCommented_analysis, protoText_analysis]
  decide

/-- **C4** (amended).  Text-dialect example, as the code behaves: analyzing
`message User { string id = 1; }` reports exactly one missing-doc entry for
the message `User` and one for the field `id` and counts nothing as
documented; prefixing the declaration with the comment `// A user` changes
neither `documented_elements` nor the reported entries, because only option
annotations count as documentation; embedding the option annotation
`option (doc) = "A user"` in the message body instead raises
`documented_elements` by exactly 1 and leaves only the field entry. -/
theorem C4_text_dialect_amended :
    ((ProtobufAnalyzer.analyze_schema "User" protoText).missing_docs.map
        (fun d => (d.path, d.element_type)) =
      [("User", "message"), ("User.id", "field")]) ∧
    ((ProtobufAnalyzer.analyze_schema "User" protoText).documented_elements = 0) ∧
    ((ProtobufAnalyzer.analyze_schema "User" protoTextCommented).documented_elements =
      (ProtobufAnalyzer.analyze_schema "User" protoText).documented_elements) ∧
    ((ProtobufAnalyzer.analyze_schema "User" protoTextCommented).missing_docs.map
        (fun d => (d.path, d.element_type)) =
      (ProtobufAnalyzer.analyze_schema "User" protoText).missing_docs.map
        (fun d => (d.path, d.element_type))) ∧
    ((ProtobufAnalyzer.analyze_schema "User" protoTextOption).documented_elements =
      (ProtobufAnalyzer.analyze_schema "User" protoText).documented_elements + 1) ∧
    ((ProtobufAnalyzer.analyze_schema "User" protoTextOption).missing_docs.map
        (fun d => (d.path, d.element_type)) = [("User.id", "field")]) := by
  rw [protoText_analysis, protoTextCommented_analysis, protoTextOption_analysis]
  exact ⟨rfl, rfl, rfl, rfl, rfl, rfl⟩

theorem avroArraySchema_paths :
    (AvroAnalyzer.analyze_schema "R" arrayFieldSchema).missing_docs.map
        (fun d => d.path) = ["R", "R.f", "R.f.N"] := by
  simp [AvroAnalyzer.analyze_schema, AvroAnalyzer.analyze_record,
    AvroAnalyzer.analyze_fields, AvroAnalyzer.analyze_nested_types,
    AvroAnalyzer.analyze_union_variants, simplify_type, simplify_type_list,
    optAttach, PyVal.pyGet, PyVal.getD, PyVal.get?, PyVal.getStrD, PyVal.getList,
    PyVal.truthy, PyVal.isStr, List.lookup, arrayFieldSchema]

theorem jsonArraySchema_paths :
    (JsonSchemaAnalyzer.analyze_schema "root" arrayPropSchema).missing_docs.map
        (fun d => d.path) = ["root", "root.tags", "root.tags[]", "root.tags[].label"] := by
  simp [JsonSchemaAnalyzer.analyze_schema, JsonSchemaAnalyzer.analyze_object,
    JsonSchemaAnalyzer.analyze_props, JsonSchemaAnalyzer.get_type_string,
    JsonSchemaAnalyzer.get_connect_type, optAttach, PyVal.pyGet, PyVal.getD,
    PyVal.get?, PyVal.getStrD, PyVal.getEntries, PyVal.truthy, PyVal.isStr,
    List.lookup, arrayPropSchema]

theorem avro_array_items_path (kvs : List (String × PyVal)) (items : PyVal) (pathPre : String)
    (ha : (PyVal.obj kvs).pyGet "type" = .str "array")
    (hi : (PyVal.obj kvs).get? "items" = some items) :
    AvroAnalyzer.analyze_nested_types (.obj kvs) pathPre =
      AvroAnalyzer.analyze_nested_types items pathPre := by
  rw [AvroAnalyzer.analyze_nested_types]
  have hrec : ((PyVal.obj kvs).pyGet "type").isStr "record" = false := by rw [ha]; rfl
  have harr : ((PyVal.obj kvs).pyGet "type").isStr "array" = true := by rw [ha]; rfl
  simp only [hrec, harr, Bool.false_eq_true, if_false, if_true]
  rcases ho : optAttach ((PyVal.obj kvs).get? "items") with _ | ⟨it, hit⟩
  · exact absurd (hi.symm.trans (optAttach_eq_none ho)) (by simp)
  · have : it = items := by
      rw [hit] at hi
      exact (Option.some.injEq _ _).mp hi
    subst this
    rfl

theorem json_array_items_path (pn : String) (ps : PyVal) (rest : List (String × PyVal))
    (path : String) (itemsJ : PyVal)
    (hpo : (ps.pyGet "type").isStr "object" = false)
    (hpa : (ps.pyGet "type").isStr "array" = true)
    (hpi : ps.get? "items" = some itemsJ)
    (hio : (itemsJ.pyGet "type").isStr "object" = true) :
    (JsonSchemaAnalyzer.analyze_props ((pn, ps) :: rest) path).1 =
      (if (ps.pyGet "description").truthy then []
       else [⟨path ++ "." ++ pn, "property", pn, JsonSchemaAnalyzer.get_type_string ps,
              [("connect_index", ps.pyGet "connect.index"),
               ("connect_type", JsonSchemaAnalyzer.get_connect_type ps)]⟩]) ++
      (JsonSchemaAnalyzer.analyze_object itemsJ ((path ++ "." ++ pn) ++ "[]")).1 ++
      (JsonSchemaAnalyzer.analyze_props rest path).1 := by
  rw [JsonSchemaAnalyzer.analyze_props]
  simp only [hpo, hpa, Bool.false_eq_true, if_false, if_true]
  rcases ho : optAttach (ps.get? "items") with _ | ⟨it, hit⟩
  · exact absurd (hpi.symm.trans (optAttach_eq_none ho)) (by simp)
  · have : it = itemsJ := by
      rw [hit] at hpi
      exact (Option.some.injEq _ _).mp hpi
    subst this
    simp only [hio, if_true]
    by_cases hd : (ps.pyGet "description").truthy <;> simp [hd]

/-- **C3** (counterexample).  In the record-tree dialect the item record of
the array-typed field `f` of record `R` is reported at `R.f.N` — the
analyzer descends into array items with the parent path unchanged — and no
descriptor carries the `R.f[].N` path the claimed `{field_path}[]` rule
would construct. -/
theorem C3_counterexample :
    ((AvroAnalyzer.analyze_schema "R" arrayFieldSchema).missing_docs.map
        (fun d => d.path) = ["R", "R.f", "R.f.N"]) ∧
    "R.f[].N" ∉ (AvroAnalyzer.analyze_schema "R" arrayFieldSchema).missing_docs.map
        (fun d => d.path) := by
  refine ⟨avroArraySchema_paths, ?_⟩
  rw [avroArraySchema_paths]
  decide

/-- **C3** (amended).  The `{field_path}[]` array path rule holds only in
the object-tree dialect: there, a property whose type is `array` and whose
`items` schema is an object is descended into with `{prop_path}[]` as the
new parent path.  The record-tree dialect instead descends into array items
with the parent path unchanged, so nested records under an array field get
paths without any `[]` marker. -/
theorem C3_array_path_amended (kvs : List (String × PyVal)) (items : PyVal)
    (pathPre : String) (pn : String) (ps : PyVal) (rest : List (String × PyVal))
    (path : String) (itemsJ : PyVal)
    (ha : (PyVal.obj kvs).pyGet "type" = .str "array")
    (hi : (PyVal.obj kvs).get? "items" = some items)
    (hpo : (ps.pyGet "type").isStr "object" = false)
    (hpa : (ps.pyGet "type").isStr "array" = true)
    (hpi : ps.get? "items" = some itemsJ)
    (hio : (itemsJ.pyGet "type").isStr "object" = true) :
    (AvroAnalyzer.analyze_nested_types (.obj kvs) pathPre =
      AvroAnalyzer.analyze_nested_types items pathPre) ∧
    ((JsonSchemaAnalyzer.analyze_props ((pn, ps) :: rest) path).1 =
      (if (ps.pyGet "description").truthy then []
       else [⟨path ++ "." ++ pn, "property", pn, JsonSchemaAnalyzer.get_type_string ps,
              [("connect_index", ps.pyGet "connect.index"),
               ("connect_type", JsonSchemaAnalyzer.get_connect_type ps)]⟩]) ++
      (JsonSchemaAnalyzer.analyze_object itemsJ ((path ++ "." ++ pn) ++ "[]")).1 ++
      (JsonSchemaAnalyzer.analyze_props rest path).1) ∧
    ((AvroAnalyzer.analyze_schema "R" arrayFieldSchema).missing_docs.map
        (fun d => d.path) = ["R", "R.f", "R.f.N"]) ∧
    ((JsonSchemaAnalyzer.analyze_schema "root" arrayPropSchema).missing_docs.map
        (fun d => d.path) = ["root", "root.tags", "root.tags[]", "root.tags[].label"]) :=
  ⟨avro_array_items_path kvs items pathPre ha hi,
   json_array_items_path pn ps rest path itemsJ hpo hpa hpi hio,
   avroArraySchema_paths, jsonArraySchema_paths⟩

/-- Witness for C3's amended rule at the array field of `arrayFieldSchema`
and the array property of `arrayPropSchema`. -/
theorem C3_array_path_amended_witness :
    (AvroAnalyzer.analyze_nested_types
        (.obj [("type", .str "array"),
               ("items", .obj [("type", .str "record"), ("name", .str "N"),
                 ("fields", .arr [])])]) "R.f" =
      AvroAnalyzer.analyze_nested_types
        (.obj [("type", .str "record"), ("name", .str "N"), ("fields", .arr [])]) "R.f") ∧
    ((JsonSchemaAnalyzer.analyze_props
        [("tags", .obj [("type", .str "array"),
           ("items", .obj [("type", .str "object"),
             ("properties", .obj [("label", .obj [("type", .str "string")])])])])]
        "root").1 =
      (if ((PyVal.obj [("type", .str "array"),
           ("items", .obj [("type", .str "object"),
             ("properties", .obj [("label", .obj [("type", .str "string")])])])]).pyGet
             "description").truthy then []
       else [⟨"root" ++ "." ++ "tags", "property", "tags",
              JsonSchemaAnalyzer.get_type_string
                (.obj [("type", .str "array"),
                  ("items", .obj [("type", .str "object"),
                    ("properties", .obj [("label", .obj [("type", .str "string")])])])]),
              [("connect_index",
                ((PyVal.obj [("type", .str "array"),
                  ("items", .obj [("type", .str "object"),
                    ("properties", .obj [("label", .obj [("type", .str "string")])])])]).pyGet
                  "connect.index")),
               ("connect_type",
                JsonSchemaAnalyzer.get_connect_type
                  (.obj [("type", .str "array"),
                    ("items", .obj [("type", .str "object"),
                      ("properties", .obj [("label", .obj [("type", .str "string")])])])]))]⟩]) ++
      (JsonSchemaAnalyzer.analyze_object
        (.obj [("type", .str "object"),
          ("properties", .obj [("label", .obj [("type", .str "string")])])])
        (("root" ++ "." ++ "tags") ++ "[]")).1 ++
      (JsonSchemaAnalyzer.analyze_props [] "root").1) ∧
    ((AvroAnalyzer.analyze_schema "R" arrayFieldSchema).missing_docs.map
        (fun d => d.path) = ["R", "R.f", "R.f.N"]) ∧
    ((JsonSchemaAnalyzer.analyze_schema "root" arrayPropSchema).missing_docs.map
        (fun d => d.path) = ["root", "root.tags", "root.tags[]", "root.tags[].label"]) :=
  C3_array_path_amended
    [("type", .str "array"),
     ("items", .obj [("type", .str "record"), ("name", .str "N"), ("fields", .arr [])])]
    (.obj [("type", .str "record"), ("name", .str "N"), ("fields", .arr [])]) "R.f"
    "tags"
    (.obj [("type", .str "array"),
      ("items", .obj [("type", .str "object"),
        ("properties", .obj [("label", .obj [("type", .str "string")])])])])
    [] "root"
    (.obj [("type", .str "object"),
      ("properties", .obj [("label", .obj [("type", .str "string")])])])
    rfl rfl rfl rfl rfl rfl

/-- **C6**.  No-changes signalling, in both dialects: an empty
confidence-filtered entry set gives the no-changes signal immediately; a
`SchemaUpdate` is returned exactly when the underlying patch pass logged at
least one change, and it carries precisely those change lines; in every
other case the patcher signals "no changes" instead of returning an empty
update. -/
theorem C6_no_changes_signal (schema : PyVal) (docs : List GeneratedDoc)
    (fp mc : String) (subj : Option String) :
    ((filter_by_confidence docs mc = []) →
      SchemaUpdater.apply_documentation schema docs fp mc = Option.none ∧
      JsonSchemaUpdater.apply_documentation schema docs fp mc subj = Option.none) ∧
    (∀ u, SchemaUpdater.apply_documentation schema docs fp mc = some u →
      u.changes_summary ≠ [] ∧
      u.changes_summary = (SchemaUpdater.apply_to_record schema
        (schema.getStrD "name" "unknown") (filter_by_confidence docs mc)).2) ∧
    (SchemaUpdater.apply_documentation schema docs fp mc = Option.none ↔
      (filter_by_confidence docs mc = [] ∨
       (SchemaUpdater.apply_to_record schema (schema.getStrD "name" "unknown")
         (filter_by_confidence docs mc)).2 = [])) ∧
    (∀ u, JsonSchemaUpdater.apply_documentation schema docs fp mc subj = some u →
      u.changes_summary ≠ [] ∧
      u.changes_summary = (JsonSchemaUpdater.apply_to_object schema
        (match subj with
         | some s => if s = "" then ((fp.splitOn "/").getLastD "").replace ".json" "" else s
         | Option.none => ((fp.splitOn "/").getLastD "").replace ".json" "")
        (filter_by_confidence docs mc)).2) ∧
    (JsonSchemaUpdater.apply_documentation schema docs fp mc subj = Option.none ↔
      (filter_by_confidence docs mc = [] ∨
       (JsonSchemaUpdater.apply_to_object schema
         (match subj with
          | some s => if s = "" then ((fp.splitOn "/").getLastD "").replace ".json" "" else s
          | Option.none => ((fp.splitOn "/").getLastD "").replace ".json" "")
         (filter_by_confidence docs mc)).2 = [])) := by
  unfold SchemaUpdater.apply_documentation JsonSchemaUpdater.apply_documentation
  rcases hf : filter_by_confidence docs mc with _ | ⟨d0, ds⟩
  · simp [deepcopy]
  · set bp := (match subj with
      | some s => if s = "" then ((fp.splitOn "/").getLastD "").replace ".json" "" else s
      | Option.none => ((fp.splitOn "/").getLastD "").replace ".json" "") with hbp
    simp only [List.isEmpty_cons, deepcopy, if_false, Bool.false_eq_true, reduceCtorEq,
      false_or]
    refine ⟨by simp, ?_, ?_, ?_, ?_⟩
    · intro u hu
      rcases he : (SchemaUpdater.apply_to_record schema
          (schema.getStrD "name" "unknown") (d0 :: ds)).2.isEmpty with _ | _
      · rw [he] at hu
        simp at hu
        subst hu
        refine ⟨fun hnil => ?_, rfl⟩
        simp only [SchemaUpdate.mk.injEq] at hnil
        rw [hnil] at he
        simp at he
      · rw [he] at hu
        simp at hu
    · constructor
      · intro h
        rcases he : (SchemaUpdater.apply_to_record schema
            (schema.getStrD "name" "unknown") (d0 :: ds)).2.isEmpty with _ | _
        · rw [he] at h
          simp at h
        · simpa using he
      · intro h
        simp [List.isEmpty_iff.mpr h]
    · intro u hu
      rcases he : (JsonSchemaUpdater.apply_to_object schema bp (d0 :: ds)).2.isEmpty with _ | _
      · rw [he] at hu
        simp at hu
        subst hu
        refine ⟨fun hnil => ?_, rfl⟩
        simp only [SchemaUpdate.mk.injEq] at hnil
        rw [hnil] at he
        simp at he
      · rw [he] at hu
        simp at hu
    · constructor
      · intro h
        rcases he : (JsonSchemaUpdater.apply_to_object schema bp (d0 :: ds)).2.isEmpty with _ | _
        · rw [he] at h
          simp at h
        · simpa using he
      · intro h
        simp [List.isEmpty_iff.mpr h]

/-- Witness for C6: an entry set whose only tier is unrecognized filters to
empty, and both patchers signal "no changes". -/
theorem C6_no_changes_signal_witness :
    SchemaUpdater.apply_documentation tierSchema
      [⟨"T.a", "field", "Doc", "certain"⟩] "t.avsc" "low" = Option.none ∧
    JsonSchemaUpdater.apply_documentation tierSchema
      [⟨"T.a", "field", "Doc", "certain"⟩] "t.json" "low" (some "O") = Option.none :=
  (C6_no_changes_signal tierSchema [⟨"T.a", "field", "Doc", "certain"⟩]
    "t.avsc" "low" (some "O")).1 rfl

/-! ### Dictionary-write lemmas for the patch/analyze relation -/

theorem lookup_setEntries_same (kvs : List (String × PyVal)) (k : String) (v : PyVal) :
    (setEntries kvs k v).lookup k = some v := by
  induction kvs with
  | nil => simp [setEntries, List.lookup]
  | cons kv rest ih =>
    obtain ⟨k', v'⟩ := kv
    by_cases h : k' = k
    · subst h
      simp [setEntries, List.lookup]
    · have hb : (k == k') = false := by simp [Ne.symm h]
      simp [setEntries, h, List.lookup, hb, ih]

theorem lookup_setEntries_ne (kvs : List (String × PyVal)) {k k' : String} (v : PyVal)
    (h : k' ≠ k) : (setEntries kvs k v).lookup k' = kvs.lookup k' := by
  have hb : (k' == k) = false := by simp [h]
  induction kvs with
  | nil => simp [setEntries, List.lookup, hb]
  | cons kv rest ih =>
    obtain ⟨k0, v0⟩ := kv
    by_cases h0 : k0 = k
    · subst h0
      simp [setEntries, List.lookup, hb]
    · by_cases h1 : k' = k0
      · subst h1
        simp [setEntries, h0, List.lookup]
      · have hb1 : (k' == k0) = false := by simp [h1]
        simp [setEntries, h0, List.lookup, hb1, ih]

theorem setEntries_self {kvs : List (String × PyVal)} {k : String} {v : PyVal}
    (h : kvs.lookup k = some v) : setEntries kvs k v = kvs := by
  induction kvs with
  | nil => simp [List.lookup] at h
  | cons kv rest ih =>
    obtain ⟨k0, v0⟩ := kv
    by_cases h0 : k0 = k
    · subst h0
      simp [List.lookup] at h
      simp [setEntries, h]
    · have hb : (k == k0) = false := by simp [Ne.symm h0]
      simp [List.lookup, hb] at h
      simp [setEntries, h0, ih h]

theorem PyVal.get?_set_same (kvs : List (String × PyVal)) (k : String) (v : PyVal) :
    ((PyVal.obj kvs).set k v).get? k = some v := by
  simp [PyVal.set, PyVal.get?, lookup_setEntries_same]

theorem PyVal.get?_set_ne (j : PyVal) {k k' : String} (v : PyVal) (h : k' ≠ k) :
    (j.set k v).get? k' = j.get? k' := by
  cases j <;> simp [PyVal.set, PyVal.get?]
  exact lookup_setEntries_ne _ v h

theorem PyVal.set_self {j : PyVal} {k : String} {v : PyVal}
    (h : j.get? k = some v) : j.set k v = j := by
  cases j <;> simp [PyVal.get?] at h
  simp [PyVal.set, setEntries_self h]

theorem PyVal.pyGet_set_ne (j : PyVal) {k k' : String} (v : PyVal) (h : k' ≠ k) :
    (j.set k v).pyGet k' = j.pyGet k' := by
  simp [PyVal.pyGet, PyVal.getD, PyVal.get?_set_ne j v h]

theorem PyVal.pyGet_set_same (kvs : List (String × PyVal)) (k : String) (v : PyVal) :
    ((PyVal.obj kvs).set k v).pyGet k = v := by
  simp [PyVal.pyGet, PyVal.getD, PyVal.get?_set_same]

theorem PyVal.getStrD_set_ne (j : PyVal) {k k' : String} (v : PyVal) (d : String)
    (h : k' ≠ k) : (j.set k v).getStrD k' d = j.getStrD k' d := by
  simp [PyVal.getStrD, PyVal.get?_set_ne j v h]

theorem PyVal.getList_set_ne (j : PyVal) {k k' : String} (v : PyVal)
    (h : k' ≠ k) : (j.set k v).getList k' = j.getList k' := by
  simp [PyVal.getList, PyVal.get?_set_ne j v h]

theorem PyVal.getEntries_set_ne (j : PyVal) {k k' : String} (v : PyVal)
    (h : k' ≠ k) : (j.set k v).getEntries k' = j.getEntries k' := by
  simp [PyVal.getEntries, PyVal.get?_set_ne j v h]

theorem PyVal.truthy_str_of_ne {s : String} (h : s ≠ "") :
    PyVal.truthy (.str s) = true := by
  have he : s.isEmpty = false := by
    rcases hs : s.isEmpty with _ | _
    · rfl
    · exact absurd ((String.isEmpty_iff s).mp hs) h
  simp [PyVal.truthy, he]

theorem docMapGet_mem {dm : List GeneratedDoc} {p : String} {gd : GeneratedDoc}
    (h : docMapGet dm p = some gd) : gd ∈ dm := by
  have aux : ∀ (l : List GeneratedDoc) (init : Option GeneratedDoc),
      l.foldl (fun acc d => if d.path = p then some d else acc) init = some gd →
      gd ∈ l ∨ init = some gd := by
    intro l
    induction l with
    | nil => intro init h0; exact Or.inr h0
    | cons d rest ih =>
      intro init h0
      rcases ih _ h0 with hm | hi
      · exact Or.inl (List.mem_cons_of_mem _ hm)
      · by_cases hp : d.path = p
        · simp [hp] at hi
          subst hi
          exact Or.inl (List.mem_cons_self _ _)
        · simp [hp] at hi
          exact Or.inr hi
  rcases aux dm Option.none h with hm | hi
  · exact hm
  · simp at hi

/-- Whether a generated-documentation map holds an entry for a path. -/
def docHit (dm : List GeneratedDoc) (p : String) : Bool :=
  (docMapGet dm p).isSome

/-! ### Plain-match unfolding equations for the patchers and analyzers -/

theorem apply_to_record_eq (record : PyVal) (rp : String) (dm : List GeneratedDoc) :
    SchemaUpdater.apply_to_record record rp dm =
      (let recordName := record.getStrD "name" "unknown"
       let step1 : PyVal × List String :=
         if !(record.pyGet "doc").truthy then
           match docMapGet dm rp with
           | some gd =>
             patchNode record "doc" gd.documentation
               ("Added doc to record `" ++ recordName ++ "` [" ++ gd.confidence ++ "]")
           | Option.none => (record, [])
         else (record, [])
       match record.get? "fields" with
       | some (.arr flds) =>
         let res := SchemaUpdater.apply_fields flds rp recordName dm
         (step1.1.set "fields" (.arr res.1), step1.2 ++ res.2)
       | _ => (step1.1, step1.2)) := by
  rw [SchemaUpdater.apply_to_record]
  rcases ho : optAttach (record.get? "fields") with _ | ⟨v, hv⟩
  · conv_rhs => rw [optAttach_eq_none ho]
  · conv_rhs => rw [hv]
    cases v <;> rfl

theorem apply_fields_cons_eq (fld : PyVal) (rest : List PyVal) (rp rn : String)
    (dm : List GeneratedDoc) :
    SchemaUpdater.apply_fields (fld :: rest) rp rn dm =
      (let fieldName := fld.getStrD "name" "unknown"
       let fieldPath := rp ++ "." ++ fieldName
       let step1 : PyVal × List String :=
         if !(fld.pyGet "doc").truthy then
           match docMapGet dm fieldPath with
           | some gd =>
             patchNode fld "doc" gd.documentation
               ("Added doc to field `" ++ rn ++ "." ++ fieldName ++ "` [" ++
                 gd.confidence ++ "]")
           | Option.none => (fld, [])
         else (fld, [])
       let step2 : PyVal × List String :=
         match fld.get? "type" with
         | some ty =>
           let res := SchemaUpdater.apply_to_nested ty fieldPath dm
           (step1.1.set "type" res.1, res.2)
         | Option.none => (step1.1, [])
       let tail := SchemaUpdater.apply_fields rest rp rn dm
       (step2.1 :: tail.1, step1.2 ++ step2.2 ++ tail.2)) := by
  rw [SchemaUpdater.apply_fields]
  rcases ho : optAttach (fld.get? "type") with _ | ⟨ty, ht⟩
  · conv_rhs => rw [optAttach_eq_none ho]
  · conv_rhs => rw [ht]

theorem apply_to_nested_obj_eq (kvs : List (String × PyVal)) (p : String)
    (dm : List GeneratedDoc) :
    SchemaUpdater.apply_to_nested (.obj kvs) p dm =
      (let tn := (PyVal.obj kvs).pyGet "type"
       if tn.isStr "record" then
         SchemaUpdater.apply_to_record (.obj kvs)
           (p ++ "." ++ (PyVal.obj kvs).getStrD "name" "unknown") dm
       else if tn.isStr "enum" then
         let enumName := (PyVal.obj kvs).getStrD "name" "unknown"
         let enumPath := p ++ "." ++ enumName
         if !((PyVal.obj kvs).pyGet "doc").truthy then
           match docMapGet dm enumPath with
           | some gd =>
             ((PyVal.obj kvs).set "doc" (.str gd.documentation),
              ["Added doc to enum `" ++ enumName ++ "` [" ++ gd.confidence ++ "]"])
           | Option.none => (.obj kvs, [])
         else (.obj kvs, [])
       else if tn.isStr "array" then
         match (PyVal.obj kvs).get? "items" with
         | some it =>
           ((PyVal.obj kvs).set "items" (SchemaUpdater.apply_to_nested it p dm).1,
            (SchemaUpdater.apply_to_nested it p dm).2)
         | Option.none => (.obj kvs, [])
       else if tn.isStr "map" then
         match (PyVal.obj kvs).get? "values" with
         | some vv =>
           ((PyVal.obj kvs).set "values" (SchemaUpdater.apply_to_nested vv p dm).1,
            (SchemaUpdater.apply_to_nested vv p dm).2)
         | Option.none => (.obj kvs, [])
       else (.obj kvs, [])) := by
  rw [SchemaUpdater.apply_to_nested]
  rcases hoi : optAttach ((PyVal.obj kvs).get? "items") with _ | ⟨it, hit⟩ <;>
    rcases hov : optAttach ((PyVal.obj kvs).get? "values") with _ | ⟨vv, hvv⟩
  · conv_rhs => rw [optAttach_eq_none hoi, optAttach_eq_none hov]
  · conv_rhs => rw [optAttach_eq_none hoi, hvv]
  · conv_rhs => rw [optAttach_eq_none hov, hit]
  · conv_rhs => rw [hit, hvv]

theorem analyze_nested_obj_eq (kvs : List (String × PyVal)) (p : String) :
    AvroAnalyzer.analyze_nested_types (.obj kvs) p =
      (let tn := (PyVal.obj kvs).pyGet "type"
       if tn.isStr "record" then AvroAnalyzer.analyze_record (.obj kvs) p
       else if tn.isStr "array" then
         match (PyVal.obj kvs).get? "items" with
         | some it => AvroAnalyzer.analyze_nested_types it p
         | Option.none => ([], 0, 0)
       else if tn.isStr "map" then
         match (PyVal.obj kvs).get? "values" with
         | some vv => AvroAnalyzer.analyze_nested_types vv p
         | Option.none => ([], 0, 0)
       else if tn.isStr "enum" then
         if ((PyVal.obj kvs).pyGet "doc").truthy then ([], 1, 1)
         else
           let enumName := (PyVal.obj kvs).getStrD "name" "unknown"
           ([⟨p ++ "." ++ enumName, "enum", enumName, "enum", PyVal.none,
              [("symbols", (PyVal.obj kvs).getD "symbols" (PyVal.arr []))]⟩], 1, 0)
       else ([], 0, 0)) := by
  rw [AvroAnalyzer.analyze_nested_types]
  rcases hoi : optAttach ((PyVal.obj kvs).get? "items") with _ | ⟨it, hit⟩ <;>
    rcases hov : optAttach ((PyVal.obj kvs).get? "values") with _ | ⟨vv, hvv⟩
  · conv_rhs => rw [optAttach_eq_none hoi, optAttach_eq_none hov]
  · conv_rhs => rw [optAttach_eq_none hoi, hvv]
  · conv_rhs => rw [optAttach_eq_none hov, hit]
  · conv_rhs => rw [hit, hvv]

theorem apply_to_object_eq (obj : PyVal) (path : String) (dm : List GeneratedDoc) :
    JsonSchemaUpdater.apply_to_object obj path dm =
      (let step1 : PyVal × List String :=
         if !(obj.pyGet "description").truthy then
           match docMapGet dm path with
           | some gd =>
             patchNode obj "description" gd.documentation
               ("Added description to object `" ++ path ++ "` [" ++ gd.confidence ++ "]")
           | Option.none => (obj, [])
         else (obj, [])
       match obj.get? "properties" with
       | some (.obj props) =>
         let res := JsonSchemaUpdater.apply_props props path dm
         (step1.1.set "properties" (.obj res.1), step1.2 ++ res.2)
       | _ => (step1.1, step1.2)) := by
  rw [JsonSchemaUpdater.apply_to_object]
  rcases ho : optAttach (obj.get? "properties") with _ | ⟨v, hv⟩
  · conv_rhs => rw [optAttach_eq_none ho]
  · conv_rhs => rw [hv]
    cases v <;> rfl

theorem apply_props_cons_eq (pn : String) (ps : PyVal) (rest : List (String × PyVal))
    (path : String) (dm : List GeneratedDoc) :
    JsonSchemaUpdater.apply_props ((pn, ps) :: rest) path dm =
      (let propPath := path ++ "." ++ pn
       let step1 : PyVal × List String :=
         if !(ps.pyGet "description").truthy then
           match docMapGet dm propPath with
           | some gd =>
             patchNode ps "description" gd.documentation
               ("Added description to property `" ++ pn ++ "` [" ++
                 gd.confidence ++ "]")
           | Option.none => (ps, [])
         else (ps, [])
       let step2 : PyVal × List String :=
         if (ps.pyGet "type").isStr "object" then
           JsonSchemaUpdater.apply_to_object step1.1 propPath dm
         else if (ps.pyGet "type").isStr "array" then
           match ps.get? "items" with
           | some items =>
             if (items.pyGet "type").isStr "object" then
               let res := JsonSchemaUpdater.apply_to_object items (propPath ++ "[]") dm
               (step1.1.set "items" res.1, res.2)
             else (step1.1, [])
           | Option.none => (step1.1, [])
         else (step1.1, [])
       let tail := JsonSchemaUpdater.apply_props rest path dm
       ((pn, step2.1) :: tail.1, step1.2 ++ step2.2 ++ tail.2)) := by
  rw [JsonSchemaUpdater.apply_props]
  rcases ho : optAttach (ps.get? "items") with _ | ⟨items, hitm⟩
  · conv_rhs => rw [optAttach_eq_none ho]
  · conv_rhs => rw [hitm]

theorem analyze_props_cons_eq (pn : String) (ps : PyVal) (rest : List (String × PyVal))
    (path : String) :
    JsonSchemaAnalyzer.analyze_props ((pn, ps) :: rest) path =
      (let propPath := path ++ "." ++ pn
       let self : List JsonMissingDoc × Nat :=
         if (ps.pyGet "description").truthy then ([], 1)
         else ([⟨propPath, "property", pn, JsonSchemaAnalyzer.get_type_string ps,
                 [("connect_index", ps.pyGet "connect.index"),
                  ("connect_type", JsonSchemaAnalyzer.get_connect_type ps)]⟩], 0)
       let nested : List JsonMissingDoc × Nat × Nat :=
         if (ps.pyGet "type").isStr "object" then
           JsonSchemaAnalyzer.analyze_object ps propPath
         else if (ps.pyGet "type").isStr "array" then
           match ps.get? "items" with
           | some items =>
             if (items.pyGet "type").isStr "object" then
               JsonSchemaAnalyzer.analyze_object items (propPath ++ "[]")
             else ([], 0, 0)
           | Option.none => ([], 0, 0)
         else ([], 0, 0)
       let tail := JsonSchemaAnalyzer.analyze_props rest path
       (self.1 ++ nested.1 ++ tail.1, 1 + nested.2.1 + tail.2.1,
        self.2 + nested.2.2 + tail.2.2)) := by
  rw [JsonSchemaAnalyzer.analyze_props]
  rcases ho : optAttach (ps.get? "items") with _ | ⟨items, hitm⟩
  · conv_rhs => rw [optAttach_eq_none ho]
  · conv_rhs => rw [hitm]

/-- Whether a value is a Python dict. -/
def PyVal.isObjB : PyVal → Bool
  | .obj _ => true
  | _ => false

mutual

/-- Patchable shape of a record subtree: every node either pass touches is
a dict (on any other shape Python's attribute/item access would raise
before the pass completed, and the pure model's analyzer and patcher
diverge in how they tolerate it). -/
def recordWF (record : PyVal) : Bool :=
  record.isObjB && fieldsWF (record.getList "fields")
termination_by 8 * PyVal.weight record + 2
decreasing_by
  · have := PyVal.weight_getList record "fields"
    omega

def fieldsWF (flds : List PyVal) : Bool :=
  match flds with
  | [] => true
  | fld :: rest => fld.isObjB && typeWF (fld.pyGet "type") && fieldsWF rest
termination_by 8 * PyVal.weightList flds + 1
decreasing_by
  · have h1 := PyVal.weight_pyGet x "type"
    simp
    omega
  · simp
    try omega

def typeWF (avroType : PyVal) : Bool :=
  match avroType with
  | .obj kvs =>
    let tn := (PyVal.obj kvs).pyGet "type"
    if tn.isStr "record" then recordWF (.obj kvs)
    else if tn.isStr "array" then
      match optAttach ((PyVal.obj kvs).get? "items") with
      | some ⟨it, hi⟩ => typeWF it
      | Option.none => true
    else if tn.isStr "map" then
      match optAttach ((PyVal.obj kvs).get? "values") with
      | some ⟨vv, hv⟩ => typeWF vv
      | Option.none => true
    else true
  | .arr xs => variantsWF xs
  | _ => true
termination_by 8 * PyVal.weight avroType + 3
decreasing_by
  · omega
  · have := PyVal.weight_get? hi
    omega
  · have := PyVal.weight_get? hv
    omega
  · simp [PyVal.weight]
    omega

def variantsWF (variants : List PyVal) : Bool :=
  match variants with
  | [] => true
  | v :: vs => typeWF v && variantsWF vs
termination_by 8 * PyVal.weightList variants + 1
decreasing_by
  · simp
    try omega
  · simp
    try omega

end

mutual

/-- Patchable shape of an object subtree, the object-tree analogue of
`recordWF`: the node and every property schema reachable through the
object/array-of-object recursion is a dict. -/
def objWF (obj : PyVal) : Bool :=
  obj.isObjB && propsWF (obj.getEntries "properties")
termination_by 8 * PyVal.weight obj + 4
decreasing_by
  · have := PyVal.weight_getEntries obj "properties"
    omega

def propsWF (props : List (String × PyVal)) : Bool :=
  match props with
  | [] => true
  | (pn, ps) :: rest =>
    ps.isObjB &&
    (if (ps.pyGet "type").isStr "object" then objWF ps
     else if (ps.pyGet "type").isStr "array" then
       match optAttach (ps.get? "items") with
       | some ⟨items, hitm⟩ =>
         if (items.pyGet "type").isStr "object" then objWF items else true
       | Option.none => true
     else true) &&
    propsWF rest
termination_by 8 * PyVal.weightEntries props + 3
decreasing_by
  · simp
    omega
  · have := PyVal.weight_get? hitm
    simp
    omega
  · simp
    try omega

end

theorem typeWF_obj_eq (kvs : List (String × PyVal)) :
    typeWF (.obj kvs) =
      (let tn := (PyVal.obj kvs).pyGet "type"
       if tn.isStr "record" then recordWF (.obj kvs)
       else if tn.isStr "array" then
         match (PyVal.obj kvs).get? "items" with
         | some it => typeWF it
         | Option.none => true
       else if tn.isStr "map" then
         match (PyVal.obj kvs).get? "values" with
         | some vv => typeWF vv
         | Option.none => true
       else true) := by
  rw [typeWF]
  rcases hoi : optAttach ((PyVal.obj kvs).get? "items") with _ | ⟨it, hit⟩ <;>
    rcases hov : optAttach ((PyVal.obj kvs).get? "values") with _ | ⟨vv, hvv⟩
  · conv_rhs => rw [optAttach_eq_none hoi, optAttach_eq_none hov]
  · conv_rhs => rw [optAttach_eq_none hoi, hvv]
  · conv_rhs => rw [optAttach_eq_none hov, hit]
  · conv_rhs => rw [hit, hvv]

theorem propsWF_cons_eq (pn : String) (ps : PyVal) (rest : List (String × PyVal)) :
    propsWF ((pn, ps) :: rest) =
      (ps.isObjB &&
       (if (ps.pyGet "type").isStr "object" then objWF ps
        else if (ps.pyGet "type").isStr "array" then
          match ps.get? "items" with
          | some items =>
            if (items.pyGet "type").isStr "object" then objWF items else true
          | Option.none => true
        else true) &&
       propsWF rest) := by
  rw [propsWF]
  rcases ho : optAttach (ps.get? "items") with _ | ⟨items, hitm⟩
  · conv_rhs => rw [optAttach_eq_none ho]
  · conv_rhs => rw [hitm]

theorem patchNode_get?_ne (node : PyVal) {key k : String} (d line : String)
    (h : k ≠ key) : ((patchNode node key d line).1).get? k = node.get? k := by
  cases node <;> simp [patchNode]
  exact PyVal.get?_set_ne _ _ h

theorem PyVal.isObjB_set (j : PyVal) (k : String) (v : PyVal) :
    (j.set k v).isObjB = j.isObjB := by
  cases j <;> simp [PyVal.set, PyVal.isObjB]

theorem patchNode_isObjB (node : PyVal) (key d line : String) :
    ((patchNode node key d line).1).isObjB = node.isObjB := by
  cases node <;> simp [patchNode, PyVal.set, PyVal.isObjB]

theorem apply_to_record_get?_ne (record : PyVal) (rp : String) (dm : List GeneratedDoc)
    {k : String} (h1 : k ≠ "doc") (h2 : k ≠ "fields") :
    ((SchemaUpdater.apply_to_record record rp dm).1).get? k = record.get? k := by
  simp only [apply_to_record_eq]
  have hs : ∀ gd : GeneratedDoc,
      ((if !(record.pyGet "doc").truthy then
          match docMapGet dm rp with
          | some gd =>
            patchNode record "doc" gd.documentation
              ("Added doc to record `" ++ record.getStrD "name" "unknown" ++ "` [" ++
                gd.confidence ++ "]")
          | Option.none => (record, [])
        else (record, [])).1).get? k = record.get? k := by
    intro _
    split
    · split
      · exact patchNode_get?_ne record _ _ h1
      · rfl
    · rfl
  split
  · rw [PyVal.get?_set_ne _ _ h2]
    exact hs ⟨"", "", "", ""⟩
  · exact hs ⟨"", "", "", ""⟩

theorem apply_to_object_get?_ne (obj : PyVal) (path : String) (dm : List GeneratedDoc)
    {k : String} (h1 : k ≠ "description") (h2 : k ≠ "properties") :
    ((JsonSchemaUpdater.apply_to_object obj path dm).1).get? k = obj.get? k := by
  simp only [apply_to_object_eq]
  have hs : ((if !(obj.pyGet "description").truthy then
          match docMapGet dm path with
          | some gd =>
            patchNode obj "description" gd.documentation
              ("Added description to object `" ++ path ++ "` [" ++ gd.confidence ++ "]")
          | Option.none => (obj, [])
        else (obj, [])).1).get? k = obj.get? k := by
    split
    · split
      · exact patchNode_get?_ne obj _ _ h1
      · rfl
    · rfl
  split
  · rw [PyVal.get?_set_ne _ _ h2]
    exact hs
  · exact hs

theorem append_dot_ne_empty (a b : String) : a ++ "." ++ b ≠ "" := by
  intro h
  have h2 : (a ++ "." ++ b).length = 0 := by rw [h]; rfl
  have h3 : ("." : String).length = 1 := rfl
  simp [String.length_append, h3] at h2

theorem docHit_true_of {dm : List GeneratedDoc} {p : String} {gd : GeneratedDoc}
    (h : docMapGet dm p = some gd) : docHit dm p = true := by
  simp [docHit, h]

theorem docHit_false_of {dm : List GeneratedDoc} {p : String}
    (h : docMapGet dm p = Option.none) : docHit dm p = false := by
  simp [docHit, h]

theorem truthy_docMapGet {dm : List GeneratedDoc} {p : String} {gd : GeneratedDoc}
    (hdm : ∀ d ∈ dm, d.documentation ≠ "") (h : docMapGet dm p = some gd) :
    PyVal.truthy (.str gd.documentation) = true :=
  PyVal.truthy_str_of_ne (hdm gd (docMapGet_mem h))

theorem apply_to_record_isObjB (record : PyVal) (rp : String) (dm : List GeneratedDoc) :
    ((SchemaUpdater.apply_to_record record rp dm).1).isObjB = record.isObjB := by
  simp only [apply_to_record_eq]
  have hs : ((if !(record.pyGet "doc").truthy then
        match docMapGet dm rp with
        | some gd =>
          patchNode record "doc" gd.documentation
            ("Added doc to record `" ++ record.getStrD "name" "unknown" ++ "` [" ++
              gd.confidence ++ "]")
        | Option.none => (record, [])
      else (record, [])).1).isObjB = record.isObjB := by
    split
    · split
      · exact patchNode_isObjB record _ _ _
      · rfl
    · rfl
  split
  · rw [PyVal.isObjB_set]
    exact hs
  · exact hs

theorem apply_to_object_isObjB (obj : PyVal) (path : String) (dm : List GeneratedDoc) :
    ((JsonSchemaUpdater.apply_to_object obj path dm).1).isObjB = obj.isObjB := by
  simp only [apply_to_object_eq]
  have hs : ((if !(obj.pyGet "description").truthy then
        match docMapGet dm path with
        | some gd =>
          patchNode obj "description" gd.documentation
            ("Added description to object `" ++ path ++ "` [" ++ gd.confidence ++ "]")
        | Option.none => (obj, [])
      else (obj, [])).1).isObjB = obj.isObjB := by
    split
    · split
      · exact patchNode_isObjB obj _ _ _
      · rfl
    · rfl
  split
  · rw [PyVal.isObjB_set]
    exact hs
  · exact hs

theorem PyVal.getList_set_arr (kvs : List (String × PyVal)) (k : String)
    (xs : List PyVal) : ((PyVal.obj kvs).set k (.arr xs)).getList k = xs := by
  simp [PyVal.getList, PyVal.get?_set_same]

theorem PyVal.getEntries_set_obj (kvs kvs' : List (String × PyVal)) (k : String) :
    ((PyVal.obj kvs).set k (.obj kvs')).getEntries k = kvs' := by
  simp [PyVal.getEntries, PyVal.get?_set_same]

theorem PyVal.pyGet_eq_of_get? {j : PyVal} {k : String} {v : PyVal}
    (h : j.get? k = some v) : j.pyGet k = v := by
  simp [PyVal.pyGet, PyVal.getD, h]

theorem PyVal.pyGet_eq_none_of_get? {j : PyVal} {k : String}
    (h : j.get? k = Option.none) : j.pyGet k = PyVal.none := by
  simp [PyVal.pyGet, PyVal.getD, h]

/-- The patch/analyze relation between one analyzer pass `a` on a subtree,
the re-analysis `a2` of the patched subtree, and the change lines `ch` the
patch pass logged: re-analysis keeps exactly the descriptors whose paths
the documentation map misses, the element total is unchanged, the
documented count grows by the number of map hits, and one change line was
logged per hit. -/
def patchRel (dm : List GeneratedDoc) (a a2 : List MissingDoc × Nat × Nat)
    (ch : List String) : Prop :=
  a2.1.map (fun d => d.path) =
    (a.1.map (fun d => d.path)).filter (fun p => !(docHit dm p)) ∧
  a2.2.1 = a.2.1 ∧
  a2.2.2 = a.2.2 + (a.1.map (fun d => d.path)).countP (fun p => docHit dm p) ∧
  ch.length = (a.1.map (fun d => d.path)).countP (fun p => docHit dm p)

theorem PyVal.isStr_unique {v : PyVal} {s t : String} (hs : v.isStr s = true)
    (hst : s ≠ t) : v.isStr t = false := by
  cases v with
  | str s' =>
    simp [PyVal.isStr] at hs ⊢
    subst hs
    exact hst
  | int n => rfl
  | bool b => rfl
  | none => rfl
  | arr xs => rfl
  | obj kvs => rfl

theorem exists_obj_of_isObjB {v : PyVal} (h : v.isObjB = true) :
    ∃ kvs, v = .obj kvs := by
  cases v <;> simp [PyVal.isObjB] at h
  exact ⟨_, rfl⟩

theorem PyVal.pyGet_congr {j : PyVal} (k : String) (j' : PyVal)
    (h : j.get? k = j'.get? k) : j.pyGet k = j'.pyGet k := by
  simp [PyVal.pyGet, PyVal.getD, h]

theorem PyVal.getStrD_congr {j j' : PyVal} (k d : String)
    (h : j.get? k = j'.get? k) : j.getStrD k d = j'.getStrD k d := by
  simp [PyVal.getStrD, h]

theorem PyVal.get?_set_same' {j : PyVal} (h : j.isObjB = true) (k : String)
    (v : PyVal) : (j.set k v).get? k = some v := by
  obtain ⟨kvs, rfl⟩ := exists_obj_of_isObjB h
  exact PyVal.get?_set_same kvs k v

theorem PyVal.pyGet_set_same' {j : PyVal} (h : j.isObjB = true) (k : String)
    (v : PyVal) : (j.set k v).pyGet k = v := by
  simp [PyVal.pyGet, PyVal.getD, PyVal.get?_set_same' h]

theorem analyze_nested_none (p : String) :
    AvroAnalyzer.analyze_nested_types PyVal.none p = ([], 0, 0) := by
  rw [AvroAnalyzer.analyze_nested_types.eq_def]

theorem PyVal.getList_set_arr' {j : PyVal} (h : j.isObjB = true) (k : String)
    (xs : List PyVal) : (j.set k (.arr xs)).getList k = xs := by
  simp [PyVal.getList, PyVal.get?_set_same' h]

theorem avro_patch_aux (dm : List GeneratedDoc)
    (hdm : ∀ d ∈ dm, d.documentation ≠ "") : ∀ N : Nat,
    (∀ (record : PyVal) (pre rp : String), 8 * PyVal.weight record + 2 ≤ N →
      recordWF record = true →
      rp = (if pre = "" then record.getStrD "name" "unknown"
            else pre ++ "." ++ record.getStrD "name" "unknown") →
      patchRel dm (AvroAnalyzer.analyze_record record pre)
        (AvroAnalyzer.analyze_record (SchemaUpdater.apply_to_record record rp dm).1 pre)
        (SchemaUpdater.apply_to_record record rp dm).2) ∧
    (∀ (flds : List PyVal) (rp rn rn2 rn3 : String) (rdoc rdoc2 : PyVal),
      8 * PyVal.weightList flds + 1 ≤ N → fieldsWF flds = true →
      patchRel dm (AvroAnalyzer.analyze_fields flds rp rdoc rn)
        (AvroAnalyzer.analyze_fields (SchemaUpdater.apply_fields flds rp rn2 dm).1
          rp rdoc2 rn3)
        (SchemaUpdater.apply_fields flds rp rn2 dm).2) ∧
    (∀ (ty : PyVal) (p : String), 8 * PyVal.weight ty + 3 ≤ N → typeWF ty = true →
      p ≠ "" →
      patchRel dm (AvroAnalyzer.analyze_nested_types ty p)
        (AvroAnalyzer.analyze_nested_types (SchemaUpdater.apply_to_nested ty p dm).1 p)
        (SchemaUpdater.apply_to_nested ty p dm).2) ∧
    (∀ (vars : List PyVal) (p : String), 8 * PyVal.weightList vars + 1 ≤ N →
      variantsWF vars = true → p ≠ "" →
      patchRel dm (AvroAnalyzer.analyze_union_variants vars p)
        (AvroAnalyzer.analyze_union_variants
          (SchemaUpdater.apply_union_variants vars p dm).1 p)
        (SchemaUpdater.apply_union_variants vars p dm).2) := by
  intro N
  induction N with
  | zero =>
    refine ⟨?_, ?_, ?_, ?_⟩
    · intro record pre rp hN
      omega
    · intro flds rp rn rn2 rn3 rdoc rdoc2 hN
      omega
    · intro ty p hN
      omega
    · intro vars p hN
      omega
  | succ n ih =>
    obtain ⟨ihR, ihF, ihN, ihU⟩ := ih
    refine ⟨?_, ?_, ?_, ?_⟩
    · -- record
      intro record pre rp hN hwf hrp
      rw [recordWF] at hwf
      simp only [Bool.and_eq_true] at hwf
      obtain ⟨hobj, hfwf⟩ := hwf
      obtain ⟨kvs, rfl⟩ := exists_obj_of_isObjB hobj
      obtain ⟨s1, hs1eq, hs1obj, hs1name, hs1fields, hs1doc, hs1len⟩ :
          ∃ s1 : PyVal × List String,
            (if !((PyVal.obj kvs).pyGet "doc").truthy then
               match docMapGet dm rp with
               | some gd =>
                 patchNode (.obj kvs) "doc" gd.documentation
                   ("Added doc to record `" ++ (PyVal.obj kvs).getStrD "name" "unknown" ++
                     "` [" ++ gd.confidence ++ "]")
               | Option.none => (.obj kvs, [])
             else (.obj kvs, [])) = s1 ∧
            s1.1.isObjB = true ∧
            s1.1.getStrD "name" "unknown" = (PyVal.obj kvs).getStrD "name" "unknown" ∧
            s1.1.get? "fields" = (PyVal.obj kvs).get? "fields" ∧
            (s1.1.pyGet "doc").truthy = (((PyVal.obj kvs).pyGet "doc").truthy ||
              docHit dm rp) ∧
            s1.2.length = (if ((PyVal.obj kvs).pyGet "doc").truthy = false ∧
              docHit dm rp = true then 1 else 0) := by
        by_cases hdoc : ((PyVal.obj kvs).pyGet "doc").truthy
        · refine ⟨(.obj kvs, []), by simp [hdoc], rfl, rfl, rfl, by simp [hdoc],
            by simp [hdoc]⟩
        · rcases hhit : docMapGet dm rp with _ | gd
          · refine ⟨(.obj kvs, []), by simp [hdoc, hhit], rfl, rfl, rfl, ?_, ?_⟩
            · simp [hdoc, docHit_false_of hhit]
            · simp [docHit_false_of hhit]
          · refine ⟨((PyVal.obj kvs).set "doc" (.str gd.documentation),
              ["Added doc to record `" ++ (PyVal.obj kvs).getStrD "name" "unknown" ++
                "` [" ++ gd.confidence ++ "]"]),
              by simp [hdoc, hhit, patchNode], ?_, ?_, ?_, ?_, ?_⟩
            · rw [PyVal.isObjB_set]
              exact hobj
            · exact PyVal.getStrD_set_ne (PyVal.obj kvs) (PyVal.str gd.documentation)
                "unknown" (show ("name" : String) ≠ "doc" from by decide)
            · exact PyVal.get?_set_ne (PyVal.obj kvs) (PyVal.str gd.documentation)
                (show ("fields" : String) ≠ "doc" from by decide)
            · rw [PyVal.pyGet_set_same (v := PyVal.str gd.documentation)]
              rw [truthy_docMapGet hdm hhit]
              simp [docHit_true_of hhit]
            · simp [Bool.not_eq_true] at hdoc
              simp [hdoc, docHit_true_of hhit]
      rw [apply_to_record_eq, AvroAnalyzer.analyze_record]
      rw [← hrp]
      simp only [hs1eq]
      rcases hfo : (PyVal.obj kvs).get? "fields" with _ | fv
      · -- no fields key
          have hgl : (PyVal.obj kvs).getList "fields" = [] := by
            simp [PyVal.getList, hfo]
          have hgl2 : s1.1.getList "fields" = [] := by
            simp [PyVal.getList, hs1fields, hfo]
          have hfe : ∀ (rd : PyVal) (rn : String),
              AvroAnalyzer.analyze_fields [] rp rd rn = ([], 0, 0) := by
            intro rd rn
            rw [AvroAnalyzer.analyze_fields]
          rw [AvroAnalyzer.analyze_record]
          rw [hs1name, ← hrp]
          simp only [hfo, hgl, hgl2, hs1doc, hfe]
          refine ⟨?_, rfl, ?_, ?_⟩
          · by_cases ht : ((PyVal.obj kvs).pyGet "doc").truthy <;>
              by_cases hh : docHit dm rp <;>
              simp [ht, hh]
          · by_cases ht : ((PyVal.obj kvs).pyGet "doc").truthy <;>
              by_cases hh : docHit dm rp <;>
              simp [ht, hh, List.countP_cons]
          · by_cases ht : ((PyVal.obj kvs).pyGet "doc").truthy <;>
              by_cases hh : docHit dm rp <;>
              simp [ht, hh, hs1len, List.countP_cons]
      · cases fv with
        | arr flds =>
          have hgl : (PyVal.obj kvs).getList "fields" = flds := by
            simp [PyVal.getList, hfo]
          have hwl : 8 * PyVal.weightList flds + 1 ≤ n := by
            have := PyVal.weight_get? hfo
            simp only [PyVal.weight] at this hN
            omega
          rw [hgl] at hfwf
          obtain ⟨f1, f2, f3, f4⟩ := ihF flds rp ((PyVal.obj kvs).getStrD "name" "unknown") ((PyVal.obj kvs).getStrD "name" "unknown") ((PyVal.obj kvs).getStrD "name" "unknown")
            ((PyVal.obj kvs).pyGet "doc") ((s1.1.set "fields" (.arr (SchemaUpdater.apply_fields flds rp ((PyVal.obj kvs).getStrD "name" "unknown") dm).1)).pyGet "doc") hwl hfwf
          have hname2 : (s1.1.set "fields" (.arr (SchemaUpdater.apply_fields flds rp ((PyVal.obj kvs).getStrD "name" "unknown") dm).1)).getStrD "name" "unknown" = (PyVal.obj kvs).getStrD "name" "unknown" := by
            rw [PyVal.getStrD_set_ne s1.1 (PyVal.arr (SchemaUpdater.apply_fields flds rp ((PyVal.obj kvs).getStrD "name" "unknown") dm).1) "unknown"
              (show ("name" : String) ≠ "fields" from by decide)]
            exact hs1name
          have hdoc2 : ((s1.1.set "fields" (.arr (SchemaUpdater.apply_fields flds rp ((PyVal.obj kvs).getStrD "name" "unknown") dm).1)).pyGet "doc").truthy =
              (((PyVal.obj kvs).pyGet "doc").truthy || docHit dm rp) := by
            rw [PyVal.pyGet_set_ne s1.1 (PyVal.arr (SchemaUpdater.apply_fields flds rp ((PyVal.obj kvs).getStrD "name" "unknown") dm).1)
              (show ("doc" : String) ≠ "fields" from by decide)]
            exact hs1doc
          have hgl2 : (s1.1.set "fields" (.arr (SchemaUpdater.apply_fields flds rp ((PyVal.obj kvs).getStrD "name" "unknown") dm).1)).getList "fields" = (SchemaUpdater.apply_fields flds rp ((PyVal.obj kvs).getStrD "name" "unknown") dm).1 :=
            PyVal.getList_set_arr' hs1obj _ _
          rw [AvroAnalyzer.analyze_record]
          rw [hname2, ← hrp]
          simp only [hfo, hgl, hgl2, hdoc2]
          refine ⟨?_, ?_, ?_, ?_⟩
          · by_cases ht : ((PyVal.obj kvs).pyGet "doc").truthy <;>
              by_cases hh : docHit dm rp <;>
              simp [ht, hh, f1]
          · simp [f2]
          · by_cases ht : ((PyVal.obj kvs).pyGet "doc").truthy <;>
              by_cases hh : docHit dm rp <;>
              simp [ht, hh, f3, List.countP_cons] <;> omega
          · by_cases ht : ((PyVal.obj kvs).pyGet "doc").truthy <;>
              by_cases hh : docHit dm rp <;>
              simp [ht, hh, f4, hs1len, List.countP_cons, List.countP_append] <;> omega
        | str s =>
          have hgl : (PyVal.obj kvs).getList "fields" = [] := by
            simp [PyVal.getList, hfo]
          have hgl2 : s1.1.getList "fields" = [] := by
            simp [PyVal.getList, hs1fields, hfo]
          have hfe : ∀ (rd : PyVal) (rn : String),
              AvroAnalyzer.analyze_fields [] rp rd rn = ([], 0, 0) := by
            intro rd rn
            rw [AvroAnalyzer.analyze_fields]
          rw [AvroAnalyzer.analyze_record]
          rw [hs1name, ← hrp]
          simp only [hfo, hgl, hgl2, hs1doc, hfe]
          refine ⟨?_, rfl, ?_, ?_⟩
          · by_cases ht : ((PyVal.obj kvs).pyGet "doc").truthy <;>
              by_cases hh : docHit dm rp <;>
              simp [ht, hh]
          · by_cases ht : ((PyVal.obj kvs).pyGet "doc").truthy <;>
              by_cases hh : docHit dm rp <;>
              simp [ht, hh, List.countP_cons]
          · by_cases ht : ((PyVal.obj kvs).pyGet "doc").truthy <;>
              by_cases hh : docHit dm rp <;>
              simp [ht, hh, hs1len, List.countP_cons]
        | int n2 =>
          have hgl : (PyVal.obj kvs).getList "fields" = [] := by
            simp [PyVal.getList, hfo]
          have hgl2 : s1.1.getList "fields" = [] := by
            simp [PyVal.getList, hs1fields, hfo]
          have hfe : ∀ (rd : PyVal) (rn : String),
              AvroAnalyzer.analyze_fields [] rp rd rn = ([], 0, 0) := by
            intro rd rn
            rw [AvroAnalyzer.analyze_fields]
          rw [AvroAnalyzer.analyze_record]
          rw [hs1name, ← hrp]
          simp only [hfo, hgl, hgl2, hs1doc, hfe]
          refine ⟨?_, rfl, ?_, ?_⟩
          · by_cases ht : ((PyVal.obj kvs).pyGet "doc").truthy <;>
              by_cases hh : docHit dm rp <;>
              simp [ht, hh]
          · by_cases ht : ((PyVal.obj kvs).pyGet "doc").truthy <;>
              by_cases hh : docHit dm rp <;>
              simp [ht, hh, List.countP_cons]
          · by_cases ht : ((PyVal.obj kvs).pyGet "doc").truthy <;>
              by_cases hh : docHit dm rp <;>
              simp [ht, hh, hs1len, List.countP_cons]
        | bool b =>
          have hgl : (PyVal.obj kvs).getList "fields" = [] := by
            simp [PyVal.getList, hfo]
          have hgl2 : s1.1.getList "fields" = [] := by
            simp [PyVal.getList, hs1fields, hfo]
          have hfe : ∀ (rd : PyVal) (rn : String),
              AvroAnalyzer.analyze_fields [] rp rd rn = ([], 0, 0) := by
            intro rd rn
            rw [AvroAnalyzer.analyze_fields]
          rw [AvroAnalyzer.analyze_record]
          rw [hs1name, ← hrp]
          simp only [hfo, hgl, hgl2, hs1doc, hfe]
          refine ⟨?_, rfl, ?_, ?_⟩
          · by_cases ht : ((PyVal.obj kvs).pyGet "doc").truthy <;>
              by_cases hh : docHit dm rp <;>
              simp [ht, hh]
          · by_cases ht : ((PyVal.obj kvs).pyGet "doc").truthy <;>
              by_cases hh : docHit dm rp <;>
              simp [ht, hh, List.countP_cons]
          · by_cases ht : ((PyVal.obj kvs).pyGet "doc").truthy <;>
              by_cases hh : docHit dm rp <;>
              simp [ht, hh, hs1len, List.countP_cons]
        | none =>
          have hgl : (PyVal.obj kvs).getList "fields" = [] := by
            simp [PyVal.getList, hfo]
          have hgl2 : s1.1.getList "fields" = [] := by
            simp [PyVal.getList, hs1fields, hfo]
          have hfe : ∀ (rd : PyVal) (rn : String),
              AvroAnalyzer.analyze_fields [] rp rd rn = ([], 0, 0) := by
            intro rd rn
            rw [AvroAnalyzer.analyze_fields]
          rw [AvroAnalyzer.analyze_record]
          rw [hs1name, ← hrp]
          simp only [hfo, hgl, hgl2, hs1doc, hfe]
          refine ⟨?_, rfl, ?_, ?_⟩
          · by_cases ht : ((PyVal.obj kvs).pyGet "doc").truthy <;>
              by_cases hh : docHit dm rp <;>
              simp [ht, hh]
          · by_cases ht : ((PyVal.obj kvs).pyGet "doc").truthy <;>
              by_cases hh : docHit dm rp <;>
              simp [ht, hh, List.countP_cons]
          · by_cases ht : ((PyVal.obj kvs).pyGet "doc").truthy <;>
              by_cases hh : docHit dm rp <;>
              simp [ht, hh, hs1len, List.countP_cons]
        | obj kvs2 =>
          have hgl : (PyVal.obj kvs).getList "fields" = [] := by
            simp [PyVal.getList, hfo]
          have hgl2 : s1.1.getList "fields" = [] := by
            simp [PyVal.getList, hs1fields, hfo]
          have hfe : ∀ (rd : PyVal) (rn : String),
              AvroAnalyzer.analyze_fields [] rp rd rn = ([], 0, 0) := by
            intro rd rn
            rw [AvroAnalyzer.analyze_fields]
          rw [AvroAnalyzer.analyze_record]
          rw [hs1name, ← hrp]
          simp only [hfo, hgl, hgl2, hs1doc, hfe]
          refine ⟨?_, rfl, ?_, ?_⟩
          · by_cases ht : ((PyVal.obj kvs).pyGet "doc").truthy <;>
              by_cases hh : docHit dm rp <;>
              simp [ht, hh]
          · by_cases ht : ((PyVal.obj kvs).pyGet "doc").truthy <;>
              by_cases hh : docHit dm rp <;>
              simp [ht, hh, List.countP_cons]
          · by_cases ht : ((PyVal.obj kvs).pyGet "doc").truthy <;>
              by_cases hh : docHit dm rp <;>
              simp [ht, hh, hs1len, List.countP_cons]
    · -- fields
      intro flds rp rn rn2 rn3 rdoc rdoc2 hN hwf
      cases flds with
      | nil =>
        rw [SchemaUpdater.apply_fields, AvroAnalyzer.analyze_fields,
          AvroAnalyzer.analyze_fields]
        exact ⟨rfl, rfl, by simp, rfl⟩
      | cons fld rest =>
        rw [fieldsWF] at hwf
        simp only [Bool.and_eq_true] at hwf
        obtain ⟨⟨hobj, htwf⟩, hrwf⟩ := hwf
        obtain ⟨fkvs, rfl⟩ := exists_obj_of_isObjB hobj
        have hfp : rp ++ "." ++ (PyVal.obj fkvs).getStrD "name" "unknown" ≠ "" :=
          append_dot_ne_empty _ _
        obtain ⟨s1, hs1eq, hs1obj, hs1name, hs1type, hs1doc, hs1len⟩ :
            ∃ s1 : PyVal × List String,
              (if !((PyVal.obj fkvs).pyGet "doc").truthy then
                 match docMapGet dm
                     (rp ++ "." ++ (PyVal.obj fkvs).getStrD "name" "unknown") with
                 | some gd =>
                   patchNode (.obj fkvs) "doc" gd.documentation
                     ("Added doc to field `" ++ rn2 ++ "." ++
                       (PyVal.obj fkvs).getStrD "name" "unknown" ++ "` [" ++
                       gd.confidence ++ "]")
                 | Option.none => (.obj fkvs, [])
               else (.obj fkvs, [])) = s1 ∧
              s1.1.isObjB = true ∧
              s1.1.getStrD "name" "unknown" =
                (PyVal.obj fkvs).getStrD "name" "unknown" ∧
              s1.1.get? "type" = (PyVal.obj fkvs).get? "type" ∧
              (s1.1.pyGet "doc").truthy = (((PyVal.obj fkvs).pyGet "doc").truthy ||
                docHit dm (rp ++ "." ++ (PyVal.obj fkvs).getStrD "name" "unknown")) ∧
              s1.2.length =
                (if ((PyVal.obj fkvs).pyGet "doc").truthy = false ∧
                  docHit dm (rp ++ "." ++ (PyVal.obj fkvs).getStrD "name" "unknown") =
                    true then 1 else 0) := by
          by_cases hdoc : ((PyVal.obj fkvs).pyGet "doc").truthy
          · refine ⟨(.obj fkvs, []), by simp [hdoc], rfl, rfl, rfl, by simp [hdoc], by simp [hdoc]⟩
          · rcases hhit : docMapGet dm
                (rp ++ "." ++ (PyVal.obj fkvs).getStrD "name" "unknown") with _ | gd
            · refine ⟨(.obj fkvs, []), by simp [hdoc, hhit], rfl, rfl, rfl, ?_, ?_⟩
              · simp [hdoc, docHit_false_of hhit]
              · simp [docHit_false_of hhit]
            · refine ⟨((PyVal.obj fkvs).set "doc" (.str gd.documentation),
                ["Added doc to field `" ++ rn2 ++ "." ++
                  (PyVal.obj fkvs).getStrD "name" "unknown" ++ "` [" ++
                  gd.confidence ++ "]"]), by simp [hdoc, hhit, patchNode], ?_, ?_, ?_, ?_, ?_⟩
              · rw [PyVal.isObjB_set]
                exact hobj
              · exact PyVal.getStrD_set_ne (PyVal.obj fkvs) (PyVal.str gd.documentation)
                  "unknown" (show ("name" : String) ≠ "doc" from by decide)
              · exact PyVal.get?_set_ne (PyVal.obj fkvs) (PyVal.str gd.documentation)
                  (show ("type" : String) ≠ "doc" from by decide)
              · rw [PyVal.pyGet_set_same (v := PyVal.str gd.documentation)]
                rw [truthy_docMapGet hdm hhit]
                simp [docHit_true_of hhit]
              · simp [Bool.not_eq_true] at hdoc
                simp [hdoc, docHit_true_of hhit]
        have hrest : 8 * PyVal.weightList rest + 1 ≤ n := by
          simp only [PyVal.weightList_cons] at hN
          omega
        obtain ⟨f1, f2, f3, f4⟩ :=
          ihF rest rp rn rn2 rn3 rdoc rdoc2 hrest hrwf
        rw [apply_fields_cons_eq, AvroAnalyzer.analyze_fields]
        simp only [hs1eq]
        rcases hft : (PyVal.obj fkvs).get? "type" with _ | ty
        · -- no type key
          have hpy : (PyVal.obj fkvs).pyGet "type" = PyVal.none :=
            PyVal.pyGet_eq_none_of_get? hft
          rw [AvroAnalyzer.analyze_fields]
          have hname2 : s1.1.getStrD "name" "unknown" =
              (PyVal.obj fkvs).getStrD "name" "unknown" := hs1name
          have hpy2 : s1.1.pyGet "type" = PyVal.none := by
            rw [PyVal.pyGet_congr "type" _ hs1type]
            exact hpy
          simp only [hft, hpy, hpy2, hname2, hs1doc, analyze_nested_none]
          refine ⟨?_, ?_, ?_, ?_⟩
          · by_cases ht : ((PyVal.obj fkvs).pyGet "doc").truthy <;>
              by_cases hh : docHit dm
                (rp ++ "." ++ (PyVal.obj fkvs).getStrD "name" "unknown") <;>
              simp [ht, hh, f1]
          · simp [f2]
          · by_cases ht : ((PyVal.obj fkvs).pyGet "doc").truthy <;>
              by_cases hh : docHit dm
                (rp ++ "." ++ (PyVal.obj fkvs).getStrD "name" "unknown") <;>
              simp [ht, hh, f3, List.countP_cons] <;> omega
          · by_cases ht : ((PyVal.obj fkvs).pyGet "doc").truthy <;>
              by_cases hh : docHit dm
                (rp ++ "." ++ (PyVal.obj fkvs).getStrD "name" "unknown") <;>
              simp [ht, hh, f4, hs1len, List.countP_cons] <;> omega
        · -- field has a type
          have hpy : (PyVal.obj fkvs).pyGet "type" = ty :=
            PyVal.pyGet_eq_of_get? hft
          rw [hpy] at htwf
          have hwt : 8 * PyVal.weight ty + 3 ≤ n := by
            have := PyVal.weight_get? hft
            simp only [PyVal.weightList_cons] at hN
            omega
          obtain ⟨n1, n2, n3, n4⟩ := ihN ty
            (rp ++ "." ++ (PyVal.obj fkvs).getStrD "name" "unknown") hwt htwf hfp
          rw [AvroAnalyzer.analyze_fields]
          have hname2 : (s1.1.set "type"
              (SchemaUpdater.apply_to_nested ty
                (rp ++ "." ++ (PyVal.obj fkvs).getStrD "name" "unknown") dm).1).getStrD
              "name" "unknown" = (PyVal.obj fkvs).getStrD "name" "unknown" := by
            rw [PyVal.getStrD_set_ne _ _ _ (by decide)]
            exact hs1name
          have hdoc2 : ((s1.1.set "type"
              (SchemaUpdater.apply_to_nested ty
                (rp ++ "." ++ (PyVal.obj fkvs).getStrD "name" "unknown") dm).1).pyGet
              "doc").truthy = (((PyVal.obj fkvs).pyGet "doc").truthy ||
                docHit dm (rp ++ "." ++ (PyVal.obj fkvs).getStrD "name" "unknown")) := by
            rw [PyVal.pyGet_set_ne _ _ (by decide)]
            exact hs1doc
          have hpy2 : (s1.1.set "type"
              (SchemaUpdater.apply_to_nested ty
                (rp ++ "." ++ (PyVal.obj fkvs).getStrD "name" "unknown") dm).1).pyGet
              "type" = (SchemaUpdater.apply_to_nested ty
                (rp ++ "." ++ (PyVal.obj fkvs).getStrD "name" "unknown") dm).1 :=
            PyVal.pyGet_set_same' hs1obj _ _
          simp only [hft, hpy, hname2, hdoc2, hpy2]
          refine ⟨?_, ?_, ?_, ?_⟩
          · by_cases ht : ((PyVal.obj fkvs).pyGet "doc").truthy <;>
              by_cases hh : docHit dm
                (rp ++ "." ++ (PyVal.obj fkvs).getStrD "name" "unknown") <;>
              simp [ht, hh, f1, n1]
          · simp [f2, n2]
          · by_cases ht : ((PyVal.obj fkvs).pyGet "doc").truthy <;>
              by_cases hh : docHit dm
                (rp ++ "." ++ (PyVal.obj fkvs).getStrD "name" "unknown") <;>
              simp [ht, hh, f3, n3, List.countP_cons, List.countP_append] <;> omega
          · by_cases ht : ((PyVal.obj fkvs).pyGet "doc").truthy <;>
              by_cases hh : docHit dm
                (rp ++ "." ++ (PyVal.obj fkvs).getStrD "name" "unknown") <;>
              simp [ht, hh, f4, n4, hs1len, List.countP_cons, List.countP_append] <;> omega
    · -- nested types
      intro ty p hN hwf hp
      cases ty with
      | obj kvs =>
        rw [typeWF_obj_eq] at hwf
        simp only [] at hwf
        by_cases hr : ((PyVal.obj kvs).pyGet "type").isStr "record"
        · -- record type
          simp only [hr, if_true] at hwf
          have hU : SchemaUpdater.apply_to_nested (.obj kvs) p dm =
              SchemaUpdater.apply_to_record (.obj kvs)
                (p ++ "." ++ (PyVal.obj kvs).getStrD "name" "unknown") dm := by
            rw [apply_to_nested_obj_eq]
            simp only [hr, if_true]
          have hA : AvroAnalyzer.analyze_nested_types (.obj kvs) p =
              AvroAnalyzer.analyze_record (.obj kvs) p := by
            rw [analyze_nested_obj_eq]
            simp only [hr, if_true]
          have hrel := ihR (.obj kvs) p
            (p ++ "." ++ (PyVal.obj kvs).getStrD "name" "unknown")
            (by omega) hwf (by rw [if_neg hp])
          obtain ⟨kvs2, hkvs2⟩ := exists_obj_of_isObjB (v :=
            (SchemaUpdater.apply_to_record (.obj kvs)
              (p ++ "." ++ (PyVal.obj kvs).getStrD "name" "unknown") dm).1)
            (by rw [apply_to_record_isObjB]; rfl)
          have hty2 : ((PyVal.obj kvs2).pyGet "type").isStr "record" = true := by
            rw [PyVal.pyGet_congr "type" (PyVal.obj kvs)]
            · exact hr
            · rw [← hkvs2]
              exact apply_to_record_get?_ne _ _ _ (by decide) (by decide)
          have hA2 : AvroAnalyzer.analyze_nested_types (.obj kvs2) p =
              AvroAnalyzer.analyze_record (.obj kvs2) p := by
            rw [analyze_nested_obj_eq]
            simp only [hty2, if_true]
          rw [hU, hkvs2, hA, hA2, ← hkvs2]
          exact hrel
        · by_cases he : ((PyVal.obj kvs).pyGet "type").isStr "enum"
          · -- enum type
            have ha : ((PyVal.obj kvs).pyGet "type").isStr "array" = false :=
              PyVal.isStr_unique he (by decide)
            have hm2 : ((PyVal.obj kvs).pyGet "type").isStr "map" = false :=
              PyVal.isStr_unique he (by decide)
            have hA : AvroAnalyzer.analyze_nested_types (.obj kvs) p =
                (if ((PyVal.obj kvs).pyGet "doc").truthy then ([], 1, 1)
                 else ([⟨p ++ "." ++ (PyVal.obj kvs).getStrD "name" "unknown", "enum",
                         (PyVal.obj kvs).getStrD "name" "unknown", "enum", PyVal.none,
                         [("symbols", (PyVal.obj kvs).getD "symbols" (PyVal.arr []))]⟩],
                       1, 0)) := by
              rw [analyze_nested_obj_eq]
              simp only [hr, ha, hm2, he, Bool.false_eq_true, if_false, if_true]
            by_cases hdoc : ((PyVal.obj kvs).pyGet "doc").truthy
            · have hU : SchemaUpdater.apply_to_nested (.obj kvs) p dm = (.obj kvs, []) := by
                rw [apply_to_nested_obj_eq]
                simp only [hr, he, hdoc, Bool.false_eq_true, if_false, if_true,
                  Bool.not_true]
              simp only [hU, hA, hdoc, if_true]
              exact ⟨rfl, rfl, by simp, rfl⟩
            · rcases hhit : docMapGet dm
                  (p ++ "." ++ (PyVal.obj kvs).getStrD "name" "unknown") with _ | gd
              · have hU : SchemaUpdater.apply_to_nested (.obj kvs) p dm =
                    (.obj kvs, []) := by
                  rw [apply_to_nested_obj_eq]
                  simp only [hr, he, hdoc, hhit, Bool.false_eq_true, if_false, if_true,
                    Bool.not_false]
                simp only [hU, hA, hdoc, Bool.false_eq_true, if_false]
                refine ⟨?_, rfl, ?_, ?_⟩
                · simp [docHit_false_of hhit]
                · simp [docHit_false_of hhit, List.countP_cons]
                · simp [docHit_false_of hhit, List.countP_cons]
              · have hU : SchemaUpdater.apply_to_nested (.obj kvs) p dm =
                    ((PyVal.obj kvs).set "doc" (.str gd.documentation),
                     ["Added doc to enum `" ++ (PyVal.obj kvs).getStrD "name" "unknown" ++
                      "` [" ++ gd.confidence ++ "]"]) := by
                  rw [apply_to_nested_obj_eq]
                  simp only [hr, he, hdoc, hhit, Bool.false_eq_true, if_false, if_true,
                    Bool.not_false]
                have hset : (PyVal.obj kvs).set "doc" (.str gd.documentation) =
                    .obj (setEntries kvs "doc" (.str gd.documentation)) := rfl
                have hty2 : ((PyVal.obj (setEntries kvs "doc" (.str gd.documentation))).pyGet
                    "type").isStr "enum" = true := by
                  rw [PyVal.pyGet_congr "type" (PyVal.obj kvs)]
                  · exact he
                  · rw [← hset]
                    exact PyVal.get?_set_ne _ _ (by decide)
                have htyr : ((PyVal.obj (setEntries kvs "doc" (.str gd.documentation))).pyGet
                    "type").isStr "record" = false :=
                  PyVal.isStr_unique hty2 (by decide)
                have htya : ((PyVal.obj (setEntries kvs "doc" (.str gd.documentation))).pyGet
                    "type").isStr "array" = false :=
                  PyVal.isStr_unique hty2 (by decide)
                have htym : ((PyVal.obj (setEntries kvs "doc" (.str gd.documentation))).pyGet
                    "type").isStr "map" = false :=
                  PyVal.isStr_unique hty2 (by decide)
                have hdoc2 : ((PyVal.obj (setEntries kvs "doc"
                    (.str gd.documentation))).pyGet "doc").truthy = true := by
                  rw [← hset, PyVal.pyGet_set_same]
                  exact truthy_docMapGet hdm hhit
                have hA2 : AvroAnalyzer.analyze_nested_types
                    (.obj (setEntries kvs "doc" (.str gd.documentation))) p = ([], 1, 1) := by
                  rw [analyze_nested_obj_eq]
                  simp only [htyr, htya, htym, hty2, hdoc2, Bool.false_eq_true, if_false,
                    if_true]
                simp only [hU, hA, hset, hA2, hdoc, Bool.false_eq_true, if_false]
                refine ⟨?_, rfl, ?_, ?_⟩
                · simp [docHit_true_of hhit]
                · simp [docHit_true_of hhit, List.countP_cons]
                · simp [docHit_true_of hhit, List.countP_cons]
          · by_cases harr : ((PyVal.obj kvs).pyGet "type").isStr "array"
            · -- array type
              simp only [hr, harr, Bool.false_eq_true, if_false, if_true] at hwf
              rcases hfi : (PyVal.obj kvs).get? "items" with _ | it
              · have hU : SchemaUpdater.apply_to_nested (.obj kvs) p dm =
                    (.obj kvs, []) := by
                  rw [apply_to_nested_obj_eq]
                  simp only [hr, he, harr, hfi, Bool.false_eq_true, if_false, if_true]
                have hA : AvroAnalyzer.analyze_nested_types (.obj kvs) p = ([], 0, 0) := by
                  rw [analyze_nested_obj_eq]
                  simp only [hr, harr, hfi, Bool.false_eq_true, if_false, if_true]
                simp only [hU, hA]
                exact ⟨rfl, rfl, by simp, rfl⟩
              · rw [hfi] at hwf
                have hwt : 8 * PyVal.weight it + 3 ≤ n := by
                  have := PyVal.weight_get? hfi
                  omega
                have hrel := ihN it p hwt hwf hp
                have hU : SchemaUpdater.apply_to_nested (.obj kvs) p dm =
                    ((PyVal.obj kvs).set "items"
                      (SchemaUpdater.apply_to_nested it p dm).1,
                     (SchemaUpdater.apply_to_nested it p dm).2) := by
                  rw [apply_to_nested_obj_eq]
                  simp only [hr, he, harr, hfi, Bool.false_eq_true, if_false, if_true]
                have hA : AvroAnalyzer.analyze_nested_types (.obj kvs) p =
                    AvroAnalyzer.analyze_nested_types it p := by
                  rw [analyze_nested_obj_eq]
                  simp only [hr, harr, hfi, Bool.false_eq_true, if_false, if_true]
                have hset : (PyVal.obj kvs).set "items"
                    (SchemaUpdater.apply_to_nested it p dm).1 =
                    .obj (setEntries kvs "items" (SchemaUpdater.apply_to_nested it p dm).1) :=
                  rfl
                have hty2 : ((PyVal.obj (setEntries kvs "items"
                    (SchemaUpdater.apply_to_nested it p dm).1)).pyGet
                    "type").isStr "array" = true := by
                  rw [PyVal.pyGet_congr "type" (PyVal.obj kvs)]
                  · exact harr
                  · rw [← hset]
                    exact PyVal.get?_set_ne _ _ (by decide)
                have htyr : ((PyVal.obj (setEntries kvs "items"
                    (SchemaUpdater.apply_to_nested it p dm).1)).pyGet
                    "type").isStr "record" = false :=
                  PyVal.isStr_unique hty2 (by decide)
                have hfi2 : (PyVal.obj (setEntries kvs "items"
                    (SchemaUpdater.apply_to_nested it p dm).1)).get? "items" =
                    some (SchemaUpdater.apply_to_nested it p dm).1 := by
                  rw [← hset]
                  exact PyVal.get?_set_same _ _ _
                have hA2 : AvroAnalyzer.analyze_nested_types
                    (.obj (setEntries kvs "items"
                      (SchemaUpdater.apply_to_nested it p dm).1)) p =
                    AvroAnalyzer.analyze_nested_types
                      (SchemaUpdater.apply_to_nested it p dm).1 p := by
                  rw [analyze_nested_obj_eq]
                  simp only [htyr, hty2, hfi2, Bool.false_eq_true, if_false, if_true]
                rw [hU, hA]
                simp only [hset, hA2]
                exact hrel
            · by_cases hmp : ((PyVal.obj kvs).pyGet "type").isStr "map"
              · -- map type
                simp only [hr, harr, hmp, Bool.false_eq_true, if_false, if_true] at hwf
                rcases hfv : (PyVal.obj kvs).get? "values" with _ | vv
                · have hU : SchemaUpdater.apply_to_nested (.obj kvs) p dm =
                      (.obj kvs, []) := by
                    rw [apply_to_nested_obj_eq]
                    simp only [hr, he, harr, hmp, hfv, Bool.false_eq_true, if_false, if_true]
                  have hA : AvroAnalyzer.analyze_nested_types (.obj kvs) p = ([], 0, 0) := by
                    rw [analyze_nested_obj_eq]
                    simp only [hr, harr, hmp, hfv, Bool.false_eq_true, if_false, if_true]
                  simp only [hU, hA]
                  exact ⟨rfl, rfl, by simp, rfl⟩
                · rw [hfv] at hwf
                  have hwt : 8 * PyVal.weight vv + 3 ≤ n := by
                    have := PyVal.weight_get? hfv
                    omega
                  have hrel := ihN vv p hwt hwf hp
                  have hU : SchemaUpdater.apply_to_nested (.obj kvs) p dm =
                      ((PyVal.obj kvs).set "values"
                        (SchemaUpdater.apply_to_nested vv p dm).1,
                       (SchemaUpdater.apply_to_nested vv p dm).2) := by
                    rw [apply_to_nested_obj_eq]
                    simp only [hr, he, harr, hmp, hfv, Bool.false_eq_true, if_false, if_true]
                  have hA : AvroAnalyzer.analyze_nested_types (.obj kvs) p =
                      AvroAnalyzer.analyze_nested_types vv p := by
                    rw [analyze_nested_obj_eq]
                    simp only [hr, harr, hmp, hfv, Bool.false_eq_true, if_false, if_true]
                  have hset : (PyVal.obj kvs).set "values"
                      (SchemaUpdater.apply_to_nested vv p dm).1 =
                      .obj (setEntries kvs "values"
                        (SchemaUpdater.apply_to_nested vv p dm).1) := rfl
                  have hty2 : ((PyVal.obj (setEntries kvs "values"
                      (SchemaUpdater.apply_to_nested vv p dm).1)).pyGet
                      "type").isStr "map" = true := by
                    rw [PyVal.pyGet_congr "type" (PyVal.obj kvs)]
                    · exact hmp
                    · rw [← hset]
                      exact PyVal.get?_set_ne _ _ (by decide)
                  have htyr : ((PyVal.obj (setEntries kvs "values"
                      (SchemaUpdater.apply_to_nested vv p dm).1)).pyGet
                      "type").isStr "record" = false :=
                    PyVal.isStr_unique hty2 (by decide)
                  have htya : ((PyVal.obj (setEntries kvs "values"
                      (SchemaUpdater.apply_to_nested vv p dm).1)).pyGet
                      "type").isStr "array" = false :=
                    PyVal.isStr_unique hty2 (by decide)
                  have hfv2 : (PyVal.obj (setEntries kvs "values"
                      (SchemaUpdater.apply_to_nested vv p dm).1)).get? "values" =
                      some (SchemaUpdater.apply_to_nested vv p dm).1 := by
                    rw [← hset]
                    exact PyVal.get?_set_same _ _ _
                  have hA2 : AvroAnalyzer.analyze_nested_types
                      (.obj (setEntries kvs "values"
                        (SchemaUpdater.apply_to_nested vv p dm).1)) p =
                      AvroAnalyzer.analyze_nested_types
                        (SchemaUpdater.apply_to_nested vv p dm).1 p := by
                    rw [analyze_nested_obj_eq]
                    simp only [htyr, htya, hty2, hfv2, Bool.false_eq_true, if_false, if_true]
                  rw [hU, hA]
                  simp only [hset, hA2]
                  exact hrel
              · -- other type tag
                have hU : SchemaUpdater.apply_to_nested (.obj kvs) p dm =
                    (.obj kvs, []) := by
                  rw [apply_to_nested_obj_eq]
                  simp only [hr, he, harr, hmp, Bool.false_eq_true, if_false]
                have hA : AvroAnalyzer.analyze_nested_types (.obj kvs) p = ([], 0, 0) := by
                  rw [analyze_nested_obj_eq]
                  simp only [hr, harr, hmp, he, Bool.false_eq_true, if_false]
                simp only [hU, hA]
                exact ⟨rfl, rfl, by simp, rfl⟩
      | arr xs =>
        rw [typeWF] at hwf
        have hwt : 8 * PyVal.weightList xs + 1 ≤ n := by
          simp only [PyVal.weight] at hN
          omega
        have hrel := ihU xs p hwt hwf hp
        have hU : SchemaUpdater.apply_to_nested (.arr xs) p dm =
            (.arr (SchemaUpdater.apply_union_variants xs p dm).1,
             (SchemaUpdater.apply_union_variants xs p dm).2) := by
          rw [SchemaUpdater.apply_to_nested]
        have hA : AvroAnalyzer.analyze_nested_types (.arr xs) p =
            AvroAnalyzer.analyze_union_variants xs p := by
          rw [AvroAnalyzer.analyze_nested_types.eq_def]
        have hA2 : AvroAnalyzer.analyze_nested_types
            (.arr (SchemaUpdater.apply_union_variants xs p dm).1) p =
            AvroAnalyzer.analyze_union_variants
              (SchemaUpdater.apply_union_variants xs p dm).1 p := by
          rw [AvroAnalyzer.analyze_nested_types.eq_def]
        rw [hU, hA]
        simp only [hA2]
        exact hrel
      | str s =>
        rw [SchemaUpdater.apply_to_nested, AvroAnalyzer.analyze_nested_types.eq_def]
        · exact ⟨rfl, rfl, by simp, rfl⟩
        · simp
        · simp
      | int n2 =>
        rw [SchemaUpdater.apply_to_nested, AvroAnalyzer.analyze_nested_types.eq_def]
        · exact ⟨rfl, rfl, by simp, rfl⟩
        · simp
        · simp
      | bool b =>
        rw [SchemaUpdater.apply_to_nested, AvroAnalyzer.analyze_nested_types.eq_def]
        · exact ⟨rfl, rfl, by simp, rfl⟩
        · simp
        · simp
      | none =>
        rw [SchemaUpdater.apply_to_nested, AvroAnalyzer.analyze_nested_types.eq_def]
        · exact ⟨rfl, rfl, by simp, rfl⟩
        · simp
        · simp
    · -- union variants
      intro vars p hN hwf hp
      cases vars with
      | nil =>
        rw [AvroAnalyzer.analyze_union_variants, SchemaUpdater.apply_union_variants]
        rw [AvroAnalyzer.analyze_union_variants]
        exact ⟨rfl, rfl, rfl, rfl⟩
      | cons v vs =>
        rw [variantsWF] at hwf
        simp only [Bool.and_eq_true] at hwf
        obtain ⟨hv, hvs⟩ := hwf
        have hwv : 8 * PyVal.weight v + 3 ≤ n := by
          simp only [PyVal.weightList_cons] at hN
          omega
        have hwvs : 8 * PyVal.weightList vs + 1 ≤ n := by
          simp only [PyVal.weightList_cons] at hN
          omega
        obtain ⟨v1, v2, v3, v4⟩ := ihN v p hwv hv hp
        obtain ⟨u1, u2, u3, u4⟩ := ihU vs p hwvs hvs hp
        rw [SchemaUpdater.apply_union_variants, AvroAnalyzer.analyze_union_variants,
          AvroAnalyzer.analyze_union_variants]
        refine ⟨?_, ?_, ?_, ?_⟩
        · simp only [List.map_append, List.filter_append, v1, u1]
        · simp only [v2, u2]
        · simp only [List.map_append, List.countP_append, v3, u3]
          omega
        · simp only [List.length_append, List.map_append, List.countP_append, v4, u4]

theorem PyVal.getEntries_set_obj' {j : PyVal} (h : j.isObjB = true) (k : String)
    (kvs' : List (String × PyVal)) : (j.set k (.obj kvs')).getEntries k = kvs' := by
  simp [PyVal.getEntries, PyVal.get?_set_same' h]

theorem apply_to_object_desc_truthy {obj : PyVal} (hobj : obj.isObjB = true)
    (path : String) (dm : List GeneratedDoc)
    (hdm : ∀ d ∈ dm, d.documentation ≠ "") :
    (((JsonSchemaUpdater.apply_to_object obj path dm).1).pyGet "description").truthy =
      ((obj.pyGet "description").truthy || docHit dm path) := by
  simp only [apply_to_object_eq]
  have hs : (((if !(obj.pyGet "description").truthy then
        match docMapGet dm path with
        | some gd =>
          patchNode obj "description" gd.documentation
            ("Added description to object `" ++ path ++ "` [" ++ gd.confidence ++ "]")
        | Option.none => (obj, [])
      else (obj, [])).1).pyGet "description").truthy =
      ((obj.pyGet "description").truthy || docHit dm path) := by
    by_cases ht : (obj.pyGet "description").truthy
    · simp [ht]
    · rcases hhit : docMapGet dm path with _ | gd
      · simp [ht, hhit, docHit_false_of hhit]
      · obtain ⟨kvs, rfl⟩ := exists_obj_of_isObjB hobj
        simp only [ht, hhit, Bool.not_false, if_true, patchNode]
        rw [PyVal.pyGet_set_same (v := PyVal.str gd.documentation)]
        rw [truthy_docMapGet hdm hhit]
        simp [ht, docHit_true_of hhit]
  split
  · rw [PyVal.pyGet_set_ne _ _ (show ("description" : String) ≠ "properties" from by decide)]
    exact hs
  · exact hs

/-- The object-tree analogue of `patchRel`; the change-count equation only
holds when the analysis paths are duplicate-free, because an undocumented
object-typed property is described twice under one path (as a property and
as an object) but patched once. -/
def jsonRel (dm : List GeneratedDoc) (a a2 : List JsonMissingDoc × Nat × Nat)
    (ch : List String) : Prop :=
  ch.length ≤ (a.1.map (fun d => d.path)).countP (fun p => docHit dm p) ∧
  a2.1.map (fun d => d.path) =
    (a.1.map (fun d => d.path)).filter (fun p => !(docHit dm p)) ∧
  a2.2.1 = a.2.1 ∧
  a2.2.2 = a.2.2 + (a.1.map (fun d => d.path)).countP (fun p => docHit dm p) ∧
  ((a.1.map (fun d => d.path)).Nodup →
    ch.length = (a.1.map (fun d => d.path)).countP (fun p => docHit dm p))

theorem analyze_object_self_mem {obj : PyVal} (pp : String)
    (h : (obj.pyGet "description").truthy = false) :
    pp ∈ (JsonSchemaAnalyzer.analyze_object obj pp).1.map (fun d => d.path) := by
  rw [JsonSchemaAnalyzer.analyze_object]
  simp [h]

theorem json_patch_aux (dm : List GeneratedDoc)
    (hdm : ∀ d ∈ dm, d.documentation ≠ "") : ∀ N : Nat,
    (∀ (obj : PyVal) (path : String), 8 * PyVal.weight obj + 4 ≤ N →
      objWF obj = true →
      jsonRel dm (JsonSchemaAnalyzer.analyze_object obj path)
        (JsonSchemaAnalyzer.analyze_object
          (JsonSchemaUpdater.apply_to_object obj path dm).1 path)
        (JsonSchemaUpdater.apply_to_object obj path dm).2) ∧
    (∀ (props : List (String × PyVal)) (path : String),
      8 * PyVal.weightEntries props + 3 ≤ N → propsWF props = true →
      jsonRel dm (JsonSchemaAnalyzer.analyze_props props path)
        (JsonSchemaAnalyzer.analyze_props
          (JsonSchemaUpdater.apply_props props path dm).1 path)
        (JsonSchemaUpdater.apply_props props path dm).2) := by
  intro N
  induction N with
  | zero =>
    refine ⟨?_, ?_⟩
    · intro obj path hN
      omega
    · intro props path hN
      omega
  | succ n ih =>
    obtain ⟨ihO, ihP⟩ := ih
    refine ⟨?_, ?_⟩
    · -- objects
      intro obj path hN hwf
      rw [objWF] at hwf
      simp only [Bool.and_eq_true] at hwf
      obtain ⟨hobj, hpwf⟩ := hwf
      obtain ⟨kvs, rfl⟩ := exists_obj_of_isObjB hobj
      obtain ⟨s1, hs1eq, hs1obj, hs1props, hs1doc, hs1len⟩ :
          ∃ s1 : PyVal × List String,
            (if !((PyVal.obj kvs).pyGet "description").truthy then
               match docMapGet dm path with
               | some gd =>
                 patchNode (.obj kvs) "description" gd.documentation
                   ("Added description to object `" ++ path ++ "` [" ++
                     gd.confidence ++ "]")
               | Option.none => (.obj kvs, [])
             else (.obj kvs, [])) = s1 ∧
            s1.1.isObjB = true ∧
            s1.1.get? "properties" = (PyVal.obj kvs).get? "properties" ∧
            (s1.1.pyGet "description").truthy =
              (((PyVal.obj kvs).pyGet "description").truthy || docHit dm path) ∧
            s1.2.length = (if ((PyVal.obj kvs).pyGet "description").truthy = false ∧
              docHit dm path = true then 1 else 0) := by
        by_cases hdoc : ((PyVal.obj kvs).pyGet "description").truthy
        · refine ⟨(.obj kvs, []), by simp [hdoc], rfl, rfl, by simp [hdoc],
            by simp [hdoc]⟩
        · rcases hhit : docMapGet dm path with _ | gd
          · refine ⟨(.obj kvs, []), by simp [hdoc, hhit], rfl, rfl, ?_, ?_⟩
            · simp [hdoc, docHit_false_of hhit]
            · simp [docHit_false_of hhit]
          · refine ⟨((PyVal.obj kvs).set "description" (.str gd.documentation),
              ["Added description to object `" ++ path ++ "` [" ++
                gd.confidence ++ "]"]),
              by simp [hdoc, hhit, patchNode], ?_, ?_, ?_, ?_⟩
            · rw [PyVal.isObjB_set]
              exact hobj
            · exact PyVal.get?_set_ne (PyVal.obj kvs) (PyVal.str gd.documentation)
                (show ("properties" : String) ≠ "description" from by decide)
            · rw [PyVal.pyGet_set_same (v := PyVal.str gd.documentation)]
              rw [truthy_docMapGet hdm hhit]
              simp [docHit_true_of hhit]
            · simp [Bool.not_eq_true] at hdoc
              simp [hdoc, docHit_true_of hhit]
      rw [apply_to_object_eq, JsonSchemaAnalyzer.analyze_object]
      simp only [hs1eq]
      rcases hpo : (PyVal.obj kvs).get? "properties" with _ | pv
      · have hge : (PyVal.obj kvs).getEntries "properties" = [] := by
          simp [PyVal.getEntries, hpo]
        have hge2 : s1.1.getEntries "properties" = [] := by
          simp [PyVal.getEntries, hs1props, hpo]
        have hpe : JsonSchemaAnalyzer.analyze_props [] path = ([], 0, 0) := by
          rw [JsonSchemaAnalyzer.analyze_props]
        rw [JsonSchemaAnalyzer.analyze_object]
        simp only [hpo, hge, hge2, hs1doc, hpe]
        refine ⟨?_, ?_, rfl, ?_, ?_⟩
        · by_cases ht : ((PyVal.obj kvs).pyGet "description").truthy <;>
            by_cases hh : docHit dm path <;>
            simp [ht, hh, hs1len, List.countP_cons] <;> omega
        · by_cases ht : ((PyVal.obj kvs).pyGet "description").truthy <;>
            by_cases hh : docHit dm path <;>
            simp [ht, hh]
        · by_cases ht : ((PyVal.obj kvs).pyGet "description").truthy <;>
            by_cases hh : docHit dm path <;>
            simp [ht, hh, List.countP_cons]
        · by_cases ht : ((PyVal.obj kvs).pyGet "description").truthy <;>
            by_cases hh : docHit dm path <;>
            intro hnd <;>
            simp [ht, hh, hs1len, List.countP_cons]
      · cases pv with
        | obj props =>
          have hge : (PyVal.obj kvs).getEntries "properties" = props := by
            simp [PyVal.getEntries, hpo]
          have hwp : 8 * PyVal.weightEntries props + 3 ≤ n := by
            have := PyVal.weight_get? hpo
            simp only [PyVal.weight] at this hN
            omega
          rw [hge] at hpwf
          obtain ⟨p5, p1, p2, p3, p4⟩ := ihP props path hwp hpwf
          have hdoc2 : ((s1.1.set "properties"
              (.obj (JsonSchemaUpdater.apply_props props path dm).1)).pyGet
              "description").truthy =
              (((PyVal.obj kvs).pyGet "description").truthy || docHit dm path) := by
            rw [PyVal.pyGet_set_ne s1.1
              (PyVal.obj (JsonSchemaUpdater.apply_props props path dm).1)
              (show ("description" : String) ≠ "properties" from by decide)]
            exact hs1doc
          have hge2 : (s1.1.set "properties"
              (.obj (JsonSchemaUpdater.apply_props props path dm).1)).getEntries
              "properties" = (JsonSchemaUpdater.apply_props props path dm).1 :=
            PyVal.getEntries_set_obj' hs1obj _ _
          rw [JsonSchemaAnalyzer.analyze_object]
          simp only [hpo, hge, hge2, hdoc2]
          refine ⟨?_, ?_, ?_, ?_, ?_⟩
          · have hlep := p5
            by_cases ht : ((PyVal.obj kvs).pyGet "description").truthy <;>
              by_cases hh : docHit dm path <;>
              simp [ht, hh, hs1len, List.countP_cons, List.countP_append] at hlep ⊢ <;> omega
          · by_cases ht : ((PyVal.obj kvs).pyGet "description").truthy <;>
              by_cases hh : docHit dm path <;>
              simp [ht, hh, p1]
          · simp [p2]
          · by_cases ht : ((PyVal.obj kvs).pyGet "description").truthy <;>
              by_cases hh : docHit dm path <;>
              simp [ht, hh, p3, List.countP_cons] <;> omega
          · intro hnd
            have hnd2 : ((JsonSchemaAnalyzer.analyze_props props path).1.map
                (fun d => d.path)).Nodup := by
              by_cases ht : ((PyVal.obj kvs).pyGet "description").truthy
              · simpa [ht] using hnd
              · have h2 := hnd
                simp [ht, List.nodup_cons] at h2
                exact h2.2
            have hch := p4 hnd2
            by_cases ht : ((PyVal.obj kvs).pyGet "description").truthy <;>
              by_cases hh : docHit dm path <;>
              simp [ht, hh, hs1len, List.countP_cons, List.countP_append, hch] <;> omega
        | str s =>
          have hge : (PyVal.obj kvs).getEntries "properties" = [] := by
            simp [PyVal.getEntries, hpo]
          have hge2 : s1.1.getEntries "properties" = [] := by
            simp [PyVal.getEntries, hs1props, hpo]
          have hpe : JsonSchemaAnalyzer.analyze_props [] path = ([], 0, 0) := by
            rw [JsonSchemaAnalyzer.analyze_props]
          rw [JsonSchemaAnalyzer.analyze_object]
          simp only [hpo, hge, hge2, hs1doc, hpe]
          refine ⟨?_, ?_, rfl, ?_, ?_⟩
          · by_cases ht : ((PyVal.obj kvs).pyGet "description").truthy <;>
              by_cases hh : docHit dm path <;>
              simp [ht, hh, hs1len, List.countP_cons] <;> omega
          · by_cases ht : ((PyVal.obj kvs).pyGet "description").truthy <;>
              by_cases hh : docHit dm path <;>
              simp [ht, hh]
          · by_cases ht : ((PyVal.obj kvs).pyGet "description").truthy <;>
              by_cases hh : docHit dm path <;>
              simp [ht, hh, List.countP_cons]
          · by_cases ht : ((PyVal.obj kvs).pyGet "description").truthy <;>
              by_cases hh : docHit dm path <;>
              intro hnd <;>
              simp [ht, hh, hs1len, List.countP_cons]
        | int n2 =>
          have hge : (PyVal.obj kvs).getEntries "properties" = [] := by
            simp [PyVal.getEntries, hpo]
          have hge2 : s1.1.getEntries "properties" = [] := by
            simp [PyVal.getEntries, hs1props, hpo]
          have hpe : JsonSchemaAnalyzer.analyze_props [] path = ([], 0, 0) := by
            rw [JsonSchemaAnalyzer.analyze_props]
          rw [JsonSchemaAnalyzer.analyze_object]
          simp only [hpo, hge, hge2, hs1doc, hpe]
          refine ⟨?_, ?_, rfl, ?_, ?_⟩
          · by_cases ht : ((PyVal.obj kvs).pyGet "description").truthy <;>
              by_cases hh : docHit dm path <;>
              simp [ht, hh, hs1len, List.countP_cons] <;> omega
          · by_cases ht : ((PyVal.obj kvs).pyGet "description").truthy <;>
              by_cases hh : docHit dm path <;>
              simp [ht, hh]
          · by_cases ht : ((PyVal.obj kvs).pyGet "description").truthy <;>
              by_cases hh : docHit dm path <;>
              simp [ht, hh, List.countP_cons]
          · by_cases ht : ((PyVal.obj kvs).pyGet "description").truthy <;>
              by_cases hh : docHit dm path <;>
              intro hnd <;>
              simp [ht, hh, hs1len, List.countP_cons]
        | bool b =>
          have hge : (PyVal.obj kvs).getEntries "properties" = [] := by
            simp [PyVal.getEntries, hpo]
          have hge2 : s1.1.getEntries "properties" = [] := by
            simp [PyVal.getEntries, hs1props, hpo]
          have hpe : JsonSchemaAnalyzer.analyze_props [] path = ([], 0, 0) := by
            rw [JsonSchemaAnalyzer.analyze_props]
          rw [JsonSchemaAnalyzer.analyze_object]
          simp only [hpo, hge, hge2, hs1doc, hpe]
          refine ⟨?_, ?_, rfl, ?_, ?_⟩
          · by_cases ht : ((PyVal.obj kvs).pyGet "description").truthy <;>
              by_cases hh : docHit dm path <;>
              simp [ht, hh, hs1len, List.countP_cons] <;> omega
          · by_cases ht : ((PyVal.obj kvs).pyGet "description").truthy <;>
              by_cases hh : docHit dm path <;>
              simp [ht, hh]
          · by_cases ht : ((PyVal.obj kvs).pyGet "description").truthy <;>
              by_cases hh : docHit dm path <;>
              simp [ht, hh, List.countP_cons]
          · by_cases ht : ((PyVal.obj kvs).pyGet "description").truthy <;>
              by_cases hh : docHit dm path <;>
              intro hnd <;>
              simp [ht, hh, hs1len, List.countP_cons]
        | none =>
          have hge : (PyVal.obj kvs).getEntries "properties" = [] := by
            simp [PyVal.getEntries, hpo]
          have hge2 : s1.1.getEntries "properties" = [] := by
            simp [PyVal.getEntries, hs1props, hpo]
          have hpe : JsonSchemaAnalyzer.analyze_props [] path = ([], 0, 0) := by
            rw [JsonSchemaAnalyzer.analyze_props]
          rw [JsonSchemaAnalyzer.analyze_object]
          simp only [hpo, hge, hge2, hs1doc, hpe]
          refine ⟨?_, ?_, rfl, ?_, ?_⟩
          · by_cases ht : ((PyVal.obj kvs).pyGet "description").truthy <;>
              by_cases hh : docHit dm path <;>
              simp [ht, hh, hs1len, List.countP_cons] <;> omega
          · by_cases ht : ((PyVal.obj kvs).pyGet "description").truthy <;>
              by_cases hh : docHit dm path <;>
              simp [ht, hh]
          · by_cases ht : ((PyVal.obj kvs).pyGet "description").truthy <;>
              by_cases hh : docHit dm path <;>
              simp [ht, hh, List.countP_cons]
          · by_cases ht : ((PyVal.obj kvs).pyGet "description").truthy <;>
              by_cases hh : docHit dm path <;>
              intro hnd <;>
              simp [ht, hh, hs1len, List.countP_cons]
        | arr xs =>
          have hge : (PyVal.obj kvs).getEntries "properties" = [] := by
            simp [PyVal.getEntries, hpo]
          have hge2 : s1.1.getEntries "properties" = [] := by
            simp [PyVal.getEntries, hs1props, hpo]
          have hpe : JsonSchemaAnalyzer.analyze_props [] path = ([], 0, 0) := by
            rw [JsonSchemaAnalyzer.analyze_props]
          rw [JsonSchemaAnalyzer.analyze_object]
          simp only [hpo, hge, hge2, hs1doc, hpe]
          refine ⟨?_, ?_, rfl, ?_, ?_⟩
          · by_cases ht : ((PyVal.obj kvs).pyGet "description").truthy <;>
              by_cases hh : docHit dm path <;>
              simp [ht, hh, hs1len, List.countP_cons] <;> omega
          · by_cases ht : ((PyVal.obj kvs).pyGet "description").truthy <;>
              by_cases hh : docHit dm path <;>
              simp [ht, hh]
          · by_cases ht : ((PyVal.obj kvs).pyGet "description").truthy <;>
              by_cases hh : docHit dm path <;>
              simp [ht, hh, List.countP_cons]
          · by_cases ht : ((PyVal.obj kvs).pyGet "description").truthy <;>
              by_cases hh : docHit dm path <;>
              intro hnd <;>
              simp [ht, hh, hs1len, List.countP_cons]
    · -- props
      intro props path hN hwf
      cases props with
      | nil =>
        have h1 : JsonSchemaUpdater.apply_props [] path dm = ([], []) := by
          rw [JsonSchemaUpdater.apply_props]
        have h2 : JsonSchemaAnalyzer.analyze_props [] path = ([], 0, 0) := by
          rw [JsonSchemaAnalyzer.analyze_props]
        simp only [h1, h2]
        exact ⟨by simp, rfl, rfl, by simp, by simp⟩
      | cons pr rest =>
        obtain ⟨pn, ps⟩ := pr
        rw [propsWF_cons_eq] at hwf
        simp only [Bool.and_eq_true] at hwf
        obtain ⟨⟨hobj, hbwf⟩, hrwf⟩ := hwf
        obtain ⟨pkvs, rfl⟩ := exists_obj_of_isObjB hobj
        have hrest : 8 * PyVal.weightEntries rest + 3 ≤ n := by
          simp only [PyVal.weightEntries_cons] at hN
          omega
        obtain ⟨f5, f1, f2, f3, f4⟩ := ihP rest path hrest hrwf
        obtain ⟨s1, hs1eq, hs1obj, hs1type, hs1items, hs1doc, hs1len⟩ :
            ∃ s1 : PyVal × List String,
              (if !((PyVal.obj pkvs).pyGet "description").truthy then
                 match docMapGet dm (path ++ "." ++ pn) with
                 | some gd =>
                   patchNode (.obj pkvs) "description" gd.documentation
                     ("Added description to property `" ++ pn ++ "` [" ++
                       gd.confidence ++ "]")
                 | Option.none => (.obj pkvs, [])
               else (.obj pkvs, [])) = s1 ∧
              s1.1.isObjB = true ∧
              s1.1.get? "type" = (PyVal.obj pkvs).get? "type" ∧
              s1.1.get? "items" = (PyVal.obj pkvs).get? "items" ∧
              (s1.1.pyGet "description").truthy =
                (((PyVal.obj pkvs).pyGet "description").truthy || docHit dm (path ++ "." ++ pn)) ∧
              s1.2.length =
                (if ((PyVal.obj pkvs).pyGet "description").truthy = false ∧
                  docHit dm (path ++ "." ++ pn) = true then 1 else 0) := by
          by_cases hdoc : ((PyVal.obj pkvs).pyGet "description").truthy
          · refine ⟨(.obj pkvs, []), by simp [hdoc], rfl, rfl, rfl, by simp [hdoc],
              by simp [hdoc]⟩
          · rcases hhit : docMapGet dm (path ++ "." ++ pn) with _ | gd
            · refine ⟨(.obj pkvs, []), by simp [hdoc, hhit], rfl, rfl, rfl, ?_, ?_⟩
              · simp [hdoc, docHit_false_of hhit]
              · simp [docHit_false_of hhit]
            · refine ⟨((PyVal.obj pkvs).set "description" (.str gd.documentation),
                ["Added description to property `" ++ pn ++ "` [" ++
                  gd.confidence ++ "]"]),
                by simp [hdoc, hhit, patchNode], ?_, ?_, ?_, ?_, ?_⟩
              · rw [PyVal.isObjB_set]
                exact hobj
              · exact PyVal.get?_set_ne (PyVal.obj pkvs) (PyVal.str gd.documentation)
                  (show ("type" : String) ≠ "description" from by decide)
              · exact PyVal.get?_set_ne (PyVal.obj pkvs) (PyVal.str gd.documentation)
                  (show ("items" : String) ≠ "description" from by decide)
              · rw [PyVal.pyGet_set_same (v := PyVal.str gd.documentation)]
                rw [truthy_docMapGet hdm hhit]
                simp [docHit_true_of hhit]
              · simp [Bool.not_eq_true] at hdoc
                simp [hdoc, docHit_true_of hhit]
        by_cases htyo : ((PyVal.obj pkvs).pyGet "type").isStr "object"
        · -- object-typed property
          have hwfo : objWF (.obj pkvs) = true := by
            simpa [htyo] using hbwf
          have hwo : 8 * PyVal.weight (.obj pkvs) + 4 ≤ n := by
            simp only [PyVal.weightEntries_cons] at hN
            omega
          by_cases ht : ((PyVal.obj pkvs).pyGet "description").truthy
          · -- already documented at the property level
            obtain ⟨o5, o1, o2, o3, o4⟩ := ihO (.obj pkvs) (path ++ "." ++ pn) hwo hwfo
            have hdocU : (((JsonSchemaUpdater.apply_to_object (.obj pkvs) (path ++ "." ++ pn) dm).1).pyGet "description").truthy = true := by
              rw [apply_to_object_desc_truthy hobj (path ++ "." ++ pn) dm hdm, ht]
              simp
            have htyU : (((JsonSchemaUpdater.apply_to_object (.obj pkvs) (path ++ "." ++ pn) dm).1).pyGet "type").isStr "object" = true := by
              rw [PyVal.pyGet_congr "type" (PyVal.obj pkvs)
                (apply_to_object_get?_ne (.obj pkvs) (path ++ "." ++ pn) dm (by decide) (by decide))]
              exact htyo
            rw [apply_props_cons_eq, analyze_props_cons_eq]
            simp only [ht, Bool.not_true, Bool.false_eq_true, if_false, htyo, if_true]
            rw [analyze_props_cons_eq]
            simp only [hdocU, htyU, if_true]
            refine ⟨?_, ?_, ?_, ?_, ?_⟩
            · have hleo := o5
              have hlef := f5
              simp [ht, List.countP_cons, List.countP_append] at hleo hlef ⊢ <;> omega
            · simp [ht, o1, f1]
            · simp [o2, f2]
            · simp [ht, o3, f3, List.countP_append]
              omega
            · intro hnd
              have hnds : (((JsonSchemaAnalyzer.analyze_object (.obj pkvs)
                  (path ++ "." ++ pn)).1.map (fun d => d.path)).Nodup ∧
                  ((JsonSchemaAnalyzer.analyze_props rest path).1.map
                    (fun d => d.path)).Nodup) := by
                have h2 := hnd
                simp [ht, List.nodup_append] at h2
                exact ⟨h2.1, h2.2.1⟩
              have hcho := o4 hnds.1
              have hchf := f4 hnds.2
              simp [ht, hcho, hchf, List.countP_append]
          · have ht2 : ((PyVal.obj pkvs).pyGet "description").truthy = false := by
              simpa [Bool.not_eq_true] using ht
            rcases hhit : docMapGet dm (path ++ "." ++ pn) with _ | gd
            · -- undocumented, no matching entry
              have hhf : docHit dm (path ++ "." ++ pn) = false := docHit_false_of hhit
              obtain ⟨o5, o1, o2, o3, o4⟩ := ihO (.obj pkvs) (path ++ "." ++ pn) hwo hwfo
              have hdocU : (((JsonSchemaUpdater.apply_to_object (.obj pkvs) (path ++ "." ++ pn) dm).1).pyGet "description").truthy = false := by
                rw [apply_to_object_desc_truthy hobj (path ++ "." ++ pn) dm hdm, ht2, hhf]
                simp
              have htyU : (((JsonSchemaUpdater.apply_to_object (.obj pkvs) (path ++ "." ++ pn) dm).1).pyGet "type").isStr "object" = true := by
                rw [PyVal.pyGet_congr "type" (PyVal.obj pkvs)
                  (apply_to_object_get?_ne (.obj pkvs) (path ++ "." ++ pn) dm (by decide) (by decide))]
                exact htyo
              rw [apply_props_cons_eq, analyze_props_cons_eq]
              simp only [ht2, hhit, Bool.not_false, if_true, htyo, Bool.false_eq_true,
                if_false]
              rw [analyze_props_cons_eq]
              simp only [hdocU, htyU, Bool.false_eq_true, if_false, if_true]
              refine ⟨?_, ?_, ?_, ?_, ?_⟩
              · have hleo := o5
                have hlef := f5
                simp [ht2, hhf, List.countP_cons, List.countP_append] at hleo hlef ⊢ <;> omega
              · simp [ht2, hhf, o1, f1]
              · simp [o2, f2]
              · simp [ht2, hhf, o3, f3, List.countP_cons, List.countP_append]
                omega
              · intro hnd
                exfalso
                have hmem := analyze_object_self_mem (path ++ "." ++ pn) ht2
                simp only [ht2, Bool.false_eq_true, if_false, List.map_append,
                  List.map_cons, List.map_nil, List.singleton_append] at hnd
                exact (List.nodup_cons.mp hnd).1 (List.mem_append_left _ hmem)
            · -- undocumented, matching entry
              have hhd : docHit dm (path ++ "." ++ pn) = true := docHit_true_of hhit
              have hsp_desc : ((((PyVal.obj pkvs).set "description" (PyVal.str gd.documentation))).pyGet "description").truthy = true := by
                rw [PyVal.pyGet_set_same (v := PyVal.str gd.documentation)]
                exact truthy_docMapGet hdm hhit
              rcases hp2 : (PyVal.obj pkvs).get? "properties" with _ | pv
              · -- no properties key
                have hgeo : (PyVal.obj pkvs).getEntries "properties" = [] := by
                  simp [PyVal.getEntries, hp2]
                have hgesp : (((PyVal.obj pkvs).set "description" (PyVal.str gd.documentation))).getEntries "properties" = [] := by
                  simp [PyVal.getEntries, PyVal.get?_set_ne (PyVal.obj pkvs)
                    (PyVal.str gd.documentation)
                    (show ("properties" : String) ≠ "description" from by decide), hp2]
                have hpe : JsonSchemaAnalyzer.analyze_props [] (path ++ "." ++ pn) = ([], 0, 0) := by
                  rw [JsonSchemaAnalyzer.analyze_props]
                have hAo : JsonSchemaAnalyzer.analyze_object (.obj pkvs) (path ++ "." ++ pn) =
                    ([⟨(path ++ "." ++ pn), "object", ((path ++ "." ++ pn).splitOn ".").getLastD (path ++ "." ++ pn), "object",
                       [("title", (PyVal.obj pkvs).pyGet "title")]⟩], 1, 0) := by
                  rw [JsonSchemaAnalyzer.analyze_object]
                  simp [ht2, hgeo, hpe]
                have hAsp : JsonSchemaAnalyzer.analyze_object ((PyVal.obj pkvs).set "description" (PyVal.str gd.documentation)) (path ++ "." ++ pn) = ([], 1, 1) := by
                  rw [JsonSchemaAnalyzer.analyze_object]
                  simp [hsp_desc, hgesp, hpe]
                have htysp : ((((PyVal.obj pkvs).set "description" (PyVal.str gd.documentation))).pyGet "type").isStr "object" = true := by
                  rw [PyVal.pyGet_congr "type" (PyVal.obj pkvs)
                    (PyVal.get?_set_ne (PyVal.obj pkvs) (PyVal.str gd.documentation)
                      (show ("type" : String) ≠ "description" from by decide))]
                  exact htyo
                have hU2 : JsonSchemaUpdater.apply_to_object ((PyVal.obj pkvs).set "description" (PyVal.str gd.documentation)) (path ++ "." ++ pn) dm =
                    (((PyVal.obj pkvs).set "description" (PyVal.str gd.documentation)), []) := by
                  rw [apply_to_object_eq]
                  simp only [hsp_desc, Bool.not_true, Bool.false_eq_true, if_false]
                  rw [PyVal.get?_set_ne (PyVal.obj pkvs) (PyVal.str gd.documentation)
                    (show ("properties" : String) ≠ "description" from by decide)]
                  simp only [hp2]
                rw [apply_props_cons_eq, analyze_props_cons_eq]
                simp only [ht2, hhit, Bool.not_false, if_true, patchNode, htyo, hU2, hAo]
                rw [analyze_props_cons_eq]
                simp only [hsp_desc, htysp, hAsp, if_true]
                refine ⟨?_, ?_, ?_, ?_, ?_⟩
                · have hlef := f5
                  simp [ht2, hhd, List.countP_cons] at hlef ⊢ <;> omega
                · simp [ht2, hhd, f1]
                · simp [f2]
                · simp [ht2, hhd, f3, List.countP_cons] <;> omega
                · intro hnd
                  simp [List.nodup_cons] at hnd
              · cases pv with
                | obj props2 =>
                  have hgeo : (PyVal.obj pkvs).getEntries "properties" = props2 := by
                    simp [PyVal.getEntries, hp2]
                  have hq : propsWF props2 = true := by
                    rw [objWF] at hwfo
                    simp only [Bool.and_eq_true] at hwfo
                    rw [hgeo] at hwfo
                    exact hwfo.2
                  have hwq : 8 * PyVal.weightEntries props2 + 3 ≤ n := by
                    have := PyVal.weight_get? hp2
                    simp only [PyVal.weight, PyVal.weightEntries_cons] at this hN
                    omega
                  obtain ⟨q5, q1, q2, q3, q4⟩ := ihP props2 (path ++ "." ++ pn) hwq hq
                  have hspobj : (((PyVal.obj pkvs).set "description" (PyVal.str gd.documentation)) : PyVal).isObjB = true := by
                    rw [PyVal.isObjB_set]
                    exact hobj
                  have hU2 : JsonSchemaUpdater.apply_to_object ((PyVal.obj pkvs).set "description" (PyVal.str gd.documentation)) (path ++ "." ++ pn) dm =
                      ((((PyVal.obj pkvs).set "description" (PyVal.str gd.documentation)).set "properties" (PyVal.obj (JsonSchemaUpdater.apply_props props2 (path ++ "." ++ pn) dm).1)), (JsonSchemaUpdater.apply_props props2 (path ++ "." ++ pn) dm).2) := by
                    rw [apply_to_object_eq]
                    simp only [hsp_desc, Bool.not_true, Bool.false_eq_true, if_false]
                    rw [PyVal.get?_set_ne (PyVal.obj pkvs) (PyVal.str gd.documentation)
                      (show ("properties" : String) ≠ "description" from by decide)]
                    simp only [hp2]
                    simp
                  have hAo : JsonSchemaAnalyzer.analyze_object (.obj pkvs) (path ++ "." ++ pn) =
                      ([⟨(path ++ "." ++ pn), "object", ((path ++ "." ++ pn).splitOn ".").getLastD (path ++ "." ++ pn), "object",
                         [("title", (PyVal.obj pkvs).pyGet "title")]⟩] ++
                         (JsonSchemaAnalyzer.analyze_props props2 (path ++ "." ++ pn)).1,
                       1 + (JsonSchemaAnalyzer.analyze_props props2 (path ++ "." ++ pn)).2.1,
                       (JsonSchemaAnalyzer.analyze_props props2 (path ++ "." ++ pn)).2.2) := by
                    rw [JsonSchemaAnalyzer.analyze_object]
                    simp [ht2, hgeo]
                  have hdescupd : (((((PyVal.obj pkvs).set "description" (PyVal.str gd.documentation)).set "properties" (PyVal.obj (JsonSchemaUpdater.apply_props props2 (path ++ "." ++ pn) dm).1))).pyGet "description").truthy = true := by
                    rw [PyVal.pyGet_set_ne ((PyVal.obj pkvs).set "description" (PyVal.str gd.documentation)) (PyVal.obj (JsonSchemaUpdater.apply_props props2 (path ++ "." ++ pn) dm).1)
                      (show ("description" : String) ≠ "properties" from by decide)]
                    exact hsp_desc
                  have hgeupd : ((((PyVal.obj pkvs).set "description" (PyVal.str gd.documentation)).set "properties" (PyVal.obj (JsonSchemaUpdater.apply_props props2 (path ++ "." ++ pn) dm).1))).getEntries "properties" = (JsonSchemaUpdater.apply_props props2 (path ++ "." ++ pn) dm).1 :=
                    PyVal.getEntries_set_obj' hspobj _ _
                  have hAu : JsonSchemaAnalyzer.analyze_object (((PyVal.obj pkvs).set "description" (PyVal.str gd.documentation)).set "properties" (PyVal.obj (JsonSchemaUpdater.apply_props props2 (path ++ "." ++ pn) dm).1)) (path ++ "." ++ pn) =
                      ((JsonSchemaAnalyzer.analyze_props (JsonSchemaUpdater.apply_props props2 (path ++ "." ++ pn) dm).1 (path ++ "." ++ pn)).1,
                       1 + (JsonSchemaAnalyzer.analyze_props (JsonSchemaUpdater.apply_props props2 (path ++ "." ++ pn) dm).1 (path ++ "." ++ pn)).2.1,
                       1 + (JsonSchemaAnalyzer.analyze_props (JsonSchemaUpdater.apply_props props2 (path ++ "." ++ pn) dm).1 (path ++ "." ++ pn)).2.2) := by
                    rw [JsonSchemaAnalyzer.analyze_object]
                    simp [hdescupd, hgeupd]
                  have htyupd : (((((PyVal.obj pkvs).set "description" (PyVal.str gd.documentation)).set "properties" (PyVal.obj (JsonSchemaUpdater.apply_props props2 (path ++ "." ++ pn) dm).1))).pyGet "type").isStr "object" = true := by
                    rw [PyVal.pyGet_congr "type" (((PyVal.obj pkvs).set "description" (PyVal.str gd.documentation)))
                      (PyVal.get?_set_ne ((PyVal.obj pkvs).set "description" (PyVal.str gd.documentation)) (PyVal.obj (JsonSchemaUpdater.apply_props props2 (path ++ "." ++ pn) dm).1)
                        (show ("type" : String) ≠ "properties" from by decide))]
                    rw [PyVal.pyGet_congr "type" (PyVal.obj pkvs)
                      (PyVal.get?_set_ne (PyVal.obj pkvs) (PyVal.str gd.documentation)
                        (show ("type" : String) ≠ "description" from by decide))]
                    exact htyo
                  rw [apply_props_cons_eq, analyze_props_cons_eq]
                  simp only [ht2, hhit, Bool.not_false, if_true, patchNode, htyo, hU2,
                    hAo]
                  rw [analyze_props_cons_eq]
                  simp only [hdescupd, htyupd, hAu, if_true]
                  refine ⟨?_, ?_, ?_, ?_, ?_⟩
                  · have hleq := q5
                    have hlef := f5
                    simp [ht2, hhd, List.countP_cons, List.countP_append] at hleq hlef ⊢ <;> omega
                  · simp [ht2, hhd, q1, f1]
                  · simp [q2, f2]
                  · simp [ht2, hhd, q3, f3, List.countP_cons, List.countP_append]
                    omega
                  · intro hnd
                    simp [List.nodup_cons] at hnd
                | str s =>
                  have hgeo : (PyVal.obj pkvs).getEntries "properties" = [] := by
                    simp [PyVal.getEntries, hp2]
                  have hgesp : (((PyVal.obj pkvs).set "description" (PyVal.str gd.documentation))).getEntries "properties" = [] := by
                    simp [PyVal.getEntries, PyVal.get?_set_ne (PyVal.obj pkvs)
                      (PyVal.str gd.documentation)
                      (show ("properties" : String) ≠ "description" from by decide), hp2]
                  have hpe : JsonSchemaAnalyzer.analyze_props [] (path ++ "." ++ pn) = ([], 0, 0) := by
                    rw [JsonSchemaAnalyzer.analyze_props]
                  have hAo : JsonSchemaAnalyzer.analyze_object (.obj pkvs) (path ++ "." ++ pn) =
                      ([⟨(path ++ "." ++ pn), "object", ((path ++ "." ++ pn).splitOn ".").getLastD (path ++ "." ++ pn), "object",
                         [("title", (PyVal.obj pkvs).pyGet "title")]⟩], 1, 0) := by
                    rw [JsonSchemaAnalyzer.analyze_object]
                    simp [ht2, hgeo, hpe]
                  have hAsp : JsonSchemaAnalyzer.analyze_object ((PyVal.obj pkvs).set "description" (PyVal.str gd.documentation)) (path ++ "." ++ pn) = ([], 1, 1) := by
                    rw [JsonSchemaAnalyzer.analyze_object]
                    simp [hsp_desc, hgesp, hpe]
                  have htysp : ((((PyVal.obj pkvs).set "description" (PyVal.str gd.documentation))).pyGet "type").isStr "object" = true := by
                    rw [PyVal.pyGet_congr "type" (PyVal.obj pkvs)
                      (PyVal.get?_set_ne (PyVal.obj pkvs) (PyVal.str gd.documentation)
                        (show ("type" : String) ≠ "description" from by decide))]
                    exact htyo
                  have hU2 : JsonSchemaUpdater.apply_to_object ((PyVal.obj pkvs).set "description" (PyVal.str gd.documentation)) (path ++ "." ++ pn) dm =
                      (((PyVal.obj pkvs).set "description" (PyVal.str gd.documentation)), []) := by
                    rw [apply_to_object_eq]
                    simp only [hsp_desc, Bool.not_true, Bool.false_eq_true, if_false]
                    rw [PyVal.get?_set_ne (PyVal.obj pkvs) (PyVal.str gd.documentation)
                      (show ("properties" : String) ≠ "description" from by decide)]
                    simp only [hp2]
                  rw [apply_props_cons_eq, analyze_props_cons_eq]
                  simp only [ht2, hhit, Bool.not_false, if_true, patchNode, htyo, hU2, hAo]
                  rw [analyze_props_cons_eq]
                  simp only [hsp_desc, htysp, hAsp, if_true]
                  refine ⟨?_, ?_, ?_, ?_, ?_⟩
                  · have hlef := f5
                    simp [ht2, hhd, List.countP_cons] at hlef ⊢ <;> omega
                  · simp [ht2, hhd, f1]
                  · simp [f2]
                  · simp [ht2, hhd, f3, List.countP_cons] <;> omega
                  · intro hnd
                    simp [List.nodup_cons] at hnd
                | int n2 =>
                  have hgeo : (PyVal.obj pkvs).getEntries "properties" = [] := by
                    simp [PyVal.getEntries, hp2]
                  have hgesp : (((PyVal.obj pkvs).set "description" (PyVal.str gd.documentation))).getEntries "properties" = [] := by
                    simp [PyVal.getEntries, PyVal.get?_set_ne (PyVal.obj pkvs)
                      (PyVal.str gd.documentation)
                      (show ("properties" : String) ≠ "description" from by decide), hp2]
                  have hpe : JsonSchemaAnalyzer.analyze_props [] (path ++ "." ++ pn) = ([], 0, 0) := by
                    rw [JsonSchemaAnalyzer.analyze_props]
                  have hAo : JsonSchemaAnalyzer.analyze_object (.obj pkvs) (path ++ "." ++ pn) =
                      ([⟨(path ++ "." ++ pn), "object", ((path ++ "." ++ pn).splitOn ".").getLastD (path ++ "." ++ pn), "object",
                         [("title", (PyVal.obj pkvs).pyGet "title")]⟩], 1, 0) := by
                    rw [JsonSchemaAnalyzer.analyze_object]
                    simp [ht2, hgeo, hpe]
                  have hAsp : JsonSchemaAnalyzer.analyze_object ((PyVal.obj pkvs).set "description" (PyVal.str gd.documentation)) (path ++ "." ++ pn) = ([], 1, 1) := by
                    rw [JsonSchemaAnalyzer.analyze_object]
                    simp [hsp_desc, hgesp, hpe]
                  have htysp : ((((PyVal.obj pkvs).set "description" (PyVal.str gd.documentation))).pyGet "type").isStr "object" = true := by
                    rw [PyVal.pyGet_congr "type" (PyVal.obj pkvs)
                      (PyVal.get?_set_ne (PyVal.obj pkvs) (PyVal.str gd.documentation)
                        (show ("type" : String) ≠ "description" from by decide))]
                    exact htyo
                  have hU2 : JsonSchemaUpdater.apply_to_object ((PyVal.obj pkvs).set "description" (PyVal.str gd.documentation)) (path ++ "." ++ pn) dm =
                      (((PyVal.obj pkvs).set "description" (PyVal.str gd.documentation)), []) := by
                    rw [apply_to_object_eq]
                    simp only [hsp_desc, Bool.not_true, Bool.false_eq_true, if_false]
                    rw [PyVal.get?_set_ne (PyVal.obj pkvs) (PyVal.str gd.documentation)
                      (show ("properties" : String) ≠ "description" from by decide)]
                    simp only [hp2]
                  rw [apply_props_cons_eq, analyze_props_cons_eq]
                  simp only [ht2, hhit, Bool.not_false, if_true, patchNode, htyo, hU2, hAo]
                  rw [analyze_props_cons_eq]
                  simp only [hsp_desc, htysp, hAsp, if_true]
                  refine ⟨?_, ?_, ?_, ?_, ?_⟩
                  · have hlef := f5
                    simp [ht2, hhd, List.countP_cons] at hlef ⊢ <;> omega
                  · simp [ht2, hhd, f1]
                  · simp [f2]
                  · simp [ht2, hhd, f3, List.countP_cons] <;> omega
                  · intro hnd
                    simp [List.nodup_cons] at hnd
                | bool b =>
                  have hgeo : (PyVal.obj pkvs).getEntries "properties" = [] := by
                    simp [PyVal.getEntries, hp2]
                  have hgesp : (((PyVal.obj pkvs).set "description" (PyVal.str gd.documentation))).getEntries "properties" = [] := by
                    simp [PyVal.getEntries, PyVal.get?_set_ne (PyVal.obj pkvs)
                      (PyVal.str gd.documentation)
                      (show ("properties" : String) ≠ "description" from by decide), hp2]
                  have hpe : JsonSchemaAnalyzer.analyze_props [] (path ++ "." ++ pn) = ([], 0, 0) := by
                    rw [JsonSchemaAnalyzer.analyze_props]
                  have hAo : JsonSchemaAnalyzer.analyze_object (.obj pkvs) (path ++ "." ++ pn) =
                      ([⟨(path ++ "." ++ pn), "object", ((path ++ "." ++ pn).splitOn ".").getLastD (path ++ "." ++ pn), "object",
                         [("title", (PyVal.obj pkvs).pyGet "title")]⟩], 1, 0) := by
                    rw [JsonSchemaAnalyzer.analyze_object]
                    simp [ht2, hgeo, hpe]
                  have hAsp : JsonSchemaAnalyzer.analyze_object ((PyVal.obj pkvs).set "description" (PyVal.str gd.documentation)) (path ++ "." ++ pn) = ([], 1, 1) := by
                    rw [JsonSchemaAnalyzer.analyze_object]
                    simp [hsp_desc, hgesp, hpe]
                  have htysp : ((((PyVal.obj pkvs).set "description" (PyVal.str gd.documentation))).pyGet "type").isStr "object" = true := by
                    rw [PyVal.pyGet_congr "type" (PyVal.obj pkvs)
                      (PyVal.get?_set_ne (PyVal.obj pkvs) (PyVal.str gd.documentation)
                        (show ("type" : String) ≠ "description" from by decide))]
                    exact htyo
                  have hU2 : JsonSchemaUpdater.apply_to_object ((PyVal.obj pkvs).set "description" (PyVal.str gd.documentation)) (path ++ "." ++ pn) dm =
                      (((PyVal.obj pkvs).set "description" (PyVal.str gd.documentation)), []) := by
                    rw [apply_to_object_eq]
                    simp only [hsp_desc, Bool.not_true, Bool.false_eq_true, if_false]
                    rw [PyVal.get?_set_ne (PyVal.obj pkvs) (PyVal.str gd.documentation)
                      (show ("properties" : String) ≠ "description" from by decide)]
                    simp only [hp2]
                  rw [apply_props_cons_eq, analyze_props_cons_eq]
                  simp only [ht2, hhit, Bool.not_false, if_true, patchNode, htyo, hU2, hAo]
                  rw [analyze_props_cons_eq]
                  simp only [hsp_desc, htysp, hAsp, if_true]
                  refine ⟨?_, ?_, ?_, ?_, ?_⟩
                  · have hlef := f5
                    simp [ht2, hhd, List.countP_cons] at hlef ⊢ <;> omega
                  · simp [ht2, hhd, f1]
                  · simp [f2]
                  · simp [ht2, hhd, f3, List.countP_cons] <;> omega
                  · intro hnd
                    simp [List.nodup_cons] at hnd
                | none =>
                  have hgeo : (PyVal.obj pkvs).getEntries "properties" = [] := by
                    simp [PyVal.getEntries, hp2]
                  have hgesp : (((PyVal.obj pkvs).set "description" (PyVal.str gd.documentation))).getEntries "properties" = [] := by
                    simp [PyVal.getEntries, PyVal.get?_set_ne (PyVal.obj pkvs)
                      (PyVal.str gd.documentation)
                      (show ("properties" : String) ≠ "description" from by decide), hp2]
                  have hpe : JsonSchemaAnalyzer.analyze_props [] (path ++ "." ++ pn) = ([], 0, 0) := by
                    rw [JsonSchemaAnalyzer.analyze_props]
                  have hAo : JsonSchemaAnalyzer.analyze_object (.obj pkvs) (path ++ "." ++ pn) =
                      ([⟨(path ++ "." ++ pn), "object", ((path ++ "." ++ pn).splitOn ".").getLastD (path ++ "." ++ pn), "object",
                         [("title", (PyVal.obj pkvs).pyGet "title")]⟩], 1, 0) := by
                    rw [JsonSchemaAnalyzer.analyze_object]
                    simp [ht2, hgeo, hpe]
                  have hAsp : JsonSchemaAnalyzer.analyze_object ((PyVal.obj pkvs).set "description" (PyVal.str gd.documentation)) (path ++ "." ++ pn) = ([], 1, 1) := by
                    rw [JsonSchemaAnalyzer.analyze_object]
                    simp [hsp_desc, hgesp, hpe]
                  have htysp : ((((PyVal.obj pkvs).set "description" (PyVal.str gd.documentation))).pyGet "type").isStr "object" = true := by
                    rw [PyVal.pyGet_congr "type" (PyVal.obj pkvs)
                      (PyVal.get?_set_ne (PyVal.obj pkvs) (PyVal.str gd.documentation)
                        (show ("type" : String) ≠ "description" from by decide))]
                    exact htyo
                  have hU2 : JsonSchemaUpdater.apply_to_object ((PyVal.obj pkvs).set "description" (PyVal.str gd.documentation)) (path ++ "." ++ pn) dm =
                      (((PyVal.obj pkvs).set "description" (PyVal.str gd.documentation)), []) := by
                    rw [apply_to_object_eq]
                    simp only [hsp_desc, Bool.not_true, Bool.false_eq_true, if_false]
                    rw [PyVal.get?_set_ne (PyVal.obj pkvs) (PyVal.str gd.documentation)
                      (show ("properties" : String) ≠ "description" from by decide)]
                    simp only [hp2]
                  rw [apply_props_cons_eq, analyze_props_cons_eq]
                  simp only [ht2, hhit, Bool.not_false, if_true, patchNode, htyo, hU2, hAo]
                  rw [analyze_props_cons_eq]
                  simp only [hsp_desc, htysp, hAsp, if_true]
                  refine ⟨?_, ?_, ?_, ?_, ?_⟩
                  · have hlef := f5
                    simp [ht2, hhd, List.countP_cons] at hlef ⊢ <;> omega
                  · simp [ht2, hhd, f1]
                  · simp [f2]
                  · simp [ht2, hhd, f3, List.countP_cons] <;> omega
                  · intro hnd
                    simp [List.nodup_cons] at hnd
                | arr xs =>
                  have hgeo : (PyVal.obj pkvs).getEntries "properties" = [] := by
                    simp [PyVal.getEntries, hp2]
                  have hgesp : (((PyVal.obj pkvs).set "description" (PyVal.str gd.documentation))).getEntries "properties" = [] := by
                    simp [PyVal.getEntries, PyVal.get?_set_ne (PyVal.obj pkvs)
                      (PyVal.str gd.documentation)
                      (show ("properties" : String) ≠ "description" from by decide), hp2]
                  have hpe : JsonSchemaAnalyzer.analyze_props [] (path ++ "." ++ pn) = ([], 0, 0) := by
                    rw [JsonSchemaAnalyzer.analyze_props]
                  have hAo : JsonSchemaAnalyzer.analyze_object (.obj pkvs) (path ++ "." ++ pn) =
                      ([⟨(path ++ "." ++ pn), "object", ((path ++ "." ++ pn).splitOn ".").getLastD (path ++ "." ++ pn), "object",
                         [("title", (PyVal.obj pkvs).pyGet "title")]⟩], 1, 0) := by
                    rw [JsonSchemaAnalyzer.analyze_object]
                    simp [ht2, hgeo, hpe]
                  have hAsp : JsonSchemaAnalyzer.analyze_object ((PyVal.obj pkvs).set "description" (PyVal.str gd.documentation)) (path ++ "." ++ pn) = ([], 1, 1) := by
                    rw [JsonSchemaAnalyzer.analyze_object]
                    simp [hsp_desc, hgesp, hpe]
                  have htysp : ((((PyVal.obj pkvs).set "description" (PyVal.str gd.documentation))).pyGet "type").isStr "object" = true := by
                    rw [PyVal.pyGet_congr "type" (PyVal.obj pkvs)
                      (PyVal.get?_set_ne (PyVal.obj pkvs) (PyVal.str gd.documentation)
                        (show ("type" : String) ≠ "description" from by decide))]
                    exact htyo
                  have hU2 : JsonSchemaUpdater.apply_to_object ((PyVal.obj pkvs).set "description" (PyVal.str gd.documentation)) (path ++ "." ++ pn) dm =
                      (((PyVal.obj pkvs).set "description" (PyVal.str gd.documentation)), []) := by
                    rw [apply_to_object_eq]
                    simp only [hsp_desc, Bool.not_true, Bool.false_eq_true, if_false]
                    rw [PyVal.get?_set_ne (PyVal.obj pkvs) (PyVal.str gd.documentation)
                      (show ("properties" : String) ≠ "description" from by decide)]
                    simp only [hp2]
                  rw [apply_props_cons_eq, analyze_props_cons_eq]
                  simp only [ht2, hhit, Bool.not_false, if_true, patchNode, htyo, hU2, hAo]
                  rw [analyze_props_cons_eq]
                  simp only [hsp_desc, htysp, hAsp, if_true]
                  refine ⟨?_, ?_, ?_, ?_, ?_⟩
                  · have hlef := f5
                    simp [ht2, hhd, List.countP_cons] at hlef ⊢ <;> omega
                  · simp [ht2, hhd, f1]
                  · simp [f2]
                  · simp [ht2, hhd, f3, List.countP_cons] <;> omega
                  · intro hnd
                    simp [List.nodup_cons] at hnd
        · by_cases htya : ((PyVal.obj pkvs).pyGet "type").isStr "array"
          · -- array-typed property
            have htyo2 : (s1.1.pyGet "type").isStr "object" = false := by
              rw [PyVal.pyGet_congr "type" _ hs1type]
              simp [htyo]
            have htya2 : (s1.1.pyGet "type").isStr "array" = true := by
              rw [PyVal.pyGet_congr "type" _ hs1type]
              exact htya
            rcases hio : (PyVal.obj pkvs).get? "items" with _ | items
            · -- no items key
              have hio2 : s1.1.get? "items" = Option.none := by rw [hs1items, hio]
              rw [apply_props_cons_eq, analyze_props_cons_eq]
              simp only [hs1eq, htyo, htya, hio, Bool.false_eq_true, if_false, if_true]
              rw [analyze_props_cons_eq]
              simp only [htyo2, htya2, hio2, hs1doc, Bool.false_eq_true, if_false, if_true]
              refine ⟨?_, ?_, ?_, ?_, ?_⟩
              · have hlef := f5
                by_cases ht : ((PyVal.obj pkvs).pyGet "description").truthy <;>
                  by_cases hh : docHit dm (path ++ "." ++ pn) <;>
                  simp [ht, hh, hs1len, List.countP_cons] at hlef ⊢ <;> omega
              · by_cases ht : ((PyVal.obj pkvs).pyGet "description").truthy <;>
                  by_cases hh : docHit dm (path ++ "." ++ pn) <;>
                  simp [ht, hh, f1]
              · simp [f2]
              · by_cases ht : ((PyVal.obj pkvs).pyGet "description").truthy <;>
                  by_cases hh : docHit dm (path ++ "." ++ pn) <;>
                  simp [ht, hh, f3, List.countP_cons] <;> omega
              · intro hnd
                have hnd2 : ((JsonSchemaAnalyzer.analyze_props rest path).1.map
                    (fun d => d.path)).Nodup := by
                  by_cases ht : ((PyVal.obj pkvs).pyGet "description").truthy
                  · simpa [ht] using hnd
                  · have h2 := hnd
                    simp [ht, List.nodup_cons] at h2
                    exact h2.2
                have hch := f4 hnd2
                by_cases ht : ((PyVal.obj pkvs).pyGet "description").truthy <;>
                  by_cases hh : docHit dm (path ++ "." ++ pn) <;>
                  simp [ht, hh, hs1len, List.countP_cons, hch] <;> omega
            · by_cases hoi : (items.pyGet "type").isStr "object"
              · -- array of objects
                have hio2 : s1.1.get? "items" = some items := by rw [hs1items, hio]
                have hwfi : objWF items = true := by
                  simp only [htyo, htya, hio, hoi, Bool.false_eq_true, if_false,
                    if_true] at hbwf
                  exact hbwf
                have hwi : 8 * PyVal.weight items + 4 ≤ n := by
                  have := PyVal.weight_get? hio
                  simp only [PyVal.weightEntries_cons] at hN
                  omega
                obtain ⟨o5, o1, o2, o3, o4⟩ := ihO items ((path ++ "." ++ pn) ++ "[]") hwi hwfi
                have hdoc2 : ((s1.1.set "items" (JsonSchemaUpdater.apply_to_object items ((path ++ "." ++ pn) ++ "[]") dm).1).pyGet "description").truthy =
                    (((PyVal.obj pkvs).pyGet "description").truthy || docHit dm (path ++ "." ++ pn)) := by
                  rw [PyVal.pyGet_set_ne s1.1 (JsonSchemaUpdater.apply_to_object items ((path ++ "." ++ pn) ++ "[]") dm).1
                    (show ("description" : String) ≠ "items" from by decide)]
                  exact hs1doc
                have htyo3 : ((s1.1.set "items" (JsonSchemaUpdater.apply_to_object items ((path ++ "." ++ pn) ++ "[]") dm).1).pyGet "type").isStr "object" = false := by
                  rw [PyVal.pyGet_congr "type" (s1.1)
                    (PyVal.get?_set_ne s1.1 (JsonSchemaUpdater.apply_to_object items ((path ++ "." ++ pn) ++ "[]") dm).1
                      (show ("type" : String) ≠ "items" from by decide))]
                  exact htyo2
                have htya3 : ((s1.1.set "items" (JsonSchemaUpdater.apply_to_object items ((path ++ "." ++ pn) ++ "[]") dm).1).pyGet "type").isStr "array" = true := by
                  rw [PyVal.pyGet_congr "type" (s1.1)
                    (PyVal.get?_set_ne s1.1 (JsonSchemaUpdater.apply_to_object items ((path ++ "." ++ pn) ++ "[]") dm).1
                      (show ("type" : String) ≠ "items" from by decide))]
                  exact htya2
                have hio3 : (s1.1.set "items" (JsonSchemaUpdater.apply_to_object items ((path ++ "." ++ pn) ++ "[]") dm).1).get? "items" = some (JsonSchemaUpdater.apply_to_object items ((path ++ "." ++ pn) ++ "[]") dm).1 :=
                  PyVal.get?_set_same' hs1obj _ _
                have hoi2 : ((JsonSchemaUpdater.apply_to_object items ((path ++ "." ++ pn) ++ "[]") dm).1.pyGet "type").isStr "object" = true := by
                  rw [PyVal.pyGet_congr "type" (items)
                    (apply_to_object_get?_ne items ((path ++ "." ++ pn) ++ "[]") dm (by decide) (by decide))]
                  exact hoi
                rw [apply_props_cons_eq, analyze_props_cons_eq]
                simp only [hs1eq, htyo, htya, hio, hoi, Bool.false_eq_true, if_false,
                  if_true]
                rw [analyze_props_cons_eq]
                simp only [htyo3, htya3, hio3, hoi2, hdoc2, Bool.false_eq_true, if_false,
                  if_true]
                refine ⟨?_, ?_, ?_, ?_, ?_⟩
                · have hleo := o5
                  have hlef := f5
                  by_cases ht : ((PyVal.obj pkvs).pyGet "description").truthy <;>
                    by_cases hh : docHit dm (path ++ "." ++ pn) <;>
                    simp [ht, hh, hs1len, List.countP_cons, List.countP_append] at hleo hlef ⊢ <;> omega
                · by_cases ht : ((PyVal.obj pkvs).pyGet "description").truthy <;>
                    by_cases hh : docHit dm (path ++ "." ++ pn) <;>
                    simp [ht, hh, o1, f1]
                · simp [o2, f2]
                · by_cases ht : ((PyVal.obj pkvs).pyGet "description").truthy <;>
                    by_cases hh : docHit dm (path ++ "." ++ pn) <;>
                    simp [ht, hh, o3, f3, List.countP_cons, List.countP_append] <;> omega
                · intro hnd
                  have hnds : (((JsonSchemaAnalyzer.analyze_object items
                      ((path ++ "." ++ pn) ++ "[]")).1.map (fun d => d.path)).Nodup ∧
                      ((JsonSchemaAnalyzer.analyze_props rest path).1.map
                        (fun d => d.path)).Nodup) := by
                    by_cases ht : ((PyVal.obj pkvs).pyGet "description").truthy
                    · have h2 := hnd
                      simp [ht, List.nodup_append] at h2
                      exact ⟨h2.1, h2.2.1⟩
                    · have h2 := hnd
                      simp [ht, List.nodup_cons, List.nodup_append] at h2
                      exact ⟨h2.2.1, h2.2.2.1⟩
                  have hcho := o4 hnds.1
                  have hchf := f4 hnds.2
                  by_cases ht : ((PyVal.obj pkvs).pyGet "description").truthy <;>
                    by_cases hh : docHit dm (path ++ "." ++ pn) <;>
                    simp [ht, hh, hs1len, List.countP_cons, List.countP_append,
                      hcho, hchf] <;> omega
              · -- array of non-objects
                have hio2 : s1.1.get? "items" = some items := by rw [hs1items, hio]
                rw [apply_props_cons_eq, analyze_props_cons_eq]
                simp only [hs1eq, htyo, htya, hio, hoi, Bool.false_eq_true, if_false,
                  if_true]
                rw [analyze_props_cons_eq]
                simp only [htyo2, htya2, hio2, hoi, hs1doc, Bool.false_eq_true, if_false,
                  if_true]
                refine ⟨?_, ?_, ?_, ?_, ?_⟩
                · have hlef := f5
                  by_cases ht : ((PyVal.obj pkvs).pyGet "description").truthy <;>
                    by_cases hh : docHit dm (path ++ "." ++ pn) <;>
                    simp [ht, hh, hs1len, List.countP_cons] at hlef ⊢ <;> omega
                · by_cases ht : ((PyVal.obj pkvs).pyGet "description").truthy <;>
                    by_cases hh : docHit dm (path ++ "." ++ pn) <;>
                    simp [ht, hh, f1]
                · simp [f2]
                · by_cases ht : ((PyVal.obj pkvs).pyGet "description").truthy <;>
                    by_cases hh : docHit dm (path ++ "." ++ pn) <;>
                    simp [ht, hh, f3, List.countP_cons] <;> omega
                · intro hnd
                  have hnd2 : ((JsonSchemaAnalyzer.analyze_props rest path).1.map
                      (fun d => d.path)).Nodup := by
                    by_cases ht : ((PyVal.obj pkvs).pyGet "description").truthy
                    · simpa [ht] using hnd
                    · have h2 := hnd
                      simp [ht, List.nodup_cons] at h2
                      exact h2.2
                  have hch := f4 hnd2
                  by_cases ht : ((PyVal.obj pkvs).pyGet "description").truthy <;>
                    by_cases hh : docHit dm (path ++ "." ++ pn) <;>
                    simp [ht, hh, hs1len, List.countP_cons, hch] <;> omega
          · -- neither object- nor array-typed
            have htyo2 : (s1.1.pyGet "type").isStr "object" = false := by
              rw [PyVal.pyGet_congr "type" _ hs1type]
              simp [htyo]
            have htya2 : (s1.1.pyGet "type").isStr "array" = false := by
              rw [PyVal.pyGet_congr "type" _ hs1type]
              simp [htya]
            rw [apply_props_cons_eq, analyze_props_cons_eq]
            simp only [hs1eq, htyo, htya, Bool.false_eq_true, if_false]
            rw [analyze_props_cons_eq]
            simp only [htyo2, htya2, hs1doc, Bool.false_eq_true, if_false]
            refine ⟨?_, ?_, ?_, ?_, ?_⟩
            · have hlef := f5
              by_cases ht : ((PyVal.obj pkvs).pyGet "description").truthy <;>
                by_cases hh : docHit dm (path ++ "." ++ pn) <;>
                simp [ht, hh, hs1len, List.countP_cons] at hlef ⊢ <;> omega
            · by_cases ht : ((PyVal.obj pkvs).pyGet "description").truthy <;>
                by_cases hh : docHit dm (path ++ "." ++ pn) <;>
                simp [ht, hh, f1]
            · simp [f2]
            · by_cases ht : ((PyVal.obj pkvs).pyGet "description").truthy <;>
                by_cases hh : docHit dm (path ++ "." ++ pn) <;>
                simp [ht, hh, f3, List.countP_cons] <;> omega
            · intro hnd
              have hnd2 : ((JsonSchemaAnalyzer.analyze_props rest path).1.map
                  (fun d => d.path)).Nodup := by
                by_cases ht : ((PyVal.obj pkvs).pyGet "description").truthy
                · simpa [ht] using hnd
                · have h2 := hnd
                  simp [ht, List.nodup_cons] at h2
                  exact h2.2
              have hch := f4 hnd2
              by_cases ht : ((PyVal.obj pkvs).pyGet "description").truthy <;>
                by_cases hh : docHit dm (path ++ "." ++ pn) <;>
                simp [ht, hh, hs1len, List.countP_cons, hch] <;> omega

theorem typeWF_str (s : String) : typeWF (.str s) = true := by
  rw [typeWF.eq_def]

theorem typeWF_int (n : Int) : typeWF (.int n) = true := by
  rw [typeWF.eq_def]

theorem typeWF_bool (b : Bool) : typeWF (.bool b) = true := by
  rw [typeWF.eq_def]

theorem typeWF_none : typeWF PyVal.none = true := by
  rw [typeWF.eq_def]

theorem apply_to_record_getList {record : PyVal} (hobj : record.isObjB = true)
    (rp : String) (dm : List GeneratedDoc) :
    ((SchemaUpdater.apply_to_record record rp dm).1).getList "fields" =
      (SchemaUpdater.apply_fields (record.getList "fields") rp
        (record.getStrD "name" "unknown") dm).1 := by
  obtain ⟨kvs, rfl⟩ := exists_obj_of_isObjB hobj
  rw [apply_to_record_eq]
  obtain ⟨s1, hs1eq, hs1obj, hs1fields⟩ :
      ∃ s1 : PyVal × List String,
        (if !((PyVal.obj kvs).pyGet "doc").truthy then
           match docMapGet dm rp with
           | some gd =>
             patchNode (.obj kvs) "doc" gd.documentation
               ("Added doc to record `" ++ (PyVal.obj kvs).getStrD "name" "unknown" ++
                 "` [" ++ gd.confidence ++ "]")
           | Option.none => (.obj kvs, [])
         else (.obj kvs, [])) = s1 ∧
        s1.1.isObjB = true ∧
        s1.1.get? "fields" = (PyVal.obj kvs).get? "fields" := by
    by_cases hdoc : ((PyVal.obj kvs).pyGet "doc").truthy
    · exact ⟨(.obj kvs, []), by simp [hdoc], rfl, rfl⟩
    · rcases hhit : docMapGet dm rp with _ | gd
      · exact ⟨(.obj kvs, []), by simp [hdoc, hhit], rfl, rfl⟩
      · refine ⟨((PyVal.obj kvs).set "doc" (.str gd.documentation),
          ["Added doc to record `" ++ (PyVal.obj kvs).getStrD "name" "unknown" ++
            "` [" ++ gd.confidence ++ "]"]), by simp [hdoc, hhit, patchNode], ?_, ?_⟩
        · rw [PyVal.isObjB_set]
          rfl
        · exact PyVal.get?_set_ne (PyVal.obj kvs) (PyVal.str gd.documentation)
            (show ("fields" : String) ≠ "doc" from by decide)
  simp only [hs1eq]
  rcases hfo : (PyVal.obj kvs).get? "fields" with _ | fv
  · have hgl : (PyVal.obj kvs).getList "fields" = [] := by simp [PyVal.getList, hfo]
    have hae : SchemaUpdater.apply_fields [] rp
        ((PyVal.obj kvs).getStrD "name" "unknown") dm = ([], []) := by
      rw [SchemaUpdater.apply_fields]
    simp only [hfo, hgl, hae]
    simp [PyVal.getList, hs1fields, hfo]
  · cases fv with
    | arr flds =>
      have hgl : (PyVal.obj kvs).getList "fields" = flds := by simp [PyVal.getList, hfo]
      simp only [hfo, hgl]
      exact PyVal.getList_set_arr' hs1obj _ _
    | str s =>
      have hgl : (PyVal.obj kvs).getList "fields" = [] := by simp [PyVal.getList, hfo]
      have hae : SchemaUpdater.apply_fields [] rp
          ((PyVal.obj kvs).getStrD "name" "unknown") dm = ([], []) := by
        rw [SchemaUpdater.apply_fields]
      simp only [hfo, hgl, hae]
      simp [PyVal.getList, hs1fields, hfo]
    | int n =>
      have hgl : (PyVal.obj kvs).getList "fields" = [] := by simp [PyVal.getList, hfo]
      have hae : SchemaUpdater.apply_fields [] rp
          ((PyVal.obj kvs).getStrD "name" "unknown") dm = ([], []) := by
        rw [SchemaUpdater.apply_fields]
      simp only [hfo, hgl, hae]
      simp [PyVal.getList, hs1fields, hfo]
    | bool b =>
      have hgl : (PyVal.obj kvs).getList "fields" = [] := by simp [PyVal.getList, hfo]
      have hae : SchemaUpdater.apply_fields [] rp
          ((PyVal.obj kvs).getStrD "name" "unknown") dm = ([], []) := by
        rw [SchemaUpdater.apply_fields]
      simp only [hfo, hgl, hae]
      simp [PyVal.getList, hs1fields, hfo]
    | none =>
      have hgl : (PyVal.obj kvs).getList "fields" = [] := by simp [PyVal.getList, hfo]
      have hae : SchemaUpdater.apply_fields [] rp
          ((PyVal.obj kvs).getStrD "name" "unknown") dm = ([], []) := by
        rw [SchemaUpdater.apply_fields]
      simp only [hfo, hgl, hae]
      simp [PyVal.getList, hs1fields, hfo]
    | obj kvs2 =>
      have hgl : (PyVal.obj kvs).getList "fields" = [] := by simp [PyVal.getList, hfo]
      have hae : SchemaUpdater.apply_fields [] rp
          ((PyVal.obj kvs).getStrD "name" "unknown") dm = ([], []) := by
        rw [SchemaUpdater.apply_fields]
      simp only [hfo, hgl, hae]
      simp [PyVal.getList, hs1fields, hfo]

theorem typeWF_arr (xs : List PyVal) : typeWF (.arr xs) = variantsWF xs := by
  rw [typeWF.eq_def]

theorem apply_to_object_getEntries {obj : PyVal} (hobj : obj.isObjB = true)
    (path : String) (dm : List GeneratedDoc) :
    ((JsonSchemaUpdater.apply_to_object obj path dm).1).getEntries "properties" =
      (JsonSchemaUpdater.apply_props (obj.getEntries "properties") path dm).1 := by
  obtain ⟨kvs, rfl⟩ := exists_obj_of_isObjB hobj
  rw [apply_to_object_eq]
  obtain ⟨s1, hs1eq, hs1obj, hs1props⟩ :
      ∃ s1 : PyVal × List String,
        (if !((PyVal.obj kvs).pyGet "description").truthy then
           match docMapGet dm path with
           | some gd =>
             patchNode (.obj kvs) "description" gd.documentation
               ("Added description to object `" ++ path ++ "` [" ++
                 gd.confidence ++ "]")
           | Option.none => (.obj kvs, [])
         else (.obj kvs, [])) = s1 ∧
        s1.1.isObjB = true ∧
        s1.1.get? "properties" = (PyVal.obj kvs).get? "properties" := by
    by_cases hdoc : ((PyVal.obj kvs).pyGet "description").truthy
    · exact ⟨(.obj kvs, []), by simp [hdoc], rfl, rfl⟩
    · rcases hhit : docMapGet dm path with _ | gd
      · exact ⟨(.obj kvs, []), by simp [hdoc, hhit], rfl, rfl⟩
      · refine ⟨((PyVal.obj kvs).set "description" (.str gd.documentation),
          ["Added description to object `" ++ path ++ "` [" ++
            gd.confidence ++ "]"]), by simp [hdoc, hhit, patchNode], ?_, ?_⟩
        · rw [PyVal.isObjB_set]
          rfl
        · exact PyVal.get?_set_ne (PyVal.obj kvs) (PyVal.str gd.documentation)
            (show ("properties" : String) ≠ "description" from by decide)
  simp only [hs1eq]
  rcases hpo : (PyVal.obj kvs).get? "properties" with _ | pv
  · have hge : (PyVal.obj kvs).getEntries "properties" = [] := by
      simp [PyVal.getEntries, hpo]
    have hae : JsonSchemaUpdater.apply_props [] path dm = ([], []) := by
      rw [JsonSchemaUpdater.apply_props]
    simp only [hpo, hge, hae]
    simp [PyVal.getEntries, hs1props, hpo]
  · cases pv with
    | obj props =>
      have hge : (PyVal.obj kvs).getEntries "properties" = props := by
        simp [PyVal.getEntries, hpo]
      simp only [hpo, hge]
      exact PyVal.getEntries_set_obj' hs1obj _ _
    | str s =>
      have hge : (PyVal.obj kvs).getEntries "properties" = [] := by
        simp [PyVal.getEntries, hpo]
      have hae : JsonSchemaUpdater.apply_props [] path dm = ([], []) := by
        rw [JsonSchemaUpdater.apply_props]
      simp only [hpo, hge, hae]
      simp [PyVal.getEntries, hs1props, hpo]
    | int n =>
      have hge : (PyVal.obj kvs).getEntries "properties" = [] := by
        simp [PyVal.getEntries, hpo]
      have hae : JsonSchemaUpdater.apply_props [] path dm = ([], []) := by
        rw [JsonSchemaUpdater.apply_props]
      simp only [hpo, hge, hae]
      simp [PyVal.getEntries, hs1props, hpo]
    | bool b =>
      have hge : (PyVal.obj kvs).getEntries "properties" = [] := by
        simp [PyVal.getEntries, hpo]
      have hae : JsonSchemaUpdater.apply_props [] path dm = ([], []) := by
        rw [JsonSchemaUpdater.apply_props]
      simp only [hpo, hge, hae]
      simp [PyVal.getEntries, hs1props, hpo]
    | none =>
      have hge : (PyVal.obj kvs).getEntries "properties" = [] := by
        simp [PyVal.getEntries, hpo]
      have hae : JsonSchemaUpdater.apply_props [] path dm = ([], []) := by
        rw [JsonSchemaUpdater.apply_props]
      simp only [hpo, hge, hae]
      simp [PyVal.getEntries, hs1props, hpo]
    | arr xs =>
      have hge : (PyVal.obj kvs).getEntries "properties" = [] := by
        simp [PyVal.getEntries, hpo]
      have hae : JsonSchemaUpdater.apply_props [] path dm = ([], []) := by
        rw [JsonSchemaUpdater.apply_props]
      simp only [hpo, hge, hae]
      simp [PyVal.getEntries, hs1props, hpo]

theorem objWF_set_str (obj : PyVal) (s : String) :
    objWF (obj.set "description" (.str s)) = objWF obj := by
  have h1 : (obj.set "description" (.str s)).isObjB = obj.isObjB :=
    PyVal.isObjB_set obj "description" (.str s)
  have h2 : (obj.set "description" (.str s)).getEntries "properties" =
      obj.getEntries "properties" := by
    cases obj with
    | obj kvs =>
      simp [PyVal.getEntries,
        PyVal.get?_set_ne (PyVal.obj kvs) (PyVal.str s)
          (show ("properties" : String) ≠ "description" from by decide)]
    | str t => rfl
    | int n => rfl
    | bool b => rfl
    | none => rfl
    | arr xs => rfl
  rw [objWF, objWF, h1, h2]

/-- The patcher preserves the patchable shape of a record subtree: on a
well-formed record tree, `apply_to_record` returns a well-formed record
tree (so a second application is again covered by `avro_patch_aux`). -/
theorem avro_wf_aux (dm : List GeneratedDoc) : ∀ N : Nat,
    (∀ (record : PyVal) (rp : String), 8 * PyVal.weight record + 2 ≤ N →
      recordWF record = true →
      recordWF (SchemaUpdater.apply_to_record record rp dm).1 = true) ∧
    (∀ (flds : List PyVal) (rp rn : String), 8 * PyVal.weightList flds + 1 ≤ N →
      fieldsWF flds = true →
      fieldsWF (SchemaUpdater.apply_fields flds rp rn dm).1 = true) ∧
    (∀ (ty : PyVal) (p : String), 8 * PyVal.weight ty + 3 ≤ N →
      typeWF ty = true →
      typeWF (SchemaUpdater.apply_to_nested ty p dm).1 = true) ∧
    (∀ (vars : List PyVal) (p : String), 8 * PyVal.weightList vars + 1 ≤ N →
      variantsWF vars = true →
      variantsWF (SchemaUpdater.apply_union_variants vars p dm).1 = true) := by
  intro N
  induction N with
  | zero =>
    refine ⟨?_, ?_, ?_, ?_⟩
    · intro record rp hN
      omega
    · intro flds rp rn hN
      omega
    · intro ty p hN
      omega
    · intro vars p hN
      omega
  | succ n ih =>
    obtain ⟨ihR, ihF, ihN, ihU⟩ := ih
    refine ⟨?_, ?_, ?_, ?_⟩
    · -- record
      intro record rp hN hwf
      rw [recordWF] at hwf
      simp only [Bool.and_eq_true] at hwf
      obtain ⟨hobj, hfwf⟩ := hwf
      rw [recordWF]
      simp only [Bool.and_eq_true]
      refine ⟨?_, ?_⟩
      · rw [apply_to_record_isObjB]
        exact hobj
      · rw [apply_to_record_getList hobj]
        refine ihF _ rp (record.getStrD "name" "unknown") ?_ hfwf
        have := PyVal.weight_getList record "fields"
        omega
    · -- fields
      intro flds rp rn hN hwf
      cases flds with
      | nil =>
        rw [SchemaUpdater.apply_fields]
        rw [fieldsWF]
      | cons fld rest =>
        rw [fieldsWF] at hwf
        simp only [Bool.and_eq_true] at hwf
        obtain ⟨⟨hfo, htwf⟩, hrwf⟩ := hwf
        obtain ⟨fkvs, rfl⟩ := exists_obj_of_isObjB hfo
        rw [apply_fields_cons_eq]
        obtain ⟨s1, hs1eq, hs1obj, hs1type⟩ :
            ∃ s1 : PyVal × List String,
              (if !((PyVal.obj fkvs).pyGet "doc").truthy then
                 match docMapGet dm
                     (rp ++ "." ++ (PyVal.obj fkvs).getStrD "name" "unknown") with
                 | some gd =>
                   patchNode (.obj fkvs) "doc" gd.documentation
                     ("Added doc to field `" ++ rn ++ "." ++
                       (PyVal.obj fkvs).getStrD "name" "unknown" ++ "` [" ++
                       gd.confidence ++ "]")
                 | Option.none => (.obj fkvs, [])
               else (.obj fkvs, [])) = s1 ∧
              s1.1.isObjB = true ∧
              s1.1.get? "type" = (PyVal.obj fkvs).get? "type" := by
          by_cases hdoc : ((PyVal.obj fkvs).pyGet "doc").truthy
          · exact ⟨(.obj fkvs, []), by simp [hdoc], rfl, rfl⟩
          · rcases hhit : docMapGet dm
                (rp ++ "." ++ (PyVal.obj fkvs).getStrD "name" "unknown") with _ | gd
            · exact ⟨(.obj fkvs, []), by simp [hdoc, hhit], rfl, rfl⟩
            · refine ⟨((PyVal.obj fkvs).set "doc" (.str gd.documentation),
                ["Added doc to field `" ++ rn ++ "." ++
                  (PyVal.obj fkvs).getStrD "name" "unknown" ++ "` [" ++
                  gd.confidence ++ "]"]), by simp [hdoc, hhit, patchNode], ?_, ?_⟩
              · rw [PyVal.isObjB_set]
                rfl
              · exact PyVal.get?_set_ne (PyVal.obj fkvs) (PyVal.str gd.documentation)
                  (show ("type" : String) ≠ "doc" from by decide)
        simp only [hs1eq]
        have hrest : fieldsWF (SchemaUpdater.apply_fields rest rp rn dm).1 = true := by
          refine ihF rest rp rn ?_ hrwf
          simp only [PyVal.weightList_cons] at hN
          omega
        rcases hft : (PyVal.obj fkvs).get? "type" with _ | ty
        · simp only [hft]
          rw [fieldsWF]
          simp only [Bool.and_eq_true]
          refine ⟨⟨hs1obj, ?_⟩, hrest⟩
          have hpg : s1.1.pyGet "type" = PyVal.none := by
            rw [PyVal.pyGet_congr "type" _ hs1type]
            exact PyVal.pyGet_eq_none_of_get? hft
          rw [hpg]
          exact typeWF_none
        · simp only [hft]
          rw [fieldsWF]
          simp only [Bool.and_eq_true]
          refine ⟨⟨?_, ?_⟩, hrest⟩
          · rw [PyVal.isObjB_set]
            exact hs1obj
          · rw [PyVal.pyGet_set_same' hs1obj]
            refine ihN ty (rp ++ "." ++ (PyVal.obj fkvs).getStrD "name" "unknown") ?_ ?_
            · have := PyVal.weight_get? hft
              simp only [PyVal.weightList_cons] at hN
              omega
            · rw [PyVal.pyGet_eq_of_get? hft] at htwf
              exact htwf
    · -- nested types
      intro ty p hN hwf
      cases ty with
      | obj kvs =>
        rw [typeWF_obj_eq] at hwf
        simp only [] at hwf
        by_cases hr : ((PyVal.obj kvs).pyGet "type").isStr "record"
        · simp only [hr, if_true] at hwf
          have hU : SchemaUpdater.apply_to_nested (.obj kvs) p dm =
              SchemaUpdater.apply_to_record (.obj kvs)
                (p ++ "." ++ (PyVal.obj kvs).getStrD "name" "unknown") dm := by
            rw [apply_to_nested_obj_eq]
            simp only [hr, if_true]
          have hres : recordWF (SchemaUpdater.apply_to_record (.obj kvs)
              (p ++ "." ++ (PyVal.obj kvs).getStrD "name" "unknown") dm).1 = true :=
            ihR (.obj kvs) _ (by omega) hwf
          obtain ⟨kvs2, hkvs2⟩ := exists_obj_of_isObjB (v :=
            (SchemaUpdater.apply_to_record (.obj kvs)
              (p ++ "." ++ (PyVal.obj kvs).getStrD "name" "unknown") dm).1)
            (by rw [apply_to_record_isObjB]; rfl)
          have hty2 : ((PyVal.obj kvs2).pyGet "type").isStr "record" = true := by
            rw [PyVal.pyGet_congr "type" (PyVal.obj kvs)]
            · exact hr
            · rw [← hkvs2]
              exact apply_to_record_get?_ne _ _ _ (by decide) (by decide)
          rw [hU, hkvs2, typeWF_obj_eq]
          simp only [hty2, if_true]
          rw [← hkvs2]
          exact hres
        · by_cases he : ((PyVal.obj kvs).pyGet "type").isStr "enum"
          · have ha : ((PyVal.obj kvs).pyGet "type").isStr "array" = false :=
              PyVal.isStr_unique he (by decide)
            have hm2 : ((PyVal.obj kvs).pyGet "type").isStr "map" = false :=
              PyVal.isStr_unique he (by decide)
            by_cases hdoc : ((PyVal.obj kvs).pyGet "doc").truthy
            · have hU : SchemaUpdater.apply_to_nested (.obj kvs) p dm = (.obj kvs, []) := by
                rw [apply_to_nested_obj_eq]
                simp only [hr, he, hdoc, Bool.false_eq_true, if_false, if_true,
                  Bool.not_true]
              rw [hU]
              rw [typeWF_obj_eq]
              simp only [hr, ha, hm2, Bool.false_eq_true, if_false]
            · rcases hhit : docMapGet dm
                  (p ++ "." ++ (PyVal.obj kvs).getStrD "name" "unknown") with _ | gd
              · have hU : SchemaUpdater.apply_to_nested (.obj kvs) p dm =
                    (.obj kvs, []) := by
                  rw [apply_to_nested_obj_eq]
                  simp only [hr, he, hdoc, hhit, Bool.false_eq_true, if_false, if_true,
                    Bool.not_false]
                rw [hU]
                rw [typeWF_obj_eq]
                simp only [hr, ha, hm2, Bool.false_eq_true, if_false]
              · have hU : SchemaUpdater.apply_to_nested (.obj kvs) p dm =
                    ((PyVal.obj kvs).set "doc" (.str gd.documentation),
                     ["Added doc to enum `" ++ (PyVal.obj kvs).getStrD "name" "unknown" ++
                      "` [" ++ gd.confidence ++ "]"]) := by
                  rw [apply_to_nested_obj_eq]
                  simp only [hr, he, hdoc, hhit, Bool.false_eq_true, if_false, if_true,
                    Bool.not_false]
                have hset : (PyVal.obj kvs).set "doc" (.str gd.documentation) =
                    .obj (setEntries kvs "doc" (.str gd.documentation)) := rfl
                have hty2 : ((PyVal.obj (setEntries kvs "doc" (.str gd.documentation))).pyGet
                    "type").isStr "enum" = true := by
                  rw [PyVal.pyGet_congr "type" (PyVal.obj kvs)]
                  · exact he
                  · rw [← hset]
                    exact PyVal.get?_set_ne _ _ (by decide)
                have htyr : ((PyVal.obj (setEntries kvs "doc" (.str gd.documentation))).pyGet
                    "type").isStr "record" = false :=
                  PyVal.isStr_unique hty2 (by decide)
                have htya : ((PyVal.obj (setEntries kvs "doc" (.str gd.documentation))).pyGet
                    "type").isStr "array" = false :=
                  PyVal.isStr_unique hty2 (by decide)
                have htym : ((PyVal.obj (setEntries kvs "doc" (.str gd.documentation))).pyGet
                    "type").isStr "map" = false :=
                  PyVal.isStr_unique hty2 (by decide)
                rw [hU]
                simp only []
                rw [hset, typeWF_obj_eq]
                simp only [htyr, htya, htym, Bool.false_eq_true, if_false]
          · by_cases harr : ((PyVal.obj kvs).pyGet "type").isStr "array"
            · simp only [hr, harr, Bool.false_eq_true, if_false, if_true] at hwf
              rcases hfi : (PyVal.obj kvs).get? "items" with _ | it
              · have hU : SchemaUpdater.apply_to_nested (.obj kvs) p dm =
                    (.obj kvs, []) := by
                  rw [apply_to_nested_obj_eq]
                  simp only [hr, he, harr, hfi, Bool.false_eq_true, if_false, if_true]
                rw [hU]
                rw [typeWF_obj_eq]
                simp only [hr, harr, hfi, Bool.false_eq_true, if_false, if_true]
              · rw [hfi] at hwf
                have hwt : 8 * PyVal.weight it + 3 ≤ n := by
                  have := PyVal.weight_get? hfi
                  omega
                have hres := ihN it p hwt hwf
                have hU : SchemaUpdater.apply_to_nested (.obj kvs) p dm =
                    ((PyVal.obj kvs).set "items"
                      (SchemaUpdater.apply_to_nested it p dm).1,
                     (SchemaUpdater.apply_to_nested it p dm).2) := by
                  rw [apply_to_nested_obj_eq]
                  simp only [hr, he, harr, hfi, Bool.false_eq_true, if_false, if_true]
                have hset : (PyVal.obj kvs).set "items"
                    (SchemaUpdater.apply_to_nested it p dm).1 =
                    .obj (setEntries kvs "items"
                      (SchemaUpdater.apply_to_nested it p dm).1) := rfl
                have hty2 : ((PyVal.obj (setEntries kvs "items"
                    (SchemaUpdater.apply_to_nested it p dm).1)).pyGet
                    "type").isStr "array" = true := by
                  rw [PyVal.pyGet_congr "type" (PyVal.obj kvs)]
                  · exact harr
                  · rw [← hset]
                    exact PyVal.get?_set_ne _ _ (by decide)
                have htyr : ((PyVal.obj (setEntries kvs "items"
                    (SchemaUpdater.apply_to_nested it p dm).1)).pyGet
                    "type").isStr "record" = false :=
                  PyVal.isStr_unique hty2 (by decide)
                have hfi2 : (PyVal.obj (setEntries kvs "items"
                    (SchemaUpdater.apply_to_nested it p dm).1)).get? "items" =
                    some (SchemaUpdater.apply_to_nested it p dm).1 := by
                  rw [← hset]
                  exact PyVal.get?_set_same _ _ _
                rw [hU]
                simp only []
                rw [hset, typeWF_obj_eq]
                simp only [htyr, hty2, hfi2, Bool.false_eq_true, if_false, if_true]
                exact hres
            · by_cases hmp : ((PyVal.obj kvs).pyGet "type").isStr "map"
              · simp only [hr, harr, hmp, Bool.false_eq_true, if_false, if_true] at hwf
                rcases hfv : (PyVal.obj kvs).get? "values" with _ | vv
                · have hU : SchemaUpdater.apply_to_nested (.obj kvs) p dm =
                      (.obj kvs, []) := by
                    rw [apply_to_nested_obj_eq]
                    simp only [hr, he, harr, hmp, hfv, Bool.false_eq_true, if_false,
                      if_true]
                  rw [hU]
                  rw [typeWF_obj_eq]
                  simp only [hr, harr, hmp, hfv, Bool.false_eq_true, if_false, if_true]
                · rw [hfv] at hwf
                  have hwt : 8 * PyVal.weight vv + 3 ≤ n := by
                    have := PyVal.weight_get? hfv
                    omega
                  have hres := ihN vv p hwt hwf
                  have hU : SchemaUpdater.apply_to_nested (.obj kvs) p dm =
                      ((PyVal.obj kvs).set "values"
                        (SchemaUpdater.apply_to_nested vv p dm).1,
                       (SchemaUpdater.apply_to_nested vv p dm).2) := by
                    rw [apply_to_nested_obj_eq]
                    simp only [hr, he, harr, hmp, hfv, Bool.false_eq_true, if_false,
                      if_true]
                  have hset : (PyVal.obj kvs).set "values"
                      (SchemaUpdater.apply_to_nested vv p dm).1 =
                      .obj (setEntries kvs "values"
                        (SchemaUpdater.apply_to_nested vv p dm).1) := rfl
                  have hty2 : ((PyVal.obj (setEntries kvs "values"
                      (SchemaUpdater.apply_to_nested vv p dm).1)).pyGet
                      "type").isStr "map" = true := by
                    rw [PyVal.pyGet_congr "type" (PyVal.obj kvs)]
                    · exact hmp
                    · rw [← hset]
                      exact PyVal.get?_set_ne _ _ (by decide)
                  have htyr : ((PyVal.obj (setEntries kvs "values"
                      (SchemaUpdater.apply_to_nested vv p dm).1)).pyGet
                      "type").isStr "record" = false :=
                    PyVal.isStr_unique hty2 (by decide)
                  have htya : ((PyVal.obj (setEntries kvs "values"
                      (SchemaUpdater.apply_to_nested vv p dm).1)).pyGet
                      "type").isStr "array" = false :=
                    PyVal.isStr_unique hty2 (by decide)
                  have hfv2 : (PyVal.obj (setEntries kvs "values"
                      (SchemaUpdater.apply_to_nested vv p dm).1)).get? "values" =
                      some (SchemaUpdater.apply_to_nested vv p dm).1 := by
                    rw [← hset]
                    exact PyVal.get?_set_same _ _ _
                  rw [hU]
                  simp only []
                  rw [hset, typeWF_obj_eq]
                  simp only [htyr, htya, hty2, hfv2, Bool.false_eq_true, if_false,
                    if_true]
                  exact hres
              · have hU : SchemaUpdater.apply_to_nested (.obj kvs) p dm =
                    (.obj kvs, []) := by
                  rw [apply_to_nested_obj_eq]
                  simp only [hr, he, harr, hmp, Bool.false_eq_true, if_false]
                rw [hU]
                rw [typeWF_obj_eq]
                simp only [hr, harr, hmp, Bool.false_eq_true, if_false]
      | arr xs =>
        rw [typeWF_arr] at hwf
        have hwt : 8 * PyVal.weightList xs + 1 ≤ n := by
          simp only [PyVal.weight] at hN
          omega
        have hres := ihU xs p hwt hwf
        have hU : SchemaUpdater.apply_to_nested (.arr xs) p dm =
            (.arr (SchemaUpdater.apply_union_variants xs p dm).1,
             (SchemaUpdater.apply_union_variants xs p dm).2) := by
          rw [SchemaUpdater.apply_to_nested]
        rw [hU]
        rw [typeWF_arr]
        exact hres
      | str s =>
        rw [SchemaUpdater.apply_to_nested]
        · exact typeWF_str s
        · simp
        · simp
      | int n2 =>
        rw [SchemaUpdater.apply_to_nested]
        · exact typeWF_int n2
        · simp
        · simp
      | bool b =>
        rw [SchemaUpdater.apply_to_nested]
        · exact typeWF_bool b
        · simp
        · simp
      | none =>
        rw [SchemaUpdater.apply_to_nested]
        · exact typeWF_none
        · simp
        · simp
    · -- union variants
      intro vars p hN hwf
      cases vars with
      | nil =>
        rw [SchemaUpdater.apply_union_variants]
        rw [variantsWF]
      | cons v vs =>
        rw [variantsWF] at hwf
        simp only [Bool.and_eq_true] at hwf
        obtain ⟨hv, hvs⟩ := hwf
        have hwv : 8 * PyVal.weight v + 3 ≤ n := by
          simp only [PyVal.weightList_cons] at hN
          omega
        have hwvs : 8 * PyVal.weightList vs + 1 ≤ n := by
          simp only [PyVal.weightList_cons] at hN
          omega
        rw [SchemaUpdater.apply_union_variants]
        rw [variantsWF]
        simp only [Bool.and_eq_true]
        exact ⟨ihN v p hwv hv, ihU vs p hwvs hvs⟩

/-- The object-tree patcher preserves the patchable shape of an object
subtree, the json analogue of `avro_wf_aux`. -/
theorem json_wf_aux (dm : List GeneratedDoc) : ∀ N : Nat,
    (∀ (obj : PyVal) (path : String), 8 * PyVal.weight obj + 4 ≤ N →
      objWF obj = true →
      objWF (JsonSchemaUpdater.apply_to_object obj path dm).1 = true) ∧
    (∀ (props : List (String × PyVal)) (path : String),
      8 * PyVal.weightEntries props + 7 ≤ N →
      propsWF props = true →
      propsWF (JsonSchemaUpdater.apply_props props path dm).1 = true) := by
  intro N
  induction N with
  | zero =>
    refine ⟨?_, ?_⟩
    · intro obj path hN
      omega
    · intro props path hN
      omega
  | succ n ih =>
    obtain ⟨ihO, ihP⟩ := ih
    refine ⟨?_, ?_⟩
    · -- object
      intro obj path hN hwf
      rw [objWF] at hwf
      simp only [Bool.and_eq_true] at hwf
      obtain ⟨hobj, hpwf⟩ := hwf
      rw [objWF]
      simp only [Bool.and_eq_true]
      refine ⟨?_, ?_⟩
      · rw [apply_to_object_isObjB]
        exact hobj
      · rw [apply_to_object_getEntries hobj]
        obtain ⟨kvs, rfl⟩ := exists_obj_of_isObjB hobj
        rcases hpo : (PyVal.obj kvs).get? "properties" with _ | pv
        · have hge : (PyVal.obj kvs).getEntries "properties" = [] := by
            simp [PyVal.getEntries, hpo]
          rw [hge]
          have hae : JsonSchemaUpdater.apply_props [] path dm = ([], []) := by
            rw [JsonSchemaUpdater.apply_props]
          rw [hae]
          rw [propsWF]
        · cases pv with
          | obj props =>
            have hge : (PyVal.obj kvs).getEntries "properties" = props := by
              simp [PyVal.getEntries, hpo]
            rw [hge] at hpwf ⊢
            refine ihP props path ?_ hpwf
            have := PyVal.weight_get? hpo
            simp only [PyVal.weight] at this hN
            omega
          | str s =>
            have hge : (PyVal.obj kvs).getEntries "properties" = [] := by
              simp [PyVal.getEntries, hpo]
            rw [hge]
            have hae : JsonSchemaUpdater.apply_props [] path dm = ([], []) := by
              rw [JsonSchemaUpdater.apply_props]
            rw [hae]
            rw [propsWF]
          | int m =>
            have hge : (PyVal.obj kvs).getEntries "properties" = [] := by
              simp [PyVal.getEntries, hpo]
            rw [hge]
            have hae : JsonSchemaUpdater.apply_props [] path dm = ([], []) := by
              rw [JsonSchemaUpdater.apply_props]
            rw [hae]
            rw [propsWF]
          | bool b =>
            have hge : (PyVal.obj kvs).getEntries "properties" = [] := by
              simp [PyVal.getEntries, hpo]
            rw [hge]
            have hae : JsonSchemaUpdater.apply_props [] path dm = ([], []) := by
              rw [JsonSchemaUpdater.apply_props]
            rw [hae]
            rw [propsWF]
          | none =>
            have hge : (PyVal.obj kvs).getEntries "properties" = [] := by
              simp [PyVal.getEntries, hpo]
            rw [hge]
            have hae : JsonSchemaUpdater.apply_props [] path dm = ([], []) := by
              rw [JsonSchemaUpdater.apply_props]
            rw [hae]
            rw [propsWF]
          | arr xs =>
            have hge : (PyVal.obj kvs).getEntries "properties" = [] := by
              simp [PyVal.getEntries, hpo]
            rw [hge]
            have hae : JsonSchemaUpdater.apply_props [] path dm = ([], []) := by
              rw [JsonSchemaUpdater.apply_props]
            rw [hae]
            rw [propsWF]
    · -- props
      intro props path hN hwf
      cases props with
      | nil =>
        have h1 : JsonSchemaUpdater.apply_props [] path dm = ([], []) := by
          rw [JsonSchemaUpdater.apply_props]
        rw [h1]
        rw [propsWF]
      | cons pr rest =>
        obtain ⟨pn, ps⟩ := pr
        rw [propsWF_cons_eq] at hwf
        simp only [Bool.and_eq_true] at hwf
        obtain ⟨⟨hobj, hbwf⟩, hrwf⟩ := hwf
        obtain ⟨pskvs, rfl⟩ := exists_obj_of_isObjB hobj
        have hrest : propsWF (JsonSchemaUpdater.apply_props rest path dm).1 = true := by
          refine ihP rest path ?_ hrwf
          simp only [PyVal.weightEntries_cons] at hN
          omega
        obtain ⟨s1, hs1eq, hs1obj, hs1type, hs1items, hs1wf, hs1w⟩ :
            ∃ s1 : PyVal × List String,
              (if !((PyVal.obj pskvs).pyGet "description").truthy then
                 match docMapGet dm (path ++ "." ++ pn) with
                 | some gd =>
                   patchNode (.obj pskvs) "description" gd.documentation
                     ("Added description to property `" ++ pn ++ "` [" ++
                       gd.confidence ++ "]")
                 | Option.none => (.obj pskvs, [])
               else (.obj pskvs, [])) = s1 ∧
              s1.1.isObjB = true ∧
              s1.1.get? "type" = (PyVal.obj pskvs).get? "type" ∧
              s1.1.get? "items" = (PyVal.obj pskvs).get? "items" ∧
              objWF s1.1 = objWF (.obj pskvs) ∧
              PyVal.weight s1.1 ≤ PyVal.weight (.obj pskvs) + 1 := by
          by_cases hdoc : ((PyVal.obj pskvs).pyGet "description").truthy
          · exact ⟨(.obj pskvs, []), by simp [hdoc], rfl, rfl, rfl, rfl, Nat.le_succ _⟩
          · rcases hhit : docMapGet dm (path ++ "." ++ pn) with _ | gd
            · exact ⟨(.obj pskvs, []), by simp [hdoc, hhit], rfl, rfl, rfl, rfl,
                Nat.le_succ _⟩
            · refine ⟨((PyVal.obj pskvs).set "description" (.str gd.documentation),
                ["Added description to property `" ++ pn ++ "` [" ++
                  gd.confidence ++ "]"]),
                by simp [hdoc, hhit, patchNode], ?_, ?_, ?_, ?_, ?_⟩
              · rw [PyVal.isObjB_set]
                exact hobj
              · exact PyVal.get?_set_ne (PyVal.obj pskvs) (PyVal.str gd.documentation)
                  (show ("type" : String) ≠ "description" from by decide)
              · exact PyVal.get?_set_ne (PyVal.obj pskvs) (PyVal.str gd.documentation)
                  (show ("items" : String) ≠ "description" from by decide)
              · exact objWF_set_str (.obj pskvs) gd.documentation
              · exact PyVal.weight_set_str (.obj pskvs) "description" gd.documentation
        by_cases htyo : ((PyVal.obj pskvs).pyGet "type").isStr "object"
        · -- object-typed property
          have hwfo : objWF (.obj pskvs) = true := by
            simpa [htyo] using hbwf
          rw [apply_props_cons_eq]
          simp only [hs1eq, htyo, if_true]
          rw [propsWF_cons_eq]
          simp only [Bool.and_eq_true]
          refine ⟨⟨?_, ?_⟩, hrest⟩
          · rw [apply_to_object_isObjB]
            exact hs1obj
          · have htyU : (((JsonSchemaUpdater.apply_to_object s1.1 (path ++ "." ++ pn)
                dm).1).pyGet "type").isStr "object" = true := by
              rw [PyVal.pyGet_congr "type" _
                (apply_to_object_get?_ne s1.1 (path ++ "." ++ pn) dm (by decide)
                  (by decide))]
              rw [PyVal.pyGet_congr "type" _ hs1type]
              exact htyo
            simp only [htyU, if_true]
            refine ihO s1.1 (path ++ "." ++ pn) ?_ ?_
            · simp only [PyVal.weightEntries_cons] at hN
              omega
            · rw [hs1wf]
              exact hwfo
        · have htyoF : ((PyVal.obj pskvs).pyGet "type").isStr "object" = false := by
            simpa [Bool.not_eq_true] using htyo
          by_cases htya : ((PyVal.obj pskvs).pyGet "type").isStr "array"
          · rcases hfi : (PyVal.obj pskvs).get? "items" with _ | items
            · -- array-typed, no items key
              rw [apply_props_cons_eq]
              simp only [hs1eq, htyoF, htya, hfi, Bool.false_eq_true, if_false, if_true]
              rw [propsWF_cons_eq]
              simp only [Bool.and_eq_true]
              refine ⟨⟨hs1obj, ?_⟩, hrest⟩
              have hty' : ((s1.1).pyGet "type").isStr "object" = false := by
                rw [PyVal.pyGet_congr "type" _ hs1type]
                exact htyoF
              have htya' : ((s1.1).pyGet "type").isStr "array" = true := by
                rw [PyVal.pyGet_congr "type" _ hs1type]
                exact htya
              have hfi' : s1.1.get? "items" = Option.none := by
                rw [hs1items]
                exact hfi
              simp only [hty', htya', hfi', Bool.false_eq_true, if_false, if_true]
            · by_cases hio : (items.pyGet "type").isStr "object"
              · -- array of objects
                have hwfI : objWF items = true := by
                  simpa [htyoF, htya, hfi, hio] using hbwf
                rw [apply_props_cons_eq]
                simp only [hs1eq, htyoF, htya, hfi, hio, Bool.false_eq_true, if_false,
                  if_true]
                rw [propsWF_cons_eq]
                simp only [Bool.and_eq_true]
                refine ⟨⟨?_, ?_⟩, hrest⟩
                · rw [PyVal.isObjB_set]
                  exact hs1obj
                · have hres := ihO items ((path ++ "." ++ pn) ++ "[]")
                    (by
                      have := PyVal.weight_get? hfi
                      simp only [PyVal.weightEntries_cons] at hN
                      omega) hwfI
                  have hty' : (((s1.1.set "items"
                      (JsonSchemaUpdater.apply_to_object items
                        ((path ++ "." ++ pn) ++ "[]") dm).1)).pyGet
                      "type").isStr "object" = false := by
                    rw [PyVal.pyGet_congr "type" (s1.1)
                      (PyVal.get?_set_ne s1.1 _
                        (show ("type" : String) ≠ "items" from by decide))]
                    rw [PyVal.pyGet_congr "type" _ hs1type]
                    exact htyoF
                  have htya' : (((s1.1.set "items"
                      (JsonSchemaUpdater.apply_to_object items
                        ((path ++ "." ++ pn) ++ "[]") dm).1)).pyGet
                      "type").isStr "array" = true := by
                    rw [PyVal.pyGet_congr "type" (s1.1)
                      (PyVal.get?_set_ne s1.1 _
                        (show ("type" : String) ≠ "items" from by decide))]
                    rw [PyVal.pyGet_congr "type" _ hs1type]
                    exact htya
                  have hfi' : (s1.1.set "items"
                      (JsonSchemaUpdater.apply_to_object items
                        ((path ++ "." ++ pn) ++ "[]") dm).1).get? "items" =
                      some (JsonSchemaUpdater.apply_to_object items
                        ((path ++ "." ++ pn) ++ "[]") dm).1 :=
                    PyVal.get?_set_same' hs1obj _ _
                  have hioU : (((JsonSchemaUpdater.apply_to_object items
                      ((path ++ "." ++ pn) ++ "[]") dm).1).pyGet
                      "type").isStr "object" = true := by
                    rw [PyVal.pyGet_congr "type" _
                      (apply_to_object_get?_ne items ((path ++ "." ++ pn) ++ "[]") dm
                        (by decide) (by decide))]
                    exact hio
                  simp only [hty', htya', hfi', hioU, Bool.false_eq_true, if_false,
                    if_true]
                  exact hres
              · -- array of non-objects
                have hioF : (items.pyGet "type").isStr "object" = false := by
                  simpa [Bool.not_eq_true] using hio
                rw [apply_props_cons_eq]
                simp only [hs1eq, htyoF, htya, hfi, hioF, Bool.false_eq_true, if_false,
                  if_true]
                rw [propsWF_cons_eq]
                simp only [Bool.and_eq_true]
                refine ⟨⟨hs1obj, ?_⟩, hrest⟩
                have hty' : ((s1.1).pyGet "type").isStr "object" = false := by
                  rw [PyVal.pyGet_congr "type" _ hs1type]
                  exact htyoF
                have htya' : ((s1.1).pyGet "type").isStr "array" = true := by
                  rw [PyVal.pyGet_congr "type" _ hs1type]
                  exact htya
                have hfi' : s1.1.get? "items" = some items := by
                  rw [hs1items]
                  exact hfi
                simp only [hty', htya', hfi', hioF, Bool.false_eq_true, if_false,
                  if_true]
          · -- neither object- nor array-typed
            have htyaF : ((PyVal.obj pskvs).pyGet "type").isStr "array" = false := by
              simpa [Bool.not_eq_true] using htya
            rw [apply_props_cons_eq]
            simp only [hs1eq, htyoF, htyaF, Bool.false_eq_true, if_false]
            rw [propsWF_cons_eq]
            simp only [Bool.and_eq_true]
            refine ⟨⟨hs1obj, ?_⟩, hrest⟩
            have hty' : ((s1.1).pyGet "type").isStr "object" = false := by
              rw [PyVal.pyGet_congr "type" _ hs1type]
              exact htyoF
            have htya' : ((s1.1).pyGet "type").isStr "array" = false := by
              rw [PyVal.pyGet_congr "type" _ hs1type]
              exact htyaF
            simp only [hty', htya', Bool.false_eq_true, if_false]

theorem countP_filter_not {α : Type} (p : α → Bool) (l : List α) :
    (l.filter (fun x => !p x)).countP p = 0 := by
  induction l with
  | nil => rfl
  | cons x xs ih =>
    rcases hx : p x with _ | _
    · simp [List.filter_cons, hx, List.countP_cons, ih]
    · simp [List.filter_cons, hx, ih]

/-- C2, amended.  Idempotence holds on patchable schemas (every node the
pass touches is a dict, `recordWF`/`objWF`) provided every accepted entry
carries a non-empty documentation string: the written string then makes
the node truthy, the guard blocks a rewrite, and the second application
returns the no-changes signal.  With an empty documentation string the
guard re-fires (see the counterexample). -/
theorem C2_idempotence_amended (schema : PyVal) (docs : List GeneratedDoc)
    (fp mc : String) (subj : Option String)
    (hdocs : ∀ d ∈ docs, d.documentation ≠ "") :
    (recordWF schema = true →
      ∀ u, SchemaUpdater.apply_documentation schema docs fp mc = some u →
        SchemaUpdater.apply_documentation u.updated_schema docs fp mc =
          Option.none) ∧
    (objWF schema = true →
      ∀ u, JsonSchemaUpdater.apply_documentation schema docs fp mc subj = some u →
        JsonSchemaUpdater.apply_documentation u.updated_schema docs fp mc subj =
          Option.none) := by
  have hdm : ∀ d ∈ filter_by_confidence docs mc, d.documentation ≠ "" :=
    fun d hd => hdocs d (List.mem_of_mem_filter hd)
  constructor
  · intro hwa u hu
    unfold SchemaUpdater.apply_documentation at hu ⊢
    rcases hf : filter_by_confidence docs mc with _ | ⟨d0, ds⟩
    · rw [hf] at hu
      simp at hu
    · rw [hf] at hu hdm
      simp only [List.isEmpty_cons, Bool.false_eq_true, if_false, deepcopy] at hu ⊢
      set r1 := SchemaUpdater.apply_to_record schema
        (schema.getStrD "name" "unknown") (d0 :: ds) with hr1
      rcases he : r1.2.isEmpty with _ | _
      · rw [he] at hu
        simp only [Bool.false_eq_true, if_false, Option.some.injEq] at hu
        subst hu
        have hwf2 : recordWF r1.1 = true :=
          (avro_wf_aux (d0 :: ds) (8 * PyVal.weight schema + 2)).1 schema
            (schema.getStrD "name" "unknown") (le_refl _) hwa
        obtain ⟨a1, b1, c1, d1⟩ :=
          (avro_patch_aux (d0 :: ds) hdm (8 * PyVal.weight schema + 2)).1 schema ""
            (schema.getStrD "name" "unknown") (le_refl _) hwa (by simp)
        obtain ⟨a2, b2, c2, d2⟩ :=
          (avro_patch_aux (d0 :: ds) hdm (8 * PyVal.weight r1.1 + 2)).1 r1.1 ""
            (r1.1.getStrD "name" "unknown") (le_refl _) hwf2 (by simp)
        rw [← hr1] at a1
        have hlen : (SchemaUpdater.apply_to_record r1.1
            (r1.1.getStrD "name" "unknown") (d0 :: ds)).2.length = 0 := by
          rw [d2, a1]
          exact countP_filter_not _ _
        have hnil : (SchemaUpdater.apply_to_record r1.1
            (r1.1.getStrD "name" "unknown") (d0 :: ds)).2 = [] :=
          List.length_eq_zero.mp hlen
        simp [hnil]
      · rw [he] at hu
        simp at hu
  · intro hwj u hu
    unfold JsonSchemaUpdater.apply_documentation at hu ⊢
    rcases hf : filter_by_confidence docs mc with _ | ⟨d0, ds⟩
    · rw [hf] at hu
      simp at hu
    · rw [hf] at hu hdm
      set bp := (match subj with
        | some s => if s = "" then ((fp.splitOn "/").getLastD "").replace ".json" ""
                    else s
        | Option.none => ((fp.splitOn "/").getLastD "").replace ".json" "") with hbp
      simp only [List.isEmpty_cons, Bool.false_eq_true, if_false, deepcopy] at hu ⊢
      set r1 := JsonSchemaUpdater.apply_to_object schema bp (d0 :: ds) with hr1
      rcases he : r1.2.isEmpty with _ | _
      · rw [he] at hu
        simp only [Bool.false_eq_true, if_false, Option.some.injEq] at hu
        subst hu
        have hwf2 : objWF r1.1 = true :=
          (json_wf_aux (d0 :: ds) (8 * PyVal.weight schema + 4)).1 schema bp
            (le_refl _) hwj
        obtain ⟨o5, o1, o2, o3, o4⟩ :=
          (json_patch_aux (d0 :: ds) hdm (8 * PyVal.weight schema + 4)).1 schema bp
            (le_refl _) hwj
        obtain ⟨p5, p1, p2, p3, p4⟩ :=
          (json_patch_aux (d0 :: ds) hdm (8 * PyVal.weight r1.1 + 4)).1 r1.1 bp
            (le_refl _) hwf2
        rw [← hr1] at o1
        have hlen : (JsonSchemaUpdater.apply_to_object r1.1 bp (d0 :: ds)).2.length
            = 0 := by
          rw [o1, countP_filter_not _ _] at p5
          omega
        have hnil : (JsonSchemaUpdater.apply_to_object r1.1 bp (d0 :: ds)).2 = [] :=
          List.length_eq_zero.mp hlen
        simp [hnil]
      · rw [he] at hu
        simp at hu

/-- C2 counterexample: with an empty generated documentation string the
"currently lacks documentation" guard re-fires on the patched schema
(Python `not record.get("doc")` is true again because `""` is falsy), so
the second application patches the same node again and returns an update
instead of the no-changes signal. -/
theorem C2_counterexample :
    ¬ (∀ u, SchemaUpdater.apply_documentation
          (.obj [("type", .str "record"), ("name", .str "S")])
          [⟨"S", "record", "", "high"⟩] "s.avsc" "high" = some u →
        SchemaUpdater.apply_documentation u.updated_schema
          [⟨"S", "record", "", "high"⟩] "s.avsc" "high" = Option.none) := by
  intro h
  have h2 := h ⟨"s.avsc", .obj [("type", .str "record"), ("name", .str "S")],
    .obj [("type", .str "record"), ("name", .str "S"), ("doc", .str "")],
    ["Added doc to record `S` [high]"]⟩
    (by simp [SchemaUpdater.apply_documentation, SchemaUpdater.apply_to_record,
      filter_by_confidence, confidence_level, docMapGet, patchNode, deepcopy,
      optAttach, PyVal.set, setEntries, PyVal.pyGet, PyVal.getD, PyVal.get?,
      PyVal.getStrD, PyVal.truthy, PyVal.isStr, List.lookup])
  simp [SchemaUpdater.apply_documentation, SchemaUpdater.apply_to_record,
    filter_by_confidence, confidence_level, docMapGet, patchNode, deepcopy,
    optAttach, PyVal.set, setEntries, PyVal.pyGet, PyVal.getD, PyVal.get?,
    PyVal.getStrD, PyVal.truthy, PyVal.isStr, List.lookup, String.isEmpty] at h2

/-- Witness for `C2_idempotence_amended` at concrete inputs: a one-record
schema patched at the root, then re-patched. -/
theorem C2_idempotence_amended_witness :
    SchemaUpdater.apply_documentation
      (.obj [("type", .str "record"), ("name", .str "S"), ("doc", .str "A record")])
      [⟨"S", "record", "A record", "high"⟩] "s.avsc" "high" = Option.none ∧
    JsonSchemaUpdater.apply_documentation
      (.obj [("type", .str "object"), ("description", .str "An object")])
      [⟨"B", "object", "An object", "high"⟩] "b.json" "high" (some "B") =
      Option.none := by
  constructor
  · exact (C2_idempotence_amended
      (.obj [("type", .str "record"), ("name", .str "S")])
      [⟨"S", "record", "A record", "high"⟩] "s.avsc" "high" (some "B")
      (by decide)).1
      (by simp [recordWF, fieldsWF, PyVal.isObjB, PyVal.getList, PyVal.get?,
        List.lookup])
      ⟨"s.avsc", .obj [("type", .str "record"), ("name", .str "S")],
       .obj [("type", .str "record"), ("name", .str "S"), ("doc", .str "A record")],
       ["Added doc to record `S` [high]"]⟩
      (by simp [SchemaUpdater.apply_documentation, SchemaUpdater.apply_to_record,
        filter_by_confidence, confidence_level, docMapGet, patchNode, deepcopy,
        optAttach, PyVal.set, setEntries, PyVal.pyGet, PyVal.getD, PyVal.get?,
        PyVal.getStrD, PyVal.truthy, PyVal.isStr, List.lookup])
  · exact (C2_idempotence_amended
      (.obj [("type", .str "object")])
      [⟨"B", "object", "An object", "high"⟩] "b.json" "high" (some "B")
      (by decide)).2
      (by simp [objWF, propsWF, PyVal.isObjB, PyVal.getEntries, PyVal.get?,
        List.lookup])
      ⟨"b.json", .obj [("type", .str "object")],
       .obj [("type", .str "object"), ("description", .str "An object")],
       ["Added description to object `B` [high]"]⟩
      (by simp [JsonSchemaUpdater.apply_documentation, JsonSchemaUpdater.apply_to_object,
        JsonSchemaUpdater.apply_props, filter_by_confidence, confidence_level,
        docMapGet, patchNode, deepcopy, optAttach, PyVal.set, setEntries, PyVal.pyGet,
        PyVal.getD, PyVal.get?, PyVal.getStrD, PyVal.truthy, PyVal.isStr, List.lookup])

theorem docHit_single (d : GeneratedDoc) (p : String) :
    docHit [d] p = (d.path == p) := by
  by_cases h : d.path = p <;> simp [docHit, docMapGet, h]

theorem countP_docHit_single {l : List String} {d : GeneratedDoc}
    (hnd : l.Nodup) (hm : d.path ∈ l) :
    l.countP (fun p => docHit [d] p) = 1 := by
  have h1 : l.countP (fun p => docHit [d] p) = l.count d.path := by
    rw [List.count_eq_countP]
    apply List.countP_congr
    intro x hx
    rw [docHit_single]
    constructor <;> intro h <;> simp [beq_iff_eq] at h ⊢ <;> exact h.symm
  rw [h1]
  exact List.count_eq_one_of_mem hnd hm

theorem filter_not_docHit_single (l : List String) (d : GeneratedDoc) :
    l.filter (fun p => !(docHit [d] p)) = l.filter (fun p => p ≠ d.path) := by
  apply List.filter_congr
  intro x hx
  rw [docHit_single]
  by_cases h : d.path = x
  · simp [h]
  · simp [h, Ne.symm h]

/-- C1, amended.  On a patchable schema whose analysis paths are
duplicate-free, a single accepted entry with a non-empty documentation
string keyed by an analyzer-produced path patches exactly one node: the
patcher logs exactly one change, re-analysis drops exactly that path from
the missing list, the element total is unchanged and the documented count
grows by one.  Without the duplicate-freedom premise the path does not
address a unique node (see the counterexample). -/
theorem C1_path_agreement_amended (schema : PyVal) (d : GeneratedDoc)
    (fp mc : String) (subj : Option String)
    (hdoc : d.documentation ≠ "")
    (hacc : filter_by_confidence [d] mc = [d]) :
    (recordWF schema = true →
      d.path ∈ (AvroAnalyzer.analyze_record schema "").1.map (fun x => x.path) →
      ((AvroAnalyzer.analyze_record schema "").1.map (fun x => x.path)).Nodup →
      ((SchemaUpdater.apply_documentation schema [d] fp mc).map
        (fun u => u.changes_summary.length) = some 1 ∧
       (SchemaUpdater.apply_documentation schema [d] fp mc).map
        (fun u => (AvroAnalyzer.analyze_record u.updated_schema "").1.map
          (fun x => x.path)) =
        some (((AvroAnalyzer.analyze_record schema "").1.map
          (fun x => x.path)).filter (fun p => p ≠ d.path)) ∧
       (SchemaUpdater.apply_documentation schema [d] fp mc).map
        (fun u => (AvroAnalyzer.analyze_record u.updated_schema "").2.1) =
        some (AvroAnalyzer.analyze_record schema "").2.1 ∧
       (SchemaUpdater.apply_documentation schema [d] fp mc).map
        (fun u => (AvroAnalyzer.analyze_record u.updated_schema "").2.2) =
        some ((AvroAnalyzer.analyze_record schema "").2.2 + 1))) ∧
    (∀ bp, objWF schema = true →
      bp = (match subj with
        | some s => if s = "" then ((fp.splitOn "/").getLastD "").replace ".json" ""
                    else s
        | Option.none => ((fp.splitOn "/").getLastD "").replace ".json" "") →
      d.path ∈ (JsonSchemaAnalyzer.analyze_object schema bp).1.map (fun x => x.path) →
      ((JsonSchemaAnalyzer.analyze_object schema bp).1.map (fun x => x.path)).Nodup →
      ((JsonSchemaUpdater.apply_documentation schema [d] fp mc subj).map
        (fun u => u.changes_summary.length) = some 1 ∧
       (JsonSchemaUpdater.apply_documentation schema [d] fp mc subj).map
        (fun u => (JsonSchemaAnalyzer.analyze_object u.updated_schema bp).1.map
          (fun x => x.path)) =
        some (((JsonSchemaAnalyzer.analyze_object schema bp).1.map
          (fun x => x.path)).filter (fun p => p ≠ d.path)) ∧
       (JsonSchemaUpdater.apply_documentation schema [d] fp mc subj).map
        (fun u => (JsonSchemaAnalyzer.analyze_object u.updated_schema bp).2.1) =
        some (JsonSchemaAnalyzer.analyze_object schema bp).2.1 ∧
       (JsonSchemaUpdater.apply_documentation schema [d] fp mc subj).map
        (fun u => (JsonSchemaAnalyzer.analyze_object u.updated_schema bp).2.2) =
        some ((JsonSchemaAnalyzer.analyze_object schema bp).2.2 + 1))) := by
  have hdm : ∀ e ∈ ([d] : List GeneratedDoc), e.documentation ≠ "" := by
    intro e he
    rw [List.mem_singleton] at he
    subst he
    exact hdoc
  constructor
  · intro hwa hmem hnd
    unfold SchemaUpdater.apply_documentation
    rw [hacc]
    simp only [List.isEmpty_cons, Bool.false_eq_true, if_false, deepcopy]
    set r1 := SchemaUpdater.apply_to_record schema
      (schema.getStrD "name" "unknown") [d] with hr1
    obtain ⟨a1, b1, c1, d1⟩ :=
      (avro_patch_aux [d] hdm (8 * PyVal.weight schema + 2)).1 schema ""
        (schema.getStrD "name" "unknown") (le_refl _) hwa (by simp)
    rw [← hr1] at a1 b1 c1 d1
    have hcount : ((AvroAnalyzer.analyze_record schema "").1.map
        (fun x => x.path)).countP (fun p => docHit [d] p) = 1 :=
      countP_docHit_single hnd hmem
    have hlen : r1.2.length = 1 := by
      rw [d1, hcount]
    have hne : r1.2.isEmpty = false := by
      rcases h : r1.2 with _ | ⟨c, cs⟩
      · rw [h] at hlen
        simp at hlen
      · rfl
    rw [hne]
    simp only [Bool.false_eq_true, if_false, Option.map_some']
    simp only [Option.some.injEq]
    refine ⟨?_, ?_, ?_, ?_⟩
    · show r1.2.length = 1
      exact hlen
    · show (AvroAnalyzer.analyze_record r1.1 "").1.map (fun x => x.path) = _
      rw [a1]
      exact filter_not_docHit_single _ d
    · show (AvroAnalyzer.analyze_record r1.1 "").2.1 = _
      exact b1
    · show (AvroAnalyzer.analyze_record r1.1 "").2.2 = _
      rw [c1, hcount]
  · intro bp hwj hbp hmem hnd
    unfold JsonSchemaUpdater.apply_documentation
    rw [hacc]
    simp only [List.isEmpty_cons, Bool.false_eq_true, if_false, deepcopy]
    subst hbp
    set bp := (match subj with
      | some s => if s = "" then ((fp.splitOn "/").getLastD "").replace ".json" ""
                  else s
      | Option.none => ((fp.splitOn "/").getLastD "").replace ".json" "") with hbp
    set r1 := JsonSchemaUpdater.apply_to_object schema bp [d] with hr1
    obtain ⟨o5, o1, o2, o3, o4⟩ :=
      (json_patch_aux [d] hdm (8 * PyVal.weight schema + 4)).1 schema bp
        (le_refl _) hwj
    rw [← hr1] at o1 o2 o3 o4
    have hcount : ((JsonSchemaAnalyzer.analyze_object schema bp).1.map
        (fun x => x.path)).countP (fun p => docHit [d] p) = 1 :=
      countP_docHit_single hnd hmem
    have hlen : r1.2.length = 1 := by
      rw [o4 hnd, hcount]
    have hne : r1.2.isEmpty = false := by
      rcases h : r1.2 with _ | ⟨c, cs⟩
      · rw [h] at hlen
        simp at hlen
      · rfl
    rw [hne]
    simp only [Bool.false_eq_true, if_false, Option.map_some']
    simp only [Option.some.injEq]
    refine ⟨?_, ?_, ?_, ?_⟩
    · show r1.2.length = 1
      exact hlen
    · show (JsonSchemaAnalyzer.analyze_object r1.1 bp).1.map (fun x => x.path) = _
      rw [o1]
      exact filter_not_docHit_single _ d
    · show (JsonSchemaAnalyzer.analyze_object r1.1 bp).2.1 = _
      exact o2
    · show (JsonSchemaAnalyzer.analyze_object r1.1 bp).2.2 = _
      rw [o3, hcount]

/-- C1 counterexample: in `dupPathSchema` the union under field `R.f`
contains two record definitions that both get the analyzer path `R.f.N`,
so one documentation entry keyed by that analyzer-produced path patches
two distinct nodes (the patcher logs two changes), not "precisely the
node the descriptor described and no other". -/
theorem C1_counterexample :
    "R.f.N" ∈ (AvroAnalyzer.analyze_record dupPathSchema "").1.map
      (fun x => x.path) ∧
    (SchemaUpdater.apply_documentation dupPathSchema
        [⟨"R.f.N", "record", "Doc N", "high"⟩] "r.avsc" "high").map
      (fun u => u.changes_summary.length) = some 2 := by
  constructor
  · simp [AvroAnalyzer.analyze_record, AvroAnalyzer.analyze_fields,
      AvroAnalyzer.analyze_nested_types, AvroAnalyzer.analyze_union_variants,
      simplify_type, simplify_type_list, optAttach, PyVal.pyGet, PyVal.getD,
      PyVal.get?, PyVal.getStrD, PyVal.getList, PyVal.truthy, PyVal.isStr,
      List.lookup, dupPathSchema]
  · simp [SchemaUpdater.apply_documentation, SchemaUpdater.apply_to_record,
      SchemaUpdater.apply_fields, SchemaUpdater.apply_to_nested,
      SchemaUpdater.apply_union_variants, filter_by_confidence, confidence_level,
      docMapGet, patchNode, deepcopy, optAttach, PyVal.set, setEntries, PyVal.pyGet,
      PyVal.getD, PyVal.get?, PyVal.getStrD, PyVal.getList, PyVal.truthy,
      PyVal.isStr, List.lookup, dupPathSchema]

/-- Witness for `C1_path_agreement_amended`: the three-field record
`tierSchema` (entry for `T.a`) and the three-property object
`tierObjSchema` (entry for `O.a`). -/
theorem C1_path_agreement_amended_witness :
    ((SchemaUpdater.apply_documentation tierSchema
        [⟨"T.a", "field", "Field a", "high"⟩] "t.avsc" "high").map
      (fun u => u.changes_summary.length) = some 1 ∧
     (SchemaUpdater.apply_documentation tierSchema
        [⟨"T.a", "field", "Field a", "high"⟩] "t.avsc" "high").map
      (fun u => (AvroAnalyzer.analyze_record u.updated_schema "").1.map
        (fun x => x.path)) =
      some (((AvroAnalyzer.analyze_record tierSchema "").1.map
        (fun x => x.path)).filter (fun p => p ≠ "T.a")) ∧
     (SchemaUpdater.apply_documentation tierSchema
        [⟨"T.a", "field", "Field a", "high"⟩] "t.avsc" "high").map
      (fun u => (AvroAnalyzer.analyze_record u.updated_schema "").2.1) =
      some (AvroAnalyzer.analyze_record tierSchema "").2.1 ∧
     (SchemaUpdater.apply_documentation tierSchema
        [⟨"T.a", "field", "Field a", "high"⟩] "t.avsc" "high").map
      (fun u => (AvroAnalyzer.analyze_record u.updated_schema "").2.2) =
      some ((AvroAnalyzer.analyze_record tierSchema "").2.2 + 1)) ∧
    ((JsonSchemaUpdater.apply_documentation tierObjSchema
        [⟨"O.a", "property", "Prop a", "high"⟩] "t.json" "high" (some "O")).map
      (fun u => u.changes_summary.length) = some 1 ∧
     (JsonSchemaUpdater.apply_documentation tierObjSchema
        [⟨"O.a", "property", "Prop a", "high"⟩] "t.json" "high" (some "O")).map
      (fun u => (JsonSchemaAnalyzer.analyze_object u.updated_schema "O").1.map
        (fun x => x.path)) =
      some (((JsonSchemaAnalyzer.analyze_object tierObjSchema "O").1.map
        (fun x => x.path)).filter (fun p => p ≠ "O.a")) ∧
     (JsonSchemaUpdater.apply_documentation tierObjSchema
        [⟨"O.a", "property", "Prop a", "high"⟩] "t.json" "high" (some "O")).map
      (fun u => (JsonSchemaAnalyzer.analyze_object u.updated_schema "O").2.1) =
      some (JsonSchemaAnalyzer.analyze_object tierObjSchema "O").2.1 ∧
     (JsonSchemaUpdater.apply_documentation tierObjSchema
        [⟨"O.a", "property", "Prop a", "high"⟩] "t.json" "high" (some "O")).map
      (fun u => (JsonSchemaAnalyzer.analyze_object u.updated_schema "O").2.2) =
      some ((JsonSchemaAnalyzer.analyze_object tierObjSchema "O").2.2 + 1)) :=
  ⟨(C1_path_agreement_amended tierSchema ⟨"T.a", "field", "Field a", "high"⟩
      "t.avsc" "high" (some "O") (by decide) (by rfl)).1
      (by simp [recordWF, fieldsWF, typeWF, PyVal.isObjB, PyVal.getList,
        PyVal.pyGet, PyVal.getD, PyVal.get?, List.lookup, optAttach, tierSchema])
      (by simp [AvroAnalyzer.analyze_record, AvroAnalyzer.analyze_fields,
        AvroAnalyzer.analyze_nested_types, AvroAnalyzer.analyze_union_variants,
        simplify_type, simplify_type_list, optAttach, PyVal.pyGet, PyVal.getD,
        PyVal.get?, PyVal.getStrD, PyVal.getList, PyVal.truthy, PyVal.isStr,
        List.lookup, tierSchema])
      (by simp [AvroAnalyzer.analyze_record, AvroAnalyzer.analyze_fields,
        AvroAnalyzer.analyze_nested_types, AvroAnalyzer.analyze_union_variants,
        simplify_type, simplify_type_list, optAttach, PyVal.pyGet, PyVal.getD,
        PyVal.get?, PyVal.getStrD, PyVal.getList, PyVal.truthy, PyVal.isStr,
        List.lookup, tierSchema]),
   (C1_path_agreement_amended tierObjSchema ⟨"O.a", "property", "Prop a", "high"⟩
      "t.json" "high" (some "O") (by decide) (by rfl)).2 "O"
      (by simp [objWF, propsWF, PyVal.isObjB, PyVal.getEntries, PyVal.pyGet,
        PyVal.getD, PyVal.get?, PyVal.isStr, List.lookup, optAttach, tierObjSchema])
      (by rfl)
      (by simp [JsonSchemaAnalyzer.analyze_object, JsonSchemaAnalyzer.analyze_props,
        JsonSchemaAnalyzer.get_type_string, JsonSchemaAnalyzer.get_connect_type,
        optAttach, PyVal.pyGet, PyVal.getD, PyVal.get?, PyVal.getStrD,
        PyVal.getEntries, PyVal.truthy, PyVal.isStr, List.lookup, tierObjSchema])
      (by simp [JsonSchemaAnalyzer.analyze_object, JsonSchemaAnalyzer.analyze_props,
        JsonSchemaAnalyzer.get_type_string, JsonSchemaAnalyzer.get_connect_type,
        optAttach, PyVal.pyGet, PyVal.getD, PyVal.get?, PyVal.getStrD,
        PyVal.getEntries, PyVal.truthy, PyVal.isStr, List.lookup, tierObjSchema])⟩

/-- The address-carrying embedding for the ownership claim: every mutable
Python value the schemas contain (dict, list) carries the identity of its
heap cell, so aliasing between two values is visible as a shared address.
Immutable leaves (strings, numbers, booleans, `None`) have no identity
worth tracking: mutating them is impossible in Python. -/
inductive PyValA where
  | str (s : String)
  | int (n : Int)
  | bool (b : Bool)
  | none
  | arr (a : Nat) (xs : List PyValA)
  | obj (a : Nat) (kvs : List (String × PyValA))

mutual

/-- Forget the addresses: the plain value a `PyValA` denotes. -/
def PyValA.erase : PyValA → PyVal
  | .str s => .str s
  | .int n => .int n
  | .bool b => .bool b
  | .none => .none
  | .arr _ xs => .arr (PyValA.eraseList xs)
  | .obj _ kvs => .obj (PyValA.eraseEntries kvs)

def PyValA.eraseList : List PyValA → List PyVal
  | [] => []
  | x :: xs => PyValA.erase x :: PyValA.eraseList xs

def PyValA.eraseEntries : List (String × PyValA) → List (String × PyVal)
  | [] => []
  | (k, v) :: rest => (k, PyValA.erase v) :: PyValA.eraseEntries rest

end

mutual

/-- The addresses of all mutable cells reachable from a value. -/
def PyValA.addrs : PyValA → List Nat
  | .arr a xs => a :: PyValA.addrsList xs
  | .obj a kvs => a :: PyValA.addrsEntries kvs
  | _ => []

def PyValA.addrsList : List PyValA → List Nat
  | [] => []
  | x :: xs => PyValA.addrs x ++ PyValA.addrsList xs

def PyValA.addrsEntries : List (String × PyValA) → List Nat
  | [] => []
  | (_, v) :: rest => PyValA.addrs v ++ PyValA.addrsEntries rest

end

/-- `d.get(k)` on an addressed dict: the looked-up value is the stored
object itself, not a copy. -/
def PyValA.getA? : PyValA → String → Option PyValA
  | .obj _ kvs, k => kvs.lookup k
  | _, _ => Option.none

/-- In-place entry assignment: the same cells, one value replaced or a new
entry appended at the end. -/
def setEntriesA : List (String × PyValA) → String → PyValA → List (String × PyValA)
  | [], k, v => [(k, v)]
  | (k', v') :: rest, k, v =>
    if k' = k then (k', v) :: rest else (k', v') :: setEntriesA rest k v

/-- `d[k] = v` on an addressed value: the dict keeps its address (the
mutation happens inside the same cell). -/
def PyValA.setA : PyValA → String → PyValA → PyValA
  | .obj a kvs, k, v => .obj a (setEntriesA kvs k v)
  | j, _, _ => j

/-- The addressed form of `patchNode`: one in-place documentation write. -/
def patchNodeA (node : PyValA) (key : String) (docText : String) (line : String) :
    PyValA × List String :=
  match node with
  | .obj a kvs => (PyValA.setA (.obj a kvs) key (.str docText), [line])
  | other => (other, [])

mutual

/-- `copy.deepcopy` with an address supply: the copy is built entirely
from fresh cells numbered from `n` upward; returns the copy and the next
unused address. -/
def deepcopyA : PyValA → Nat → PyValA × Nat
  | .str s, n => (.str s, n)
  | .int m, n => (.int m, n)
  | .bool b, n => (.bool b, n)
  | .none, n => (.none, n)
  | .arr _ xs, n =>
    let r := deepcopyListA xs (n + 1)
    (.arr n r.1, r.2)
  | .obj _ kvs, n =>
    let r := deepcopyEntriesA kvs (n + 1)
    (.obj n r.1, r.2)

def deepcopyListA : List PyValA → Nat → List PyValA × Nat
  | [], n => ([], n)
  | x :: xs, n =>
    let rx := deepcopyA x n
    let rxs := deepcopyListA xs rx.2
    (rx.1 :: rxs.1, rxs.2)

def deepcopyEntriesA : List (String × PyValA) → Nat → List (String × PyValA) × Nat
  | [], n => ([], n)
  | (k, v) :: rest, n =>
    let rv := deepcopyA v n
    let rrest := deepcopyEntriesA rest rv.2
    ((k, rv.1) :: rrest.1, rrest.2)

end

theorem PyValA.eraseList_cons (x : PyValA) (xs : List PyValA) :
    PyValA.eraseList (x :: xs) = PyValA.erase x :: PyValA.eraseList xs := by
  rw [PyValA.eraseList]

theorem PyValA.eraseEntries_cons (k : String) (v : PyValA)
    (rest : List (String × PyValA)) :
    PyValA.eraseEntries ((k, v) :: rest) =
      (k, PyValA.erase v) :: PyValA.eraseEntries rest := by
  rw [PyValA.eraseEntries]

theorem PyValA.eraseList_nil : PyValA.eraseList [] = [] := by
  rw [PyValA.eraseList]

theorem PyValA.eraseEntries_nil : PyValA.eraseEntries [] = [] := by
  rw [PyValA.eraseEntries]

theorem eraseEntries_lookup (kvs : List (String × PyValA)) (k : String) :
    (PyValA.eraseEntries kvs).lookup k = Option.map PyValA.erase (kvs.lookup k) := by
  induction kvs with
  | nil =>
    rw [PyValA.eraseEntries]
    rfl
  | cons hd tl ih =>
    obtain ⟨k', v'⟩ := hd
    rw [PyValA.eraseEntries_cons]
    rcases h : k == k' with _ | _ <;> simp [List.lookup, h, ih]

theorem PyValA.erase_get? (v : PyValA) (k : String) :
    (v.erase).get? k = Option.map PyValA.erase (v.getA? k) := by
  cases v <;> simp [PyValA.erase, PyValA.getA?, PyVal.get?]
  case obj a kvs => exact eraseEntries_lookup kvs k

theorem eraseEntries_setEntriesA (kvs : List (String × PyValA)) (k : String)
    (w : PyValA) :
    PyValA.eraseEntries (setEntriesA kvs k w) =
      setEntries (PyValA.eraseEntries kvs) k (PyValA.erase w) := by
  induction kvs with
  | nil => simp [setEntriesA, setEntries, PyValA.eraseEntries]
  | cons hd tl ih =>
    obtain ⟨k', v'⟩ := hd
    by_cases h : k' = k <;>
      simp [setEntriesA, setEntries, PyValA.eraseEntries, h, ih]

theorem PyValA.erase_setA (v : PyValA) (k : String) (w : PyValA) :
    (v.setA k w).erase = (v.erase).set k w.erase := by
  cases v <;> simp [PyValA.setA, PyValA.erase, PyVal.set]
  case obj a kvs => exact eraseEntries_setEntriesA kvs k w

theorem PyValA.erase_obj (a : Nat) (kvs : List (String × PyValA)) :
    (PyValA.obj a kvs).erase = .obj (PyValA.eraseEntries kvs) := by
  rw [PyValA.erase]

theorem PyValA.erase_arr (a : Nat) (xs : List PyValA) :
    (PyValA.arr a xs).erase = .arr (PyValA.eraseList xs) := by
  rw [PyValA.erase]

theorem PyValA.erase_str (s : String) : (PyValA.str s).erase = .str s := by
  rw [PyValA.erase]

theorem PyValA.erase_int (n : Int) : (PyValA.int n).erase = .int n := by
  rw [PyValA.erase]

theorem PyValA.erase_bool (b : Bool) : (PyValA.bool b).erase = .bool b := by
  rw [PyValA.erase]

theorem PyValA.erase_none : (PyValA.none).erase = PyVal.none := by
  rw [PyValA.erase]

theorem PyValA.addrs_obj (a : Nat) (kvs : List (String × PyValA)) :
    (PyValA.obj a kvs).addrs = a :: PyValA.addrsEntries kvs := by
  rw [PyValA.addrs]

theorem PyValA.addrs_arr (a : Nat) (xs : List PyValA) :
    (PyValA.arr a xs).addrs = a :: PyValA.addrsList xs := by
  rw [PyValA.addrs]

theorem PyValA.addrs_str (s : String) : (PyValA.str s).addrs = [] := by
  rw [PyValA.addrs.eq_def]

theorem PyValA.addrs_int (n : Int) : (PyValA.int n).addrs = [] := by
  rw [PyValA.addrs.eq_def]

theorem PyValA.addrs_bool (b : Bool) : (PyValA.bool b).addrs = [] := by
  rw [PyValA.addrs.eq_def]

theorem PyValA.addrs_none : (PyValA.none).addrs = [] := by
  rw [PyValA.addrs.eq_def]

theorem PyValA.addrsList_cons (x : PyValA) (xs : List PyValA) :
    PyValA.addrsList (x :: xs) = x.addrs ++ PyValA.addrsList xs := by
  rw [PyValA.addrsList]

theorem PyValA.addrsList_nil : PyValA.addrsList [] = [] := by
  rw [PyValA.addrsList]

theorem PyValA.addrsEntries_cons (k : String) (v : PyValA)
    (rest : List (String × PyValA)) :
    PyValA.addrsEntries ((k, v) :: rest) = v.addrs ++ PyValA.addrsEntries rest := by
  rw [PyValA.addrsEntries]

theorem PyValA.addrsEntries_nil : PyValA.addrsEntries [] = [] := by
  rw [PyValA.addrsEntries]

theorem erase_patchNodeA (node : PyValA) (key d line : String) :
    (patchNodeA node key d line).1.erase = (patchNode node.erase key d line).1 ∧
    (patchNodeA node key d line).2 = (patchNode node.erase key d line).2 := by
  cases node with
  | obj a kvs =>
    rw [PyValA.erase_obj]
    constructor
    · show ((PyValA.obj a kvs).setA key (PyValA.str d)).erase = _
      rw [PyValA.erase_setA, PyValA.erase_obj, PyValA.erase_str]
      simp [patchNode]
    · simp [patchNodeA, patchNode]
  | str s =>
    rw [PyValA.erase_str]
    exact ⟨PyValA.erase_str s, rfl⟩
  | int n =>
    rw [PyValA.erase_int]
    exact ⟨PyValA.erase_int n, rfl⟩
  | bool b =>
    rw [PyValA.erase_bool]
    exact ⟨PyValA.erase_bool b, rfl⟩
  | none =>
    rw [PyValA.erase_none]
    exact ⟨PyValA.erase_none, rfl⟩
  | arr a xs =>
    rw [PyValA.erase_arr]
    exact ⟨PyValA.erase_arr a xs, rfl⟩

theorem addrsEntries_setEntriesA (kvs : List (String × PyValA)) (k : String)
    (w : PyValA) :
    PyValA.addrsEntries (setEntriesA kvs k w) ⊆
      PyValA.addrsEntries kvs ++ w.addrs := by
  induction kvs with
  | nil =>
    intro a ha
    simp [setEntriesA, PyValA.addrsEntries] at ha
    simp [PyValA.addrsEntries, ha]
  | cons hd tl ih =>
    obtain ⟨k', v'⟩ := hd
    by_cases h : k' = k
    · intro a ha
      simp [setEntriesA, h, PyValA.addrsEntries] at ha
      simp [PyValA.addrsEntries]
      tauto
    · intro a ha
      simp [setEntriesA, h, PyValA.addrsEntries] at ha
      simp [PyValA.addrsEntries]
      rcases ha with ha | ha
      · tauto
      · have := ih ha
        simp at this
        tauto

theorem PyValA.addrs_setA (v : PyValA) (k : String) (w : PyValA) :
    (v.setA k w).addrs ⊆ v.addrs ++ w.addrs := by
  cases v with
  | obj a kvs =>
    intro x hx
    have hx2 : x ∈ (PyValA.obj a (setEntriesA kvs k w)).addrs := hx
    rw [PyValA.addrs_obj] at hx2
    rw [List.mem_append, PyValA.addrs_obj]
    rcases List.mem_cons.mp hx2 with rfl | hx3
    · simp
    · have := addrsEntries_setEntriesA kvs k w hx3
      simp at this ⊢
      tauto
  | str s => exact List.subset_append_left _ _
  | int n => exact List.subset_append_left _ _
  | bool b => exact List.subset_append_left _ _
  | none => exact List.subset_append_left _ _
  | arr a xs => exact List.subset_append_left _ _

theorem addrs_patchNodeA (node : PyValA) (key d line : String) :
    (patchNodeA node key d line).1.addrs ⊆ node.addrs := by
  cases node with
  | obj a kvs =>
    intro x hx
    have := PyValA.addrs_setA (.obj a kvs) key (.str d) hx
    rw [List.mem_append, PyValA.addrs_str] at this
    simpa using this
  | str s => exact fun x hx => hx
  | int n => exact fun x hx => hx
  | bool b => exact fun x hx => hx
  | none => exact fun x hx => hx
  | arr a xs => exact fun x hx => hx

theorem lookup_mem_entries {kvs : List (String × PyValA)} {k : String} {w : PyValA}
    (h : kvs.lookup k = some w) : ∃ k', (k', w) ∈ kvs := by
  induction kvs with
  | nil => simp [List.lookup] at h
  | cons hd tl ih =>
    obtain ⟨k', v'⟩ := hd
    rcases hk : k == k' with _ | _
    · simp [List.lookup, hk] at h
      obtain ⟨k2, hk2⟩ := ih h
      exact ⟨k2, List.mem_cons_of_mem _ hk2⟩
    · simp [List.lookup, hk] at h
      subst h
      exact ⟨k', List.mem_cons_self _ _⟩

theorem addrs_of_mem_entries {kvs : List (String × PyValA)} {k' : String}
    {w : PyValA} (h : (k', w) ∈ kvs) : w.addrs ⊆ PyValA.addrsEntries kvs := by
  induction kvs with
  | nil => simp at h
  | cons hd tl ih =>
    obtain ⟨k2, v2⟩ := hd
    rcases List.mem_cons.mp h with h2 | h2
    · injection h2 with h3 h4
      subst h4
      rw [PyValA.addrsEntries_cons]
      exact List.subset_append_left _ _
    · intro a ha
      rw [PyValA.addrsEntries_cons]
      simp
      exact Or.inr (ih h2 ha)

theorem PyValA.addrs_getA? {v : PyValA} {k : String} {w : PyValA}
    (h : v.getA? k = some w) : w.addrs ⊆ v.addrs := by
  cases v <;> simp [PyValA.getA?] at h
  case obj a kvs =>
    obtain ⟨k', hk'⟩ := lookup_mem_entries h
    intro x hx
    rw [PyValA.addrs_obj]
    simp
    exact Or.inr (addrs_of_mem_entries hk' hx)

/-- `deepcopyA` denotes the same value, consumes addresses monotonically,
and every mutable cell of the copy is fresh: at or above the supply it was
given and below the supply it returns. -/
theorem deepcopyA_spec : ∀ N : Nat,
    (∀ (v : PyValA) (n : Nat), PyVal.weight v.erase + 1 ≤ N →
      (deepcopyA v n).1.erase = v.erase ∧
      n ≤ (deepcopyA v n).2 ∧
      (∀ a ∈ (deepcopyA v n).1.addrs, n ≤ a ∧ a < (deepcopyA v n).2)) ∧
    (∀ (xs : List PyValA) (n : Nat),
      PyVal.weightList (PyValA.eraseList xs) + 1 ≤ N →
      PyValA.eraseList (deepcopyListA xs n).1 = PyValA.eraseList xs ∧
      n ≤ (deepcopyListA xs n).2 ∧
      (∀ a ∈ PyValA.addrsList (deepcopyListA xs n).1,
        n ≤ a ∧ a < (deepcopyListA xs n).2)) ∧
    (∀ (kvs : List (String × PyValA)) (n : Nat),
      PyVal.weightEntries (PyValA.eraseEntries kvs) + 1 ≤ N →
      PyValA.eraseEntries (deepcopyEntriesA kvs n).1 = PyValA.eraseEntries kvs ∧
      n ≤ (deepcopyEntriesA kvs n).2 ∧
      (∀ a ∈ PyValA.addrsEntries (deepcopyEntriesA kvs n).1,
        n ≤ a ∧ a < (deepcopyEntriesA kvs n).2)) := by
  intro N
  induction N with
  | zero =>
    refine ⟨?_, ?_, ?_⟩
    · intro v n hN
      omega
    · intro xs n hN
      omega
    · intro kvs n hN
      omega
  | succ m ih =>
    obtain ⟨ihV, ihL, ihE⟩ := ih
    refine ⟨?_, ?_, ?_⟩
    · intro v n hN
      cases v with
      | str s =>
        refine ⟨by simp [deepcopyA], by simp [deepcopyA], ?_⟩
        intro a ha
        simp [deepcopyA, PyValA.addrs_str] at ha
      | int n2 =>
        refine ⟨by simp [deepcopyA], by simp [deepcopyA], ?_⟩
        intro a ha
        simp [deepcopyA, PyValA.addrs_int] at ha
      | bool b =>
        refine ⟨by simp [deepcopyA], by simp [deepcopyA], ?_⟩
        intro a ha
        simp [deepcopyA, PyValA.addrs_bool] at ha
      | none =>
        refine ⟨by simp [deepcopyA], by simp [deepcopyA], ?_⟩
        intro a ha
        simp [deepcopyA, PyValA.addrs_none] at ha
      | arr a xs =>
        obtain ⟨e1, e2, e3⟩ := ihL xs (n + 1) (by
          rw [PyValA.erase_arr] at hN
          simp only [PyVal.weight] at hN
          omega)
        have hd : deepcopyA (.arr a xs) n =
            (.arr n (deepcopyListA xs (n + 1)).1, (deepcopyListA xs (n + 1)).2) := by
          simp [deepcopyA]
        rw [hd]
        refine ⟨?_, ?_, ?_⟩
        · rw [PyValA.erase_arr, PyValA.erase_arr, e1]
        · exact le_trans (Nat.le_succ n) e2
        · intro b hb
          rw [PyValA.addrs_arr] at hb
          rcases List.mem_cons.mp hb with rfl | hb2
          · have := e2
            omega
          · have := e3 b hb2
            omega
      | obj a kvs =>
        obtain ⟨e1, e2, e3⟩ := ihE kvs (n + 1) (by
          rw [PyValA.erase_obj] at hN
          simp only [PyVal.weight] at hN
          omega)
        have hd : deepcopyA (.obj a kvs) n =
            (.obj n (deepcopyEntriesA kvs (n + 1)).1,
             (deepcopyEntriesA kvs (n + 1)).2) := by
          simp [deepcopyA]
        rw [hd]
        refine ⟨?_, ?_, ?_⟩
        · rw [PyValA.erase_obj, PyValA.erase_obj, e1]
        · exact le_trans (Nat.le_succ n) e2
        · intro b hb
          rw [PyValA.addrs_obj] at hb
          rcases List.mem_cons.mp hb with rfl | hb2
          · have := e2
            omega
          · have := e3 b hb2
            omega
    · intro xs n hN
      cases xs with
      | nil =>
        refine ⟨by simp [deepcopyListA], by simp [deepcopyListA], ?_⟩
        intro a ha
        simp [deepcopyListA, PyValA.addrsList_nil] at ha
      | cons x rest =>
        rw [PyValA.eraseList_cons] at hN
        simp only [PyVal.weightList_cons] at hN
        obtain ⟨v1, v2, v3⟩ := ihV x n (by omega)
        obtain ⟨l1, l2, l3⟩ := ihL rest (deepcopyA x n).2 (by omega)
        have hd : deepcopyListA (x :: rest) n =
            ((deepcopyA x n).1 :: (deepcopyListA rest (deepcopyA x n).2).1,
             (deepcopyListA rest (deepcopyA x n).2).2) := by
          simp [deepcopyListA]
        rw [hd]
        refine ⟨?_, ?_, ?_⟩
        · rw [PyValA.eraseList_cons, PyValA.eraseList_cons, v1, l1]
        · exact le_trans v2 l2
        · intro b hb
          rw [PyValA.addrsList_cons] at hb
          rcases List.mem_append.mp hb with hb2 | hb2
          · have h1 := v3 b hb2
            have := l2
            omega
          · have h1 := l3 b hb2
            have := v2
            omega
    · intro kvs n hN
      cases kvs with
      | nil =>
        refine ⟨by simp [deepcopyEntriesA], by simp [deepcopyEntriesA], ?_⟩
        intro a ha
        simp [deepcopyEntriesA, PyValA.addrsEntries_nil] at ha
      | cons hd0 rest =>
        obtain ⟨k, v⟩ := hd0
        rw [PyValA.eraseEntries_cons] at hN
        simp only [PyVal.weightEntries_cons] at hN
        obtain ⟨v1, v2, v3⟩ := ihV v n (by omega)
        obtain ⟨l1, l2, l3⟩ := ihE rest (deepcopyA v n).2 (by omega)
        have hd : deepcopyEntriesA ((k, v) :: rest) n =
            ((k, (deepcopyA v n).1) :: (deepcopyEntriesA rest (deepcopyA v n).2).1,
             (deepcopyEntriesA rest (deepcopyA v n).2).2) := by
          simp [deepcopyEntriesA]
        rw [hd]
        refine ⟨?_, ?_, ?_⟩
        · rw [PyValA.eraseEntries_cons, PyValA.eraseEntries_cons, v1, l1]
        · exact le_trans v2 l2
        · intro b hb
          rw [PyValA.addrsEntries_cons] at hb
          rcases List.mem_append.mp hb with hb2 | hb2
          · have h1 := v3 b hb2
            have := l2
            omega
          · have h1 := l3 b hb2
            have := v2
            omega

theorem weight_patchNodeA (node : PyValA) (key d line : String) :
    PyVal.weight ((patchNodeA node key d line).1.erase) ≤
      PyVal.weight node.erase + 1 := by
  rw [(erase_patchNodeA node key d line).1]
  exact weight_patchNode _ _ _ _

mutual

/-- `SchemaUpdater._apply_to_record` on the addressed embedding: the
record dict and its `fields` list keep their cells (in-place mutation);
only their contents change.  All value reads go through `erase`. -/
def applyToRecordA (record : PyValA) (pathPre : String)
    (docMap : List GeneratedDoc) : PyValA × List String :=
  let recordName := (record.erase).getStrD "name" "unknown"
  let recordPath := pathPre
  let step1 : PyValA × List String :=
    if !((record.erase).pyGet "doc").truthy then
      match docMapGet docMap recordPath with
      | some gd =>
        patchNodeA record "doc" gd.documentation
          ("Added doc to record `" ++ recordName ++ "` [" ++ gd.confidence ++ "]")
      | Option.none => (record, [])
    else (record, [])
  match optAttach (record.getA? "fields") with
  | some ⟨.arr af flds, hf⟩ =>
    let res := applyFieldsA flds recordPath recordName docMap
    (step1.1.setA "fields" (.arr af res.1), step1.2 ++ res.2)
  | _ => (step1.1, step1.2)
termination_by 8 * PyVal.weight record.erase + 2
decreasing_by
  · have h0 : (record.erase).get? "fields" = some ((PyValA.arr af flds).erase) := by
      rw [PyValA.erase_get?, hf]
      rfl
    have h1 := PyVal.weight_get? h0
    rw [PyValA.erase_arr] at h1
    simp [PyVal.weight] at h1
    omega

/-- The field loop of `SchemaUpdater._apply_to_record`, addressed. -/
def applyFieldsA (flds : List PyValA) (recordPath : String) (recordName : String)
    (docMap : List GeneratedDoc) : List PyValA × List String :=
  match flds with
  | [] => ([], [])
  | fld :: rest =>
    let fieldName := (fld.erase).getStrD "name" "unknown"
    let fieldPath := recordPath ++ "." ++ fieldName
    let step1 : PyValA × List String :=
      if !((fld.erase).pyGet "doc").truthy then
        match docMapGet docMap fieldPath with
        | some gd =>
          patchNodeA fld "doc" gd.documentation
            ("Added doc to field `" ++ recordName ++ "." ++ fieldName ++ "` [" ++
              gd.confidence ++ "]")
        | Option.none => (fld, [])
      else (fld, [])
    let step2 : PyValA × List String :=
      match optAttach (fld.getA? "type") with
      | some ⟨ty, ht⟩ =>
        let res := applyToNestedA ty fieldPath docMap
        (step1.1.setA "type" res.1, res.2)
      | Option.none => (step1.1, [])
    let tail := applyFieldsA rest recordPath recordName docMap
    (step2.1 :: tail.1, step1.2 ++ step2.2 ++ tail.2)
termination_by 8 * PyVal.weightList (PyValA.eraseList flds) + 1
decreasing_by
  · have h0 : (x.erase).get? "type" = some (PyValA.erase ty) := by
      rw [PyValA.erase_get?, ht]
      rfl
    have h1 := PyVal.weight_get? h0
    rw [PyValA.eraseList_cons]
    simp
    omega
  · rw [PyValA.eraseList_cons]
    simp
    try omega

/-- `SchemaUpdater._apply_to_nested`, addressed. -/
def applyToNestedA (avroType : PyValA) (pathPre : String)
    (docMap : List GeneratedDoc) : PyValA × List String :=
  match avroType with
  | .obj a0 kvs =>
    let tn := ((PyValA.obj a0 kvs).erase).pyGet "type"
    if tn.isStr "record" then
      let nestedName := ((PyValA.obj a0 kvs).erase).getStrD "name" "unknown"
      applyToRecordA (.obj a0 kvs) (pathPre ++ "." ++ nestedName) docMap
    else if tn.isStr "enum" then
      let enumName := ((PyValA.obj a0 kvs).erase).getStrD "name" "unknown"
      let enumPath := pathPre ++ "." ++ enumName
      if !(((PyValA.obj a0 kvs).erase).pyGet "doc").truthy then
        match docMapGet docMap enumPath with
        | some gd =>
          ((PyValA.obj a0 kvs).setA "doc" (.str gd.documentation),
           ["Added doc to enum `" ++ enumName ++ "` [" ++ gd.confidence ++ "]"])
        | Option.none => (.obj a0 kvs, [])
      else (.obj a0 kvs, [])
    else if tn.isStr "array" then
      match optAttach ((PyValA.obj a0 kvs).getA? "items") with
      | some ⟨it, hi⟩ =>
        let res := applyToNestedA it pathPre docMap
        ((PyValA.obj a0 kvs).setA "items" res.1, res.2)
      | Option.none => (.obj a0 kvs, [])
    else if tn.isStr "map" then
      match optAttach ((PyValA.obj a0 kvs).getA? "values") with
      | some ⟨vv, hv⟩ =>
        let res := applyToNestedA vv pathPre docMap
        ((PyValA.obj a0 kvs).setA "values" res.1, res.2)
      | Option.none => (.obj a0 kvs, [])
    else (.obj a0 kvs, [])
  | .arr a0 xs =>
    let res := applyUnionVariantsA xs pathPre docMap
    (.arr a0 res.1, res.2)
  | other => (other, [])
termination_by 8 * PyVal.weight avroType.erase + 3
decreasing_by
  · omega
  · have h0 : ((PyValA.obj a0 kvs).erase).get? "items" = some (PyValA.erase it) := by
      rw [PyValA.erase_get?, hi]
      rfl
    have h1 := PyVal.weight_get? h0
    omega
  · have h0 : ((PyValA.obj a0 kvs).erase).get? "values" = some (PyValA.erase vv) := by
      rw [PyValA.erase_get?, hv]
      rfl
    have h1 := PyVal.weight_get? h0
    omega
  · have h : PyVal.weight ((PyValA.arr a0 xs).erase) =
        1 + PyVal.weightList (PyValA.eraseList xs) := by
      rw [PyValA.erase_arr]
      simp [PyVal.weight]
    omega

/-- The union loop of `SchemaUpdater._apply_to_nested`, addressed. -/
def applyUnionVariantsA (variants : List PyValA) (pathPre : String)
    (docMap : List GeneratedDoc) : List PyValA × List String :=
  match variants with
  | [] => ([], [])
  | v :: vs =>
    let hd := applyToNestedA v pathPre docMap
    let tl := applyUnionVariantsA vs pathPre docMap
    (hd.1 :: tl.1, hd.2 ++ tl.2)
termination_by 8 * PyVal.weightList (PyValA.eraseList variants) + 1
decreasing_by
  · have h : PyVal.weightList (PyValA.eraseList (x :: xs)) =
        1 + PyVal.weight x.erase + PyVal.weightList (PyValA.eraseList xs) := by
      rw [PyValA.eraseList_cons]
      simp
    omega
  · have h : PyVal.weightList (PyValA.eraseList (x :: xs)) =
        1 + PyVal.weight x.erase + PyVal.weightList (PyValA.eraseList xs) := by
      rw [PyValA.eraseList_cons]
      simp
    omega

end

mutual

/-- `JsonSchemaUpdater._apply_to_object`, addressed. -/
def applyToObjectA (obj : PyValA) (path : String)
    (docMap : List GeneratedDoc) : PyValA × List String :=
  let step1 : PyValA × List String :=
    if !((obj.erase).pyGet "description").truthy then
      match docMapGet docMap path with
      | some gd =>
        patchNodeA obj "description" gd.documentation
          ("Added description to object `" ++ path ++ "` [" ++ gd.confidence ++ "]")
      | Option.none => (obj, [])
    else (obj, [])
  match optAttach (obj.getA? "properties") with
  | some ⟨.obj ap props, hp⟩ =>
    let res := applyPropsA props path docMap
    (step1.1.setA "properties" (.obj ap res.1), step1.2 ++ res.2)
  | _ => (step1.1, step1.2)
termination_by 8 * PyVal.weight obj.erase + 2
decreasing_by
  · have h0 : (obj.erase).get? "properties" = some ((PyValA.obj ap props).erase) := by
      rw [PyValA.erase_get?, hp]
      rfl
    have h1 := PyVal.weight_get? h0
    rw [PyValA.erase_obj] at h1
    simp [PyVal.weight] at h1
    omega

/-- The property loop of `JsonSchemaUpdater._apply_to_object`, addressed. -/
def applyPropsA (props : List (String × PyValA)) (path : String)
    (docMap : List GeneratedDoc) : List (String × PyValA) × List String :=
  match props with
  | [] => ([], [])
  | (propName, propSchema) :: rest =>
    let propPath := path ++ "." ++ propName
    let step1 : PyValA × List String :=
      if !((propSchema.erase).pyGet "description").truthy then
        match docMapGet docMap propPath with
        | some gd =>
          patchNodeA propSchema "description" gd.documentation
            ("Added description to property `" ++ propName ++ "` [" ++
              gd.confidence ++ "]")
        | Option.none => (propSchema, [])
      else (propSchema, [])
    let step2 : PyValA × List String :=
      if ((propSchema.erase).pyGet "type").isStr "object" then
        applyToObjectA step1.1 propPath docMap
      else if ((propSchema.erase).pyGet "type").isStr "array" then
        match optAttach (propSchema.getA? "items") with
        | some ⟨items, hitm⟩ =>
          if ((items.erase).pyGet "type").isStr "object" then
            let res := applyToObjectA items (propPath ++ "[]") docMap
            (step1.1.setA "items" res.1, res.2)
          else (step1.1, [])
        | Option.none => (step1.1, [])
      else (step1.1, [])
    let tail := applyPropsA rest path docMap
    ((propName, step2.1) :: tail.1, step1.2 ++ step2.2 ++ tail.2)
termination_by 8 * PyVal.weightEntries (PyValA.eraseEntries props) + 3
decreasing_by
  · have hwE : PyVal.weightEntries (PyValA.eraseEntries ((k, v) :: rest)) =
        1 + PyVal.weight v.erase +
          PyVal.weightEntries (PyValA.eraseEntries rest) := by
      rw [PyValA.eraseEntries_cons]
      simp
    split
    · split
      · rename_i gd heq
        have := weight_patchNodeA v "description" gd.documentation
          ("Added description to property `" ++ k ++ "` [" ++
            gd.confidence ++ "]")
        omega
      · show 8 * PyVal.weight v.erase + 2 < _
        omega
    · show 8 * PyVal.weight v.erase + 2 < _
      omega
  · have h0 : (v.erase).get? "items" = some (PyValA.erase items) := by
      rw [PyValA.erase_get?, hitm]
      rfl
    have h1 := PyVal.weight_get? h0
    have hwE : PyVal.weightEntries (PyValA.eraseEntries ((k, v) :: rest)) =
        1 + PyVal.weight v.erase +
          PyVal.weightEntries (PyValA.eraseEntries rest) := by
      rw [PyValA.eraseEntries_cons]
      simp
    omega
  · have hwE : PyVal.weightEntries (PyValA.eraseEntries ((k, v) :: rest)) =
        1 + PyVal.weight v.erase +
          PyVal.weightEntries (PyValA.eraseEntries rest) := by
      rw [PyValA.eraseEntries_cons]
      simp
    omega

end

theorem applyToRecordA_eq (record : PyValA) (rp : String) (dm : List GeneratedDoc) :
    applyToRecordA record rp dm =
      (let recordName := (record.erase).getStrD "name" "unknown"
       let step1 : PyValA × List String :=
         if !((record.erase).pyGet "doc").truthy then
           match docMapGet dm rp with
           | some gd =>
             patchNodeA record "doc" gd.documentation
               ("Added doc to record `" ++ recordName ++ "` [" ++ gd.confidence ++ "]")
           | Option.none => (record, [])
         else (record, [])
       match record.getA? "fields" with
       | some (.arr af flds) =>
         let res := applyFieldsA flds rp recordName dm
         (step1.1.setA "fields" (.arr af res.1), step1.2 ++ res.2)
       | _ => (step1.1, step1.2)) := by
  rw [applyToRecordA]
  rcases ho : optAttach (record.getA? "fields") with _ | ⟨v, hv⟩
  · conv_rhs => rw [optAttach_eq_none ho]
  · conv_rhs => rw [hv]
    cases v <;> rfl

theorem applyFieldsA_cons_eq (fld : PyValA) (rest : List PyValA) (rp rn : String)
    (dm : List GeneratedDoc) :
    applyFieldsA (fld :: rest) rp rn dm =
      (let fieldName := (fld.erase).getStrD "name" "unknown"
       let fieldPath := rp ++ "." ++ fieldName
       let step1 : PyValA × List String :=
         if !((fld.erase).pyGet "doc").truthy then
           match docMapGet dm fieldPath with
           | some gd =>
             patchNodeA fld "doc" gd.documentation
               ("Added doc to field `" ++ rn ++ "." ++ fieldName ++ "` [" ++
                 gd.confidence ++ "]")
           | Option.none => (fld, [])
         else (fld, [])
       let step2 : PyValA × List String :=
         match fld.getA? "type" with
         | some ty =>
           let res := applyToNestedA ty fieldPath dm
           (step1.1.setA "type" res.1, res.2)
         | Option.none => (step1.1, [])
       let tail := applyFieldsA rest rp rn dm
       (step2.1 :: tail.1, step1.2 ++ step2.2 ++ tail.2)) := by
  rw [applyFieldsA]
  rcases ho : optAttach (fld.getA? "type") with _ | ⟨ty, ht⟩
  · conv_rhs => rw [optAttach_eq_none ho]
  · conv_rhs => rw [ht]

theorem applyToNestedA_obj_eq (a0 : Nat) (kvs : List (String × PyValA)) (p : String)
    (dm : List GeneratedDoc) :
    applyToNestedA (.obj a0 kvs) p dm =
      (let tn := ((PyValA.obj a0 kvs).erase).pyGet "type"
       if tn.isStr "record" then
         applyToRecordA (.obj a0 kvs)
           (p ++ "." ++ ((PyValA.obj a0 kvs).erase).getStrD "name" "unknown") dm
       else if tn.isStr "enum" then
         let enumName := ((PyValA.obj a0 kvs).erase).getStrD "name" "unknown"
         let enumPath := p ++ "." ++ enumName
         if !(((PyValA.obj a0 kvs).erase).pyGet "doc").truthy then
           match docMapGet dm enumPath with
           | some gd =>
             ((PyValA.obj a0 kvs).setA "doc" (.str gd.documentation),
              ["Added doc to enum `" ++ enumName ++ "` [" ++ gd.confidence ++ "]"])
           | Option.none => (.obj a0 kvs, [])
         else (.obj a0 kvs, [])
       else if tn.isStr "array" then
         match (PyValA.obj a0 kvs).getA? "items" with
         | some it =>
           ((PyValA.obj a0 kvs).setA "items" (applyToNestedA it p dm).1,
            (applyToNestedA it p dm).2)
         | Option.none => (.obj a0 kvs, [])
       else if tn.isStr "map" then
         match (PyValA.obj a0 kvs).getA? "values" with
         | some vv =>
           ((PyValA.obj a0 kvs).setA "values" (applyToNestedA vv p dm).1,
            (applyToNestedA vv p dm).2)
         | Option.none => (.obj a0 kvs, [])
       else (.obj a0 kvs, [])) := by
  rw [applyToNestedA]
  rcases hoi : optAttach ((PyValA.obj a0 kvs).getA? "items") with _ | ⟨it, hit⟩ <;>
    rcases hov : optAttach ((PyValA.obj a0 kvs).getA? "values") with _ | ⟨vv, hvv⟩
  · conv_rhs => rw [optAttach_eq_none hoi, optAttach_eq_none hov]
  · conv_rhs => rw [optAttach_eq_none hoi, hvv]
  · conv_rhs => rw [optAttach_eq_none hov, hit]
  · conv_rhs => rw [hit, hvv]

theorem applyToObjectA_eq (obj : PyValA) (path : String) (dm : List GeneratedDoc) :
    applyToObjectA obj path dm =
      (let step1 : PyValA × List String :=
         if !((obj.erase).pyGet "description").truthy then
           match docMapGet dm path with
           | some gd =>
             patchNodeA obj "description" gd.documentation
               ("Added description to object `" ++ path ++ "` [" ++
                 gd.confidence ++ "]")
           | Option.none => (obj, [])
         else (obj, [])
       match obj.getA? "properties" with
       | some (.obj ap props) =>
         let res := applyPropsA props path dm
         (step1.1.setA "properties" (.obj ap res.1), step1.2 ++ res.2)
       | _ => (step1.1, step1.2)) := by
  rw [applyToObjectA]
  rcases ho : optAttach (obj.getA? "properties") with _ | ⟨v, hv⟩
  · conv_rhs => rw [optAttach_eq_none ho]
  · conv_rhs => rw [hv]
    cases v <;> rfl

theorem applyPropsA_cons_eq (pn : String) (ps : PyValA)
    (rest : List (String × PyValA)) (path : String) (dm : List GeneratedDoc) :
    applyPropsA ((pn, ps) :: rest) path dm =
      (let propPath := path ++ "." ++ pn
       let step1 : PyValA × List String :=
         if !((ps.erase).pyGet "description").truthy then
           match docMapGet dm propPath with
           | some gd =>
             patchNodeA ps "description" gd.documentation
               ("Added description to property `" ++ pn ++ "` [" ++
                 gd.confidence ++ "]")
           | Option.none => (ps, [])
         else (ps, [])
       let step2 : PyValA × List String :=
         if ((ps.erase).pyGet "type").isStr "object" then
           applyToObjectA step1.1 propPath dm
         else if ((ps.erase).pyGet "type").isStr "array" then
           match ps.getA? "items" with
           | some items =>
             if ((items.erase).pyGet "type").isStr "object" then
               let res := applyToObjectA items (propPath ++ "[]") dm
               (step1.1.setA "items" res.1, res.2)
             else (step1.1, [])
           | Option.none => (step1.1, [])
         else (step1.1, [])
       let tail := applyPropsA rest path dm
       ((pn, step2.1) :: tail.1, step1.2 ++ step2.2 ++ tail.2)) := by
  rw [applyPropsA]
  rcases ho : optAttach (ps.getA? "items") with _ | ⟨items, hitm⟩
  · conv_rhs => rw [optAttach_eq_none ho]
  · conv_rhs => rw [hitm]

/-- Simulation and frame property of the addressed record patcher: it
computes exactly the value-level patch on the erased value, and every
mutable cell of its result is a cell of its argument (the pass allocates
no dicts or lists; it only writes strings into existing cells). -/
theorem applyA_spec (dm : List GeneratedDoc) : ∀ N : Nat,
    (∀ (record : PyValA) (rp : String), 8 * PyVal.weight record.erase + 2 ≤ N →
      ((applyToRecordA record rp dm).1.erase =
        (SchemaUpdater.apply_to_record record.erase rp dm).1 ∧
       (applyToRecordA record rp dm).2 =
        (SchemaUpdater.apply_to_record record.erase rp dm).2 ∧
       (applyToRecordA record rp dm).1.addrs ⊆ record.addrs)) ∧
    (∀ (flds : List PyValA) (rp rn : String),
      8 * PyVal.weightList (PyValA.eraseList flds) + 1 ≤ N →
      (PyValA.eraseList (applyFieldsA flds rp rn dm).1 =
        (SchemaUpdater.apply_fields (PyValA.eraseList flds) rp rn dm).1 ∧
       (applyFieldsA flds rp rn dm).2 =
        (SchemaUpdater.apply_fields (PyValA.eraseList flds) rp rn dm).2 ∧
       PyValA.addrsList (applyFieldsA flds rp rn dm).1 ⊆ PyValA.addrsList flds)) ∧
    (∀ (ty : PyValA) (p : String), 8 * PyVal.weight ty.erase + 3 ≤ N →
      ((applyToNestedA ty p dm).1.erase =
        (SchemaUpdater.apply_to_nested ty.erase p dm).1 ∧
       (applyToNestedA ty p dm).2 =
        (SchemaUpdater.apply_to_nested ty.erase p dm).2 ∧
       (applyToNestedA ty p dm).1.addrs ⊆ ty.addrs)) ∧
    (∀ (vars : List PyValA) (p : String),
      8 * PyVal.weightList (PyValA.eraseList vars) + 1 ≤ N →
      (PyValA.eraseList (applyUnionVariantsA vars p dm).1 =
        (SchemaUpdater.apply_union_variants (PyValA.eraseList vars) p dm).1 ∧
       (applyUnionVariantsA vars p dm).2 =
        (SchemaUpdater.apply_union_variants (PyValA.eraseList vars) p dm).2 ∧
       PyValA.addrsList (applyUnionVariantsA vars p dm).1 ⊆
         PyValA.addrsList vars)) := by
  intro N
  induction N with
  | zero =>
    refine ⟨?_, ?_, ?_, ?_⟩
    · intro record rp hN
      omega
    · intro flds rp rn hN
      omega
    · intro ty p hN
      omega
    · intro vars p hN
      omega
  | succ n ih =>
    obtain ⟨ihR, ihF, ihN, ihU⟩ := ih
    refine ⟨?_, ?_, ?_, ?_⟩
    · -- record
      intro record rp hN
      rw [applyToRecordA_eq, apply_to_record_eq]
      obtain ⟨s1, hs1eq, hs1er, hs1ln, hs1ad⟩ :
          ∃ s1 : PyValA × List String,
            (if !((record.erase).pyGet "doc").truthy then
               match docMapGet dm rp with
               | some gd =>
                 patchNodeA record "doc" gd.documentation
                   ("Added doc to record `" ++
                     (record.erase).getStrD "name" "unknown" ++ "` [" ++
                     gd.confidence ++ "]")
               | Option.none => (record, [])
             else (record, [])) = s1 ∧
            s1.1.erase =
              (if !((record.erase).pyGet "doc").truthy then
                 match docMapGet dm rp with
                 | some gd =>
                   patchNode record.erase "doc" gd.documentation
                     ("Added doc to record `" ++
                       (record.erase).getStrD "name" "unknown" ++ "` [" ++
                       gd.confidence ++ "]")
                 | Option.none => (record.erase, [])
               else (record.erase, [])).1 ∧
            s1.2 =
              (if !((record.erase).pyGet "doc").truthy then
                 match docMapGet dm rp with
                 | some gd =>
                   patchNode record.erase "doc" gd.documentation
                     ("Added doc to record `" ++
                       (record.erase).getStrD "name" "unknown" ++ "` [" ++
                       gd.confidence ++ "]")
                 | Option.none => (record.erase, [])
               else (record.erase, [])).2 ∧
            s1.1.addrs ⊆ record.addrs := by
        by_cases hdoc : ((record.erase).pyGet "doc").truthy
        · exact ⟨(record, []), by simp [hdoc], by simp [hdoc], by simp [hdoc],
            fun a ha => ha⟩
        · rcases hhit : docMapGet dm rp with _ | gd
          · exact ⟨(record, []), by simp [hdoc, hhit], by simp [hdoc, hhit],
              by simp [hdoc, hhit], fun a ha => ha⟩
          · refine ⟨patchNodeA record "doc" gd.documentation
              ("Added doc to record `" ++ (record.erase).getStrD "name" "unknown" ++
                "` [" ++ gd.confidence ++ "]"), by simp [hdoc, hhit], ?_, ?_,
              addrs_patchNodeA _ _ _ _⟩
            · simp only [hdoc, hhit, Bool.false_eq_true, Bool.not_false, if_true]
              exact (erase_patchNodeA record "doc" gd.documentation _).1
            · simp only [hdoc, hhit, Bool.false_eq_true, Bool.not_false, if_true]
              exact (erase_patchNodeA record "doc" gd.documentation _).2
      simp only [hs1eq]
      rcases hfo : record.getA? "fields" with _ | fv
      · have hvo : (record.erase).get? "fields" = Option.none := by
          rw [PyValA.erase_get?, hfo]
          rfl
        simp only [hfo, hvo]
        exact ⟨hs1er, hs1ln, hs1ad⟩
      · cases fv with
        | arr af flds =>
          have hvo : (record.erase).get? "fields" =
              some (.arr (PyValA.eraseList flds)) := by
            rw [PyValA.erase_get?, hfo, Option.map_some', PyValA.erase_arr]
          have hwl : 8 * PyVal.weightList (PyValA.eraseList flds) + 1 ≤ n := by
            have := PyVal.weight_get? hvo
            simp only [PyVal.weight] at this
            omega
          obtain ⟨f1, f2, f3⟩ :=
            ihF flds rp ((record.erase).getStrD "name" "unknown") hwl
          simp only [hfo, hvo]
          refine ⟨?_, ?_, ?_⟩
          · rw [PyValA.erase_setA, hs1er, PyValA.erase_arr, f1]
          · rw [hs1ln, f2]
          · intro a ha
            have h2 := PyValA.addrs_setA s1.1 "fields"
              (.arr af (applyFieldsA flds rp
                ((record.erase).getStrD "name" "unknown") dm).1) ha
            rcases List.mem_append.mp h2 with h3 | h3
            · exact hs1ad h3
            · rw [PyValA.addrs_arr] at h3
              rcases List.mem_cons.mp h3 with rfl | h4
              · exact PyValA.addrs_getA? hfo
                  (by rw [PyValA.addrs_arr]; exact List.mem_cons_self _ _)
              · exact PyValA.addrs_getA? hfo
                  (by rw [PyValA.addrs_arr]; exact List.mem_cons_of_mem _ (f3 h4))
        | str s =>
          have hvo : (record.erase).get? "fields" = some (.str s) := by
            rw [PyValA.erase_get?, hfo, Option.map_some', PyValA.erase_str]
          simp only [hfo, hvo]
          exact ⟨hs1er, hs1ln, hs1ad⟩
        | int m =>
          have hvo : (record.erase).get? "fields" = some (.int m) := by
            rw [PyValA.erase_get?, hfo, Option.map_some', PyValA.erase_int]
          simp only [hfo, hvo]
          exact ⟨hs1er, hs1ln, hs1ad⟩
        | bool b =>
          have hvo : (record.erase).get? "fields" = some (.bool b) := by
            rw [PyValA.erase_get?, hfo, Option.map_some', PyValA.erase_bool]
          simp only [hfo, hvo]
          exact ⟨hs1er, hs1ln, hs1ad⟩
        | none =>
          have hvo : (record.erase).get? "fields" = some PyVal.none := by
            rw [PyValA.erase_get?, hfo, Option.map_some', PyValA.erase_none]
          simp only [hfo, hvo]
          exact ⟨hs1er, hs1ln, hs1ad⟩
        | obj ao kvs2 =>
          have hvo : (record.erase).get? "fields" =
              some (.obj (PyValA.eraseEntries kvs2)) := by
            rw [PyValA.erase_get?, hfo, Option.map_some', PyValA.erase_obj]
          simp only [hfo, hvo]
          exact ⟨hs1er, hs1ln, hs1ad⟩
    · -- fields
      intro flds rp rn hN
      cases flds with
      | nil =>
        rw [PyValA.eraseList_nil]
        rw [applyFieldsA, SchemaUpdater.apply_fields]
        exact ⟨by first | trivial | rw [PyValA.eraseList_nil], by trivial, fun a ha => ha⟩
      | cons fld rest =>
        rw [PyValA.eraseList_cons] at hN ⊢
        simp only [PyVal.weightList_cons] at hN
        rw [applyFieldsA_cons_eq, apply_fields_cons_eq]
        obtain ⟨s1, hs1eq, hs1er, hs1ln, hs1ad⟩ :
            ∃ s1 : PyValA × List String,
              (if !((fld.erase).pyGet "doc").truthy then
                 match docMapGet dm (rp ++ "." ++
                     (fld.erase).getStrD "name" "unknown") with
                 | some gd =>
                   patchNodeA fld "doc" gd.documentation
                     ("Added doc to field `" ++ rn ++ "." ++
                       (fld.erase).getStrD "name" "unknown" ++ "` [" ++
                       gd.confidence ++ "]")
                 | Option.none => (fld, [])
               else (fld, [])) = s1 ∧
              s1.1.erase =
                (if !((fld.erase).pyGet "doc").truthy then
                   match docMapGet dm (rp ++ "." ++
                       (fld.erase).getStrD "name" "unknown") with
                   | some gd =>
                     patchNode fld.erase "doc" gd.documentation
                       ("Added doc to field `" ++ rn ++ "." ++
                         (fld.erase).getStrD "name" "unknown" ++ "` [" ++
                         gd.confidence ++ "]")
                   | Option.none => (fld.erase, [])
                 else (fld.erase, [])).1 ∧
              s1.2 =
                (if !((fld.erase).pyGet "doc").truthy then
                   match docMapGet dm (rp ++ "." ++
                       (fld.erase).getStrD "name" "unknown") with
                   | some gd =>
                     patchNode fld.erase "doc" gd.documentation
                       ("Added doc to field `" ++ rn ++ "." ++
                         (fld.erase).getStrD "name" "unknown" ++ "` [" ++
                         gd.confidence ++ "]")
                   | Option.none => (fld.erase, [])
                 else (fld.erase, [])).2 ∧
              s1.1.addrs ⊆ fld.addrs := by
          by_cases hdoc : ((fld.erase).pyGet "doc").truthy
          · exact ⟨(fld, []), by simp [hdoc], by simp [hdoc], by simp [hdoc],
              fun a ha => ha⟩
          · rcases hhit : docMapGet dm (rp ++ "." ++
                (fld.erase).getStrD "name" "unknown") with _ | gd
            · exact ⟨(fld, []), by simp [hdoc, hhit], by simp [hdoc, hhit],
                by simp [hdoc, hhit], fun a ha => ha⟩
            · refine ⟨patchNodeA fld "doc" gd.documentation
                ("Added doc to field `" ++ rn ++ "." ++
                  (fld.erase).getStrD "name" "unknown" ++ "` [" ++
                  gd.confidence ++ "]"), by simp [hdoc, hhit], ?_, ?_,
                addrs_patchNodeA _ _ _ _⟩
              · simp only [hdoc, hhit, Bool.false_eq_true, Bool.not_false, if_true]
                exact (erase_patchNodeA fld "doc" gd.documentation _).1
              · simp only [hdoc, hhit, Bool.false_eq_true, Bool.not_false, if_true]
                exact (erase_patchNodeA fld "doc" gd.documentation _).2
        obtain ⟨t1, t2, t3⟩ := ihF rest rp rn (by omega)
        simp only [hs1eq]
        rcases hto : fld.getA? "type" with _ | ty
        · have hvo : (fld.erase).get? "type" = Option.none := by
            rw [PyValA.erase_get?, hto]
            rfl
          simp only [hto, hvo]
          refine ⟨?_, ?_, ?_⟩
          · rw [PyValA.eraseList_cons, hs1er, t1]
          · rw [hs1ln, t2]
          · intro a ha
            rw [PyValA.addrsList_cons] at ha ⊢
            rcases List.mem_append.mp ha with h3 | h3
            · exact List.mem_append_left _ (hs1ad h3)
            · exact List.mem_append_right _ (t3 h3)
        · have hvo : (fld.erase).get? "type" = some ty.erase := by
            rw [PyValA.erase_get?, hto]
            rfl
          have hwt : 8 * PyVal.weight ty.erase + 3 ≤ n := by
            have := PyVal.weight_get? hvo
            omega
          obtain ⟨n1, n2, n3⟩ := ihN ty
            (rp ++ "." ++ (fld.erase).getStrD "name" "unknown") hwt
          simp only [hto, hvo]
          refine ⟨?_, ?_, ?_⟩
          · rw [PyValA.eraseList_cons, PyValA.erase_setA, hs1er, n1, t1]
          · rw [hs1ln, n2, t2]
          · intro a ha
            rw [PyValA.addrsList_cons] at ha ⊢
            rcases List.mem_append.mp ha with h3 | h3
            · have h4 := PyValA.addrs_setA s1.1 "type"
                (applyToNestedA ty (rp ++ "." ++
                  (fld.erase).getStrD "name" "unknown") dm).1 h3
              rcases List.mem_append.mp h4 with h5 | h5
              · exact List.mem_append_left _ (hs1ad h5)
              · exact List.mem_append_left _
                  (PyValA.addrs_getA? hto (n3 h5))
            · exact List.mem_append_right _ (t3 h3)
    · -- nested
      intro ty p hN
      cases ty with
      | obj a0 kvs =>
        rw [applyToNestedA_obj_eq]
        rw [PyValA.erase_obj] at hN ⊢
        rw [apply_to_nested_obj_eq]
        by_cases hr : ((PyVal.obj (PyValA.eraseEntries kvs)).pyGet "type").isStr
            "record"
        · have hrec := ihR (.obj a0 kvs)
            (p ++ "." ++ (PyVal.obj (PyValA.eraseEntries kvs)).getStrD "name"
              "unknown") (by rw [PyValA.erase_obj]; omega)
          rw [PyValA.erase_obj] at hrec
          simp only [PyValA.erase_obj, hr, if_true]
          exact hrec
        · by_cases he : ((PyVal.obj (PyValA.eraseEntries kvs)).pyGet "type").isStr
              "enum"
          · simp only [PyValA.erase_obj, hr, he, Bool.false_eq_true, if_false,
              if_true]
            by_cases hdoc : ((PyVal.obj (PyValA.eraseEntries kvs)).pyGet
                "doc").truthy
            · simp only [hdoc, Bool.not_true, Bool.false_eq_true, if_false]
              exact ⟨by first | trivial | rw [PyValA.erase_obj], by trivial, fun a ha => ha⟩
            · simp only [hdoc, Bool.not_false, if_true]
              rcases hhit : docMapGet dm (p ++ "." ++
                  (PyVal.obj (PyValA.eraseEntries kvs)).getStrD "name"
                    "unknown") with _ | gd
              · exact ⟨by first | trivial | rw [PyValA.erase_obj], by trivial, fun a ha => ha⟩
              · refine ⟨?_, rfl, ?_⟩
                · rw [PyValA.erase_setA, PyValA.erase_obj, PyValA.erase_str]
                · intro a ha
                  have h2 := PyValA.addrs_setA (.obj a0 kvs) "doc"
                    (.str gd.documentation) ha
                  rw [List.mem_append, PyValA.addrs_str] at h2
                  simpa using h2
          · by_cases harr : ((PyVal.obj (PyValA.eraseEntries kvs)).pyGet
                "type").isStr "array"
            · simp only [PyValA.erase_obj, hr, he, harr, Bool.false_eq_true,
                if_false, if_true]
              rcases hio : (PyValA.obj a0 kvs).getA? "items" with _ | it
              · have hvo : (PyVal.obj (PyValA.eraseEntries kvs)).get? "items" =
                    Option.none := by
                  rw [← PyValA.erase_obj, PyValA.erase_get?, hio]
                  rfl
                simp only [hio, hvo]
                exact ⟨by first | trivial | rw [PyValA.erase_obj], by trivial, fun a ha => ha⟩
              · have hvo : (PyVal.obj (PyValA.eraseEntries kvs)).get? "items" =
                    some it.erase := by
                  rw [← PyValA.erase_obj, PyValA.erase_get?, hio]
                  rfl
                have hwt : 8 * PyVal.weight it.erase + 3 ≤ n := by
                  have := PyVal.weight_get? hvo
                  simp only [PyVal.weight] at this hN
                  omega
                obtain ⟨n1, n2, n3⟩ := ihN it p hwt
                simp only [hio, hvo]
                refine ⟨?_, ?_, ?_⟩
                · rw [PyValA.erase_setA, PyValA.erase_obj, n1]
                · rw [n2]
                · intro a ha
                  have h2 := PyValA.addrs_setA (.obj a0 kvs) "items"
                    (applyToNestedA it p dm).1 ha
                  rcases List.mem_append.mp h2 with h3 | h3
                  · exact h3
                  · exact PyValA.addrs_getA? hio (n3 h3)
            · by_cases hmp : ((PyVal.obj (PyValA.eraseEntries kvs)).pyGet
                  "type").isStr "map"
              · simp only [PyValA.erase_obj, hr, he, harr, hmp,
                  Bool.false_eq_true, if_false, if_true]
                rcases hio : (PyValA.obj a0 kvs).getA? "values" with _ | vv
                · have hvo : (PyVal.obj (PyValA.eraseEntries kvs)).get? "values" =
                      Option.none := by
                    rw [← PyValA.erase_obj, PyValA.erase_get?, hio]
                    rfl
                  simp only [hio, hvo]
                  exact ⟨by first | trivial | rw [PyValA.erase_obj], by trivial, fun a ha => ha⟩
                · have hvo : (PyVal.obj (PyValA.eraseEntries kvs)).get? "values" =
                      some vv.erase := by
                    rw [← PyValA.erase_obj, PyValA.erase_get?, hio]
                    rfl
                  have hwt : 8 * PyVal.weight vv.erase + 3 ≤ n := by
                    have := PyVal.weight_get? hvo
                    simp only [PyVal.weight] at this hN
                    omega
                  obtain ⟨n1, n2, n3⟩ := ihN vv p hwt
                  simp only [hio, hvo]
                  refine ⟨?_, ?_, ?_⟩
                  · rw [PyValA.erase_setA, PyValA.erase_obj, n1]
                  · rw [n2]
                  · intro a ha
                    have h2 := PyValA.addrs_setA (.obj a0 kvs) "values"
                      (applyToNestedA vv p dm).1 ha
                    rcases List.mem_append.mp h2 with h3 | h3
                    · exact h3
                    · exact PyValA.addrs_getA? hio (n3 h3)
              · simp only [PyValA.erase_obj, hr, he, harr, hmp,
                  Bool.false_eq_true, if_false]
                exact ⟨by first | trivial | rw [PyValA.erase_obj], by trivial, fun a ha => ha⟩
      | arr a0 xs =>
        have hU : applyToNestedA (.arr a0 xs) p dm =
            (.arr a0 (applyUnionVariantsA xs p dm).1,
             (applyUnionVariantsA xs p dm).2) := by
          rw [applyToNestedA]
        have hV : SchemaUpdater.apply_to_nested (.arr (PyValA.eraseList xs)) p dm =
            (.arr (SchemaUpdater.apply_union_variants (PyValA.eraseList xs) p dm).1,
             (SchemaUpdater.apply_union_variants (PyValA.eraseList xs) p dm).2) := by
          rw [SchemaUpdater.apply_to_nested]
        have hwl : 8 * PyVal.weightList (PyValA.eraseList xs) + 1 ≤ n := by
          rw [PyValA.erase_arr] at hN
          simp only [PyVal.weight] at hN
          omega
        obtain ⟨u1, u2, u3⟩ := ihU xs p hwl
        rw [PyValA.erase_arr, hU, hV]
        refine ⟨?_, ?_, ?_⟩
        · rw [PyValA.erase_arr, u1]
        · exact u2
        · intro a ha
          rw [PyValA.addrs_arr] at ha ⊢
          rcases List.mem_cons.mp ha with rfl | h3
          · exact List.mem_cons_self _ _
          · exact List.mem_cons_of_mem _ (u3 h3)
      | str s =>
        rw [PyValA.erase_str]
        rw [applyToNestedA, SchemaUpdater.apply_to_nested]
        · exact ⟨by first | trivial | rw [PyValA.erase_str], by trivial, fun a ha => ha⟩
        · simp
        · simp
        · simp
        · simp
      | int m =>
        rw [PyValA.erase_int]
        rw [applyToNestedA, SchemaUpdater.apply_to_nested]
        · exact ⟨by first | trivial | rw [PyValA.erase_int], by trivial, fun a ha => ha⟩
        · simp
        · simp
        · simp
        · simp
      | bool b =>
        rw [PyValA.erase_bool]
        rw [applyToNestedA, SchemaUpdater.apply_to_nested]
        · exact ⟨by first | trivial | rw [PyValA.erase_bool], by trivial, fun a ha => ha⟩
        · simp
        · simp
        · simp
        · simp
      | none =>
        rw [PyValA.erase_none]
        rw [applyToNestedA, SchemaUpdater.apply_to_nested]
        · exact ⟨by first | trivial | rw [PyValA.erase_none], by trivial, fun a ha => ha⟩
        · simp
        · simp
        · simp
        · simp
    · -- union variants
      intro vars p hN
      cases vars with
      | nil =>
        rw [PyValA.eraseList_nil]
        rw [applyUnionVariantsA, SchemaUpdater.apply_union_variants]
        exact ⟨by first | trivial | rw [PyValA.eraseList_nil], by trivial, fun a ha => ha⟩
      | cons v vs =>
        rw [PyValA.eraseList_cons] at hN ⊢
        simp only [PyVal.weightList_cons] at hN
        obtain ⟨n1, n2, n3⟩ := ihN v p (by omega)
        obtain ⟨u1, u2, u3⟩ := ihU vs p (by omega)
        rw [applyUnionVariantsA, SchemaUpdater.apply_union_variants]
        refine ⟨?_, ?_, ?_⟩
        · rw [PyValA.eraseList_cons, n1, u1]
        · rw [n2, u2]
        · intro a ha
          rw [PyValA.addrsList_cons] at ha ⊢
          rcases List.mem_append.mp ha with h3 | h3
          · exact List.mem_append_left _ (n3 h3)
          · exact List.mem_append_right _ (u3 h3)

/-- Simulation and frame property of the addressed object patcher, the
object-tree analogue of `applyA_spec`. -/
theorem jsonApplyA_spec (dm : List GeneratedDoc) : ∀ N : Nat,
    (∀ (obj : PyValA) (path : String), 8 * PyVal.weight obj.erase + 2 ≤ N →
      ((applyToObjectA obj path dm).1.erase =
        (JsonSchemaUpdater.apply_to_object obj.erase path dm).1 ∧
       (applyToObjectA obj path dm).2 =
        (JsonSchemaUpdater.apply_to_object obj.erase path dm).2 ∧
       (applyToObjectA obj path dm).1.addrs ⊆ obj.addrs)) ∧
    (∀ (props : List (String × PyValA)) (path : String),
      8 * PyVal.weightEntries (PyValA.eraseEntries props) + 3 ≤ N →
      (PyValA.eraseEntries (applyPropsA props path dm).1 =
        (JsonSchemaUpdater.apply_props (PyValA.eraseEntries props) path dm).1 ∧
       (applyPropsA props path dm).2 =
        (JsonSchemaUpdater.apply_props (PyValA.eraseEntries props) path dm).2 ∧
       PyValA.addrsEntries (applyPropsA props path dm).1 ⊆
         PyValA.addrsEntries props)) := by
  intro N
  induction N with
  | zero =>
    refine ⟨?_, ?_⟩
    · intro obj path hN
      omega
    · intro props path hN
      omega
  | succ n ih =>
    obtain ⟨ihO, ihP⟩ := ih
    refine ⟨?_, ?_⟩
    · -- object
      intro obj path hN
      rw [applyToObjectA_eq, apply_to_object_eq]
      obtain ⟨s1, hs1eq, hs1er, hs1ln, hs1ad⟩ :
          ∃ s1 : PyValA × List String,
            (if !((obj.erase).pyGet "description").truthy then
               match docMapGet dm path with
               | some gd =>
                 patchNodeA obj "description" gd.documentation
                   ("Added description to object `" ++ path ++ "` [" ++
                     gd.confidence ++ "]")
               | Option.none => (obj, [])
             else (obj, [])) = s1 ∧
            s1.1.erase =
              (if !((obj.erase).pyGet "description").truthy then
                 match docMapGet dm path with
                 | some gd =>
                   patchNode obj.erase "description" gd.documentation
                     ("Added description to object `" ++ path ++ "` [" ++
                       gd.confidence ++ "]")
                 | Option.none => (obj.erase, [])
               else (obj.erase, [])).1 ∧
            s1.2 =
              (if !((obj.erase).pyGet "description").truthy then
                 match docMapGet dm path with
                 | some gd =>
                   patchNode obj.erase "description" gd.documentation
                     ("Added description to object `" ++ path ++ "` [" ++
                       gd.confidence ++ "]")
                 | Option.none => (obj.erase, [])
               else (obj.erase, [])).2 ∧
            s1.1.addrs ⊆ obj.addrs := by
        by_cases hdoc : ((obj.erase).pyGet "description").truthy
        · exact ⟨(obj, []), by simp [hdoc], by simp [hdoc], by simp [hdoc],
            fun a ha => ha⟩
        · rcases hhit : docMapGet dm path with _ | gd
          · exact ⟨(obj, []), by simp [hdoc, hhit], by simp [hdoc, hhit],
              by simp [hdoc, hhit], fun a ha => ha⟩
          · refine ⟨patchNodeA obj "description" gd.documentation
              ("Added description to object `" ++ path ++ "` [" ++
                gd.confidence ++ "]"), by simp [hdoc, hhit], ?_, ?_,
              addrs_patchNodeA _ _ _ _⟩
            · simp only [hdoc, hhit, Bool.false_eq_true, Bool.not_false, if_true]
              exact (erase_patchNodeA obj "description" gd.documentation _).1
            · simp only [hdoc, hhit, Bool.false_eq_true, Bool.not_false, if_true]
              exact (erase_patchNodeA obj "description" gd.documentation _).2
      simp only [hs1eq]
      rcases hpo : obj.getA? "properties" with _ | pv
      · have hvo : (obj.erase).get? "properties" = Option.none := by
          rw [PyValA.erase_get?, hpo]
          rfl
        simp only [hpo, hvo]
        exact ⟨hs1er, hs1ln, hs1ad⟩
      · cases pv with
        | obj ap props =>
          have hvo : (obj.erase).get? "properties" =
              some (.obj (PyValA.eraseEntries props)) := by
            rw [PyValA.erase_get?, hpo, Option.map_some', PyValA.erase_obj]
          have hwE : 8 * PyVal.weightEntries (PyValA.eraseEntries props) + 3 ≤ n := by
            have := PyVal.weight_get? hvo
            simp only [PyVal.weight] at this
            omega
          obtain ⟨p1, p2, p3⟩ := ihP props path hwE
          simp only [hpo, hvo]
          refine ⟨?_, ?_, ?_⟩
          · rw [PyValA.erase_setA, hs1er, PyValA.erase_obj, p1]
          · rw [hs1ln, p2]
          · intro a ha
            have h2 := PyValA.addrs_setA s1.1 "properties"
              (.obj ap (applyPropsA props path dm).1) ha
            rcases List.mem_append.mp h2 with h3 | h3
            · exact hs1ad h3
            · rw [PyValA.addrs_obj] at h3
              rcases List.mem_cons.mp h3 with rfl | h4
              · exact PyValA.addrs_getA? hpo
                  (by rw [PyValA.addrs_obj]; exact List.mem_cons_self _ _)
              · exact PyValA.addrs_getA? hpo
                  (by rw [PyValA.addrs_obj]; exact List.mem_cons_of_mem _ (p3 h4))
        | str s =>
          have hvo : (obj.erase).get? "properties" = some (.str s) := by
            rw [PyValA.erase_get?, hpo, Option.map_some', PyValA.erase_str]
          simp only [hpo, hvo]
          exact ⟨hs1er, hs1ln, hs1ad⟩
        | int m =>
          have hvo : (obj.erase).get? "properties" = some (.int m) := by
            rw [PyValA.erase_get?, hpo, Option.map_some', PyValA.erase_int]
          simp only [hpo, hvo]
          exact ⟨hs1er, hs1ln, hs1ad⟩
        | bool b =>
          have hvo : (obj.erase).get? "properties" = some (.bool b) := by
            rw [PyValA.erase_get?, hpo, Option.map_some', PyValA.erase_bool]
          simp only [hpo, hvo]
          exact ⟨hs1er, hs1ln, hs1ad⟩
        | none =>
          have hvo : (obj.erase).get? "properties" = some PyVal.none := by
            rw [PyValA.erase_get?, hpo, Option.map_some', PyValA.erase_none]
          simp only [hpo, hvo]
          exact ⟨hs1er, hs1ln, hs1ad⟩
        | arr aa xs =>
          have hvo : (obj.erase).get? "properties" =
              some (.arr (PyValA.eraseList xs)) := by
            rw [PyValA.erase_get?, hpo, Option.map_some', PyValA.erase_arr]
          simp only [hpo, hvo]
          exact ⟨hs1er, hs1ln, hs1ad⟩
    · -- props
      intro props path hN
      cases props with
      | nil =>
        rw [PyValA.eraseEntries_nil]
        rw [applyPropsA, JsonSchemaUpdater.apply_props]
        exact ⟨by first | trivial | rw [PyValA.eraseEntries_nil], by trivial,
          fun a ha => ha⟩
      | cons pr rest =>
        obtain ⟨pn, ps⟩ := pr
        rw [PyValA.eraseEntries_cons] at hN ⊢
        simp only [PyVal.weightEntries_cons] at hN
        rw [applyPropsA_cons_eq, apply_props_cons_eq]
        obtain ⟨s1, hs1eq, hs1er, hs1ln, hs1ad, hs1w⟩ :
            ∃ s1 : PyValA × List String,
              (if !((ps.erase).pyGet "description").truthy then
                 match docMapGet dm (path ++ "." ++ pn) with
                 | some gd =>
                   patchNodeA ps "description" gd.documentation
                     ("Added description to property `" ++ pn ++ "` [" ++
                       gd.confidence ++ "]")
                 | Option.none => (ps, [])
               else (ps, [])) = s1 ∧
              s1.1.erase =
                (if !((ps.erase).pyGet "description").truthy then
                   match docMapGet dm (path ++ "." ++ pn) with
                   | some gd =>
                     patchNode ps.erase "description" gd.documentation
                       ("Added description to property `" ++ pn ++ "` [" ++
                         gd.confidence ++ "]")
                   | Option.none => (ps.erase, [])
                 else (ps.erase, [])).1 ∧
              s1.2 =
                (if !((ps.erase).pyGet "description").truthy then
                   match docMapGet dm (path ++ "." ++ pn) with
                   | some gd =>
                     patchNode ps.erase "description" gd.documentation
                       ("Added description to property `" ++ pn ++ "` [" ++
                         gd.confidence ++ "]")
                   | Option.none => (ps.erase, [])
                 else (ps.erase, [])).2 ∧
              s1.1.addrs ⊆ ps.addrs ∧
              PyVal.weight s1.1.erase ≤ PyVal.weight ps.erase + 1 := by
          by_cases hdoc : ((ps.erase).pyGet "description").truthy
          · exact ⟨(ps, []), by simp [hdoc], by simp [hdoc], by simp [hdoc],
              fun a ha => ha, Nat.le_succ _⟩
          · rcases hhit : docMapGet dm (path ++ "." ++ pn) with _ | gd
            · exact ⟨(ps, []), by simp [hdoc, hhit], by simp [hdoc, hhit],
                by simp [hdoc, hhit], fun a ha => ha, Nat.le_succ _⟩
            · refine ⟨patchNodeA ps "description" gd.documentation
                ("Added description to property `" ++ pn ++ "` [" ++
                  gd.confidence ++ "]"), by simp [hdoc, hhit], ?_, ?_,
                addrs_patchNodeA _ _ _ _, weight_patchNodeA _ _ _ _⟩
              · simp only [hdoc, hhit, Bool.false_eq_true, Bool.not_false, if_true]
                exact (erase_patchNodeA ps "description" gd.documentation _).1
              · simp only [hdoc, hhit, Bool.false_eq_true, Bool.not_false, if_true]
                exact (erase_patchNodeA ps "description" gd.documentation _).2
        obtain ⟨t1, t2, t3⟩ := ihP rest path (by omega)
        simp only [hs1eq]
        by_cases htyo : ((ps.erase).pyGet "type").isStr "object"
        · simp only [htyo, if_true]
          obtain ⟨o1, o2, o3⟩ := ihO s1.1 (path ++ "." ++ pn) (by omega)
          rw [hs1er] at o1 o2
          refine ⟨?_, ?_, ?_⟩
          · rw [PyValA.eraseEntries_cons, o1, t1]
          · rw [hs1ln, o2, t2]
          · intro a ha
            rw [PyValA.addrsEntries_cons] at ha ⊢
            rcases List.mem_append.mp ha with h3 | h3
            · exact List.mem_append_left _ (hs1ad (o3 h3))
            · exact List.mem_append_right _ (t3 h3)
        · have htyoF : ((ps.erase).pyGet "type").isStr "object" = false := by
            simpa [Bool.not_eq_true] using htyo
          by_cases htya : ((ps.erase).pyGet "type").isStr "array"
          · simp only [htyoF, htya, Bool.false_eq_true, if_false, if_true]
            rcases hio : ps.getA? "items" with _ | items
            · have hvo : (ps.erase).get? "items" = Option.none := by
                rw [PyValA.erase_get?, hio]
                rfl
              simp only [hio, hvo]
              refine ⟨?_, ?_, ?_⟩
              · rw [PyValA.eraseEntries_cons, hs1er, t1]
              · rw [hs1ln, t2]
              · intro a ha
                rw [PyValA.addrsEntries_cons] at ha ⊢
                rcases List.mem_append.mp ha with h3 | h3
                · exact List.mem_append_left _ (hs1ad h3)
                · exact List.mem_append_right _ (t3 h3)
            · have hvo : (ps.erase).get? "items" = some items.erase := by
                rw [PyValA.erase_get?, hio]
                rfl
              simp only [hio, hvo]
              by_cases hito : ((items.erase).pyGet "type").isStr "object"
              · simp only [hito, if_true]
                have hwt : 8 * PyVal.weight items.erase + 2 ≤ n := by
                  have := PyVal.weight_get? hvo
                  omega
                obtain ⟨o1, o2, o3⟩ := ihO items ((path ++ "." ++ pn) ++ "[]") hwt
                refine ⟨?_, ?_, ?_⟩
                · rw [PyValA.eraseEntries_cons, PyValA.erase_setA, hs1er, o1, t1]
                · rw [hs1ln, o2, t2]
                · intro a ha
                  rw [PyValA.addrsEntries_cons] at ha ⊢
                  rcases List.mem_append.mp ha with h3 | h3
                  · have h4 := PyValA.addrs_setA s1.1 "items"
                      (applyToObjectA items ((path ++ "." ++ pn) ++ "[]") dm).1 h3
                    rcases List.mem_append.mp h4 with h5 | h5
                    · exact List.mem_append_left _ (hs1ad h5)
                    · exact List.mem_append_left _
                        (PyValA.addrs_getA? hio (o3 h5))
                  · exact List.mem_append_right _ (t3 h3)
              · have hitoF : ((items.erase).pyGet "type").isStr "object" = false := by
                  simpa [Bool.not_eq_true] using hito
                simp only [hitoF, Bool.false_eq_true, if_false]
                refine ⟨?_, ?_, ?_⟩
                · rw [PyValA.eraseEntries_cons, hs1er, t1]
                · rw [hs1ln, t2]
                · intro a ha
                  rw [PyValA.addrsEntries_cons] at ha ⊢
                  rcases List.mem_append.mp ha with h3 | h3
                  · exact List.mem_append_left _ (hs1ad h3)
                  · exact List.mem_append_right _ (t3 h3)
          · have htyaF : ((ps.erase).pyGet "type").isStr "array" = false := by
              simpa [Bool.not_eq_true] using htya
            simp only [htyoF, htyaF, Bool.false_eq_true, if_false]
            refine ⟨?_, ?_, ?_⟩
            · rw [PyValA.eraseEntries_cons, hs1er, t1]
            · rw [hs1ln, t2]
            · intro a ha
              rw [PyValA.addrsEntries_cons] at ha ⊢
              rcases List.mem_append.mp ha with h3 | h3
              · exact List.mem_append_left _ (hs1ad h3)
              · exact List.mem_append_right _ (t3 h3)

/-- `SchemaUpdater.apply_documentation` on the addressed embedding.  The
deep copy draws its cells from the explicit `supply`; everything else is
the addressed rendering of the same source lines, and the caller's
`schema` value itself is carried into the result untouched. -/
def apply_documentationA (schema : PyValA) (generatedDocs : List GeneratedDoc)
    (filePath : String) (minConfidence : String) (supply : Nat) :
    Option (String × PyValA × PyValA × List String) :=
  let docsToApply := filter_by_confidence generatedDocs minConfidence
  if docsToApply.isEmpty then Option.none
  else
    let updatedSchema := (deepcopyA schema supply).1
    let schemaName := (schema.erase).getStrD "name" "unknown"
    let res := applyToRecordA updatedSchema schemaName docsToApply
    if res.2.isEmpty then Option.none
    else some (filePath, schema, res.1, res.2)

/-- `JsonSchemaUpdater.apply_documentation` on the addressed embedding. -/
def json_apply_documentationA (schema : PyValA) (generatedDocs : List GeneratedDoc)
    (filePath : String) (minConfidence : String) (subject : Option String)
    (supply : Nat) : Option (String × PyValA × PyValA × List String) :=
  let docsToApply := filter_by_confidence generatedDocs minConfidence
  if docsToApply.isEmpty then Option.none
  else
    let updatedSchema := (deepcopyA schema supply).1
    let basePath :=
      match subject with
      | some s => if s = "" then ((filePath.splitOn "/").getLastD "").replace ".json" ""
                  else s
      | Option.none => ((filePath.splitOn "/").getLastD "").replace ".json" ""
    let res := applyToObjectA updatedSchema basePath docsToApply
    if res.2.isEmpty then Option.none
    else some (filePath, schema, res.1, res.2)

/-- C7: the patch is non-destructive.  On the addressed embedding, with a
fresh supply for the deep copy, a returned update carries the caller's
original schema value untouched, its updated schema shares no mutable cell
with the input (so mutating any nested part of the output cannot alter the
original), and erasing the addresses recovers exactly the value-level
`apply_documentation` result, in both dialects. -/
theorem C7_nondestructive (schema : PyValA) (docs : List GeneratedDoc)
    (fp mc : String) (subj : Option String) (supply : Nat)
    (hfresh : ∀ a ∈ schema.addrs, a < supply) :
    (∀ r, apply_documentationA schema docs fp mc supply = some r →
      (r.2.1 = schema ∧
       (∀ a ∈ (r.2.2.1).addrs, a ∉ schema.addrs) ∧
       SchemaUpdater.apply_documentation schema.erase docs fp mc =
         some ⟨r.1, schema.erase, (r.2.2.1).erase, r.2.2.2⟩)) ∧
    (∀ r, json_apply_documentationA schema docs fp mc subj supply = some r →
      (r.2.1 = schema ∧
       (∀ a ∈ (r.2.2.1).addrs, a ∉ schema.addrs) ∧
       JsonSchemaUpdater.apply_documentation schema.erase docs fp mc subj =
         some ⟨r.1, schema.erase, (r.2.2.1).erase, r.2.2.2⟩)) := by
  obtain ⟨c1, c2, c3⟩ :=
    (deepcopyA_spec (PyVal.weight schema.erase + 1)).1 schema supply (le_refl _)
  constructor
  · intro r hr
    unfold apply_documentationA at hr
    unfold SchemaUpdater.apply_documentation
    rcases hf : filter_by_confidence docs mc with _ | ⟨d0, ds⟩
    · rw [hf] at hr
      simp at hr
    · rw [hf] at hr
      simp only [List.isEmpty_cons, Bool.false_eq_true, if_false, deepcopy] at hr ⊢
      obtain ⟨s1, s2, s3⟩ :=
        (applyA_spec (d0 :: ds)
          (8 * PyVal.weight ((deepcopyA schema supply).1).erase + 2)).1
          ((deepcopyA schema supply).1)
          ((schema.erase).getStrD "name" "unknown") (le_refl _)
      rw [c1] at s1 s2
      rcases he : (applyToRecordA (deepcopyA schema supply).1
          ((schema.erase).getStrD "name" "unknown") (d0 :: ds)).2.isEmpty with _ | _
      · rw [he] at hr
        simp only [Bool.false_eq_true, if_false, Option.some.injEq] at hr
        subst hr
        refine ⟨rfl, ?_, ?_⟩
        · intro a ha hmem
          have h1 := s3 ha
          have h2 := (c3 a h1).1
          have h3 := hfresh a hmem
          omega
        · have hvne : (SchemaUpdater.apply_to_record schema.erase
              ((schema.erase).getStrD "name" "unknown") (d0 :: ds)).2.isEmpty =
              false := by
            rw [← s2]
            exact he
          rw [hvne]
          simp only [Bool.false_eq_true, if_false, Option.some.injEq]
          rw [← s1, ← s2]
      · rw [he] at hr
        simp at hr
  · intro r hr
    unfold json_apply_documentationA at hr
    unfold JsonSchemaUpdater.apply_documentation
    rcases hf : filter_by_confidence docs mc with _ | ⟨d0, ds⟩
    · rw [hf] at hr
      simp at hr
    · rw [hf] at hr
      set bp := (match subj with
        | some s => if s = "" then ((fp.splitOn "/").getLastD "").replace ".json" ""
                    else s
        | Option.none => ((fp.splitOn "/").getLastD "").replace ".json" "") with hbp
      simp only [List.isEmpty_cons, Bool.false_eq_true, if_false, deepcopy] at hr ⊢
      obtain ⟨s1, s2, s3⟩ :=
        (jsonApplyA_spec (d0 :: ds)
          (8 * PyVal.weight ((deepcopyA schema supply).1).erase + 2)).1
          ((deepcopyA schema supply).1) bp (le_refl _)
      rw [c1] at s1 s2
      rcases he : (applyToObjectA (deepcopyA schema supply).1 bp
          (d0 :: ds)).2.isEmpty with _ | _
      · rw [he] at hr
        simp only [Bool.false_eq_true, if_false, Option.some.injEq] at hr
        subst hr
        refine ⟨rfl, ?_, ?_⟩
        · intro a ha hmem
          have h1 := s3 ha
          have h2 := (c3 a h1).1
          have h3 := hfresh a hmem
          omega
        · have hvne : (JsonSchemaUpdater.apply_to_object schema.erase bp
              (d0 :: ds)).2.isEmpty = false := by
            rw [← s2]
            exact he
          rw [hvne]
          simp only [Bool.false_eq_true, if_false, Option.some.injEq]
          rw [← s1, ← s2]
      · rw [he] at hr
        simp at hr

/-- Witness for `C7_nondestructive`: a one-record schema and a one-object
schema, both at cell 0, copied from supply 1 and patched at the root; cell
1 (the patched output's root) is not among the input's cells. -/
theorem C7_nondestructive_witness :
    SchemaUpdater.apply_documentation
      (PyValA.obj 0 [("type", PyValA.str "record"), ("name", PyValA.str "S")]).erase
      [⟨"S", "record", "A record", "high"⟩] "s.avsc" "high" =
      some ⟨"s.avsc",
        (PyValA.obj 0 [("type", PyValA.str "record"),
          ("name", PyValA.str "S")]).erase,
        (PyValA.obj 1 [("type", PyValA.str "record"), ("name", PyValA.str "S"),
          ("doc", PyValA.str "A record")]).erase,
        ["Added doc to record `S` [high]"]⟩ ∧
    (1 : Nat) ∉
      (PyValA.obj 0 [("type", PyValA.str "record"),
        ("name", PyValA.str "S")]).addrs ∧
    JsonSchemaUpdater.apply_documentation
      (PyValA.obj 0 [("type", PyValA.str "object")]).erase
      [⟨"B", "object", "An object", "high"⟩] "b.json" "high" (some "B") =
      some ⟨"b.json",
        (PyValA.obj 0 [("type", PyValA.str "object")]).erase,
        (PyValA.obj 1 [("type", PyValA.str "object"),
          ("description", PyValA.str "An object")]).erase,
        ["Added description to object `B` [high]"]⟩ ∧
    (1 : Nat) ∉ (PyValA.obj 0 [("type", PyValA.str "object")]).addrs := by
  have hfreshA : ∀ a ∈ (PyValA.obj 0 [("type", PyValA.str "record"),
      ("name", PyValA.str "S")]).addrs, a < 1 := by
    intro a ha
    rw [PyValA.addrs_obj, PyValA.addrsEntries_cons, PyValA.addrs_str,
      PyValA.addrsEntries_cons, PyValA.addrs_str, PyValA.addrsEntries_nil] at ha
    simp at ha
    omega
  have hfreshJ : ∀ a ∈ (PyValA.obj 0 [("type", PyValA.str "object")]).addrs,
      a < 1 := by
    intro a ha
    rw [PyValA.addrs_obj, PyValA.addrsEntries_cons, PyValA.addrs_str,
      PyValA.addrsEntries_nil] at ha
    simp at ha
    omega
  have hA := (C7_nondestructive
    (PyValA.obj 0 [("type", PyValA.str "record"), ("name", PyValA.str "S")])
    [⟨"S", "record", "A record", "high"⟩] "s.avsc" "high" (some "B") 1 hfreshA).1
    ("s.avsc",
     PyValA.obj 0 [("type", PyValA.str "record"), ("name", PyValA.str "S")],
     PyValA.obj 1 [("type", PyValA.str "record"), ("name", PyValA.str "S"),
       ("doc", PyValA.str "A record")],
     ["Added doc to record `S` [high]"])
    (by simp [apply_documentationA, applyToRecordA, deepcopyA, deepcopyEntriesA,
      patchNodeA, PyValA.setA, setEntriesA, PyValA.getA?, PyValA.erase,
      PyValA.eraseEntries, filter_by_confidence, confidence_level, docMapGet,
      optAttach, PyVal.pyGet, PyVal.getD, PyVal.get?, PyVal.getStrD, PyVal.truthy,
      PyVal.isStr, List.lookup])
  have hJ := (C7_nondestructive
    (PyValA.obj 0 [("type", PyValA.str "object")])
    [⟨"B", "object", "An object", "high"⟩] "b.json" "high" (some "B") 1 hfreshJ).2
    ("b.json",
     PyValA.obj 0 [("type", PyValA.str "object")],
     PyValA.obj 1 [("type", PyValA.str "object"),
       ("description", PyValA.str "An object")],
     ["Added description to object `B` [high]"])
    (by simp [json_apply_documentationA, applyToObjectA, deepcopyA,
      deepcopyEntriesA, patchNodeA, PyValA.setA, setEntriesA, PyValA.getA?,
      PyValA.erase, PyValA.eraseEntries, filter_by_confidence, confidence_level,
      docMapGet, optAttach, PyVal.pyGet, PyVal.getD, PyVal.get?, PyVal.getStrD,
      PyVal.truthy, PyVal.isStr, List.lookup])
  refine ⟨hA.2.2, ?_, hJ.2.2, ?_⟩
  · refine hA.2.1 1 ?_
    show (1 : Nat) ∈ (PyValA.obj 1 [("type", PyValA.str "record"),
      ("name", PyValA.str "S"), ("doc", PyValA.str "A record")]).addrs
    rw [PyValA.addrs_obj]
    exact List.mem_cons_self _ _
  · refine hJ.2.1 1 ?_
    show (1 : Nat) ∈ (PyValA.obj 1 [("type", PyValA.str "object"),
      ("description", PyValA.str "An object")]).addrs
    rw [PyValA.addrs_obj]
    exact List.mem_cons_self _ _
